import Mathlib

/-!
# GNU Go move reasons (engine/move_reasons.c)

A shallow embedding of `engine/move_reasons.c`: the object registries
(`find_worm`, `find_dragon`, `find_connection`, `find_worm_pair`, `find_eye`,
`add_lunch`, `remove_lunch`), the per-point reason lists (`add_move_reason`,
`remove_move_reason`, `move_reason_known`), the point redistribution map
(`add_replacement_move`), `clear_move_reasons`, the valuation of the reasons
(`discard_redundant_move_reasons`, `estimate_territorial_value`,
`estimate_strategical_value`, `value_move_reasons`, `value_moves`) and the
choice of the move (`redistribute_points`, `reevaluate_ko_threats`,
`review_move_reasons`).

C arrays are total functions from the index to the cell, the `next_*`
counters are natural numbers, and a failed assertion (`gg_assert`, `ASSERT1`,
`ASSERT_ON_BOARD1`) is the result `none`.  The `float` fields of
`struct move_data` are rational numbers.
-/

namespace MoveReasons

/-! ## Constants and macros of the headers -/

/-- Constants and macros that `move_reasons.c` takes from `liberty.h`,
`gnugo.h` and `move_reasons.h`.  The headers are not part of the sources at
hand, so their values are parameters of the development. -/
structure Config where
  /-- The constant `MAX_BOARD`, the largest supported board size. -/
  MAX_BOARD : Nat
  /-- The constant `MAX_REASONS`, the length of `move[pos].reason`. -/
  MAX_REASONS : Nat
  /-- The constant `NO_MOVE`. -/
  NO_MOVE : Int
  /-- The constant `EMPTY`, the colour of a vacant point. -/
  EMPTY : Int
  /-- The constant `ACTIVE`, the status of a fresh move reason. -/
  ACTIVE : Int
  /-- The variable `board_size`, fixed during a decision cycle. -/
  board_size : Nat
  /-- The macro `POS(i, j)`. -/
  POS : Nat → Nat → Int
  /-- The macro `ON_BOARD1(pos)`. -/
  ON_BOARD1 : Int → Bool

/-- The part of the external board state that the embedded functions read:
`stackp`, `board[]`, `dragon[].origin` and `worm[].origin`. -/
structure Board where
  /-- The depth `stackp` of the trial move stack. -/
  stackp : Int
  /-- The array `board[]`. -/
  board : Int → Int
  /-- The field `dragon[pos].origin`. -/
  dragon_origin : Int → Int
  /-- The field `worm[pos].origin`. -/
  worm_origin : Int → Int

/-- The constant `MAX_MOVE_REASONS`. -/
def MAX_MOVE_REASONS : Nat := 1000

/-- The macro `MAX_WORMS`, `2*MAX_BOARD*MAX_BOARD/3`. -/
def MAX_WORMS (cfg : Config) : Nat := 2 * cfg.MAX_BOARD * cfg.MAX_BOARD / 3

/-- The macro `MAX_DRAGONS`, which expands to `MAX_WORMS`. -/
def MAX_DRAGONS (cfg : Config) : Nat := 2 * cfg.MAX_BOARD * cfg.MAX_BOARD / 3

/-- The macro `MAX_CONNECTIONS`, `4*MAX_WORMS`; the body of `MAX_WORMS` is not
parenthesised, so the text expands to `4*2*MAX_BOARD*MAX_BOARD/3`. -/
def MAX_CONNECTIONS (cfg : Config) : Nat := 4 * 2 * cfg.MAX_BOARD * cfg.MAX_BOARD / 3

/-- The macro `MAX_WORM_PAIRS`, which expands to `MAX_WORMS`. -/
def MAX_WORM_PAIRS (cfg : Config) : Nat := 2 * cfg.MAX_BOARD * cfg.MAX_BOARD / 3

/-- The macro `MAX_EYES`, `MAX_BOARD*MAX_BOARD/2`. -/
def MAX_EYES (cfg : Config) : Nat := cfg.MAX_BOARD * cfg.MAX_BOARD / 2

/-- The macro `MAX_LUNCHES`, which expands to `MAX_WORMS`. -/
def MAX_LUNCHES (cfg : Config) : Nat := 2 * cfg.MAX_BOARD * cfg.MAX_BOARD / 3

/-- The points `POS(i, j)` in the order of the loops
`for (i = 0; i < board_size; i++) for (j = 0; j < board_size; j++)`. -/
def board_points (cfg : Config) : List Int :=
  (List.range cfg.board_size).flatMap fun i =>
    (List.range cfg.board_size).map fun j => cfg.POS i j

/-- What the development assumes of the header macros: `ON_BOARD1` holds only
of the points `POS(i, j)` with `i, j < board_size`, and `NO_MOVE` is not a
point of the board. -/
structure Config.Coherent (cfg : Config) : Prop where
  on_board_pos : ∀ p : Int, cfg.ON_BOARD1 p = true → p ∈ board_points cfg
  no_move_off_board : cfg.ON_BOARD1 cfg.NO_MOVE = false

/-! ## State -/

/-- One record of the array `move_reasons[]` (`struct move_reason`). -/
structure move_reason where
  /-- The kind of the reason. -/
  type : Int
  /-- The object of the reason, an index into one of the object tables. -/
  what : Int
  /-- The status flags. -/
  status : Int
deriving DecidableEq, Repr

/-- The reason lists: `move[pos].reason[k]`, the shared array `move_reasons[]`
and the counter `next_reason`. -/
@[ext]
structure Reasons where
  /-- The cell `move[pos].reason[k]`. -/
  reason : Int → Nat → Int
  /-- The array `move_reasons[]`. -/
  move_reasons : Nat → move_reason
  /-- The counter `next_reason`. -/
  next_reason : Nat

/-- The object tables with their counters. -/
@[ext]
structure Registry where
  worms : Nat → Int
  next_worm : Nat
  dragons : Nat → Int
  next_dragon : Nat
  conn_dragon1 : Nat → Int
  conn_dragon2 : Nat → Int
  next_connection : Nat
  worm_pair1 : Nat → Int
  worm_pair2 : Nat → Int
  next_worm_pair : Nat
  eyes : Nat → Int
  eyecolor : Nat → Int
  next_eye : Nat
  lunch_dragon : Nat → Int
  lunch_worm : Nat → Int
  next_lunch : Nat

/-- The static data of the module that the embedded functions use. -/
@[ext]
structure State where
  /-- The reason lists. -/
  reasons : Reasons
  /-- The object tables. -/
  registry : Registry
  /-- The array `replacement_map[]`. -/
  replacement_map : Int → Int

/-! ## clear_move_reasons -/

/-- The body of the loops of `clear_move_reasons` at the point `ii`: every
cell `move[ii].reason[k]` with `k < MAX_REASONS` becomes `-1` and
`replacement_map[ii]` becomes `NO_MOVE`. -/
def clear_point (cfg : Config) (s : State) (ii : Int) : State :=
  { s with
    reasons := { s.reasons with
      reason := fun p k =>
        if p = ii ∧ k < cfg.MAX_REASONS then -1 else s.reasons.reason p k }
    replacement_map := Function.update s.replacement_map ii cfg.NO_MOVE }

/-- The function `clear_move_reasons`: the counters are reset and the loops
run over the points of the board. -/
def clear_move_reasons (cfg : Config) (s : State) : State :=
  (board_points cfg).foldl (clear_point cfg)
    { s with
      reasons := { s.reasons with next_reason := 0 }
      registry := { s.registry with
        next_worm := 0, next_dragon := 0, next_connection := 0,
        next_worm_pair := 0, next_eye := 0, next_lunch := 0 } }

/-! ## Object registry -/

/-- The loop `for (k = 0; k < n; k++) if (hit k) return k;`: the first index
below `n` at which `hit` holds, if there is one. -/
def first_index (n : Nat) (hit : Nat → Bool) : Option Nat :=
  (List.range n).find? hit

/-- The function `find_worm`. -/
def find_worm (cfg : Config) (g : Registry) (str : Int) : Option (Nat × Registry) :=
  if cfg.ON_BOARD1 str = false then none
  else
    match first_index g.next_worm (fun k => g.worms k == str) with
    | some k => some (k, g)
    | none =>
      if g.next_worm < MAX_WORMS cfg then
        some (g.next_worm,
          { g with worms := Function.update g.worms g.next_worm str
                   next_worm := g.next_worm + 1 })
      else none

/-- The function `find_dragon`. -/
def find_dragon (cfg : Config) (g : Registry) (str : Int) : Option (Nat × Registry) :=
  if cfg.ON_BOARD1 str = false then none
  else
    match first_index g.next_dragon (fun k => g.dragons k == str) with
    | some k => some (k, g)
    | none =>
      if g.next_dragon < MAX_DRAGONS cfg then
        some (g.next_dragon,
          { g with dragons := Function.update g.dragons g.next_dragon str
                   next_dragon := g.next_dragon + 1 })
      else none

/-- The function `find_connection`. -/
def find_connection (cfg : Config) (g : Registry) (dragon1 dragon2 : Int) :
    Option (Nat × Registry) :=
  let d1 := if dragon1 > dragon2 then dragon2 else dragon1
  let d2 := if dragon1 > dragon2 then dragon1 else dragon2
  match first_index g.next_connection
      (fun k => g.conn_dragon1 k == d1 && g.conn_dragon2 k == d2) with
  | some k => some (k, g)
  | none =>
    if g.next_connection < MAX_CONNECTIONS cfg then
      some (g.next_connection,
        { g with conn_dragon1 := Function.update g.conn_dragon1 g.next_connection d1
                 conn_dragon2 := Function.update g.conn_dragon2 g.next_connection d2
                 next_connection := g.next_connection + 1 })
    else none

/-- The function `find_worm_pair`. -/
def find_worm_pair (cfg : Config) (g : Registry) (worm1 worm2 : Int) :
    Option (Nat × Registry) :=
  let w1 := if worm1 > worm2 then worm2 else worm1
  let w2 := if worm1 > worm2 then worm1 else worm2
  match first_index g.next_worm_pair
      (fun k => g.worm_pair1 k == w1 && g.worm_pair2 k == w2) with
  | some k => some (k, g)
  | none =>
    if g.next_worm_pair < MAX_WORM_PAIRS cfg then
      some (g.next_worm_pair,
        { g with worm_pair1 := Function.update g.worm_pair1 g.next_worm_pair w1
                 worm_pair2 := Function.update g.worm_pair2 g.next_worm_pair w2
                 next_worm_pair := g.next_worm_pair + 1 })
    else none

/-- The function `find_eye`. -/
def find_eye (cfg : Config) (g : Registry) (eye color : Int) : Option (Nat × Registry) :=
  if cfg.ON_BOARD1 eye = false then none
  else
    match first_index g.next_eye (fun k => g.eyes k == eye && g.eyecolor k == color) with
    | some k => some (k, g)
    | none =>
      if g.next_eye < MAX_EYES cfg then
        some (g.next_eye,
          { g with eyes := Function.update g.eyes g.next_eye eye
                   eyecolor := Function.update g.eyecolor g.next_eye color
                   next_eye := g.next_eye + 1 })
      else none

/-- The function `add_lunch`. -/
def add_lunch (cfg : Config) (b : Board) (g : Registry) (eater food : Int) :
    Option Registry :=
  match find_dragon cfg g (b.dragon_origin eater) with
  | none => none
  | some (dragon1, g1) =>
    match find_worm cfg g1 (b.worm_origin food) with
    | none => none
    | some (worm1, g2) =>
      if cfg.ON_BOARD1 eater = false then none
      else if cfg.ON_BOARD1 food = false then none
      else
        match first_index g2.next_lunch
            (fun k => g2.lunch_dragon k == (dragon1 : Int)
              && g2.lunch_worm k == (worm1 : Int)) with
        | some _ => some g2
        | none =>
          if g2.next_lunch < MAX_LUNCHES cfg then
            some { g2 with
              lunch_dragon := Function.update g2.lunch_dragon g2.next_lunch dragon1
              lunch_worm := Function.update g2.lunch_worm g2.next_lunch worm1
              next_lunch := g2.next_lunch + 1 }
          else none

/-- The function `remove_lunch`. -/
def remove_lunch (cfg : Config) (b : Board) (g : Registry) (eater food : Int) :
    Option Registry :=
  match find_dragon cfg g (b.dragon_origin eater) with
  | none => none
  | some (dragon1, g1) =>
    match find_worm cfg g1 (b.worm_origin food) with
    | none => none
    | some (worm1, g2) =>
      if cfg.ON_BOARD1 eater = false then none
      else if cfg.ON_BOARD1 food = false then none
      else
        match first_index g2.next_lunch
            (fun k => g2.lunch_dragon k == (dragon1 : Int)
              && g2.lunch_worm k == (worm1 : Int)) with
        | none => some g2
        | some k =>
          let lunch_dragon := Function.update g2.lunch_dragon k
            (g2.lunch_dragon (g2.next_lunch - 1))
          let lunch_worm := Function.update g2.lunch_worm k
            (g2.lunch_worm (g2.next_lunch - 1))
          some { g2 with
            lunch_dragon := lunch_dragon
            lunch_worm := lunch_worm
            next_lunch := g2.next_lunch - 1 }

/-! ## Reason lists -/

/-- How a scan of `move[pos].reason` ends: by the `return` inside the loop,
or by leaving the loop with the index `k`. -/
inductive Scan where
  | returned : Scan
  | left (k : Nat) : Scan
deriving DecidableEq, Repr

/-- The loop of `add_move_reason`, entered at index `k` with `fuel` rounds to
go (`fuel = MAX_REASONS - k`). -/
def add_move_reason_loop (t : Reasons) (pos type what : Int) : Nat → Nat → Scan
  | 0, k => Scan.left k
  | fuel + 1, k =>
    let r := t.reason pos k
    if r < 0 then Scan.left k
    else if (t.move_reasons r.toNat).type = type ∧ (t.move_reasons r.toNat).what = what then
      Scan.returned
    else add_move_reason_loop t pos type what fuel (k + 1)

/-- The block "Add a new entry" of `add_move_reason`: cell `k` of
`move[pos].reason` receives `next_reason`, the record `move_reasons[next_reason]`
is filled in and `next_reason` is incremented. -/
def new_entry (cfg : Config) (t : Reasons) (pos type what : Int) (k : Nat) : Reasons :=
  { reason := Function.update t.reason pos
      (Function.update (t.reason pos) k (t.next_reason : Int))
    move_reasons := Function.update t.move_reasons t.next_reason
      { type := type, what := what, status := cfg.ACTIVE }
    next_reason := t.next_reason + 1 }

/-- The function `add_move_reason`. -/
def add_move_reason (cfg : Config) (b : Board) (t : Reasons) (pos type what : Int) :
    Option Reasons :=
  if cfg.ON_BOARD1 pos = false then none
  else if b.stackp = 0 ∧ b.board pos ≠ cfg.EMPTY then none
  else
    match add_move_reason_loop t pos type what cfg.MAX_REASONS 0 with
    | Scan.returned => some t
    | Scan.left k =>
      if k < cfg.MAX_REASONS then
        if t.next_reason < MAX_MOVE_REASONS then
          some (new_entry cfg t pos type what k)
        else none
      else none

/-- The loop of `remove_move_reason`, entered at index `k` with `fuel` rounds
to go; `n` is the position found so far (`none` for `-1`).  The result is the
index at which the loop is left, with the final `n`. -/
def remove_move_reason_loop (t : Reasons) (pos type what : Int) :
    Nat → Nat → Option Nat → Nat × Option Nat
  | 0, k, n => (k, n)
  | fuel + 1, k, n =>
    let r := t.reason pos k
    if r < 0 then (k, n)
    else if (t.move_reasons r.toNat).type = type ∧ (t.move_reasons r.toNat).what = what then
      remove_move_reason_loop t pos type what fuel (k + 1) (some k)
    else remove_move_reason_loop t pos type what fuel (k + 1) n

/-- The closing block of `remove_move_reason`, `k` being the index of the
last cell of the list (the loop index after `k--`): cell `n` receives the
content of cell `k`, then cell `k` becomes `-1`. -/
def move_last (t : Reasons) (pos : Int) (n k : Nat) : Reasons :=
  { t with
    reason := Function.update t.reason pos
      (Function.update (Function.update (t.reason pos) n (t.reason pos k)) k (-1)) }

/-- The function `remove_move_reason`. -/
def remove_move_reason (cfg : Config) (t : Reasons) (pos type what : Int) :
    Option Reasons :=
  if cfg.ON_BOARD1 pos = false then none
  else
    match remove_move_reason_loop t pos type what cfg.MAX_REASONS 0 none with
    | (_, none) => some t
    | (k, some n) => some (move_last t pos n (k - 1))

/-- The loop of `move_reason_known`, entered at index `k` with `fuel` rounds
to go. -/
def move_reason_known_loop (t : Reasons) (pos type what : Int) : Nat → Nat → Int
  | 0, _ => 0
  | fuel + 1, k =>
    let r := t.reason pos k
    if r < 0 then 0
    else if (t.move_reasons r.toNat).type = type
        ∧ (what < 0 ∨ (t.move_reasons r.toNat).what = what) then 1
    else move_reason_known_loop t pos type what fuel (k + 1)

/-- The function `move_reason_known`. -/
def move_reason_known (cfg : Config) (t : Reasons) (pos type what : Int) : Option Int :=
  if cfg.ON_BOARD1 pos = false then none
  else some (move_reason_known_loop t pos type what cfg.MAX_REASONS 0)

/-! ## Point redistribution -/

/-- The body of the closing loops of `add_replacement_move` at the point
`ii`. -/
def redirect_point (frm : Int) (m : Int → Int) (ii : Int) : Int → Int :=
  if m ii = frm then Function.update m ii (m frm) else m

/-- The function `add_replacement_move(from, to)` on the array
`replacement_map[]`; `frm` and `dest` stand for the arguments `from` and `to`. -/
def add_replacement_move (cfg : Config) (m : Int → Int) (frm dest : Int) :
    Option (Int → Int) :=
  if cfg.ON_BOARD1 frm = false then none
  else if cfg.ON_BOARD1 dest = false then none
  else
    let cc := m dest
    if m frm ≠ cfg.NO_MOVE then
      let dd := m frm
      if dd = dest ∨ dest = m dd then some m else none
    else if cc = frm then none
    else
      let m1 := if cc ≠ cfg.NO_MOVE then Function.update m frm cc
                else Function.update m frm dest
      some ((board_points cfg).foldl (redirect_point frm) m1)

/-! ## Specification vocabulary for the reason lists -/

/-- The index of the first negative cell of `row` at or after `k`, looking at
`fuel` cells at most. -/
def count_from (row : Nat → Int) : Nat → Nat → Nat
  | 0, k => k
  | fuel + 1, k => if row k < 0 then k else count_from row fuel (k + 1)

/-- The length of the reason list of `pos`: the number of cells of
`move[pos].reason` before the first negative one. -/
def reason_count (cfg : Config) (t : Reasons) (pos : Int) : Nat :=
  count_from (t.reason pos) cfg.MAX_REASONS 0

/-- Cell `k` of `move[pos].reason` refers to a record of kind `type` with
object `what`. -/
def holds_at (t : Reasons) (pos type what : Int) (k : Nat) : Prop :=
  (t.move_reasons (t.reason pos k).toNat).type = type
    ∧ (t.move_reasons (t.reason pos k).toNat).what = what

instance (t : Reasons) (pos type what : Int) (k : Nat) :
    Decidable (holds_at t pos type what k) := by
  unfold holds_at; infer_instance

/-- The pair `(type, what)` is in the reason list of `pos`. -/
def listed (cfg : Config) (t : Reasons) (pos type what : Int) : Prop :=
  ∃ k, k < reason_count cfg t pos ∧ holds_at t pos type what k

instance (cfg : Config) (t : Reasons) (pos type what : Int) :
    Decidable (listed cfg t pos type what) := by
  unfold listed; infer_instance

/-- Cell `k` of `move[pos].reason` answers the query `(type, what)` of
`move_reason_known`, where a negative `what` asks for the kind only. -/
def answers_at (t : Reasons) (pos type what : Int) (k : Nat) : Prop :=
  (t.move_reasons (t.reason pos k).toNat).type = type
    ∧ (what < 0 ∨ (t.move_reasons (t.reason pos k).toNat).what = what)

instance (t : Reasons) (pos type what : Int) (k : Nat) :
    Decidable (answers_at t pos type what k) := by
  unfold answers_at; infer_instance

/-- The effect of `discard_redundant_move_reasons` on the reason lists: status
flags of records change, here to any values; kinds, objects and lists are
left alone. -/
def set_status (t : Reasons) (status : Nat → Int) : Reasons :=
  { t with move_reasons := fun r => { t.move_reasons r with status := status r } }

/-- The effect of the call of `gg_sort` in `value_move_reasons` on the reason
lists: the cells of the list of `pos` are rearranged, cell `k` receiving the
former content of cell `order k`. -/
def rearrange (cfg : Config) (t : Reasons) (pos : Int) (order : Nat → Nat) : Reasons :=
  { t with
    reason := Function.update t.reason pos fun k =>
      if k < reason_count cfg t pos then t.reason pos (order k) else t.reason pos k }

/-- The reason lists reachable from `clear_move_reasons`: by calls of
`add_move_reason` and `remove_move_reason` that return, by changes of status
flags, and by rearrangements of the list of a point (`order` is one-to-one
on the indices of the list). -/
inductive ReasonsReachable (cfg : Config) : Reasons → Prop
  | clear (s : State) : ReasonsReachable cfg (clear_move_reasons cfg s).reasons
  | add (b : Board) (t t1 : Reasons) (pos type what : Int) :
      ReasonsReachable cfg t → add_move_reason cfg b t pos type what = some t1 →
      ReasonsReachable cfg t1
  | remove (t t1 : Reasons) (pos type what : Int) :
      ReasonsReachable cfg t → remove_move_reason cfg t pos type what = some t1 →
      ReasonsReachable cfg t1
  | status (t : Reasons) (status : Nat → Int) :
      ReasonsReachable cfg t → ReasonsReachable cfg (set_status t status)
  | sort (t : Reasons) (pos : Int) (order : Nat → Nat) :
      ReasonsReachable cfg t →
      (∀ k, k < reason_count cfg t pos → order k < reason_count cfg t pos) →
      (∀ i j, i < reason_count cfg t pos → j < reason_count cfg t pos →
        order i = order j → i = j) →
      ReasonsReachable cfg (rearrange cfg t pos order)

/-- The invariant of the reason lists: the shared table is within its
capacity, and at every point of the board the cells after the list are `-1`,
the cells of the list are handles of records in use, and no two cells of the
list refer to records with the same kind and object. -/
structure ReasonsInv (cfg : Config) (t : Reasons) : Prop where
  next_le : t.next_reason ≤ MAX_MOVE_REASONS
  tail : ∀ pos, cfg.ON_BOARD1 pos = true → ∀ k, reason_count cfg t pos ≤ k →
    k < cfg.MAX_REASONS → t.reason pos k = -1
  handle_lt : ∀ pos, cfg.ON_BOARD1 pos = true → ∀ k, k < reason_count cfg t pos →
    (t.reason pos k).toNat < t.next_reason
  no_dup : ∀ pos, cfg.ON_BOARD1 pos = true → ∀ i j, i < reason_count cfg t pos →
    j < reason_count cfg t pos →
    (t.move_reasons (t.reason pos i).toNat).type = (t.move_reasons (t.reason pos j).toNat).type →
    (t.move_reasons (t.reason pos i).toNat).what = (t.move_reasons (t.reason pos j).toNat).what →
    i = j

/-! ## A concrete instance -/

/-- The header values of GNU Go on a 19 by 19 board: `MAX_BOARD` is 19,
`MAX_REASONS` is 40, `NO_MOVE`, `EMPTY` and `ACTIVE` are 0, and `POS(i, j)` is
`(MAX_BOARD + 2) + i * (MAX_BOARD + 1) + j`. -/
def gnugo19 : Config where
  MAX_BOARD := 19
  MAX_REASONS := 40
  NO_MOVE := 0
  EMPTY := 0
  ACTIVE := 0
  board_size := 19
  POS := fun i j => 21 + 20 * (i : Int) + (j : Int)
  ON_BOARD1 := fun p =>
    (List.range 19).any fun i => (List.range 19).any fun j => 21 + 20 * (i : Int) + (j : Int) == p

/-- The static data as the C runtime initialises it: every cell is zero. -/
def zero_state : State where
  reasons :=
    { reason := fun _ _ => 0
      move_reasons := fun _ => { type := 0, what := 0, status := 0 }
      next_reason := 0 }
  registry :=
    { worms := fun _ => 0, next_worm := 0, dragons := fun _ => 0, next_dragon := 0,
      conn_dragon1 := fun _ => 0, conn_dragon2 := fun _ => 0, next_connection := 0,
      worm_pair1 := fun _ => 0, worm_pair2 := fun _ => 0, next_worm_pair := 0,
      eyes := fun _ => 0, eyecolor := fun _ => 0, next_eye := 0,
      lunch_dragon := fun _ => 0, lunch_worm := fun _ => 0, next_lunch := 0 }
  replacement_map := fun _ => 0

/-- An empty board outside of any trial move, every stone being its own
origin. -/
def empty_board : Board where
  stackp := 0
  board := fun _ => 0
  dragon_origin := fun p => p
  worm_origin := fun p => p

/-- The state right after `clear_move_reasons` on the 19 by 19 board. -/
def fresh : State := clear_move_reasons gnugo19 zero_state

/-- The reason lists after `clear_move_reasons` and the single call
`add_move_reason(21, 1, 3)`. -/
def one_reason : Reasons := new_entry gnugo19 fresh.reasons 21 1 3 0

/-! ## Specification vocabulary for the object tables -/

/-- The canonical order of a pair, as `find_connection` and `find_worm_pair`
establish it before the lookup. -/
def canonical (a b : Int) : Int × Int :=
  (if a > b then b else a, if a > b then a else b)

/-- One call of a function of the module that writes to the object tables.
Every other function of `move_reasons.c` touches the tables through these
only. -/
inductive RegistryCall where
  | find_worm (str : Int) : RegistryCall
  | find_dragon (str : Int) : RegistryCall
  | find_connection (dragon1 dragon2 : Int) : RegistryCall
  | find_worm_pair (worm1 worm2 : Int) : RegistryCall
  | find_eye (eye color : Int) : RegistryCall
  | add_lunch (b : Board) (eater food : Int) : RegistryCall
  | remove_lunch (b : Board) (eater food : Int) : RegistryCall

/-- Whether the call is a call of `remove_lunch`. -/
def RegistryCall.is_remove_lunch : RegistryCall → Bool
  | RegistryCall.remove_lunch _ _ _ => true
  | _ => false

/-- The object tables after one call, `none` when an assertion fails. -/
def run_call (cfg : Config) (g : Registry) : RegistryCall → Option Registry
  | RegistryCall.find_worm str => (find_worm cfg g str).map Prod.snd
  | RegistryCall.find_dragon str => (find_dragon cfg g str).map Prod.snd
  | RegistryCall.find_connection a b => (find_connection cfg g a b).map Prod.snd
  | RegistryCall.find_worm_pair a b => (find_worm_pair cfg g a b).map Prod.snd
  | RegistryCall.find_eye eye color => (find_eye cfg g eye color).map Prod.snd
  | RegistryCall.add_lunch b eater food => add_lunch cfg b g eater food
  | RegistryCall.remove_lunch b eater food => remove_lunch cfg b g eater food

/-- The object tables after a sequence of calls, `none` when one of them
fails. -/
def run_calls (cfg : Config) (g : Registry) : List RegistryCall → Option Registry
  | [] => some g
  | c :: cs =>
    match run_call cfg g c with
    | none => none
    | some g1 => run_calls cfg g1 cs

/-- The object tables reachable from `clear_move_reasons` by calls that
return. -/
inductive RegistryReachable (cfg : Config) : Registry → Prop
  | clear (s : State) : RegistryReachable cfg (clear_move_reasons cfg s).registry
  | step (g g1 : Registry) (c : RegistryCall) :
      RegistryReachable cfg g → run_call cfg g c = some g1 → RegistryReachable cfg g1

/-- No two entries of a table with key `key` and length `n` have the same
identity. -/
def distinct_keys {κ : Type} (key : Nat → κ) (n : Nat) : Prop :=
  ∀ i j, i < n → j < n → key i = key j → i = j

/-- The invariant of the object tables: every table is within its capacity
and holds no identity twice. -/
structure RegistryInv (cfg : Config) (g : Registry) : Prop where
  worm_le : g.next_worm ≤ MAX_WORMS cfg
  dragon_le : g.next_dragon ≤ MAX_DRAGONS cfg
  connection_le : g.next_connection ≤ MAX_CONNECTIONS cfg
  worm_pair_le : g.next_worm_pair ≤ MAX_WORM_PAIRS cfg
  eye_le : g.next_eye ≤ MAX_EYES cfg
  worm_distinct : distinct_keys g.worms g.next_worm
  dragon_distinct : distinct_keys g.dragons g.next_dragon
  connection_distinct :
    distinct_keys (fun k => (g.conn_dragon1 k, g.conn_dragon2 k)) g.next_connection
  worm_pair_distinct :
    distinct_keys (fun k => (g.worm_pair1 k, g.worm_pair2 k)) g.next_worm_pair
  eye_distinct : distinct_keys (fun k => (g.eyes k, g.eyecolor k)) g.next_eye

/-- A table with key `key1` and length `n1` keeps every entry of the table
with key `key` and length `n`. -/
def keeps {κ : Type} (key : Nat → κ) (n : Nat) (key1 : Nat → κ) (n1 : Nat) : Prop :=
  n ≤ n1 ∧ ∀ k, k < n → key1 k = key k

/-- The tables of worms, dragons, connections, worm pairs and eye spaces of
`g1` keep every entry of those of `g`. -/
structure TablesKept (g g1 : Registry) : Prop where
  worms : keeps g.worms g.next_worm g1.worms g1.next_worm
  dragons : keeps g.dragons g.next_dragon g1.dragons g1.next_dragon
  connections : keeps (fun k => (g.conn_dragon1 k, g.conn_dragon2 k)) g.next_connection
    (fun k => (g1.conn_dragon1 k, g1.conn_dragon2 k)) g1.next_connection
  worm_pairs : keeps (fun k => (g.worm_pair1 k, g.worm_pair2 k)) g.next_worm_pair
    (fun k => (g1.worm_pair1 k, g1.worm_pair2 k)) g1.next_worm_pair
  eyes : keeps (fun k => (g.eyes k, g.eyecolor k)) g.next_eye
    (fun k => (g1.eyes k, g1.eyecolor k)) g1.next_eye

/-- The table of lunches of `g1` keeps every entry of that of `g`. -/
def LunchesKept (g g1 : Registry) : Prop :=
  keeps (fun k => (g.lunch_dragon k, g.lunch_worm k)) g.next_lunch
    (fun k => (g1.lunch_dragon k, g1.lunch_worm k)) g1.next_lunch

/-- Two lunches: the dragon at 21 eats the worm at 22, and the dragon at 23
eats the worm at 24. -/
def two_lunches : List RegistryCall :=
  [RegistryCall.add_lunch empty_board 21 22, RegistryCall.add_lunch empty_board 23 24]

/-- The length of the table of lunches with its entry at index 0. -/
def lunch_summary (g : Registry) : Nat × Int × Int :=
  (g.next_lunch, g.lunch_dragon 0, g.lunch_worm 0)

/-- The object tables after `clear_move_reasons` and the single call
`find_connection(5, 3)`. -/
def one_connection : Registry :=
  { fresh.registry with
    conn_dragon1 := Function.update fresh.registry.conn_dragon1 0 3
    conn_dragon2 := Function.update fresh.registry.conn_dragon2 0 5
    next_connection := 1 }

/-- The object tables after `clear_move_reasons` and the single call
`find_worm_pair(5, 3)`. -/
def one_worm_pair : Registry :=
  { fresh.registry with
    worm_pair1 := Function.update fresh.registry.worm_pair1 0 3
    worm_pair2 := Function.update fresh.registry.worm_pair2 0 5
    next_worm_pair := 1 }

/-! ## Specification vocabulary for the point redistribution -/

/-- Following the redirections of `m` from `p` for at most `fuel` hops reaches
`target`; a point whose entry is `NO_MOVE` is not redirected. -/
def leads_to (no_move : Int) (m : Int → Int) (target : Int) : Nat → Int → Bool
  | 0, p => p == target
  | fuel + 1, p => p == target || (m p != no_move && leads_to no_move m target fuel (m p))

/-- The rule sending `frm` to `dest` would close a cycle: following the map
from `dest` leads back to `frm`, the case `dest = frm` included.  A chain of
redirections without repetition visits at most `board_size * board_size`
points. -/
def closes_cycle (cfg : Config) (m : Int → Int) (frm dest : Int) : Bool :=
  leads_to cfg.NO_MOVE m frm (cfg.board_size * cfg.board_size) dest

/-- The redistribution maps reachable from `clear_move_reasons` by calls of
`add_replacement_move` that close no cycle and return. -/
inductive ReplacementReachable (cfg : Config) : (Int → Int) → Prop
  | clear (s : State) : ReplacementReachable cfg (clear_move_reasons cfg s).replacement_map
  | step (m m1 : Int → Int) (frm dest : Int) :
      ReplacementReachable cfg m → closes_cycle cfg m frm dest = false →
      add_replacement_move cfg m frm dest = some m1 → ReplacementReachable cfg m1

/-- Every redirection of a point of the board leads, in one hop, to a point
of the board that is not redirected. -/
def one_hop (cfg : Config) (m : Int → Int) : Prop :=
  ∀ p, cfg.ON_BOARD1 p = true → m p ≠ cfg.NO_MOVE →
    cfg.ON_BOARD1 (m p) = true ∧ m (m p) = cfg.NO_MOVE

/-! ## A small instance -/

/-- The header values for `MAX_BOARD = 2` on a 2 by 2 board, with room for
two reasons at a point: `POS(i, j)` is `(MAX_BOARD + 2) + i * (MAX_BOARD + 1) + j`,
so the points are 4, 5, 7 and 8. -/
def small : Config where
  MAX_BOARD := 2
  MAX_REASONS := 2
  NO_MOVE := 0
  EMPTY := 0
  ACTIVE := 0
  board_size := 2
  POS := fun i j => 4 + 3 * (i : Int) + (j : Int)
  ON_BOARD1 := fun p =>
    (List.range 2).any fun i => (List.range 2).any fun j => 4 + 3 * (i : Int) + (j : Int) == p

/-- The state right after `clear_move_reasons` on the 2 by 2 board. -/
def small_fresh : State := clear_move_reasons small zero_state

/-- The reason lists on the 2 by 2 board after `add_move_reason(4, 1, 1)` and
`add_move_reason(4, 1, 2)`: the list of the point 4 is full. -/
def two_reasons : Reasons :=
  new_entry small (new_entry small small_fresh.reasons 4 1 1 0) 4 1 2 1

/-- The object tables on the 2 by 2 board after `find_worm(4)` and
`find_worm(5)`: the table of worms is full. -/
def two_worms : Registry :=
  { small_fresh.registry with
    worms := Function.update (Function.update small_fresh.registry.worms 0 4) 1 5
    next_worm := 2 }

/-- The redistribution map on the 2 by 2 board after
`add_replacement_move(4, 5)`. -/
def sent_4_to_5 : Int → Int :=
  (board_points small).foldl (redirect_point 4)
    (Function.update small_fresh.replacement_map 4 5)

/-- The redistribution map on the 2 by 2 board after
`add_replacement_move(4, 5)` and `add_replacement_move(5, 7)`. -/
def sent_5_to_7 : Int → Int :=
  (board_points small).foldl (redirect_point 5) (Function.update sent_4_to_5 5 7)

/-! ## Move values

The `float` fields of `struct move_data` are rational numbers here: sums,
products and comparisons are exact, and the special values of floating point
arithmetic (infinities, NaN) and its rounding are not represented. -/

/-- The scalar fields of the array `move[]` (`struct move_data`), one function
of the point per field. -/
@[ext]
structure Moves where
  value : Int → ℚ
  final_value : Int → ℚ
  additional_ko_value : Int → ℚ
  territorial_value : Int → ℚ
  strategical_value : Int → ℚ
  maxpos_shape : Int → ℚ
  numpos_shape : Int → Int
  maxneg_shape : Int → ℚ
  numneg_shape : Int → Int
  followup_value : Int → ℚ
  reverse_followup_value : Int → ℚ
  secondary_value : Int → ℚ
  min_value : Int → ℚ
  max_value : Int → ℚ
  min_territory : Int → ℚ
  max_territory : Int → ℚ
  move_safety : Int → Int
  worthwhile_threat : Int → Int
  random_number : Int → ℚ

/-- The conversion `(int) x` of a `float`: the fraction is discarded. -/
def to_int (x : ℚ) : Int := Int.tdiv x.num x.den

/-- How a run of a function with a retry loop ends: it returns, it stops at
a failed assertion, or the rounds granted to the loop are used up. -/
inductive Outcome (α : Type) where
  | returned (a : α) : Outcome α
  | aborted : Outcome α
  | unfinished : Outcome α

/-- Whether the run returned. -/
def Outcome.is_returned {α : Type} : Outcome α → Bool
  | Outcome.returned _ => true
  | _ => false

/-! ## Point redistribution of the values -/

/-- The body of the first loops of `redistribute_points`:
`move[pos].final_value = move[pos].value`. -/
def copy_value (mv : Moves) (pos : Int) : Moves :=
  { mv with final_value := Function.update mv.final_value pos (mv.value pos) }

/-- The body of the second loops of `redistribute_points` at the point
`pos`. -/
def redistribute_point (cfg : Config) (m : Int → Int) (mv : Moves) (pos : Int) : Moves :=
  let ii := m pos
  if ii = cfg.NO_MOVE then mv
  else
    let mv1 :=
      if mv.final_value ii < mv.final_value pos then
        { mv with final_value := Function.update mv.final_value ii (mv.final_value pos) }
      else mv
    { mv1 with final_value := Function.update mv1.final_value pos 0 }

/-- The function `redistribute_points`, `m` being `replacement_map[]`. -/
def redistribute_points (cfg : Config) (m : Int → Int) (mv : Moves) : Moves :=
  (board_points cfg).foldl (redistribute_point cfg m)
    ((board_points cfg).foldl copy_value mv)

/-- The body of the loops of `reevaluate_ko_threats` at the point `pos`. -/
def reevaluate_point (mv : Moves) (pos : Int) : Moves :=
  if mv.additional_ko_value pos > 0 then
    { mv with value := Function.update mv.value pos (mv.value pos + mv.additional_ko_value pos) }
  else mv

/-- The function `reevaluate_ko_threats`. -/
def reevaluate_ko_threats (cfg : Config) (mv : Moves) : Moves :=
  (board_points cfg).foldl reevaluate_point mv

/-! ## review_move_reasons: the choice of the move -/

/-- What the choice of the move asks of the rest of the engine, for the
colour to move: `is_legal`, `is_illegal_ko_capture`, the macro `ON_BOARD`,
and `move_reasons_confirm_safety`, whose answer depends on the board, on the
reason lists and on the object tables, none of which changes while the move
is chosen. -/
structure Referee where
  is_legal : Int → Int → Bool
  is_illegal_ko_capture : Int → Int → Bool
  ON_BOARD : Int → Bool
  move_reasons_confirm_safety : Int → Int → Int → Bool

/-- The variables `bestval` and `best_move` during the search for the highest
valued move, with the array `move[]`. -/
structure Best where
  bestval : ℚ
  best_move : Int
  moves : Moves

/-- The two assignments `move[pos].value = 0.0; move[pos].final_value = 0.0;`. -/
def zero_move (mv : Moves) (pos : Int) : Moves :=
  { mv with
    value := Function.update mv.value pos 0
    final_value := Function.update mv.final_value pos 0 }

/-- The body of the search loops of `review_move_reasons` at the point `ii`. -/
def scan_point (c : Referee) (color : Int) (st : Best) (ii : Int) : Best :=
  if st.moves.final_value ii = 0 then st
  else
    let tval := st.moves.final_value ii
    if tval > st.bestval then
      if c.is_legal ii color || c.is_illegal_ko_capture ii color then
        { st with bestval := tval, best_move := ii }
      else { st with moves := zero_move st.moves ii }
    else st

/-- The search through all board positions for the highest valued move,
started with `bestval = 0.0` and `best_move = NO_MOVE`. -/
def scan_moves (cfg : Config) (c : Referee) (color : Int) (mv : Moves) : Best :=
  (board_points cfg).foldl (scan_point c color)
    { bestval := 0, best_move := cfg.NO_MOVE, moves := mv }

/-- The computation of `allowed_blunder_size`; `none` when
`ASSERT_ON_BOARD1(best_move)` fails. -/
def allowed_blunder_size (cfg : Config) (c : Referee) (ko_values_have_been_added : Bool)
    (st : Best) : Option Int :=
  if !ko_values_have_been_added || !c.ON_BOARD st.best_move then
    some (to_int (st.bestval / 2 - 1))
  else if cfg.ON_BOARD1 st.best_move = false then none
  else
    let base_value : Int := to_int (st.bestval - st.moves.additional_ko_value st.best_move)
    some (Int.tdiv base_value 2 - 1)

/-- The variables of `review_move_reasons` when the loop `while (!good_move_found)`
is left. -/
structure Selection where
  moves : Moves
  bestval : ℚ
  best_move : Int
  allowed_blunder_size : Int
  ko_values_have_been_added : Bool

/-- The loop `while (!good_move_found)` of `review_move_reasons`, run for at
most `fuel` rounds; `m` is `replacement_map[]`. -/
def review_loop (cfg : Config) (c : Referee) (m : Int → Int) (color : Int) :
    Nat → Moves → Bool → Outcome Selection
  | 0, _, _ => Outcome.unfinished
  | fuel + 1, mv, ko_values_have_been_added =>
    let st := scan_moves cfg c color mv
    match allowed_blunder_size cfg c ko_values_have_been_added st with
    | none => Outcome.aborted
    | some allowed =>
      if st.bestval > 0 ∧ c.is_illegal_ko_capture st.best_move color = true then
        review_loop cfg c m color fuel
          (zero_move (redistribute_points cfg m (reevaluate_ko_threats cfg st.moves))
            st.best_move)
          true
      else if st.bestval > 0
          ∧ c.move_reasons_confirm_safety st.best_move color allowed = false then
        review_loop cfg c m color fuel (zero_move st.moves st.best_move)
          ko_values_have_been_added
      else
        Outcome.returned
          { moves := st.moves, bestval := st.bestval, best_move := st.best_move,
            allowed_blunder_size := allowed,
            ko_values_have_been_added := ko_values_have_been_added }

/-- What `review_move_reasons` leaves behind: the returned number, the
contents of `*the_move` and `*val`, and the variables at the end of the
loop. -/
structure Review where
  result : Int
  the_move : Int
  val : ℚ
  selection : Selection

/-- The function `review_move_reasons` from the call of `redistribute_points`
on; `mv` is the array `move[]` as `value_moves` leaves it (the calls before
prepare reasons and values and take no part in the choice), `the_move` and
`val` are the contents of `*the_move` and `*val` on entry.  The trace output
of `print_top_moves` is left out. -/
def review_move_reasons (cfg : Config) (c : Referee) (m : Int → Int) (color : Int)
    (fuel : Nat) (mv : Moves) (the_move : Int) (val : ℚ) : Outcome Review :=
  match review_loop cfg c m color fuel (redistribute_points cfg m mv) false with
  | Outcome.returned sel =>
    if sel.bestval > 0 ∧ sel.best_move ≠ cfg.NO_MOVE then
      Outcome.returned { result := 1, the_move := sel.best_move, val := sel.bestval,
                         selection := sel }
    else
      Outcome.returned { result := 0, the_move := the_move, val := val, selection := sel }
  | Outcome.aborted => Outcome.aborted
  | Outcome.unfinished => Outcome.unfinished

/-- The redistribution map on the 2 by 2 board after
`add_replacement_move(4, 4)`. -/
def sent_4_to_4 : Int → Int :=
  (board_points small).foldl (redirect_point 4)
    (Function.update small_fresh.replacement_map 4 4)

/-- The array `move[]` with every field zero. -/
def zero_moves : Moves where
  value := fun _ => 0
  final_value := fun _ => 0
  additional_ko_value := fun _ => 0
  territorial_value := fun _ => 0
  strategical_value := fun _ => 0
  maxpos_shape := fun _ => 0
  numpos_shape := fun _ => 0
  maxneg_shape := fun _ => 0
  numneg_shape := fun _ => 0
  followup_value := fun _ => 0
  reverse_followup_value := fun _ => 0
  secondary_value := fun _ => 0
  min_value := fun _ => 0
  max_value := fun _ => 0
  min_territory := fun _ => 0
  max_territory := fun _ => 0
  move_safety := fun _ => 0
  worthwhile_threat := fun _ => 0
  random_number := fun _ => 0

/-- Values on the 2 by 2 board: 3 at the point 4, 5 at the point 5, 1 at the
point 7 and 2 at the point 8. -/
def sample_moves : Moves :=
  { zero_moves with
    value := fun p => if p = 4 then 3 else if p = 5 then 5 else if p = 7 then 1
      else if p = 8 then 2 else 0 }

/-- What holds of `bestval`, `best_move` and `move[]` when the search loops of
`review_move_reasons`, started on the array `mv`, have visited the points
`pre`. -/
structure ScanInv (c : Referee) (color : Int) (no_move : Int) (mv : Moves) (pre : List Int)
    (st : Best) : Prop where
  nonneg : 0 ≤ st.bestval
  none_found : st.bestval = 0 → st.best_move = no_move
  found : 0 < st.bestval →
    st.best_move ∈ pre ∧ st.moves.final_value st.best_move = st.bestval
    ∧ (c.is_legal st.best_move color || c.is_illegal_ko_capture st.best_move color) = true
    ∧ ∃ l1 l2, pre = l1 ++ st.best_move :: l2
        ∧ ∀ q, q ∈ l1 → st.moves.final_value q ≠ st.bestval
  bound : ∀ q, q ∈ pre → st.moves.final_value q ≤ st.bestval
  zeroed : ∀ q,
    (st.moves.final_value q = mv.final_value q ∧ st.moves.value q = mv.value q)
    ∨ (st.moves.final_value q = 0 ∧ st.moves.value q = 0
        ∧ (c.is_legal q color || c.is_illegal_ko_capture q color) = false
        ∧ q ∈ pre ∧ 0 < mv.final_value q)
  frame : st.moves = { mv with value := st.moves.value, final_value := st.moves.final_value }

/-- The value a run returned, if it returned. -/
def Outcome.value {α : Type} : Outcome α → Option α
  | Outcome.returned a => some a
  | _ => none

/-- A referee for the 2 by 2 board: every point is legal, none is an illegal
ko capture, and the blunder check rejects the point 7 only. -/
def sample_referee : Referee where
  is_legal := fun _ _ => true
  is_illegal_ko_capture := fun _ _ => false
  ON_BOARD := small.ON_BOARD1
  move_reasons_confirm_safety := fun p _ _ => p != 7

/-- A referee for the 2 by 2 board for whom the point 4, and no other, is an
illegal ko capture. -/
def ko_referee : Referee where
  is_legal := fun p _ => p != 4
  is_illegal_ko_capture := fun p _ => p == 4
  ON_BOARD := small.ON_BOARD1
  move_reasons_confirm_safety := fun _ _ _ => true

/-- Values on the 2 by 2 board with a banked ko value: the point 4 has the
value 3 and the point 5 has the value 1 with the additional ko value 4. -/
def ko_moves : Moves :=
  { zero_moves with
    value := fun p => if p = 4 then 3 else if p = 5 then 1 else 0
    final_value := fun p => if p = 4 then 3 else if p = 5 then 1 else 0
    additional_ko_value := fun p => if p = 5 then 4 else 0 }

/-- The number of board points with a positive `final_value`: the candidates
the search of `review_move_reasons` can still meet. -/
def live (cfg : Config) (mv : Moves) : Nat :=
  (board_points cfg).countP fun p => decide (0 < mv.final_value p)

/-- A referee for the 2 by 2 board for whom both the points 4 and 5 are
illegal ko captures, no point is legal, and the blunder check accepts every
point. -/
def two_ko_referee : Referee where
  is_legal := fun _ _ => false
  is_illegal_ko_capture := fun p _ => p == 4 || p == 5
  ON_BOARD := small.ON_BOARD1
  move_reasons_confirm_safety := fun _ _ _ => true

/-- Values on the 2 by 2 board: the points 4 and 5 have the value 1 and the
additional ko value 1, the other points have no value. -/
def two_ko_moves : Moves :=
  { zero_moves with
    value := fun p => if p = 4 then 1 else if p = 5 then 1 else 0
    final_value := fun p => if p = 4 then 1 else if p = 5 then 1 else 0
    additional_ko_value := fun p => if p = 4 then 1 else if p = 5 then 1 else 0 }

/-- A run with a retry loop, given by its outcome for every number of rounds
allowed, never ends: whatever the number of rounds, it is not through. -/
def never_ends {α : Type} (run : Nat → Outcome α) : Prop :=
  ∀ fuel, run fuel = Outcome.unfinished

/-- The state of `move[]` that recurs on the 2 by 2 board with the two ko
points 4 and 5: both have the additional ko value 1, their `final_value` is
their `value`, one of them has a positive value, and the points 7 and 8 have
no value. -/
structure KoCycle (mv : Moves) : Prop where
  ako4 : mv.additional_ko_value 4 = 1
  ako5 : mv.additional_ko_value 5 = 1
  ako7 : mv.additional_ko_value 7 = 0
  ako8 : mv.additional_ko_value 8 = 0
  v7 : mv.value 7 = 0
  v8 : mv.value 8 = 0
  f4 : mv.final_value 4 = mv.value 4
  f5 : mv.final_value 5 = mv.value 5
  f7 : mv.final_value 7 = 0
  f8 : mv.final_value 8 = 0
  n4 : 0 ≤ mv.value 4
  n5 : 0 ≤ mv.value 5
  pos : 0 < mv.value 4 ∨ 0 < mv.value 5

/-! ## Valuation of the move reasons

The functions that turn the reasons of a point into its value:
`discard_redundant_move_reasons`, `estimate_territorial_value`,
`estimate_strategical_value`, `value_move_reasons` and `value_moves`, with the
small functions they call.  What they read from the rest of the engine (the
arrays `worm[]`, `dragon[]` and `dragon2[]`, the reading and influence
functions, the C library) is gathered in the structure `Engine`; the constants
of the headers are gathered in the structure `Constants`. -/

/-- Constants of `move_reasons.h`, `liberty.h` and `gnugo.h` used by the
valuation: the kinds of move reasons, the status flags of a reason, the
statuses of dragons, the result code `WIN`, the colours, the marks of the
influence code and the bounds of the one-dimensional board. -/
structure Constants where
  ATTACK_MOVE : Int
  ATTACK_MOVE_GOOD_KO : Int
  ATTACK_MOVE_BAD_KO : Int
  ATTACK_THREAT_MOVE : Int
  DEFEND_MOVE : Int
  DEFEND_MOVE_GOOD_KO : Int
  DEFEND_MOVE_BAD_KO : Int
  DEFEND_THREAT_MOVE : Int
  CONNECT_MOVE : Int
  CUT_MOVE : Int
  ANTISUJI_MOVE : Int
  SEMEAI_MOVE : Int
  SEMEAI_THREAT : Int
  VITAL_EYE_MOVE : Int
  ATTACK_EITHER_MOVE : Int
  DEFEND_BOTH_MOVE : Int
  BLOCK_TERRITORY_MOVE : Int
  EXPAND_TERRITORY_MOVE : Int
  EXPAND_MOYO_MOVE : Int
  STRATEGIC_ATTACK_MOVE : Int
  STRATEGIC_DEFEND_MOVE : Int
  OWL_ATTACK_MOVE : Int
  OWL_ATTACK_MOVE_GOOD_KO : Int
  OWL_ATTACK_MOVE_BAD_KO : Int
  OWL_ATTACK_THREAT : Int
  OWL_DEFEND_MOVE : Int
  OWL_DEFEND_MOVE_GOOD_KO : Int
  OWL_DEFEND_MOVE_BAD_KO : Int
  OWL_DEFENSE_THREAT : Int
  UNCERTAIN_OWL_DEFENSE : Int
  OWL_PREVENT_THREAT : Int
  MY_ATARI_ATARI_MOVE : Int
  YOUR_ATARI_ATARI_MOVE : Int
  /-- The status flag `TERRITORY_REDUNDANT`. -/
  TERRITORY_REDUNDANT : Int
  /-- The status flag `STRATEGICALLY_REDUNDANT`. -/
  STRATEGICALLY_REDUNDANT : Int
  /-- The status flags `REDUNDANT`. -/
  REDUNDANT : Int
  DEAD : Int
  ALIVE : Int
  CRITICAL : Int
  INESSENTIAL : Int
  TACTICALLY_DEAD : Int
  WEAK : Int
  WEAKLY_ALIVE : Int
  STRONGLY_ALIVE : Int
  INVINCIBLE : Int
  WIN : Int
  BLACK : Int
  WHITE : Int
  INFLUENCE_SAVED_STONE : Int
  INFLUENCE_CAPTURED_STONE : Int
  BOARDMIN : Int
  BOARDMAX : Int

/-- The kinds of move reasons that are case labels of the `switch`
statements of the valuation. -/
def Constants.kinds (k : Constants) : List Int :=
  [k.ATTACK_MOVE, k.ATTACK_MOVE_GOOD_KO, k.ATTACK_MOVE_BAD_KO, k.ATTACK_THREAT_MOVE,
   k.DEFEND_MOVE, k.DEFEND_MOVE_GOOD_KO, k.DEFEND_MOVE_BAD_KO, k.DEFEND_THREAT_MOVE,
   k.CONNECT_MOVE, k.CUT_MOVE, k.ANTISUJI_MOVE, k.SEMEAI_MOVE, k.SEMEAI_THREAT,
   k.VITAL_EYE_MOVE, k.ATTACK_EITHER_MOVE, k.DEFEND_BOTH_MOVE, k.BLOCK_TERRITORY_MOVE,
   k.EXPAND_TERRITORY_MOVE, k.EXPAND_MOYO_MOVE, k.STRATEGIC_ATTACK_MOVE,
   k.STRATEGIC_DEFEND_MOVE, k.OWL_ATTACK_MOVE, k.OWL_ATTACK_MOVE_GOOD_KO,
   k.OWL_ATTACK_MOVE_BAD_KO, k.OWL_ATTACK_THREAT, k.OWL_DEFEND_MOVE,
   k.OWL_DEFEND_MOVE_GOOD_KO, k.OWL_DEFEND_MOVE_BAD_KO, k.OWL_DEFENSE_THREAT,
   k.UNCERTAIN_OWL_DEFENSE, k.OWL_PREVENT_THREAT, k.MY_ATARI_ATARI_MOVE,
   k.YOUR_ATARI_ATARI_MOVE]

/-- The case labels of a `switch` are pairwise different. -/
def Constants.DistinctKinds (k : Constants) : Prop := k.kinds.Nodup

instance (k : Constants) : Decidable k.DistinctKinds := by
  unfold Constants.DistinctKinds
  infer_instance

/-- What the engine answers about the position while a stone is tried with
`trymove`: the array `board[]` and the functions `chainlinks`, `same_string`
and `attack`. -/
structure Trial where
  board : Int → Int
  /-- The strings that `chainlinks(str, adjs)` stores in `adjs`, in order;
  their number is the result of the call. -/
  chainlinks : Int → List Int
  same_string : Int → Int → Bool
  /-- Whether `attack(str, NULL)` is not 0. -/
  attack : Int → Bool

/-- What the valuation reads from the rest of the engine, for the position
at hand. -/
structure Engine where
  /-- The variable `urgent`. -/
  urgent : Int
  /-- The variable `allpats`. -/
  allpats : Int
  /-- The variable `doing_scoring`. -/
  doing_scoring : Int
  /-- The cell `last_moves[0]`. -/
  last_move : Int
  /-- The macro `OTHER_COLOR`. -/
  OTHER_COLOR : Int → Int
  /-- The macro `IS_STONE`. -/
  IS_STONE : Int → Bool
  /-- The macro `ON_BOARD`. -/
  ON_BOARD : Int → Bool
  /-- The array `delta[]` of the steps to the four neighbours. -/
  delta : Nat → Int
  /-- The field `worm[pos].effective_size`. -/
  worm_effective_size : Int → ℚ
  /-- The field `worm[pos].size`. -/
  worm_size : Int → Int
  /-- The cell `worm[pos].attack_codes[0]`. -/
  worm_attack_code : Int → Int
  /-- The cell `worm[pos].defend_codes[0]`. -/
  worm_defend_code : Int → Int
  /-- The field `worm[pos].cutstone2`. -/
  worm_cutstone2 : Int → Int
  /-- The field `worm[pos].inessential`. -/
  worm_inessential : Int → Int
  /-- The field `dragon[pos].effective_size`. -/
  dragon_effective_size : Int → ℚ
  /-- The field `dragon[pos].size`. -/
  dragon_size : Int → Int
  /-- The field `dragon[pos].color`. -/
  dragon_color : Int → Int
  /-- The field `dragon[pos].matcher_status`. -/
  dragon_matcher_status : Int → Int
  /-- The field `DRAGON2(pos).safety`. -/
  DRAGON2_safety : Int → Int
  /-- The field `DRAGON2(pos).neighbors`. -/
  DRAGON2_neighbors : Int → Int
  /-- The cell `DRAGON2(pos).adjacent[s]`. -/
  DRAGON2_adjacent : Int → Nat → Int
  /-- The field `DRAGON2(pos).genus`. -/
  DRAGON2_genus : Int → Int
  /-- The field `DRAGON2(pos).heyes`. -/
  DRAGON2_heyes : Int → Int
  /-- The field `DRAGON2(pos).heye`. -/
  DRAGON2_heye : Int → Int
  /-- The field `DRAGON2(pos).moyo`. -/
  DRAGON2_moyo : Int → Int
  /-- The field `DRAGON2(pos).escape_route`. -/
  DRAGON2_escape_route : Int → Int
  /-- The field `dragon2[d].origin`. -/
  dragon2_origin : Int → Int
  /-- The field `dragon2[d].safety`. -/
  dragon2_safety : Int → Int
  /-- The field `DRAGON(d).matcher_status`. -/
  DRAGON_matcher_status : Int → Int
  /-- The field `white_eye[pos].dragon`. -/
  white_eye_dragon : Int → Int
  /-- The field `black_eye[pos].dragon`. -/
  black_eye_dragon : Int → Int
  /-- The strings that `chainlinks(str, adjs)` stores in `adjs`, in order. -/
  chainlinks : Int → List Int
  /-- Whether `does_defend(pos, str)` is not 0. -/
  does_defend : Int → Int → Bool
  /-- Whether `is_self_atari(pos, color)` is not 0. -/
  is_self_atari : Int → Int → Bool
  /-- Whether `is_ko_point(pos)` is not 0. -/
  is_ko_point : Int → Bool
  /-- Whether `is_same_dragon(d1, d2)` is not 0. -/
  is_same_dragon : Int → Int → Bool
  /-- The array that `mark_string(str, mx, mark)` leaves in `mx`. -/
  mark_string : Int → (Int → Int) → Int → (Int → Int)
  /-- The function `influence_territory_color`. -/
  influence_territory_color : Int → Int
  /-- The function `influence_delta_territory(pos, color, saved_stones)`. -/
  influence_delta_territory : Int → Int → (Int → Int) → ℚ
  /-- The function `safe_move`. -/
  safe_move : Int → Int → Int
  /-- The call `trymove(pos, color, ...)`: `none` when the stone cannot be
  placed, otherwise the answers of the engine while it stands. -/
  trymove : Int → Int → Option Trial
  /-- The function `find_origin`. -/
  find_origin : Int → Int
  /-- The call `approxlib(pos, color, MAXLIBS, NULL)`. -/
  approxlib : Int → Int → Int
  /-- The function `countlib`. -/
  countlib : Int → Int
  /-- The function `pow` of the C library. -/
  pow : ℚ → ℚ → ℚ

/-- The operator `||` of C on two results that may have stopped at an
assertion; the second is looked at only when the first is 0. -/
def c_or (a b : Option Int) : Option Int :=
  match a with
  | none => none
  | some x =>
    if x ≠ 0 then some 1
    else
      match b with
      | none => none
      | some y => some (if y ≠ 0 then 1 else 0)

/-- The function `attack_move_reason_known`. -/
def attack_move_reason_known (cfg : Config) (k : Constants) (t : Reasons) (pos what : Int) :
    Option Int :=
  c_or (c_or (move_reason_known cfg t pos k.ATTACK_MOVE what)
      (move_reason_known cfg t pos k.ATTACK_MOVE_GOOD_KO what))
    (move_reason_known cfg t pos k.ATTACK_MOVE_BAD_KO what)

/-- The function `defense_move_reason_known`. -/
def defense_move_reason_known (cfg : Config) (k : Constants) (t : Reasons) (pos what : Int) :
    Option Int :=
  c_or (c_or (move_reason_known cfg t pos k.DEFEND_MOVE what)
      (move_reason_known cfg t pos k.DEFEND_MOVE_GOOD_KO what))
    (move_reason_known cfg t pos k.DEFEND_MOVE_BAD_KO what)

/-- The function `tactical_move_vs_either_worm_known`. -/
def tactical_move_vs_either_worm_known (cfg : Config) (k : Constants) (t : Reasons)
    (g : Registry) (pos what : Int) : Option Int :=
  c_or (c_or (c_or (attack_move_reason_known cfg k t pos (g.worm_pair1 what.toNat))
        (attack_move_reason_known cfg k t pos (g.worm_pair2 what.toNat)))
      (defense_move_reason_known cfg k t pos (g.worm_pair1 what.toNat)))
    (defense_move_reason_known cfg k t pos (g.worm_pair2 what.toNat))

/-- The expression `attack_move_reason_known(pos, find_worm(aa)) ||
defense_move_reason_known(pos, find_worm(aa))`, with the object tables as the
calls of `find_worm` leave them. -/
def tactical_move_known (cfg : Config) (k : Constants) (t : Reasons) (g : Registry)
    (pos aa : Int) : Option (Int × Registry) :=
  match find_worm cfg g aa with
  | none => none
  | some (w1, g1) =>
    match attack_move_reason_known cfg k t pos w1 with
    | none => none
    | some a =>
      if a ≠ 0 then some (1, g1)
      else
        match find_worm cfg g1 aa with
        | none => none
        | some (w2, g2) =>
          match defense_move_reason_known cfg k t pos w2 with
          | none => none
          | some d => some (if d ≠ 0 then 1 else 0, g2)

/-- The function `tactical_move_vs_whole_dragon_known`. -/
def tactical_move_vs_whole_dragon_known (cfg : Config) (k : Constants) (e : Engine)
    (t : Reasons) (g : Registry) (pos what : Int) : Option (Int × Registry) :=
  let aa := g.dragons what.toNat
  if e.worm_size aa = e.dragon_size aa then tactical_move_known cfg k t g pos aa
  else some (0, g)

/-- The function `owl_attack_move_reason_known`. -/
def owl_attack_move_reason_known (cfg : Config) (k : Constants) (t : Reasons)
    (pos what : Int) : Option Int :=
  c_or (c_or (move_reason_known cfg t pos k.OWL_ATTACK_MOVE what)
      (move_reason_known cfg t pos k.OWL_ATTACK_MOVE_GOOD_KO what))
    (move_reason_known cfg t pos k.OWL_ATTACK_MOVE_BAD_KO what)

/-- The function `owl_defense_move_reason_known`. -/
def owl_defense_move_reason_known (cfg : Config) (k : Constants) (t : Reasons)
    (pos what : Int) : Option Int :=
  c_or (c_or (move_reason_known cfg t pos k.OWL_DEFEND_MOVE what)
      (move_reason_known cfg t pos k.OWL_DEFEND_MOVE_GOOD_KO what))
    (move_reason_known cfg t pos k.OWL_DEFEND_MOVE_BAD_KO what)

/-- The function `owl_move_reason_known`. -/
def owl_move_reason_known (cfg : Config) (k : Constants) (t : Reasons) (pos what : Int) :
    Option Int :=
  c_or (owl_attack_move_reason_known cfg k t pos what)
    (owl_defense_move_reason_known cfg k t pos what)

/-- The function `owl_move_vs_worm_known`. -/
def owl_move_vs_worm_known (cfg : Config) (k : Constants) (b : Board) (t : Reasons)
    (g : Registry) (pos what : Int) : Option (Int × Registry) :=
  match find_dragon cfg g (b.dragon_origin (g.worms what.toNat)) with
  | none => none
  | some (d, g1) =>
    match owl_move_reason_known cfg k t pos d with
    | none => none
    | some a => some (a, g1)

/-- The function `concerns_inessential_worm`. -/
def concerns_inessential_worm (k : Constants) (e : Engine) (g : Registry) (what : Int) : Int :=
  if e.DRAGON2_safety (g.worms what.toNat) = k.INESSENTIAL
      ∨ e.worm_inessential (g.worms what.toNat) ≠ 0 then 1 else 0

/-- The function `concerns_inessential_dragon`. -/
def concerns_inessential_dragon (k : Constants) (e : Engine) (g : Registry) (what : Int) :
    Int :=
  if e.DRAGON2_safety (g.dragons what.toNat) = k.INESSENTIAL then 1 else 0

/-- The function `add_followup_value`. -/
def add_followup_value (cfg : Config) (mv : Moves) (pos : Int) (value : ℚ) : Option Moves :=
  if cfg.ON_BOARD1 pos = false then none
  else if value > mv.followup_value pos then
    some { mv with followup_value := Function.update mv.followup_value pos value }
  else some mv

/-- The function `add_reverse_followup_value`. -/
def add_reverse_followup_value (cfg : Config) (mv : Moves) (pos : Int) (value : ℚ) :
    Option Moves :=
  if cfg.ON_BOARD1 pos = false then none
  else if value > mv.reverse_followup_value pos then
    some { mv with
      reverse_followup_value := Function.update mv.reverse_followup_value pos value }
  else some mv

/-- The function `strategically_sound_defense`; its first argument is not
used. -/
def strategically_sound_defense (mv : Moves) (_aa tt : Int) : Int :=
  mv.move_safety tt

/-- The macro `gg_abs` of `gg_utils.h`, a header that is not among the sources
at hand: the absolute value. -/
def gg_abs (x : ℚ) : ℚ := |x|

/-- The macro `gg_min` of `gg_utils.h`: the smaller of two numbers. -/
def gg_min (a b : ℚ) : ℚ := min a b

/-- The macro `gg_max` of `gg_utils.h`: the larger of two numbers. -/
def gg_max (a b : ℚ) : ℚ := max a b

/-! ### discard_redundant_move_reasons -/

/-- The functions that occur as `condition` in the table `discard_rules`. -/
inductive Condition where
  | owl_move_vs_worm_known
  | owl_move_reason_known
  | tactical_move_vs_whole_dragon_known
  | tactical_move_vs_either_worm_known
  | concerns_inessential_worm
  | concerns_inessential_dragon
deriving DecidableEq, Repr

/-- One entry of the table `discard_rules` (`struct discard_rule`), without
the trace message: the kinds of reasons, ended by `-1`, the condition (`none`
for `NULL`) and the flags to set. -/
structure discard_rule where
  reason_type : List Int
  condition : Option Condition
  flags : Int

/-- The table `discard_rules`, with its closing entry. -/
def discard_rules (k : Constants) : List discard_rule :=
  [ { reason_type := [k.ATTACK_MOVE, k.ATTACK_MOVE_GOOD_KO, k.ATTACK_MOVE_BAD_KO,
        k.ATTACK_THREAT_MOVE, k.DEFEND_MOVE, k.DEFEND_MOVE_GOOD_KO, k.DEFEND_MOVE_BAD_KO,
        k.DEFEND_THREAT_MOVE, -1]
      condition := some Condition.owl_move_vs_worm_known
      flags := k.TERRITORY_REDUNDANT },
    { reason_type := [k.SEMEAI_MOVE, k.SEMEAI_THREAT, -1]
      condition := some Condition.owl_move_reason_known
      flags := k.REDUNDANT },
    { reason_type := [k.SEMEAI_MOVE, k.SEMEAI_THREAT, -1]
      condition := some Condition.tactical_move_vs_whole_dragon_known
      flags := k.REDUNDANT },
    { reason_type := [k.ATTACK_EITHER_MOVE, k.DEFEND_BOTH_MOVE, -1]
      condition := some Condition.tactical_move_vs_either_worm_known
      flags := k.REDUNDANT },
    { reason_type := [k.ATTACK_MOVE, k.ATTACK_MOVE_GOOD_KO, k.ATTACK_MOVE_BAD_KO,
        k.ATTACK_THREAT_MOVE, k.DEFEND_MOVE, k.DEFEND_MOVE_GOOD_KO, k.DEFEND_MOVE_BAD_KO,
        k.DEFEND_THREAT_MOVE, -1]
      condition := some Condition.concerns_inessential_worm
      flags := k.TERRITORY_REDUNDANT },
    { reason_type := [k.OWL_ATTACK_MOVE, k.OWL_ATTACK_MOVE_GOOD_KO, k.OWL_ATTACK_MOVE_BAD_KO,
        k.OWL_ATTACK_THREAT, k.OWL_DEFEND_MOVE, k.OWL_DEFEND_MOVE_GOOD_KO,
        k.OWL_DEFEND_MOVE_BAD_KO, k.UNCERTAIN_OWL_DEFENSE, -1]
      condition := some Condition.concerns_inessential_dragon
      flags := k.REDUNDANT },
    { reason_type := [-1], condition := none, flags := 0 } ]

/-- The call `discard_rules[k1].condition(pos, what)`: the answer and the
object tables after the call; calling `NULL` is a fault. -/
def run_condition (cfg : Config) (k : Constants) (e : Engine) (b : Board) (t : Reasons)
    (g : Registry) (pos what : Int) : Option Condition → Option (Int × Registry)
  | none => none
  | some Condition.owl_move_vs_worm_known => owl_move_vs_worm_known cfg k b t g pos what
  | some Condition.owl_move_reason_known =>
    (owl_move_reason_known cfg k t pos what).map fun a => (a, g)
  | some Condition.tactical_move_vs_whole_dragon_known =>
    tactical_move_vs_whole_dragon_known cfg k e t g pos what
  | some Condition.tactical_move_vs_either_worm_known =>
    (tactical_move_vs_either_worm_known cfg k t g pos what).map fun a => (a, g)
  | some Condition.concerns_inessential_worm => some (concerns_inessential_worm k e g what, g)
  | some Condition.concerns_inessential_dragon =>
    some (concerns_inessential_dragon k e g what, g)

/-- The loop over `l` of `discard_redundant_move_reasons` for one rule and one
kind `ty` of the rule, entered at index `l` with `fuel` rounds to go. -/
def discard_scan (cfg : Config) (k : Constants) (e : Engine) (b : Board)
    (rule : discard_rule) (ty : Int) (pos : Int) :
    Nat → Nat → Reasons × Registry → Option (Reasons × Registry)
  | 0, _, s => some s
  | fuel + 1, l, (t, g) =>
    let r := t.reason pos l
    if r < 0 then some (t, g)
    else if (t.move_reasons r.toNat).type = ty then
      match run_condition cfg k e b t g pos (t.move_reasons r.toNat).what rule.condition with
      | none => none
      | some (c, g1) =>
        if c ≠ 0 then
          discard_scan cfg k e b rule ty pos fuel (l + 1)
            ({ t with
               move_reasons := Function.update t.move_reasons r.toNat
                 { t.move_reasons r.toNat with
                   status := Int.lor (t.move_reasons r.toNat).status rule.flags } }, g1)
        else discard_scan cfg k e b rule ty pos fuel (l + 1) (t, g1)
    else discard_scan cfg k e b rule ty pos fuel (l + 1) (t, g)

/-- The loop over `k2` of `discard_redundant_move_reasons` for one rule: the
kinds of the rule up to the first `-1`. -/
def discard_kinds (cfg : Config) (k : Constants) (e : Engine) (b : Board)
    (rule : discard_rule) (pos : Int) :
    List Int → Reasons × Registry → Option (Reasons × Registry)
  | [], s => some s
  | ty :: rest, s =>
    if ty = -1 then some s
    else
      match discard_scan cfg k e b rule ty pos cfg.MAX_REASONS 0 s with
      | none => none
      | some s1 => discard_kinds cfg k e b rule pos rest s1

/-- The loop over `k1` of `discard_redundant_move_reasons`: the rules of a
table up to the first one whose list of kinds starts with `-1`. -/
def discard_with (cfg : Config) (k : Constants) (e : Engine) (b : Board) (pos : Int) :
    List discard_rule → Reasons × Registry → Option (Reasons × Registry)
  | [], s => some s
  | rule :: rest, s =>
    if rule.reason_type.head? = some (-1) then some s
    else
      match discard_kinds cfg k e b rule pos rule.reason_type s with
      | none => none
      | some s1 => discard_with cfg k e b pos rest s1

/-- The function `discard_redundant_move_reasons`. -/
def discard_redundant_move_reasons (cfg : Config) (k : Constants) (e : Engine) (b : Board)
    (t : Reasons) (g : Registry) (pos : Int) : Option (Reasons × Registry) :=
  discard_with cfg k e b pos (discard_rules k) (t, g)

/-! ### estimate_territorial_value -/

/-- The variables of `estimate_territorial_value` that live across the rounds
of its loop (`tot_value`, `secondary_value`, `does_block`, `saved_stones`),
with the array `move[]` and the object tables. -/
structure Territory where
  tot_value : ℚ
  secondary_value : ℚ
  does_block : Int
  saved_stones : Int → Int
  moves : Moves
  registry : Registry

/-- The cases `ATTACK_MOVE`, `ATTACK_MOVE_GOOD_KO` and `ATTACK_MOVE_BAD_KO`
of the `switch` of `estimate_territorial_value`, for a reason of the kind
`ty` about the worm `what`. -/
def territorial_attack (k : Constants) (e : Engine) (b : Board) (pos color : Int)
    (acc : Territory) (ty what : Int) : Option Territory :=
  let aa := acc.registry.worms what.toNat
  if b.board aa = color then none
  else if e.worm_defend_code aa = 0 then
    some { acc with secondary_value := acc.secondary_value + e.worm_effective_size aa }
  else if acc.moves.move_safety pos = 0 then some acc
  else if e.dragon_matcher_status aa = k.DEAD then
    some { acc with
      secondary_value := acc.secondary_value + 0.2 * (2 * e.worm_effective_size aa) }
  else
    let this_value : ℚ :=
      if ty = k.ATTACK_MOVE then 0
      else if ty = k.ATTACK_MOVE_GOOD_KO then 2 * e.worm_effective_size aa * 0.3
      else if ty = k.ATTACK_MOVE_BAD_KO then 2 * e.worm_effective_size aa * 0.5
      else 2 * e.worm_effective_size aa
    some { acc with
      saved_stones := e.mark_string aa acc.saved_stones k.INFLUENCE_CAPTURED_STONE
      tot_value := acc.tot_value - this_value
      does_block := 1 }

/-- The cases `DEFEND_MOVE`, `DEFEND_MOVE_GOOD_KO` and `DEFEND_MOVE_BAD_KO`
of the `switch` of `estimate_territorial_value`. -/
def territorial_defend (k : Constants) (e : Engine) (b : Board) (pos color : Int)
    (acc : Territory) (ty what : Int) : Option Territory :=
  let aa := acc.registry.worms what.toNat
  if b.board aa ≠ color then none
  else if strategically_sound_defense acc.moves aa pos = 0 then some acc
  else if e.dragon_matcher_status aa = k.DEAD then
    some { acc with
      secondary_value := acc.secondary_value + 0.2 * (2 * e.worm_effective_size aa) }
  else
    let this_value : ℚ :=
      if ty = k.DEFEND_MOVE then 0
      else if ty = k.DEFEND_MOVE_GOOD_KO then 2 * e.worm_effective_size aa * 0.3
      else if ty = k.DEFEND_MOVE_BAD_KO then 2 * e.worm_effective_size aa * 0.5
      else 2 * e.worm_effective_size aa
    some { acc with
      saved_stones := e.mark_string aa acc.saved_stones k.INFLUENCE_SAVED_STONE
      tot_value := acc.tot_value - this_value
      does_block := 1 }

/-- One round of the loop over the neighbours in the case `ATTACK_THREAT_MOVE`:
the variables `adjustment_up` and `adjustment_down` after the neighbour
`adj`. -/
def threat_adjustment (k : Constants) (e : Engine) (tr : Trial) (pos color : Int)
    (s : ℚ × ℚ) (adj : Int) : ℚ × ℚ :=
  if tr.same_string pos adj then s
  else
    let up :=
      if e.dragon_color adj = color ∧ e.dragon_matcher_status adj = k.DEAD
          ∧ 2 * e.dragon_effective_size adj > s.1 then 2 * e.dragon_effective_size adj
      else s.1
    let down :=
      if e.dragon_color adj = color ∧ tr.attack adj = true
          ∧ 2 * e.worm_effective_size adj > s.2 then 2 * e.worm_effective_size adj
      else s.2
    (up, down)

/-- The case `ATTACK_THREAT_MOVE` of the `switch` of
`estimate_territorial_value`; the stone tried with `trymove` is taken back by
`popgo` at the end of the block. -/
def territorial_attack_threat (cfg : Config) (k : Constants) (e : Engine) (b : Board)
    (pos color : Int) (acc : Territory) (what : Int) : Option Territory :=
  let aa := acc.registry.worms what.toNat
  if b.board aa = color then some acc
  else if e.dragon_matcher_status aa = k.DEAD then some acc
  else
    match e.trymove pos color with
    | none => some acc
    | some tr =>
      let adjs := if tr.board aa = cfg.EMPTY then [] else tr.chainlinks aa
      let adjustment := adjs.foldl (threat_adjustment k e tr pos color) (0, 0)
      let adjusted_value := 2 * e.worm_effective_size aa + adjustment.1 - adjustment.2
      if adjusted_value > 0 then
        (add_followup_value cfg acc.moves pos adjusted_value).map fun mv =>
          { acc with moves := mv }
      else some acc

/-- The case `DEFEND_THREAT_MOVE` of the `switch` of
`estimate_territorial_value`. -/
def territorial_defend_threat (cfg : Config) (k : Constants) (e : Engine) (b : Board)
    (pos color : Int) (acc : Territory) (what : Int) : Option Territory :=
  let aa := acc.registry.worms what.toNat
  if b.board aa = color then some acc
  else if e.dragon_matcher_status aa = k.DEAD then some acc
  else
    (add_followup_value cfg acc.moves pos (2 * e.worm_effective_size aa)).map fun mv =>
      { acc with moves := mv }

/-- The six cases of owl attacks and owl defenses of the `switch` of
`estimate_territorial_value`. -/
def territorial_owl (k : Constants) (e : Engine) (b : Board) (acc : Territory)
    (ty what : Int) : Option Territory :=
  let aa := acc.registry.dragons what.toNat
  if e.dragon_size aa = 1 ∧ e.is_ko_point aa = true then
    some { acc with tot_value := acc.tot_value - 0.5 }
  else
    let mark :=
      if ty = k.OWL_ATTACK_MOVE ∨ ty = k.OWL_ATTACK_MOVE_GOOD_KO
          ∨ ty = k.OWL_ATTACK_MOVE_BAD_KO then k.INFLUENCE_CAPTURED_STONE
      else k.INFLUENCE_SAVED_STONE
    let saved : Int → Int := fun ii =>
      if k.BOARDMIN ≤ ii ∧ ii < k.BOARDMAX ∧ e.IS_STONE (b.board ii) = true
          ∧ e.is_same_dragon ii aa = true then mark
      else acc.saved_stones ii
    let this_value : ℚ :=
      if ty = k.OWL_ATTACK_MOVE ∨ ty = k.OWL_DEFEND_MOVE then 0
      else if ty = k.OWL_ATTACK_MOVE_GOOD_KO ∨ ty = k.OWL_DEFEND_MOVE_GOOD_KO then
        2 * e.dragon_effective_size aa * 0.3
      else if ty = k.OWL_ATTACK_MOVE_BAD_KO ∨ ty = k.OWL_DEFEND_MOVE_BAD_KO then
        2 * e.dragon_effective_size aa * 0.5
      else 2 * e.dragon_effective_size aa
    some { acc with
      saved_stones := saved
      tot_value := acc.tot_value - this_value
      does_block := 1 }

/-- One round of the loop over the neighbours of the dragon in the case
`OWL_ATTACK_THREAT` (and in the case `STRATEGIC_ATTACK_MOVE` of
`estimate_strategical_value`): the variable `value` and the object tables
after the neighbour number `s` of the dragon at `aa`. -/
def critical_neighbor (cfg : Config) (k : Constants) (e : Engine) (t : Reasons)
    (pos color aa : Int) (st : Option (ℚ × Registry)) (s : Nat) : Option (ℚ × Registry) :=
  match st with
  | none => none
  | some (value, g) =>
    let d := e.DRAGON2_adjacent aa s
    let adj := e.dragon2_origin d
    if e.dragon_color adj = color ∧ e.dragon_matcher_status adj = k.CRITICAL
        ∧ e.dragon2_safety d ≠ k.INESSENTIAL then
      match find_dragon cfg g adj with
      | none => none
      | some (dr, g1) =>
        match owl_defense_move_reason_known cfg k t pos dr with
        | none => none
        | some known => if known = 0 then some (0, g1) else some (value, g1)
    else some (value, g)

/-- The case `OWL_ATTACK_THREAT` of the `switch` of
`estimate_territorial_value`. -/
def territorial_owl_attack_threat (cfg : Config) (k : Constants) (e : Engine) (t : Reasons)
    (pos color : Int) (acc : Territory) (what : Int) : Option Territory :=
  let aa := acc.registry.dragons what.toNat
  if e.dragon_matcher_status aa = k.DEAD then some acc
  else
    match (List.range (e.DRAGON2_neighbors aa).toNat).foldl
        (critical_neighbor cfg k e t pos color aa)
        (some (2 * e.dragon_effective_size aa, acc.registry)) with
    | none => none
    | some (value, g) =>
      if value > 0 then
        (add_followup_value cfg acc.moves pos value).map fun mv =>
          { acc with moves := mv, registry := g }
      else some { acc with registry := g }

/-- The case `OWL_PREVENT_THREAT` of the `switch` of
`estimate_territorial_value`. -/
def territorial_owl_prevent_threat (cfg : Config) (k : Constants) (e : Engine)
    (pos color : Int) (score : ℚ) (acc : Territory) (what : Int) : Option Territory :=
  let aa := acc.registry.dragons what.toNat
  if e.doing_scoring = 0 ∧ e.is_same_dragon e.last_move aa = true then
    some { acc with tot_value := acc.tot_value + 1.5 * e.dragon_effective_size aa }
  else if e.doing_scoring = 0
      ∧ ((color = k.BLACK ∧ score < 0) ∨ (color = k.WHITE ∧ score > 0)) then
    let this_value :=
      gg_max
        (gg_min (0.9 * e.dragon_effective_size aa)
          (gg_abs (score / 2) - ((cfg.board_size / 2 : Nat) : ℚ) - 1))
        0
    some { acc with tot_value := acc.tot_value + this_value }
  else
    (add_reverse_followup_value cfg acc.moves pos (2 * e.dragon_effective_size aa)).map
      fun mv => { acc with moves := mv }

/-- The body of the `switch` of `estimate_territorial_value` for a reason of
the kind `ty` with the object `what`; a kind without a case label leaves
everything as it is. -/
def territorial_case (cfg : Config) (k : Constants) (e : Engine) (b : Board) (t : Reasons)
    (pos color : Int) (score : ℚ) (acc : Territory) (ty what : Int) : Option Territory :=
  if ty = k.ATTACK_MOVE ∨ ty = k.ATTACK_MOVE_GOOD_KO ∨ ty = k.ATTACK_MOVE_BAD_KO then
    territorial_attack k e b pos color acc ty what
  else if ty = k.DEFEND_MOVE ∨ ty = k.DEFEND_MOVE_GOOD_KO ∨ ty = k.DEFEND_MOVE_BAD_KO then
    territorial_defend k e b pos color acc ty what
  else if ty = k.ATTACK_THREAT_MOVE then
    territorial_attack_threat cfg k e b pos color acc what
  else if ty = k.DEFEND_THREAT_MOVE then
    territorial_defend_threat cfg k e b pos color acc what
  else if ty = k.UNCERTAIN_OWL_DEFENSE then some acc
  else if ty = k.CONNECT_MOVE ∨ ty = k.CUT_MOVE ∨ ty = k.STRATEGIC_ATTACK_MOVE
      ∨ ty = k.STRATEGIC_DEFEND_MOVE ∨ ty = k.BLOCK_TERRITORY_MOVE then
    some { acc with does_block := 1 }
  else if ty = k.EXPAND_MOYO_MOVE ∨ ty = k.EXPAND_TERRITORY_MOVE then
    some { acc with does_block := 1 }
  else if ty = k.SEMEAI_MOVE then
    some { acc with
      tot_value := acc.tot_value
        + 2 * e.dragon_effective_size (acc.registry.dragons what.toNat) }
  else if ty = k.SEMEAI_THREAT then
    (add_followup_value cfg acc.moves pos
      (2 * e.dragon_effective_size (acc.registry.dragons what.toNat))).map fun mv =>
        { acc with moves := mv }
  else if ty = k.VITAL_EYE_MOVE then some acc
  else if ty = k.OWL_ATTACK_MOVE ∨ ty = k.OWL_ATTACK_MOVE_GOOD_KO
      ∨ ty = k.OWL_ATTACK_MOVE_BAD_KO ∨ ty = k.OWL_DEFEND_MOVE
      ∨ ty = k.OWL_DEFEND_MOVE_GOOD_KO ∨ ty = k.OWL_DEFEND_MOVE_BAD_KO then
    territorial_owl k e b acc ty what
  else if ty = k.OWL_ATTACK_THREAT then
    territorial_owl_attack_threat cfg k e t pos color acc what
  else if ty = k.OWL_DEFENSE_THREAT then
    (add_followup_value cfg acc.moves pos
      (2 * e.dragon_effective_size (acc.registry.dragons what.toNat))).map fun mv =>
        { acc with moves := mv }
  else if ty = k.OWL_PREVENT_THREAT then
    territorial_owl_prevent_threat cfg k e pos color score acc what
  else if ty = k.MY_ATARI_ATARI_MOVE then
    some { acc with
      does_block :=
        if e.influence_territory_color pos = e.OTHER_COLOR color then 1 else acc.does_block
      tot_value := acc.tot_value + (2 * (what : ℚ) + 3) }
  else if ty = k.YOUR_ATARI_ATARI_MOVE then
    some { acc with
      tot_value := acc.tot_value
        + (if e.influence_territory_color pos = color then 2 * (what : ℚ) + 3 + 7
           else 2 * (what : ℚ) + 3) }
  else some acc

/-- The loop over the reasons of `estimate_territorial_value`, entered at the
index `i` with `fuel` rounds to go. -/
def territorial_loop (cfg : Config) (k : Constants) (e : Engine) (b : Board) (t : Reasons)
    (pos color : Int) (score : ℚ) : Nat → Nat → Territory → Option Territory
  | 0, _, acc => some acc
  | fuel + 1, i, acc =>
    let r := t.reason pos i
    if r < 0 then some acc
    else if Int.land (t.move_reasons r.toNat).status k.TERRITORY_REDUNDANT ≠ 0 then
      territorial_loop cfg k e b t pos color score fuel (i + 1) acc
    else
      match territorial_case cfg k e b t pos color score acc (t.move_reasons r.toNat).type
          (t.move_reasons r.toNat).what with
      | none => none
      | some acc1 => territorial_loop cfg k e b t pos color score fuel (i + 1) acc1

/-- The part of `estimate_territorial_value` after the loop: the value that
is stored in `move[pos].territorial_value`, for the variables as the loop
leaves them. -/
def territorial_total (k : Constants) (e : Engine) (pos color : Int) (acc : Territory) : ℚ :=
  let saved_stones := Function.update acc.saved_stones pos
    (if acc.moves.move_safety pos = 1 then k.INFLUENCE_SAVED_STONE
     else k.INFLUENCE_CAPTURED_STONE)
  let this_value : ℚ :=
    if acc.does_block ≠ 0 then e.influence_delta_territory pos color saved_stones else 0
  let tot1 := acc.tot_value + this_value
  let tot2 :=
    if tot1 < acc.moves.min_territory pos ∧ acc.moves.min_territory pos > 0 then
      acc.moves.min_territory pos
    else tot1
  let tot3 := if tot2 > acc.moves.max_territory pos then acc.moves.max_territory pos else tot2
  if tot3 > 1 ∧ e.safe_move pos color ≠ k.WIN then tot3 - 1 else tot3

/-- The function `estimate_territorial_value`: the array `move[]` and the
object tables after the call. -/
def estimate_territorial_value (cfg : Config) (k : Constants) (e : Engine) (b : Board)
    (t : Reasons) (g : Registry) (mv : Moves) (pos color : Int) (score : ℚ) :
    Option (Moves × Registry) :=
  match territorial_loop cfg k e b t pos color score cfg.MAX_REASONS 0
      { tot_value := 0, secondary_value := 0, does_block := 0, saved_stones := fun _ => 0,
        moves := mv, registry := g } with
  | none => none
  | some acc =>
    some ({ acc.moves with
            territorial_value :=
              Function.update acc.moves.territorial_value pos (territorial_total k e pos color acc)
            secondary_value :=
              Function.update acc.moves.secondary_value pos
                (acc.moves.secondary_value pos + acc.secondary_value) },
          acc.registry)

/-! ### estimate_strategical_value -/

/-- The table `safety_values`. -/
def safety_values : List ℚ := [0.0, 0.9, 0.1, 1.0, 0.0, 0.4, 0.6, 0.8, 1.0, 1.0]

/-- The function `dragon_safety`. -/
def dragon_safety (k : Constants) (e : Engine) (dr : Int) (ignore_dead_dragons : Int) : ℚ :=
  let safety := e.DRAGON2_safety dr
  if ignore_dead_dragons ≠ 0
      ∧ (safety = k.DEAD ∨ safety = k.INESSENTIAL ∨ safety = k.TACTICALLY_DEAD) then 1.0
  else if safety = k.WEAK ∨ safety = k.WEAKLY_ALIVE then
    let escape := e.DRAGON2_escape_route dr
    let moyo := e.DRAGON2_moyo dr
    if escape < 10 ∧ moyo < 5 then 0.1
    else if escape < 15 ∧ moyo < 5 then 0.2
    else if escape < 10 ∧ moyo < 10 then 0.3
    else if escape < 5 ∧ moyo < 15 then 0.4
    else if escape < 15 ∧ moyo < 15 then 0.7
    else 0.9
  else safety_values.getD safety.toNat 0

/-- The table `impact_values`. -/
def impact_values : List (List ℚ) :=
  [ [0.0, 0.9, 0.0, 0.0, 0.0, 0.8, 0.85, 0.8, 0.95, 1.0],
    [0.0, 0.08, 0.05, 0.0, 0.0, 0.05, 0.07, 0.05, 0.09, 0.1],
    [0.0, 1.04, 0.85, 0.0, 0.0, 0.75, 0.9, 0.85, 1.08, 1.1],
    [0.0, 0.0, 0.0, 0.0, 0.0, 0.0, 0.0, 0.0, 0.0, 0.0],
    [0.0, 0.9, 0.0, 0.0, 0.0, 0.8, 0.85, 0.8, 0.95, 1.0],
    [0.1, 0.6, 0.25, 0.0, 0.0, 0.2, 0.25, 0.25, 0.65, 0.65],
    [0.0, 0.4, 0.3, 0.0, 0.0, 0.15, 0.2, 0.2, 0.45, 0.45],
    [0.0, 0.2, 0.15, 0.0, 0.0, 0.1, 0.15, 0.2, 0.25, 0.3],
    [0.0, 0.01, 0.01, 0.0, 0.0, 0.01, 0.01, 0.01, 0.01, 0.01],
    [0.0, 0.0, 0.0, 0.0, 0.0, 0.0, 0.0, 0.0, 0.0, 0.0] ]

/-- The table `cautious_impact_values`. -/
def cautious_impact_values : List (List ℚ) :=
  [ [0.3, 0.9, 0.0, 0.0, 0.0, 0.8, 0.85, 0.8, 0.95, 1.0],
    [0.0, 0.2, 0.05, 0.0, 0.0, 0.1, 0.15, 0.10, 0.2, 0.2],
    [0.0, 1.04, 0.85, 0.0, 0.0, 0.75, 0.9, 0.85, 1.08, 1.1],
    [0.1, 0.6, 0.0, 0.0, 0.0, 0.3, 0.5, 0.5, 0.6, 0.6],
    [0.2, 0.9, 0.0, 0.0, 0.0, 0.8, 0.85, 0.8, 0.95, 1.0],
    [0.1, 0.6, 0.25, 0.0, 0.0, 0.2, 0.25, 0.25, 0.65, 0.65],
    [0.0, 0.4, 0.3, 0.0, 0.0, 0.2, 0.2, 0.2, 0.45, 0.45],
    [0.0, 0.2, 0.15, 0.0, 0.0, 0.1, 0.15, 0.2, 0.25, 0.3],
    [0.0, 0.02, 0.01, 0.0, 0.0, 0.01, 0.01, 0.01, 0.02, 0.02],
    [0.0, 0.0, 0.0, 0.0, 0.0, 0.0, 0.0, 0.0, 0.0, 0.0] ]

/-- The cell `table[i][j]` of one of the two tables of impact values. -/
def impact_cell (table : List (List ℚ)) (i j : Int) : ℚ :=
  (table.getD i.toNat []).getD j.toNat 0

/-- The function `connection_value`; `mv` is the array `move[]`, of which the
function reads `move[tt].territorial_value`. -/
def connection_value (k : Constants) (e : Engine) (b : Board) (mv : Moves)
    (dragona dragonb tt : Int) (margin : ℚ) : ℚ :=
  let safety1 := e.DRAGON2_safety dragona
  let true_genus1 := 2 * e.DRAGON2_genus dragona + e.DRAGON2_heyes dragona
  let true_genus2 := 2 * e.DRAGON2_genus dragonb + e.DRAGON2_heyes dragonb
  let safety2 :=
    if true_genus1 < 4 ∧ true_genus2 < 4
        ∧ (true_genus1 + true_genus2 ≥ 4
          ∨ (true_genus1 + true_genus2 ≥ 3
            ∧ (e.DRAGON2_heye dragona = tt ∨ e.DRAGON2_heye dragonb = tt))) then k.ALIVE
    else e.DRAGON2_safety dragonb
  if safety2 = k.CRITICAL ∧ true_genus2 = 0 ∧ e.DRAGON2_moyo dragonb = 0 then 0.0
  else if e.doing_scoring ≠ 0 ∧ mv.territorial_value tt < 0
      ∧ safety1 = k.ALIVE ∧ (safety2 = k.STRONGLY_ALIVE ∨ safety2 = k.INVINCIBLE) then 0.0
  else if e.doing_scoring ≠ 0 ∧ mv.territorial_value tt < 0
      ∧ (safety1 = k.STRONGLY_ALIVE ∨ safety1 = k.INVINCIBLE)
      ∧ (safety2 = k.ALIVE ∨ safety2 = k.STRONGLY_ALIVE ∨ safety2 = k.INVINCIBLE) then 0.0
  else
    let impact : ℚ :=
      if e.doing_scoring ≠ 0 ∨ margin < 0 then impact_cell impact_values safety1 safety2
      else if margin > 20 then impact_cell cautious_impact_values safety1 safety2
      else 0.05 * margin * impact_cell cautious_impact_values safety1 safety2
        + (1 - 0.05 * margin) * impact_cell impact_values safety1 safety2
    let impact1 : ℚ :=
      if impact > 0 ∧ safety1 = k.INESSENTIAL ∧ e.is_self_atari tt (b.board dragona) = true
      then 0.0
      else impact
    impact1 * 2.0 * e.dragon_effective_size dragona

/-- One round of the loop of `adjusted_worm_attack_value`: the variables
`has_live_neighbor`, `adjustment_up` and `adjustment_down` after the
neighbour `adj`. -/
def worm_adjustment (k : Constants) (e : Engine) (pos ww : Int) (s : Int × ℚ × ℚ)
    (adj : Int) : Int × ℚ × ℚ :=
  let live :=
    if e.dragon_matcher_status adj = k.ALIVE ∨ e.dragon_matcher_status adj = k.CRITICAL then 1
    else s.1
  let up :=
    if e.dragon_matcher_status adj = k.DEAD ∧ 2 * e.dragon_effective_size adj > s.2.1 then
      2 * e.dragon_effective_size adj
    else s.2.1
  let down :=
    if e.worm_attack_code adj ≠ 0 ∧ e.does_defend pos ww = false
        ∧ 2 * e.worm_effective_size adj > s.2.2 then 2 * e.worm_effective_size adj
    else s.2.2
  (live, up, down)

/-- The function `adjusted_worm_attack_value`. -/
def adjusted_worm_attack_value (k : Constants) (e : Engine) (pos ww : Int) : ℚ :=
  let s := (e.chainlinks ww).foldl (worm_adjustment k e pos ww) (0, 0, 0)
  (if s.1 ≠ 0 then 2 * e.worm_effective_size ww + s.2.1 else 2 * e.worm_effective_size ww)
    - s.2.2

/-- The variables of `estimate_strategical_value` that live across the rounds
of its loops (`tot_value` and the static array `dragon_value`), with the
object tables. -/
structure Strategy where
  tot_value : ℚ
  dragon_value : Nat → ℚ
  registry : Registry

/-- The statement `if (this_value > dragon_value[d]) dragon_value[d] =
this_value;`. -/
def raise_dragon_value (dv : Nat → ℚ) (d : Nat) (this_value : ℚ) : Nat → ℚ :=
  if this_value > dv d then Function.update dv d this_value else dv

/-- The condition `dragon[aa].matcher_status != DEAD && dragon[aa].size ==
worm[aa].size && (attack_move_reason_known(pos, find_worm(aa)) ||
defense_move_reason_known(pos, find_worm(aa)))` of `estimate_strategical_value`
(the points of the dragon were counted in the territorial value), with the
object tables as its evaluation leaves them. -/
def single_worm_counted (cfg : Config) (k : Constants) (e : Engine) (t : Reasons)
    (g : Registry) (pos aa : Int) : Option (Int × Registry) :=
  if e.dragon_matcher_status aa ≠ k.DEAD ∧ e.dragon_size aa = e.worm_size aa then
    tactical_move_known cfg k t g pos aa
  else some (0, g)

/-- One round of the loop over the lunches in the cases of tactical attacks
and defenses of `estimate_strategical_value`, for the lunch number `l` and a
reason about the worm `worm1`. -/
def strategical_lunch (cfg : Config) (k : Constants) (e : Engine) (t : Reasons)
    (pos worm1 : Int) (st : Option Strategy) (l : Nat) : Option Strategy :=
  match st with
  | none => none
  | some acc =>
    if acc.registry.lunch_worm l = worm1 then
      let d1 := acc.registry.lunch_dragon l
      let bb := acc.registry.dragons d1.toNat
      let value1 : ℚ := e.dragon_effective_size bb * (1.0 - dragon_safety k e bb 0)
      match single_worm_counted cfg k e t acc.registry pos bb with
      | none => none
      | some (c, g1) =>
        let value2 : ℚ := if c ≠ 0 then 0.0 else value1
        let value3 : ℚ :=
          if e.worm_attack_code bb ≠ 0 ∧ e.does_defend pos bb = false then 0.0 else value2
        some { acc with
          dragon_value := raise_dragon_value acc.dragon_value d1.toNat value3
          registry := g1 }
    else some acc

/-- The cases of tactical attacks and defenses (`ATTACK_MOVE` to
`DEFEND_MOVE_BAD_KO`) of the `switch` of `estimate_strategical_value`. -/
def strategical_tactical (cfg : Config) (k : Constants) (e : Engine) (t : Reasons)
    (mv : Moves) (pos : Int) (acc : Strategy) (ty what : Int) : Option Strategy :=
  let worm1 := what
  let aa := acc.registry.worms worm1.toNat
  if e.worm_defend_code aa = 0 then some acc
  else if (ty = k.DEFEND_MOVE ∨ ty = k.DEFEND_MOVE_GOOD_KO ∨ ty = k.DEFEND_MOVE_BAD_KO)
      ∧ strategically_sound_defense mv aa pos = 0 then some acc
  else if (ty = k.ATTACK_MOVE ∨ ty = k.ATTACK_MOVE_GOOD_KO ∨ ty = k.ATTACK_MOVE_BAD_KO)
      ∧ mv.move_safety pos = 0 then some acc
  else
    let this_value : ℚ :=
      if e.worm_cutstone2 aa > 1 then 10.0 * ((e.worm_cutstone2 aa - 1 : Int) : ℚ) else 0.0
    let acc1 := { acc with tot_value := acc.tot_value + this_value }
    if e.DRAGON2_safety aa = k.INESSENTIAL ∨ e.worm_inessential aa ≠ 0 then some acc1
    else
      (List.range acc1.registry.next_lunch).foldl (strategical_lunch cfg k e t pos worm1)
        (some acc1)

/-- The cases `ATTACK_EITHER_MOVE` and `DEFEND_BOTH_MOVE` of the `switch` of
`estimate_strategical_value`. -/
def strategical_pair (cfg : Config) (k : Constants) (e : Engine) (t : Reasons) (pos : Int)
    (acc : Strategy) (ty what : Int) : Option Strategy :=
  let worm1 := acc.registry.worm_pair1 what.toNat
  let worm2 := acc.registry.worm_pair2 what.toNat
  let aa := acc.registry.worms worm1.toNat
  let bb := acc.registry.worms worm2.toNat
  if e.dragon_matcher_status aa = k.DEAD ∧ e.dragon_matcher_status bb = k.DEAD then some acc
  else
    let covered : Option Int :=
      if ty = k.ATTACK_EITHER_MOVE then
        match move_reason_known cfg t pos k.MY_ATARI_ATARI_MOVE (-1) with
        | none => none
        | some a =>
          if a ≠ 0 then some 1
          else if ty = k.DEFEND_BOTH_MOVE then
            move_reason_known cfg t pos k.YOUR_ATARI_ATARI_MOVE (-1)
          else some 0
      else if ty = k.DEFEND_BOTH_MOVE then
        move_reason_known cfg t pos k.YOUR_ATARI_ATARI_MOVE (-1)
      else some 0
    match covered with
    | none => none
    | some c =>
      if c ≠ 0 then some acc
      else
        let this_value : ℚ :=
          if ty = k.ATTACK_EITHER_MOVE then
            gg_min (adjusted_worm_attack_value k e pos aa) (adjusted_worm_attack_value k e pos bb)
          else 2 * gg_min (e.worm_effective_size aa) (e.worm_effective_size bb)
        some { acc with tot_value := acc.tot_value + this_value }

/-- The case `CUT_MOVE` of the `switch` of `estimate_strategical_value`, which
the case `CONNECT_MOVE` falls through to. -/
def strategical_cut (k : Constants) (e : Engine) (b : Board) (mv : Moves)
    (pos color : Int) (score : ℚ) (acc : Strategy) (what : Int) : Option Strategy :=
  if e.doing_scoring ≠ 0 ∧ mv.move_safety pos = 0 then some acc
  else
    let d1 := acc.registry.conn_dragon1 what.toNat
    let d2 := acc.registry.conn_dragon2 what.toNat
    let aa := acc.registry.dragons d1.toNat
    let bb := acc.registry.dragons d2.toNat
    let margin : ℚ :=
      if (color = k.WHITE ∧ score > 20) ∨ (color = k.BLACK ∧ score < -20) then gg_abs score
      else 0
    let dv1 := raise_dragon_value acc.dragon_value d1.toNat
      (connection_value k e b mv aa bb pos margin)
    let dv2 := raise_dragon_value dv1 d2.toNat (connection_value k e b mv bb aa pos margin)
    some { acc with dragon_value := dv2 }

/-- The case `VITAL_EYE_MOVE` of the `switch` of `estimate_strategical_value`:
nothing is valued, but the dragon of the eye space may enter the table of
dragons. -/
def strategical_vital_eye (cfg : Config) (k : Constants) (e : Engine) (t : Reasons)
    (pos : Int) (acc : Strategy) (what : Int) : Option Strategy :=
  let aa := acc.registry.eyes what.toNat
  let ecolor := acc.registry.eyecolor what.toNat
  let bb := if ecolor = k.WHITE then e.white_eye_dragon aa else e.black_eye_dragon aa
  if bb = cfg.NO_MOVE then some acc
  else
    match find_dragon cfg acc.registry bb with
    | none => none
    | some (d1, g1) =>
      match owl_defense_move_reason_known cfg k t pos d1 with
      | none => none
      | some a =>
        if a ≠ 0 then some { acc with registry := g1 }
        else
          match find_dragon cfg g1 bb with
          | none => none
          | some (d2, g2) =>
            match owl_attack_move_reason_known cfg k t pos d2 with
            | none => none
            | some _ => some { acc with registry := g2 }

/-- The cases `STRATEGIC_ATTACK_MOVE` and `STRATEGIC_DEFEND_MOVE` of the
`switch` of `estimate_strategical_value`. -/
def strategical_strategic (cfg : Config) (k : Constants) (e : Engine) (t : Reasons)
    (pos color : Int) (acc : Strategy) (ty what : Int) : Option Strategy :=
  let d1 := what
  let aa := acc.registry.dragons d1.toNat
  let this_value : ℚ := e.dragon_effective_size aa * (1.0 - dragon_safety k e aa 1) * 0.75
  let after : Option (ℚ × Registry) :=
    if ty = k.STRATEGIC_ATTACK_MOVE then
      (List.range (e.DRAGON2_neighbors aa).toNat).foldl
        (critical_neighbor cfg k e t pos color aa) (some (this_value, acc.registry))
    else some (this_value, acc.registry)
  match after with
  | none => none
  | some (value, g) =>
    some { acc with
      dragon_value := raise_dragon_value acc.dragon_value d1.toNat value
      registry := g }

/-- The case `UNCERTAIN_OWL_DEFENSE` of the `switch` of
`estimate_strategical_value`. -/
def strategical_uncertain (k : Constants) (e : Engine) (color : Int) (score : ℚ)
    (acc : Strategy) (what : Int) : Option Strategy :=
  let d1 := what
  let aa := acc.registry.dragons d1.toNat
  if (List.range (e.DRAGON2_neighbors aa).toNat).any fun d =>
      e.DRAGON_matcher_status (e.DRAGON2_adjacent aa d) == k.CRITICAL then some acc
  else
    let this_value : ℚ :=
      if (color = k.BLACK ∧ score > 0) ∨ (color = k.WHITE ∧ score < 0) then 0.0
      else gg_min (2 * e.dragon_effective_size aa) (gg_abs (score / 2))
    some { acc with dragon_value := raise_dragon_value acc.dragon_value d1.toNat this_value }

/-- The body of the `switch` of `estimate_strategical_value` for a reason of
the kind `ty` with the object `what`. -/
def strategical_case (cfg : Config) (k : Constants) (e : Engine) (b : Board) (t : Reasons)
    (mv : Moves) (pos color : Int) (score : ℚ) (acc : Strategy) (ty what : Int) :
    Option Strategy :=
  if ty = k.ATTACK_MOVE ∨ ty = k.ATTACK_MOVE_GOOD_KO ∨ ty = k.ATTACK_MOVE_BAD_KO
      ∨ ty = k.DEFEND_MOVE ∨ ty = k.DEFEND_MOVE_GOOD_KO ∨ ty = k.DEFEND_MOVE_BAD_KO then
    strategical_tactical cfg k e t mv pos acc ty what
  else if ty = k.ATTACK_THREAT_MOVE ∨ ty = k.DEFEND_THREAT_MOVE then some acc
  else if ty = k.ATTACK_EITHER_MOVE ∨ ty = k.DEFEND_BOTH_MOVE then
    strategical_pair cfg k e t pos acc ty what
  else if ty = k.CONNECT_MOVE then
    if mv.move_safety pos = 0 then some acc
    else strategical_cut k e b mv pos color score acc what
  else if ty = k.CUT_MOVE then strategical_cut k e b mv pos color score acc what
  else if ty = k.SEMEAI_MOVE then some acc
  else if ty = k.VITAL_EYE_MOVE then strategical_vital_eye cfg k e t pos acc what
  else if ty = k.STRATEGIC_ATTACK_MOVE ∨ ty = k.STRATEGIC_DEFEND_MOVE then
    strategical_strategic cfg k e t pos color acc ty what
  else if ty = k.UNCERTAIN_OWL_DEFENSE then strategical_uncertain k e color score acc what
  else some acc

/-- The first loop of `estimate_strategical_value`, over the reasons of the
point, entered at the index `i` with `fuel` rounds to go. -/
def strategical_loop (cfg : Config) (k : Constants) (e : Engine) (b : Board) (t : Reasons)
    (mv : Moves) (pos color : Int) (score : ℚ) : Nat → Nat → Strategy → Option Strategy
  | 0, _, acc => some acc
  | fuel + 1, i, acc =>
    let r := t.reason pos i
    if r < 0 then some acc
    else if Int.land (t.move_reasons r.toNat).status k.STRATEGICALLY_REDUNDANT ≠ 0 then
      strategical_loop cfg k e b t mv pos color score fuel (i + 1) acc
    else
      match strategical_case cfg k e b t mv pos color score acc (t.move_reasons r.toNat).type
          (t.move_reasons r.toNat).what with
      | none => none
      | some acc1 => strategical_loop cfg k e b t mv pos color score fuel (i + 1) acc1

/-- One round of the last loop of `estimate_strategical_value`, for the dragon
number `d` of the table (`k` in the source): what the value `dragon_value[d]`
adds to `tot_value`. -/
def strategical_dragon (cfg : Config) (k : Constants) (e : Engine) (t : Reasons) (pos : Int)
    (st : Option Strategy) (d : Nat) : Option Strategy :=
  match st with
  | none => none
  | some acc =>
    if acc.dragon_value d = 0 then some acc
    else
      let aa := acc.registry.dragons d
      match single_worm_counted cfg k e t acc.registry pos aa with
      | none => none
      | some (c, g1) =>
        if c ≠ 0 then some { acc with registry := g1 }
        else
          match c_or (c_or (owl_attack_move_reason_known cfg k t pos d)
              (owl_defense_move_reason_known cfg k t pos d))
              (move_reason_known cfg t pos k.SEMEAI_MOVE d) with
          | none => none
          | some owl =>
            if owl ≠ 0 then
              let excess_value : ℚ :=
                acc.dragon_value d - 2 * e.dragon_effective_size (g1.dragons d)
              if excess_value > 0 then
                some { acc with tot_value := acc.tot_value + excess_value, registry := g1 }
              else some { acc with registry := g1 }
            else
              some { acc with tot_value := acc.tot_value + acc.dragon_value d, registry := g1 }

/-- The function `estimate_strategical_value`: the array `move[]`, the object
tables and the static array `dragon_value` after the call. -/
def estimate_strategical_value (cfg : Config) (k : Constants) (e : Engine) (b : Board)
    (t : Reasons) (g : Registry) (dragon_value : Nat → ℚ) (mv : Moves) (pos color : Int)
    (score : ℚ) : Option (Moves × Registry × (Nat → ℚ)) :=
  match strategical_loop cfg k e b t mv pos color score cfg.MAX_REASONS 0
      { tot_value := 0
        dragon_value := fun d => if d < g.next_dragon then 0 else dragon_value d
        registry := g } with
  | none => none
  | some acc =>
    match (List.range acc.registry.next_dragon).foldl (strategical_dragon cfg k e t pos)
        (some acc) with
    | none => none
    | some acc1 =>
      some ({ mv with
              strategical_value := Function.update mv.strategical_value pos acc1.tot_value },
            acc1.registry, acc1.dragon_value)

/-! ### value_move_reasons and value_moves -/

/-- The loop of `is_antisuji_move`, entered at the index `i` with `fuel`
rounds to go. -/
def is_antisuji_move_loop (k : Constants) (t : Reasons) (pos : Int) : Nat → Nat → Int
  | 0, _ => 0
  | fuel + 1, i =>
    let r := t.reason pos i
    if r < 0 then 0
    else if (t.move_reasons r.toNat).type = k.ANTISUJI_MOVE then 1
    else is_antisuji_move_loop k t pos fuel (i + 1)

/-- The function `is_antisuji_move`. -/
def is_antisuji_move (cfg : Config) (k : Constants) (t : Reasons) (pos : Int) : Int :=
  is_antisuji_move_loop k t pos cfg.MAX_REASONS 0

/-- The function `compute_shape_factor`. -/
def compute_shape_factor (cfg : Config) (e : Engine) (mv : Moves) (pos : Int) : Option ℚ :=
  if cfg.ON_BOARD1 pos = false then none
  else
    let exponent0 : ℚ := mv.maxpos_shape pos - mv.maxneg_shape pos
    let exponent1 : ℚ :=
      if mv.numpos_shape pos > 1 then exponent0 + ((mv.numpos_shape pos - 1 : Int) : ℚ)
      else exponent0
    let exponent2 : ℚ :=
      if mv.numneg_shape pos > 1 then exponent1 - ((mv.numneg_shape pos - 1 : Int) : ℚ)
      else exponent1
    some (e.pow 1.05 exponent2)

/-- The first loop of `move_connects_strings`: the array `ss` after the
neighbour number `i`. -/
def neighbor_string (cfg : Config) (e : Engine) (b : Board) (pos : Int) (ss : List Int)
    (i : Nat) : List Int :=
  let ii := pos + e.delta i
  if e.ON_BOARD ii = false ∨ b.board ii = cfg.EMPTY then ss
  else if e.find_origin ii ∈ ss then ss
  else ss ++ [e.find_origin ii]

/-- The second loop of `move_connects_strings`: the variables `own_strings`
and `fewlibs` after the string `s`. -/
def string_bonus (e : Engine) (b : Board) (pos color : Int) (st : Int × Int) (s : Int) :
    Int × Int :=
  if b.board s = color then
    if e.approxlib pos color ≥ e.countlib s then
      (st.1 + 1,
        st.2 + (if e.countlib s ≤ 4 then 1 else 0) + (if e.countlib s ≤ 2 then 1 else 0))
    else (st.1 + 1, st.2)
  else (st.1, st.2 + (if e.countlib s ≤ 2 then 1 else 0) + (if e.countlib s ≤ 1 then 1 else 0))

/-- The function `move_connects_strings`. -/
def move_connects_strings (cfg : Config) (e : Engine) (b : Board) (pos color : Int) : Int :=
  let ss := (List.range 4).foldl (neighbor_string cfg e b pos) []
  let st := ss.foldl (string_bonus e b pos color) (0, 0)
  let fewlibs := if st.2 > 4 then 4 else st.2
  let own_strings := if fewlibs = 0 ∧ st.1 = 1 then 0 else st.1
  own_strings + fewlibs

/-- The function `compare_move_reasons` on two handles. -/
def compare_move_reasons (t : Reasons) (mr1 mr2 : Int) : Int :=
  if (t.move_reasons mr1.toNat).type ≠ (t.move_reasons mr2.toNat).type then
    (t.move_reasons mr2.toNat).type - (t.move_reasons mr1.toNat).type
  else (t.move_reasons mr2.toNat).what - (t.move_reasons mr1.toNat).what

/-- The loop `while (move[pos].reason[num_reasons] >= 0) num_reasons++;` of
`value_move_reasons`, entered with `num_reasons = n` and `fuel` cells of the
array left: the final `num_reasons`, or `none` when the loop reads past the
end of the array. -/
def count_reasons (row : Nat → Int) : Nat → Nat → Option Nat
  | 0, _ => none
  | fuel + 1, n => if row n ≥ 0 then count_reasons row fuel (n + 1) else some n

/-- The call of `gg_sort` in `value_move_reasons`: the first `num_reasons`
cells of `move[pos].reason` are put in the order of `compare_move_reasons`.
The sorting function is part of the utility library; handles that compare
equal are left here in the order of an insertion sort. -/
def sort_reasons (t : Reasons) (pos : Int) (num_reasons : Nat) : Reasons :=
  let sorted := List.insertionSort (fun a b => compare_move_reasons t a b ≤ 0)
    ((List.range num_reasons).map (t.reason pos))
  { t with
    reason := Function.update t.reason pos fun i =>
      if i < num_reasons then sorted.getD i (-1) else t.reason pos i }

/-- The static data of the module that the valuation of a point works on: the
reason lists, the object tables, the array `move[]` and the array
`dragon_value` of `estimate_strategical_value`. -/
structure Valuation where
  reasons : Reasons
  registry : Registry
  moves : Moves
  dragon_value : Nat → ℚ

/-- The block of `value_move_reasons` for a point with a reason or a minimum
territory: the reasons are counted and sorted, redundant ones are flagged, and
the territorial and the strategical value are estimated. -/
def estimate_values (cfg : Config) (k : Constants) (e : Engine) (b : Board) (s : Valuation)
    (pos color : Int) (score : ℚ) : Option Valuation :=
  match count_reasons (s.reasons.reason pos) cfg.MAX_REASONS 0 with
  | none => none
  | some num_reasons =>
    match discard_redundant_move_reasons cfg k e b (sort_reasons s.reasons pos num_reasons)
        s.registry pos with
    | none => none
    | some (t1, g1) =>
      match estimate_territorial_value cfg k e b t1 g1 s.moves pos color score with
      | none => none
      | some (mv2, g2) =>
        match estimate_strategical_value cfg k e b t1 g2 s.dragon_value mv2 pos color score with
        | none => none
        | some (mv3, g3, dv3) =>
          some { reasons := t1, registry := g3, moves := mv3, dragon_value := dv3 }

/-- The variable `tot_value` of `value_move_reasons` and the array `move[]`
after the branch `if (tot_value > 0.0) ... else ...`, entered with
`tot_value` = `tot`. -/
def followup_adjustment (cfg : Config) (e : Engine) (b : Board) (mv : Moves)
    (pos color : Int) (shape_factor tot : ℚ) : ℚ × Moves :=
  if tot > 0 then
    let first : ℚ × ℚ :=
      if tot ≥ 0.5 ∨ mv.reverse_followup_value pos ≥ 1.0 then
        let contribution :=
          gg_min
            (gg_min (0.5 * mv.followup_value pos + 0.5 * mv.reverse_followup_value pos)
              (1.0 * tot + mv.followup_value pos))
            (1.1 * tot + mv.reverse_followup_value pos)
        let ako := mv.followup_value pos + mv.reverse_followup_value pos
          - (tot + contribution - tot)
        (tot + contribution, if ako < 0 then 0.0 else ako)
      else (tot, shape_factor * (mv.followup_value pos + mv.reverse_followup_value pos))
    let tot1 := first.1 + 0.05 * mv.secondary_value pos
    let tot2 := if mv.numpos_shape pos + mv.numneg_shape pos > 0 then tot1 * shape_factor else tot1
    let c := move_connects_strings cfg e b pos color
    let tot3 :=
      if c > 0 then tot2 + gg_max (gg_min tot2 5.0) 1.0 * (e.pow 1.02 (c : ℚ) - 1) else tot2
    (tot3, { mv with additional_ko_value := Function.update mv.additional_ko_value pos first.2 })
  else
    (tot,
      { mv with
        additional_ko_value := Function.update mv.additional_ko_value pos
          (shape_factor * (mv.followup_value pos
            + gg_min (mv.followup_value pos) (mv.reverse_followup_value pos))) })

/-- The pure threat adjustment of `value_move_reasons`: the variable
`tot_value` after it. -/
def threat_adjusted (cfg : Config) (c : Referee) (b : Board) (mv : Moves) (pos color : Int)
    (pure_threat_value tot : ℚ) : ℚ :=
  if pure_threat_value > 0 ∧ mv.worthwhile_threat pos ≠ 0 ∧ tot ≤ pure_threat_value
      ∧ b.board pos = cfg.EMPTY ∧ mv.additional_ko_value pos > 0
      ∧ c.is_legal pos color = true ∧ c.move_reasons_confirm_safety pos color 0 = true then
    let new_tot_value := gg_min pure_threat_value (tot + 0.25 * mv.additional_ko_value pos)
      * (1.0 - 0.1 * (pure_threat_value - tot) / pure_threat_value)
    if new_tot_value > tot then new_tot_value else tot
  else tot

/-- The end of `value_move_reasons`: the bounds `min_value` and `max_value`
are put in order and applied; the result is the value returned with the array
`move[]`.  The call of `move_considered`, which records the value for the
trace output, is left out. -/
def bound_value (mv : Moves) (pos : Int) (tot : ℚ) : ℚ × Moves :=
  let max1 := if mv.min_value pos > mv.max_value pos then mv.min_value pos else mv.max_value pos
  let min1 := if mv.min_value pos < 25 then mv.min_value pos + tot / 200 else mv.min_value pos
  let tot1 := if tot < min1 ∧ min1 > 0 then min1 else tot
  let tot2 := if tot1 > max1 then max1 else tot1
  (tot2,
    { mv with
      max_value := Function.update mv.max_value pos max1
      min_value := Function.update mv.min_value pos min1 })

/-- The function `value_move_reasons`: the static data after the call and the
value returned. -/
def value_move_reasons (cfg : Config) (k : Constants) (e : Engine) (c : Referee) (b : Board)
    (s : Valuation) (pos color : Int) (pure_threat_value score : ℚ) :
    Option (Valuation × ℚ) :=
  if b.stackp ≠ 0 then none
  else if is_antisuji_move cfg k s.reasons pos ≠ 0 then some (s, 0.0)
  else
    let estimated : Option Valuation :=
      if (e.urgent = 0 ∨ e.allpats ≠ 0)
          ∧ (s.reasons.reason pos 0 ≥ 0 ∨ s.moves.min_territory pos > 0) then
        estimate_values cfg k e b s pos color score
      else some s
    match estimated with
    | none => none
    | some s1 =>
      match compute_shape_factor cfg e s1.moves pos with
      | none => none
      | some shape_factor =>
        let adjusted := followup_adjustment cfg e b s1.moves pos color shape_factor
          (s1.moves.territorial_value pos + s1.moves.strategical_value pos)
        let tot := threat_adjusted cfg c b adjusted.2 pos color pure_threat_value adjusted.1
        let bounded := bound_value adjusted.2 pos tot
        some ({ s1 with moves := bounded.2 }, bounded.1)

/-- The points in the order of the loops of `value_moves`,
`for (n = 0; n < board_size; n++) for (m = board_size-1; m >= 0; m--)`, with
`pos = POS(m, n)`. -/
def value_points (cfg : Config) : List Int :=
  (List.range cfg.board_size).flatMap fun n =>
    (List.range cfg.board_size).reverse.map fun m => cfg.POS m n

/-- The body of the loops of `value_moves` at the point `pos`. -/
def value_point (cfg : Config) (k : Constants) (e : Engine) (c : Referee) (b : Board)
    (color : Int) (pure_threat_value score : ℚ) (st : Option Valuation) (pos : Int) :
    Option Valuation :=
  match st with
  | none => none
  | some s =>
    match value_move_reasons cfg k e c b s pos color pure_threat_value score with
    | none => none
    | some (s1, v) =>
      if v = 0 then
        some { s1 with moves := { s1.moves with value := Function.update s1.moves.value pos v } }
      else if c.is_legal pos color || c.is_illegal_ko_capture pos color then
        some { s1 with
          moves := { s1.moves with
            value := Function.update s1.moves.value pos (v + 0.01 * s1.moves.random_number pos) } }
      else
        some { s1 with
          moves := { s1.moves with value := Function.update s1.moves.value pos 0.0 } }

/-- The function `value_moves`. -/
def value_moves (cfg : Config) (k : Constants) (e : Engine) (c : Referee) (b : Board)
    (s : Valuation) (color : Int) (pure_threat_value score : ℚ) : Option Valuation :=
  (value_points cfg).foldl (value_point cfg k e c b color pure_threat_value score) (some s)

/-- The reason list of `pos` contains a reason of the kind `ANTISUJI_MOVE`. -/
def has_antisuji (cfg : Config) (k : Constants) (t : Reasons) (pos : Int) : Prop :=
  ∃ i, i < reason_count cfg t pos
    ∧ (t.move_reasons (t.reason pos i).toNat).type = k.ANTISUJI_MOVE

instance (cfg : Config) (k : Constants) (t : Reasons) (pos : Int) :
    Decidable (has_antisuji cfg k t pos) := by
  unfold has_antisuji; infer_instance

/-- The reason lists `t1` differ from `t` in status flags at most: the lists
of handles, the counter and the kind and object of every record agree. -/
def SameReasons (t t1 : Reasons) : Prop :=
  t1.reason = t.reason ∧ t1.next_reason = t.next_reason
    ∧ ∀ r, (t1.move_reasons r).type = (t.move_reasons r).type
      ∧ (t1.move_reasons r).what = (t.move_reasons r).what

/-- The array `mv1` differs from `mv` at most in the fields `followup_value`
and `reverse_followup_value` of the point `pos`. -/
def FollowupOnly (pos : Int) (mv mv1 : Moves) : Prop :=
  mv1 = { mv with
          followup_value := mv1.followup_value
          reverse_followup_value := mv1.reverse_followup_value }
    ∧ (∀ q, q ≠ pos → mv1.followup_value q = mv.followup_value q)
    ∧ (∀ q, q ≠ pos → mv1.reverse_followup_value q = mv.reverse_followup_value q)

/-! ### A sample position for the valuation -/

/-- A choice of values for the header constants: the kinds of reasons are
numbered from 1 in the order of the fields, the statuses of dragons from 0 in
the order of the rows of `safety_values`, the flags are single bits. -/
def sample_constants : Constants where
  ATTACK_MOVE := 1
  ATTACK_MOVE_GOOD_KO := 2
  ATTACK_MOVE_BAD_KO := 3
  ATTACK_THREAT_MOVE := 4
  DEFEND_MOVE := 5
  DEFEND_MOVE_GOOD_KO := 6
  DEFEND_MOVE_BAD_KO := 7
  DEFEND_THREAT_MOVE := 8
  CONNECT_MOVE := 9
  CUT_MOVE := 10
  ANTISUJI_MOVE := 11
  SEMEAI_MOVE := 12
  SEMEAI_THREAT := 13
  VITAL_EYE_MOVE := 14
  ATTACK_EITHER_MOVE := 15
  DEFEND_BOTH_MOVE := 16
  BLOCK_TERRITORY_MOVE := 17
  EXPAND_TERRITORY_MOVE := 18
  EXPAND_MOYO_MOVE := 19
  STRATEGIC_ATTACK_MOVE := 20
  STRATEGIC_DEFEND_MOVE := 21
  OWL_ATTACK_MOVE := 22
  OWL_ATTACK_MOVE_GOOD_KO := 23
  OWL_ATTACK_MOVE_BAD_KO := 24
  OWL_ATTACK_THREAT := 25
  OWL_DEFEND_MOVE := 26
  OWL_DEFEND_MOVE_GOOD_KO := 27
  OWL_DEFEND_MOVE_BAD_KO := 28
  OWL_DEFENSE_THREAT := 29
  UNCERTAIN_OWL_DEFENSE := 30
  OWL_PREVENT_THREAT := 31
  MY_ATARI_ATARI_MOVE := 32
  YOUR_ATARI_ATARI_MOVE := 33
  TERRITORY_REDUNDANT := 1
  STRATEGICALLY_REDUNDANT := 2
  REDUNDANT := 3
  DEAD := 0
  ALIVE := 1
  CRITICAL := 2
  INESSENTIAL := 3
  TACTICALLY_DEAD := 4
  WEAK := 5
  WEAKLY_ALIVE := 6
  STRONGLY_ALIVE := 8
  INVINCIBLE := 9
  WIN := 5
  BLACK := 2
  WHITE := 1
  INFLUENCE_SAVED_STONE := 1
  INFLUENCE_CAPTURED_STONE := 2
  BOARDMIN := 4
  BOARDMAX := 9

/-- A position on the 2 by 2 board: white stones on the points 4 and 5, each a
worm of effective size 3 in a living dragon of two stones; the worm at 4 has
no defense, the worm at 5 has one.  The influence of a move is nothing, every
move is safe, no stone can be tried, and `pow` answers 1, its value for the
exponent 0 that occurs without shape values. -/
def sample_engine : Engine where
  urgent := 0
  allpats := 0
  doing_scoring := 0
  last_move := 0
  OTHER_COLOR := fun color => 3 - color
  IS_STONE := fun color => color == 1 || color == 2
  ON_BOARD := small.ON_BOARD1
  delta := fun i => if i = 0 then 3 else if i = 1 then -1 else if i = 2 then -3 else 1
  worm_effective_size := fun _ => 3
  worm_size := fun _ => 1
  worm_attack_code := fun _ => 1
  worm_defend_code := fun p => if p = 4 then 0 else 1
  worm_cutstone2 := fun _ => 0
  worm_inessential := fun _ => 0
  dragon_effective_size := fun _ => 3
  dragon_size := fun _ => 2
  dragon_color := fun _ => 1
  dragon_matcher_status := fun _ => 1
  DRAGON2_safety := fun _ => 1
  DRAGON2_neighbors := fun _ => 0
  DRAGON2_adjacent := fun _ _ => 0
  DRAGON2_genus := fun _ => 0
  DRAGON2_heyes := fun _ => 0
  DRAGON2_heye := fun _ => 0
  DRAGON2_moyo := fun _ => 0
  DRAGON2_escape_route := fun _ => 0
  dragon2_origin := fun _ => 4
  dragon2_safety := fun _ => 1
  DRAGON_matcher_status := fun _ => 1
  white_eye_dragon := fun _ => 0
  black_eye_dragon := fun _ => 0
  chainlinks := fun _ => []
  does_defend := fun _ _ => false
  is_self_atari := fun _ _ => false
  is_ko_point := fun _ => false
  is_same_dragon := fun a b => (a == 4 || a == 5) && (b == 4 || b == 5)
  mark_string := fun str mx mark => Function.update mx str mark
  influence_territory_color := fun _ => 0
  influence_delta_territory := fun _ _ _ => 0
  safe_move := fun _ _ => 5
  trymove := fun _ _ => none
  find_origin := fun p => p
  approxlib := fun _ _ => 2
  countlib := fun _ => 2
  pow := fun _ _ => 1

/-- The board of the sample position outside of any trial move: white stones
(colour 1) on the points 4 and 5, the points 7 and 8 vacant. -/
def sample_board : Board where
  stackp := 0
  board := fun p => if p = 4 ∨ p = 5 then 1 else 0
  dragon_origin := fun _ => 4
  worm_origin := fun p => p

/-- The array `move[]` of the sample position: every move is marked safe, the
upper bounds are 1000, everything else is 0. -/
def sample_fields : Moves :=
  { zero_moves with
    move_safety := fun _ => 1
    max_value := fun _ => 1000
    max_territory := fun _ => 1000 }

/-- Reason lists on the 2 by 2 board: the point 7 has the single reason
`ATTACK_MOVE` on the worm number 0; the point 8 has an `ANTISUJI_MOVE` reason
and the reason `ATTACK_MOVE_GOOD_KO` on the worm number 1. -/
def sample_reasons : Reasons :=
  new_entry small
    (new_entry small (new_entry small small_fresh.reasons 7 1 0 0) 8 11 0 0) 8 2 1 1

/-- The static data of the sample position: the worms number 0 and 1 are the
stones at 4 and 5. -/
def sample_valuation : Valuation where
  reasons := sample_reasons
  registry := two_worms
  moves := sample_fields
  dragon_value := fun _ => 0

/-- The kinds of reasons for which the last loop of
`estimate_strategical_value` takes a dragon as counted already in the
territorial value: the owl attacks, the owl defenses and `SEMEAI_MOVE`. -/
def counted_kinds (k : Constants) : List Int :=
  [k.OWL_ATTACK_MOVE, k.OWL_ATTACK_MOVE_GOOD_KO, k.OWL_ATTACK_MOVE_BAD_KO,
   k.OWL_DEFEND_MOVE, k.OWL_DEFEND_MOVE_GOOD_KO, k.OWL_DEFEND_MOVE_BAD_KO, k.SEMEAI_MOVE]

/-- The object tables of the 2 by 2 board with the stone at 4 as the dragon
number 0. -/
def one_dragon : Registry :=
  { small_fresh.registry with
    dragons := Function.update small_fresh.registry.dragons 0 4
    next_dragon := 1 }

/-- Reason lists on the 2 by 2 board: the point 7 has the single reason
`OWL_ATTACK_MOVE` on the dragon number 0. -/
def owl_reasons : Reasons := new_entry small small_fresh.reasons 7 22 0 0

/-- The variables of `estimate_strategical_value` before its last loop, with
the value 10 found for the dragon number 0 and the total 1 so far. -/
def owl_strategy : Strategy where
  tot_value := 1
  dragon_value := fun d => if d = 0 then 10 else 0
  registry := one_dragon

/-- The handles of the reason list of `pos`, in order. -/
def reason_handles (cfg : Config) (t : Reasons) (pos : Int) : List Int :=
  (List.range (reason_count cfg t pos)).map (t.reason pos)

/-- The `switch` of `estimate_territorial_value` applied to the record with
the handle `r`, after rounds that may have stopped at an assertion. -/
def territorial_step (cfg : Config) (k : Constants) (e : Engine) (b : Board) (t : Reasons)
    (pos color : Int) (score : ℚ) (st : Option Territory) (r : Int) : Option Territory :=
  match st with
  | none => none
  | some acc =>
    territorial_case cfg k e b t pos color score acc (t.move_reasons r.toNat).type
      (t.move_reasons r.toNat).what

/-- The `switch` of `estimate_strategical_value` applied to the record with
the handle `r`, after rounds that may have stopped at an assertion. -/
def strategical_step (cfg : Config) (k : Constants) (e : Engine) (b : Board) (t : Reasons)
    (mv : Moves) (pos color : Int) (score : ℚ) (st : Option Strategy) (r : Int) :
    Option Strategy :=
  match st with
  | none => none
  | some acc =>
    strategical_case cfg k e b t mv pos color score acc (t.move_reasons r.toNat).type
      (t.move_reasons r.toNat).what

/-- The sample position with every worm marked inessential. -/
def inessential_engine : Engine := { sample_engine with worm_inessential := fun _ => 1 }

/-- Reason lists on the 2 by 2 board: the point 7 has the single reason
`ATTACK_MOVE_GOOD_KO` on the worm number 1, with the status `ACTIVE`. -/
def ko_attack_reasons : Reasons := new_entry small small_fresh.reasons 7 2 1 0

/-- The sample position with a neighbour: every string has the string at 8,
of effective size 5, as its only neighbour. -/
def crowded_engine : Engine :=
  { sample_engine with
    chainlinks := fun _ => [8]
    worm_effective_size := fun p => if p = 8 then 5 else 3 }

/-- The object tables of the sample position with the worms number 0 and 1 as
the worm pair number 0. -/
def pair_registry : Registry :=
  { two_worms with
    worm_pair1 := Function.update two_worms.worm_pair1 0 0
    worm_pair2 := Function.update two_worms.worm_pair2 0 1
    next_worm_pair := 1 }

/-- Reason lists on the 2 by 2 board: the point 7 has the reason `ATTACK_MOVE`
on the worm number 0 and the reason `ATTACK_EITHER_MOVE` on the worm pair
number 0, both with the status `ACTIVE`. -/
def either_reasons : Reasons :=
  new_entry small (new_entry small small_fresh.reasons 7 1 0 0) 7 15 0 1

/-! ### The fields of move[] between clear_move_reasons and the valuation -/

/-- The assignments of `clear_move_reasons` to the scalar fields of
`move[ii]`, the part of the loop body that `clear_point` leaves out.
`HUGE_MOVE_VALUE` is a constant of `move_reasons.h`, and `gg_drand ii` stands
for the number that the call of `gg_drand()` for the point `ii` returns. -/
def clear_move_data (HUGE_MOVE_VALUE : ℚ) (gg_drand : Int → ℚ) (mv : Moves) (ii : Int) :
    Moves where
  value := Function.update mv.value ii 0.0
  final_value := Function.update mv.final_value ii 0.0
  additional_ko_value := Function.update mv.additional_ko_value ii 0.0
  territorial_value := Function.update mv.territorial_value ii 0.0
  strategical_value := Function.update mv.strategical_value ii 0.0
  maxpos_shape := Function.update mv.maxpos_shape ii 0.0
  numpos_shape := Function.update mv.numpos_shape ii 0
  maxneg_shape := Function.update mv.maxneg_shape ii 0.0
  numneg_shape := Function.update mv.numneg_shape ii 0
  followup_value := Function.update mv.followup_value ii 0.0
  reverse_followup_value := Function.update mv.reverse_followup_value ii 0.0
  secondary_value := Function.update mv.secondary_value ii 0.0
  min_value := Function.update mv.min_value ii 0.0
  max_value := Function.update mv.max_value ii HUGE_MOVE_VALUE
  min_territory := Function.update mv.min_territory ii 0.0
  max_territory := Function.update mv.max_territory ii HUGE_MOVE_VALUE
  move_safety := Function.update mv.move_safety ii 0
  worthwhile_threat := Function.update mv.worthwhile_threat ii 0
  random_number := Function.update mv.random_number ii (gg_drand ii)

/-- The array `move[]` after `clear_move_reasons`. -/
def clear_moves (cfg : Config) (HUGE_MOVE_VALUE : ℚ) (gg_drand : Int → ℚ) (mv : Moves) :
    Moves :=
  (board_points cfg).foldl (clear_move_data HUGE_MOVE_VALUE gg_drand) mv

/-- The function `add_shape_value`. -/
def add_shape_value (cfg : Config) (mv : Moves) (pos : Int) (value : ℚ) : Option Moves :=
  if cfg.ON_BOARD1 pos = false then none
  else if value > 0 then
    some { mv with
      maxpos_shape :=
        if value > mv.maxpos_shape pos then Function.update mv.maxpos_shape pos value
        else mv.maxpos_shape
      numpos_shape := Function.update mv.numpos_shape pos (mv.numpos_shape pos + 1) }
  else if value < 0 then
    some { mv with
      maxneg_shape :=
        if -value > mv.maxneg_shape pos then Function.update mv.maxneg_shape pos (-value)
        else mv.maxneg_shape
      numneg_shape := Function.update mv.numneg_shape pos (mv.numneg_shape pos + 1) }
  else some mv

/-- The function `set_minimum_move_value`. -/
def set_minimum_move_value (cfg : Config) (mv : Moves) (pos : Int) (value : ℚ) :
    Option Moves :=
  if cfg.ON_BOARD1 pos = false then none
  else if value > mv.min_value pos then
    some { mv with min_value := Function.update mv.min_value pos value }
  else some mv

/-- The function `set_maximum_move_value`. -/
def set_maximum_move_value (cfg : Config) (mv : Moves) (pos : Int) (value : ℚ) :
    Option Moves :=
  if cfg.ON_BOARD1 pos = false then none
  else if value < mv.max_value pos then
    some { mv with max_value := Function.update mv.max_value pos value }
  else some mv

/-- The function `set_minimum_territorial_value`. -/
def set_minimum_territorial_value (cfg : Config) (mv : Moves) (pos : Int) (value : ℚ) :
    Option Moves :=
  if cfg.ON_BOARD1 pos = false then none
  else if value > mv.min_territory pos then
    some { mv with min_territory := Function.update mv.min_territory pos value }
  else some mv

/-- The function `set_maximum_territorial_value`. -/
def set_maximum_territorial_value (cfg : Config) (mv : Moves) (pos : Int) (value : ℚ) :
    Option Moves :=
  if cfg.ON_BOARD1 pos = false then none
  else if value < mv.max_territory pos then
    some { mv with max_territory := Function.update mv.max_territory pos value }
  else some mv

/-- A run of calls `f(pos, v_1)`, ..., `f(pos, v_n)` of one of the functions
above, in the order of the list; the run stops at a failed assertion. -/
def run_values (f : Moves → Int → ℚ → Option Moves) (pos : Int) :
    Moves → List ℚ → Option Moves
  | mv, [] => some mv
  | mv, v :: rest =>
    match f mv pos v with
    | none => none
    | some mv1 => run_values f pos mv1 rest

/-- The array `move[]` on the 2 by 2 board after `clear_move_reasons` (with
`HUGE_MOVE_VALUE` = 1000), `set_minimum_territorial_value(7, 5)` and
`set_maximum_territorial_value(7, 3)`: the two bounds of the point 7
contradict each other. -/
def contradictory_territory : Option Moves :=
  (set_minimum_territorial_value small (clear_moves small 1000 (fun _ => 0) zero_moves) 7 5).bind
    fun mv => set_maximum_territorial_value small mv 7 3

/-- The expression `contribution` of `value_move_reasons`: what the followup
and the reverse followup value add to a total `tot` in the branch
`tot_value >= 0.5 || move[pos].reverse_followup_value >= 1.0`. -/
def contribution (mv : Moves) (pos : Int) (tot : ℚ) : ℚ :=
  gg_min
    (gg_min (0.5 * mv.followup_value pos + 0.5 * mv.reverse_followup_value pos)
      (1.0 * tot + mv.followup_value pos))
    (1.1 * tot + mv.reverse_followup_value pos)

/-- The lines of `value_move_reasons` between the followup contribution and
the pure threat adjustment, for the total `tot1` after the contribution: the
secondary value, the shape factor and the bonus for connecting strings. -/
def after_contribution (cfg : Config) (e : Engine) (b : Board) (mv : Moves)
    (pos color : Int) (shape_factor tot1 : ℚ) : ℚ :=
  let tot2 := tot1 + 0.05 * mv.secondary_value pos
  let tot3 := if mv.numpos_shape pos + mv.numneg_shape pos > 0 then tot2 * shape_factor else tot2
  if move_connects_strings cfg e b pos color > 0 then
    tot3 + gg_max (gg_min tot3 5.0) 1.0
      * (e.pow 1.02 (move_connects_strings cfg e b pos color : ℚ) - 1)
  else tot3

/-- The array `move[]` of the sample position with a followup value of 1 at
the point 7, which is flagged as a worthwhile threat. -/
def threat_fields : Moves :=
  { sample_fields with
    followup_value := fun p => if p = 7 then 1 else 0
    worthwhile_threat := fun p => if p = 7 then 1 else 0 }

/-- The static data of the sample position when the point 7 has the single
reason `ATTACK_MOVE_GOOD_KO` on the worm at 5 and is a worthwhile threat with
the followup value 1. -/
def threat_valuation : Valuation where
  reasons := ko_attack_reasons
  registry := two_worms
  moves := threat_fields
  dragon_value := fun _ => 0

/-- The array `move[]` on the 2 by 2 board after `clear_move_reasons` (with
`HUGE_MOVE_VALUE` = 1000) and `set_minimum_move_value(7, 1)`, with every move
marked safe. -/
def minimum_fields : Option Moves :=
  (set_minimum_move_value small (clear_moves small 1000 (fun _ => 0) zero_moves) 7 1).map
    fun mv => { mv with move_safety := fun _ => 1 }

/-- The static data of the sample position with the single reason
`ATTACK_MOVE_GOOD_KO` of the point 7 and the minimum value 1 set for that
point. -/
def minimum_valuation : Option Valuation :=
  minimum_fields.map fun mv =>
    { reasons := ko_attack_reasons, registry := two_worms, moves := mv,
      dragon_value := fun _ => 0 }

/-- The variables `tot_value` and `does_block` of `estimate_territorial_value`
after the `switch` has handled one reason of the kind `ty` about the object
number `what`. -/
def case_total (cfg : Config) (k : Constants) (e : Engine) (b : Board) (t : Reasons)
    (pos color : Int) (score : ℚ) (acc : Territory) (ty what : Int) : Option (ℚ × Int) :=
  (territorial_case cfg k e b t pos color score acc ty what).map fun a =>
    (a.tot_value, a.does_block)

/-- The variables of `estimate_territorial_value` before its loop in the
sample position. -/
def sample_territory : Territory :=
  { tot_value := 0, secondary_value := 0, does_block := 0, saved_stones := fun _ => 0,
    moves := sample_fields, registry := two_worms }

/-- The sample position with the dragon at 5 a single stone in a ko. -/
def ko_stone_engine : Engine :=
  { sample_engine with
    dragon_size := fun _ => 1
    is_ko_point := fun p => p == 5 }

/-- The object tables of the sample position with the dragon at 5 as the
dragon number 0. -/
def ko_stone_registry : Registry :=
  { two_worms with
    dragons := Function.update two_worms.dragons 0 5
    next_dragon := 1 }

/-- The sample position with a function `pow` that is exact for exponents
that are natural numbers (the fraction of the exponent is discarded). -/
def power_engine : Engine :=
  { sample_engine with pow := fun base x => base ^ (to_int x).toNat }

/-- The array `mv` with the shape aggregates (`maxpos_shape`, `numpos_shape`,
`maxneg_shape`, `numneg_shape`) of the array `sh`. -/
def with_shape (mv sh : Moves) : Moves :=
  { mv with
    maxpos_shape := sh.maxpos_shape
    numpos_shape := sh.numpos_shape
    maxneg_shape := sh.maxneg_shape
    numneg_shape := sh.numneg_shape }

/-- The variables of `estimate_territorial_value` with the shape aggregates
of `sh` in the array `move[]`. -/
def reshape (sh : Moves) (acc : Territory) : Territory :=
  { acc with moves := with_shape acc.moves sh }

/-- The shape aggregates after `clear_move_reasons` and
`add_shape_value(7, 1)`. -/
def one_shape : Moves :=
  { zero_moves with
    maxpos_shape := fun p => if p = 7 then 1 else 0
    numpos_shape := fun p => if p = 7 then 1 else 0 }

/-- The static data of the sample position without any reason, with the
followup value 1 and the flag of a worthwhile threat at the point 7. -/
def quiet_valuation : Valuation :=
  { reasons := small_fresh.reasons, registry := two_worms, moves := threat_fields,
    dragon_value := fun _ => 0 }

/-! ### examine_move_safety -/

/-- What `examine_move_safety` reads from the rest of the engine beyond the
data of `Engine`. -/
structure Watch where
  /-- The field `dragon[pos].id`. -/
  dragon_id : Int → Int
  /-- The field `DRAGON(d).color`. -/
  DRAGON_color : Int → Int
  /-- The field `dragon[pos].owl_status`. -/
  dragon_owl_status : Int → Int
  /-- The field `dragon[pos].status`. -/
  dragon_status : Int → Int
  /-- Whether `owl_does_defend(move, target)` is not 0. -/
  owl_does_defend : Int → Int → Bool
  /-- Whether `owl_connection_defends(move, target1, target2)` is not 0. -/
  owl_connection_defends : Int → Int → Int → Bool
  /-- The constant `UNCHECKED`. -/
  UNCHECKED : Int

/-- One round of the loop over the strings next to a worm under tactical
attack: the variables `our_color_neighbors` and `bb` after the string number
`kk` of `adjs`, which counts when it has the colour of the mover and no
earlier string of `adjs` belongs to the same dragon. -/
def friendly_string (w : Watch) (b : Board) (color : Int) (adjs : List Int)
    (s : Int × Int) (kk : Nat) : Int × Int :=
  let adj := adjs.getD kk 0
  if b.board adj = color
      ∧ (List.range kk).all (fun l => decide (w.dragon_id (adjs.getD l 0) ≠ w.dragon_id adj))
  then (s.1 + 1, adj)
  else s

/-- One round of the loop over the neighbours of a dragon under owl attack:
the variables `our_color_neighbors`, `bb`, `safety` and `tactical_safety`
after the neighbour number `kk`. -/
def friendly_dragon (k : Constants) (e : Engine) (w : Watch) (color aa : Int)
    (s : Int × Int × Int × Int) (kk : Nat) : Int × Int × Int × Int :=
  if w.DRAGON_color (e.DRAGON2_adjacent aa kk) = color then
    let bb := e.dragon2_origin (e.DRAGON2_adjacent aa kk)
    if e.dragon_matcher_status bb = k.ALIVE then (s.1 + 1, bb, 1, 1)
    else (s.1 + 1, bb, s.2.2.1, s.2.2.2)
  else s

/-- The loop `for (k = 0; k < 4; k++)` over the neighbours of `pos`: the
variable `bb` after it, the first neighbour with a stone of the mover if there
is one. -/
def friendly_neighbor (e : Engine) (b : Board) (pos color bb : Int) : Int :=
  match (List.range 4).find? (fun kk => decide (b.board (pos + e.delta kk) = color)) with
  | some kk => pos + e.delta kk
  | none => bb

/-- The block of the six kinds of tactical and owl attacks in the `switch` of
`examine_move_safety`: the variables `safety` and `tactical_safety` after
it. -/
def safety_attack (cfg : Config) (k : Constants) (e : Engine) (w : Watch) (b : Board)
    (g : Registry) (pos color : Int) (st : Int × Int) (ty what : Int) : Int × Int :=
  let tactical : Prop :=
    ty = k.ATTACK_MOVE ∨ ty = k.ATTACK_MOVE_GOOD_KO ∨ ty = k.ATTACK_MOVE_BAD_KO
  let aa := if tactical then g.worms what.toNat else g.dragons what.toNat
  let size : Int :=
    if tactical then to_int (e.worm_effective_size aa) else to_int (e.dragon_effective_size aa)
  if size ≥ 8 then (1, 1)
  else
    let found : Int × Int × Int × Int :=
      if tactical then
        let r := (List.range (e.chainlinks aa).length).foldl
          (friendly_string w b color (e.chainlinks aa)) (0, cfg.NO_MOVE)
        (r.1, r.2, st.1, st.2)
      else
        (List.range (e.DRAGON2_neighbors aa).toNat).foldl (friendly_dragon k e w color aa)
          (0, cfg.NO_MOVE, st.1, st.2)
    if found.1 > 1 then (found.2.2.1, found.2.2.2)
    else
      let bb := friendly_neighbor e b pos color found.2.1
      if bb = cfg.NO_MOVE then (1, 1)
      else if e.dragon_matcher_status bb = k.ALIVE then (1, 1)
      else if w.owl_does_defend pos bb = true then (1, 1)
      else (found.2.2.1, found.2.2.2)

/-- The `switch` of `examine_move_safety` for a reason of the kind `ty` with
the object `what`: the variables `safety` and `tactical_safety` after it. -/
def safety_case (cfg : Config) (k : Constants) (e : Engine) (w : Watch) (b : Board)
    (g : Registry) (pos color : Int) (st : Int × Int) (ty what : Int) : Int × Int :=
  if ty = k.CUT_MOVE then st
  else if ty = k.SEMEAI_MOVE ∨ ty = k.ATTACK_EITHER_MOVE ∨ ty = k.DEFEND_BOTH_MOVE
      ∨ ty = k.OWL_DEFEND_MOVE ∨ ty = k.OWL_DEFEND_MOVE_GOOD_KO
      ∨ ty = k.OWL_DEFEND_MOVE_BAD_KO ∨ ty = k.MY_ATARI_ATARI_MOVE then (1, 1)
  else if ty = k.BLOCK_TERRITORY_MOVE ∨ ty = k.EXPAND_TERRITORY_MOVE
      ∨ ty = k.EXPAND_MOYO_MOVE then (1, st.2)
  else if ty = k.ATTACK_MOVE ∨ ty = k.ATTACK_MOVE_GOOD_KO ∨ ty = k.ATTACK_MOVE_BAD_KO
      ∨ ty = k.OWL_ATTACK_MOVE ∨ ty = k.OWL_ATTACK_MOVE_GOOD_KO
      ∨ ty = k.OWL_ATTACK_MOVE_BAD_KO then
    safety_attack cfg k e w b g pos color st ty what
  else if ty = k.DEFEND_MOVE ∨ ty = k.DEFEND_MOVE_GOOD_KO ∨ ty = k.DEFEND_MOVE_BAD_KO then
    let aa := g.worms what.toNat
    if e.dragon_matcher_status aa = k.ALIVE then (1, st.2)
    else if w.owl_does_defend pos aa = true then (1, st.2)
    else st
  else if ty = k.ATTACK_THREAT_MOVE ∨ ty = k.DEFEND_THREAT_MOVE then st
  else if ty = k.CONNECT_MOVE then
    let aa := g.dragons (g.conn_dragon1 what.toNat).toNat
    let bb := g.dragons (g.conn_dragon2 what.toNat).toNat
    if w.dragon_owl_status aa = k.ALIVE ∨ w.dragon_owl_status bb = k.ALIVE then (1, 1)
    else if (w.dragon_owl_status aa = w.UNCHECKED ∧ w.dragon_status aa = k.ALIVE)
        ∨ (w.dragon_owl_status bb = w.UNCHECKED ∧ w.dragon_status bb = k.ALIVE) then (1, 1)
    else if w.owl_connection_defends pos aa bb = true then (1, 1)
    else st
  else st

/-- The loop over the reasons of a point in `examine_move_safety`, entered at
the index `i` with `fuel` rounds to go: the variables `safety` and
`tactical_safety` after it. -/
def safety_loop (cfg : Config) (k : Constants) (e : Engine) (w : Watch) (b : Board)
    (t : Reasons) (g : Registry) (pos color : Int) : Nat → Nat → Int × Int → Int × Int
  | 0, _, st => st
  | fuel + 1, i, st =>
    let r := t.reason pos i
    if r = -1 then st
    else
      let st1 := safety_case cfg k e w b g pos color st (t.move_reasons r.toNat).type
        (t.move_reasons r.toNat).what
      if st1.1 = 1 ∧ (st1.2 = 1 ∨ e.safe_move pos color ≠ 0) then st1
      else safety_loop cfg k e w b t g pos color fuel (i + 1) st1

/-- The body of the loops over the board of `examine_move_safety`: the value
that `move[pos].move_safety` receives. -/
def examine_point (cfg : Config) (k : Constants) (e : Engine) (w : Watch) (b : Board)
    (t : Reasons) (g : Registry) (color pos : Int) : Int :=
  let st := safety_loop cfg k e w b t g pos color cfg.MAX_REASONS 0 (0, 0)
  if st.1 = 1 ∧ (st.2 ≠ 0 ∨ e.safe_move pos color ≠ 0) then 1 else 0

/-- The function `examine_move_safety`: the array `move[]` after the call. -/
def examine_move_safety (cfg : Config) (k : Constants) (e : Engine) (w : Watch) (b : Board)
    (t : Reasons) (g : Registry) (mv : Moves) (color : Int) : Moves :=
  (board_points cfg).foldl
    (fun m pos =>
      { m with
        move_safety := Function.update m.move_safety pos
          (examine_point cfg k e w b t g color pos) })
    mv

/-- Collaborators for the sample position: every dragon has its own number,
no dragon is alive for the owl code, and the owl code finds no defense. -/
def sample_watch : Watch where
  dragon_id := fun p => p
  DRAGON_color := fun _ => 1
  dragon_owl_status := fun _ => 0
  dragon_status := fun _ => 0
  owl_does_defend := fun _ _ => false
  owl_connection_defends := fun _ _ _ => false
  UNCHECKED := 7

/-- The header values for `MAX_BOARD = 3` on a 3 by 3 board, with room for two
reasons at a point: `POS(i, j)` is `(MAX_BOARD + 2) + i * (MAX_BOARD + 1) + j`,
so the rows are 5, 6, 7, then 9, 10, 11, then 13, 14, 15. -/
def three : Config where
  MAX_BOARD := 3
  MAX_REASONS := 2
  NO_MOVE := 0
  EMPTY := 0
  ACTIVE := 0
  board_size := 3
  POS := fun i j => 5 + 4 * (i : Int) + (j : Int)
  ON_BOARD1 := fun p =>
    (List.range 3).any fun i => (List.range 3).any fun j => 5 + 4 * (i : Int) + (j : Int) == p

/-- A position on the 3 by 3 board: a black stone (colour 2) on the point 5,
a white stone (colour 1) on the point 7, the point 6 between them vacant. -/
def corner_board : Board where
  stackp := 0
  board := fun p => if p = 5 then 2 else if p = 7 then 1 else 0
  dragon_origin := fun p => p
  worm_origin := fun p => p

/-- The engine in the position `corner_board`: every string has the effective
size 3 and no neighbouring string, the dragon of the black stone at 5 is
critical, every other dragon alive. -/
def corner_engine : Engine :=
  { sample_engine with
    ON_BOARD := three.ON_BOARD1
    delta := fun i => if i = 0 then 4 else if i = 1 then -1 else if i = 2 then -4 else 1
    dragon_matcher_status := fun p => if p = 5 then 2 else 1 }

/-- The object tables on the 3 by 3 board after `find_worm(7)`. -/
def corner_registry : Registry :=
  { (clear_move_reasons three zero_state).registry with
    worms := Function.update (clear_move_reasons three zero_state).registry.worms 0 7
    next_worm := 1 }

/-- The reasons on the 3 by 3 board with the single reason `ATTACK_MOVE` of
the point 6, on the worm number 0. -/
def corner_reasons : Reasons :=
  new_entry three (clear_move_reasons three zero_state).reasons 6 1 0 0

/-- The collaborators of `sample_watch` with an owl code that finds every
move a defense. -/
def trusting_watch : Watch :=
  { sample_watch with owl_does_defend := fun _ _ => true }

/-- The kinds of reasons whose object is a worm and that occur in the table
`discard_rules`. -/
def worm_kinds (k : Constants) : List Int :=
  [k.ATTACK_MOVE, k.ATTACK_MOVE_GOOD_KO, k.ATTACK_MOVE_BAD_KO, k.ATTACK_THREAT_MOVE,
   k.DEFEND_MOVE, k.DEFEND_MOVE_GOOD_KO, k.DEFEND_MOVE_BAD_KO, k.DEFEND_THREAT_MOVE]

/-- The kinds of reasons whose object is a dragon and that occur in the table
`discard_rules` or are looked for by its conditions. -/
def dragon_kinds (k : Constants) : List Int :=
  [k.SEMEAI_MOVE, k.SEMEAI_THREAT, k.OWL_ATTACK_MOVE, k.OWL_ATTACK_MOVE_GOOD_KO,
   k.OWL_ATTACK_MOVE_BAD_KO, k.OWL_ATTACK_THREAT, k.OWL_DEFEND_MOVE,
   k.OWL_DEFEND_MOVE_GOOD_KO, k.OWL_DEFEND_MOVE_BAD_KO, k.UNCERTAIN_OWL_DEFENSE]

/-- The kinds of reasons whose object is a pair of worms. -/
def worm_pair_kinds (k : Constants) : List Int :=
  [k.ATTACK_EITHER_MOVE, k.DEFEND_BOTH_MOVE]

/-- The objects of the reasons of `pos` are entries of their tables: a
reason about a worm, a dragon or a pair of worms holds an index below the
counter of that table. -/
def HandlesKnown (cfg : Config) (k : Constants) (t : Reasons) (g : Registry) (pos : Int) :
    Prop :=
  ∀ l, l < reason_count cfg t pos →
    ((t.move_reasons (t.reason pos l).toNat).type ∈ worm_kinds k →
        (t.move_reasons (t.reason pos l).toNat).what.toNat < g.next_worm)
    ∧ ((t.move_reasons (t.reason pos l).toNat).type ∈ dragon_kinds k →
        (t.move_reasons (t.reason pos l).toNat).what.toNat < g.next_dragon)
    ∧ ((t.move_reasons (t.reason pos l).toNat).type ∈ worm_pair_kinds k →
        (t.move_reasons (t.reason pos l).toNat).what.toNat < g.next_worm_pair)

instance (cfg : Config) (k : Constants) (t : Reasons) (g : Registry) (pos : Int) :
    Decidable (HandlesKnown cfg k t g pos) := by
  unfold HandlesKnown; infer_instance

/-- The object `what` is an entry of the table that the condition `cnd`
reads. -/
def Fits (g : Registry) (cnd : Option Condition) (what : Int) : Prop :=
  match cnd with
  | some Condition.owl_move_vs_worm_known => what.toNat < g.next_worm
  | some Condition.concerns_inessential_worm => what.toNat < g.next_worm
  | some Condition.tactical_move_vs_whole_dragon_known => what.toNat < g.next_dragon
  | some Condition.concerns_inessential_dragon => what.toNat < g.next_dragon
  | some Condition.tactical_move_vs_either_worm_known => what.toNat < g.next_worm_pair
  | _ => True

/-- The condition `cnd` answers yes for the object `what` in some state of
the object tables that keeps the entries of `g`. -/
def Holds (cfg : Config) (k : Constants) (e : Engine) (b : Board) (t : Reasons)
    (g : Registry) (pos : Int) (cnd : Option Condition) (what : Int) : Prop :=
  ∃ ga c ga1, TablesKept g ga ∧ run_condition cfg k e b t ga pos what cnd = some (c, ga1)
    ∧ c ≠ 0

/-- The rule `rule` sets the bit `i` in the status of the record number `n`:
the record is in the list of `pos`, its kind is one of the kinds of the rule
before the closing `-1`, the condition of the rule holds of its object, and
the bit is one of the flags of the rule. -/
def Fires (cfg : Config) (k : Constants) (e : Engine) (b : Board) (t : Reasons)
    (g : Registry) (pos : Int) (rule : discard_rule) (n : Nat) (i : Nat) : Prop :=
  ∃ l, l < reason_count cfg t pos ∧ (t.reason pos l).toNat = n
    ∧ (t.move_reasons n).type ∈ rule.reason_type.takeWhile (fun ty => decide (ty ≠ -1))
    ∧ Holds cfg k e b t g pos rule.condition (t.move_reasons n).what
    ∧ rule.flags.testBit i = true

/-- The rule is one whose kinds go with the table that its condition reads,
as every rule of `discard_rules` is. -/
def RuleFits (k : Constants) (rule : discard_rule) : Prop :=
  match rule.condition with
  | some Condition.owl_move_vs_worm_known => ∀ ty ∈ rule.reason_type, ty ∈ worm_kinds k ∨ ty = -1
  | some Condition.concerns_inessential_worm =>
    ∀ ty ∈ rule.reason_type, ty ∈ worm_kinds k ∨ ty = -1
  | some Condition.tactical_move_vs_whole_dragon_known =>
    ∀ ty ∈ rule.reason_type, ty ∈ dragon_kinds k ∨ ty = -1
  | some Condition.concerns_inessential_dragon =>
    ∀ ty ∈ rule.reason_type, ty ∈ dragon_kinds k ∨ ty = -1
  | some Condition.tactical_move_vs_either_worm_known =>
    ∀ ty ∈ rule.reason_type, ty ∈ worm_pair_kinds k ∨ ty = -1
  | _ => True

/-- The variable `safety2` of `connection_value` after the upgrade to `ALIVE`
of a second dragon that gets enough eye space by the connection. -/
def upgraded_safety (k : Constants) (e : Engine) (dragona dragonb tt : Int) : Int :=
  let true_genus1 := 2 * e.DRAGON2_genus dragona + e.DRAGON2_heyes dragona
  let true_genus2 := 2 * e.DRAGON2_genus dragonb + e.DRAGON2_heyes dragonb
  if true_genus1 < 4 ∧ true_genus2 < 4
      ∧ (true_genus1 + true_genus2 ≥ 4
        ∨ (true_genus1 + true_genus2 ≥ 3
          ∧ (e.DRAGON2_heye dragona = tt ∨ e.DRAGON2_heye dragonb = tt))) then k.ALIVE
  else e.DRAGON2_safety dragonb

/-- The last steps of `connection_value`, from the coefficient `impact` chosen
in the tables: the coefficient of an inessential string that connects by a
self atari is set to 0, and the value is `impact * 2.0 *
dragon[dragona].effective_size`. -/
def impact_result (k : Constants) (e : Engine) (b : Board) (dragona tt : Int)
    (impact : ℚ) : ℚ :=
  (if impact > 0 ∧ e.DRAGON2_safety dragona = k.INESSENTIAL
      ∧ e.is_self_atari tt (b.board dragona) = true then 0.0 else impact)
    * 2.0 * e.dragon_effective_size dragona

/-- A position on the 3 by 3 board: white stones (colour 1) on the points 5
and 7, the point 6 between them vacant. -/
def gap_board : Board where
  stackp := 0
  board := fun p => if p = 5 ∨ p = 7 then 1 else 0
  dragon_origin := fun p => p
  worm_origin := fun p => p

/-- The engine in the position `gap_board`: the stones at 5 and 7 are two
living dragons of effective size 3, without eyes. -/
def gap_engine : Engine :=
  { sample_engine with
    ON_BOARD := three.ON_BOARD1
    delta := fun i => if i = 0 then 4 else if i = 1 then -1 else if i = 2 then -4 else 1
    dragon_size := fun _ => 1
    is_same_dragon := fun a b => a == b
    dragon2_origin := fun p => p }

/-- The object tables on the 3 by 3 board with the dragons number 0 and 1 at
the points 5 and 7 and the connection number 0 between them. -/
def gap_registry : Registry :=
  { (clear_move_reasons three zero_state).registry with
    dragons :=
      Function.update (Function.update (clear_move_reasons three zero_state).registry.dragons
        0 5) 1 7
    next_dragon := 2
    conn_dragon1 :=
      Function.update (clear_move_reasons three zero_state).registry.conn_dragon1 0 0
    conn_dragon2 :=
      Function.update (clear_move_reasons three zero_state).registry.conn_dragon2 0 1
    next_connection := 1 }

/-- The loop of `get_attack_threats` and of `get_defense_threats`, for the
kind `type`, entered at index `k` with `fuel` rounds to go; the state is the
variable `num_strings` and the array `strings`. -/
def threats_loop (t : Reasons) (g : Registry) (pos type max_strings : Int) :
    Nat → Nat → Nat × (Nat → Int) → Nat × (Nat → Int)
  | 0, _, s => s
  | fuel + 1, k, s =>
    let r := t.reason pos k
    if r < 0 then s
    else
      let s1 : Nat × (Nat → Int) :=
        if (t.move_reasons r.toNat).type = type then
          (s.1 + 1, Function.update s.2 s.1 (g.worms (t.move_reasons r.toNat).what.toNat))
        else s
      if (s1.1 : Int) = max_strings then s1
      else threats_loop t g pos type max_strings fuel (k + 1) s1

/-- The function `get_attack_threats`: the value returned and the array
`strings` afterwards. -/
def get_attack_threats (cfg : Config) (k : Constants) (t : Reasons) (g : Registry)
    (pos max_strings : Int) (strings : Nat → Int) : Int × (Nat → Int) :=
  let s := threats_loop t g pos k.ATTACK_THREAT_MOVE max_strings cfg.MAX_REASONS 0 (0, strings)
  ((s.1 : Int), s.2)

/-- The function `get_defense_threats`: the value returned and the array
`strings` afterwards. -/
def get_defense_threats (cfg : Config) (k : Constants) (t : Reasons) (g : Registry)
    (pos max_strings : Int) (strings : Nat → Int) : Int × (Nat → Int) :=
  let s := threats_loop t g pos k.DEFEND_THREAT_MOVE max_strings cfg.MAX_REASONS 0 (0, strings)
  ((s.1 : Int), s.2)

/-- The worms of the reasons of kind `type` in the list of `pos`, in the order
of the list. -/
def threat_worms (cfg : Config) (t : Reasons) (g : Registry) (pos type : Int) : List Int :=
  (((List.range (reason_count cfg t pos)).map (t.reason pos)).filter
    (fun r => decide ((t.move_reasons r.toNat).type = type))).map
    (fun r => g.worms (t.move_reasons r.toNat).what.toNat)

/-- The array `strings` with the list `l` written from the index `n` on. -/
def write_list (strings : Nat → Int) : Nat → List Int → Nat → Int
  | _, [] => strings
  | n, x :: xs => write_list (Function.update strings n x) (n + 1) xs

/-- Reason lists on the 2 by 2 board: the point 7 has the reasons
`ATTACK_THREAT_MOVE` on the worms number 0 and 1, the point 8 the reasons
`DEFEND_THREAT_MOVE` on the same worms. -/
def threat_lists : Reasons :=
  new_entry small
    (new_entry small
      (new_entry small (new_entry small small_fresh.reasons 7 4 0 0) 7 4 1 1) 8 8 0 0) 8 8 1 1

/-- The function `add_attack_either_move`.  The two calls of `find_worm` come
before the assertions on `str1` and `str2`, the two tests of the codes are
those of the source. -/
def add_attack_either_move (cfg : Config) (k : Constants) (e : Engine) (b : Board)
    (s : State) (pos str1 str2 : Int) : Option State :=
  match find_worm cfg s.registry (b.worm_origin str1) with
  | none => none
  | some (worm1, g1) =>
    match find_worm cfg g1 (b.worm_origin str2) with
    | none => none
    | some (worm2, g2) =>
      if cfg.ON_BOARD1 str1 = false then none
      else if cfg.ON_BOARD1 str2 = false then none
      else if worm1 = worm2 then some { s with registry := g2 }
      else if e.worm_attack_code str1 ≠ 0 ∧ e.worm_defend_code str2 = 0 then
        some { s with registry := g2 }
      else if e.worm_attack_code str2 ≠ 0 ∧ e.worm_defend_code str2 = 0 then
        some { s with registry := g2 }
      else
        match find_worm_pair cfg g2 worm1 worm2 with
        | none => none
        | some (worm_pair, g3) =>
          match add_move_reason cfg b s.reasons pos k.ATTACK_EITHER_MOVE worm_pair with
          | none => none
          | some t => some { s with reasons := t, registry := g3 }

/-- The engine of the sample position with other codes: the worm at 4 can be
attacked and defended, the worm at 5 cannot be attacked and has no defense
code. -/
def calm_engine : Engine :=
  { sample_engine with
    worm_attack_code := fun p => if p = 5 then 0 else 1
    worm_defend_code := fun p => if p = 4 then 1 else 0 }

/-- No followup value and no reverse followup value of `mv1` is below that of
`mv`. -/
def FollowupsGrow (mv mv1 : Moves) : Prop :=
  ∀ q, mv.followup_value q ≤ mv1.followup_value q
    ∧ mv.reverse_followup_value q ≤ mv1.reverse_followup_value q

/-- The arrays `move[]` that arise from `clear_move_reasons` by calls that
return: of `add_followup_value` and `add_reverse_followup_value`, the two
functions that write the followup fields, of `value_move_reasons`, which
reaches them through the estimate of the territorial value, and by writes to
the other fields (the setters of the bounds and of the shape values, the
safety flags, the final values). -/
inductive MovesReachable (cfg : Config) : Moves → Prop
  | clear (H : ℚ) (g : Int → ℚ) (mv : Moves) : MovesReachable cfg (clear_moves cfg H g mv)
  | followup (mv mv1 : Moves) (pos : Int) (v : ℚ) :
      MovesReachable cfg mv → add_followup_value cfg mv pos v = some mv1 →
      MovesReachable cfg mv1
  | reverse_followup (mv mv1 : Moves) (pos : Int) (v : ℚ) :
      MovesReachable cfg mv → add_reverse_followup_value cfg mv pos v = some mv1 →
      MovesReachable cfg mv1
  | value (k : Constants) (e : Engine) (c : Referee) (b : Board) (s s1 : Valuation)
      (pos color : Int) (pure_threat_value score v : ℚ) :
      MovesReachable cfg s.moves →
      value_move_reasons cfg k e c b s pos color pure_threat_value score = some (s1, v) →
      MovesReachable cfg s1.moves
  | other (mv mv1 : Moves) :
      MovesReachable cfg mv → mv1.followup_value = mv.followup_value →
      mv1.reverse_followup_value = mv.reverse_followup_value → MovesReachable cfg mv1

/-- The engine of the sample position with an influence function for which
every move gains two points of territory. -/
def gain_engine : Engine :=
  { sample_engine with influence_delta_territory := fun _ _ _ => 2 }

/-- The array `move[]` on the 2 by 2 board after `clear_move_reasons` (with
`HUGE_MOVE_VALUE` = 1000), with every move marked safe. -/
def safe_cleared : Moves :=
  { clear_moves small 1000 (fun _ => 0) zero_moves with move_safety := fun _ => 1 }

/-- The array `safe_cleared` after `add_followup_value(7, 3)`. -/
def followup_fields : Moves :=
  { safe_cleared with
    followup_value :=
      Function.update safe_cleared.followup_value 7 (max (safe_cleared.followup_value 7) 3) }

/-- The static data on the 2 by 2 board when the point 7 has the single reason
`ATTACK_MOVE` on the worm at 5 and the followup value 3. -/
def followup_valuation : Valuation where
  reasons := new_entry small small_fresh.reasons 7 1 1 0
  registry := two_worms
  moves := followup_fields
  dragon_value := fun _ => 0

/-- No handle occurs in two cells of the reason lists of the board, whether of
one point or of two. -/
def HandlesDistinct (cfg : Config) (t : Reasons) : Prop :=
  ∀ p q : Int, cfg.ON_BOARD1 p = true → cfg.ON_BOARD1 q = true → ∀ i j : Nat,
    i < reason_count cfg t p → j < reason_count cfg t q →
    t.reason p i = t.reason q j → p = q ∧ i = j

/-- Reason lists on the 2 by 2 board: the point 7 has the reason `ATTACK_MOVE`
on the worm number 1, the point 8 has an `ANTISUJI_MOVE` reason. -/
def antisuji_lists : Reasons :=
  new_entry small (new_entry small small_fresh.reasons 7 1 1 0) 8 11 0 0

/-- The static data of the sample position with the reasons `antisuji_lists`
right after `clear_move_reasons`, every move marked safe. -/
def antisuji_valuation : Valuation where
  reasons := antisuji_lists
  registry := two_worms
  moves := safe_cleared
  dragon_value := fun _ => 0

/-- The redistribution map on the 2 by 2 board after
`add_replacement_move(7, 8)`. -/
def sent_7_to_8 : Int → Int :=
  (board_points small).foldl (redirect_point 7)
    (Function.update small_fresh.replacement_map 7 8)

/-! ## induce_secondary_move_reasons -/

/-- The function `add_connection_move`; the two calls of `find_dragon` come
before the assertions. -/
def add_connection_move (cfg : Config) (k : Constants) (e : Engine) (b : Board)
    (s : State) (pos dr1 dr2 : Int) : Option State :=
  match find_dragon cfg s.registry (b.dragon_origin dr1) with
  | none => none
  | some (dragon1, g1) =>
    match find_dragon cfg g1 (b.dragon_origin dr2) with
    | none => none
    | some (dragon2, g2) =>
      if cfg.ON_BOARD1 dr1 = false then none
      else if cfg.ON_BOARD1 dr2 = false then none
      else if e.dragon_color dr1 ≠ e.dragon_color dr2 then none
      else if dragon1 = dragon2 then some { s with registry := g2 }
      else
        match find_connection cfg g2 dragon1 dragon2 with
        | none => none
        | some (connection, g3) =>
          match add_move_reason cfg b s.reasons pos k.CONNECT_MOVE connection with
          | none => none
          | some t => some { s with reasons := t, registry := g3 }

/-- The function `add_cut_move`. -/
def add_cut_move (cfg : Config) (k : Constants) (e : Engine) (b : Board)
    (s : State) (pos dr1 dr2 : Int) : Option State :=
  match find_dragon cfg s.registry (b.dragon_origin dr1) with
  | none => none
  | some (dragon1, g1) =>
    match find_dragon cfg g1 (b.dragon_origin dr2) with
    | none => none
    | some (dragon2, g2) =>
      if cfg.ON_BOARD1 dr1 = false then none
      else if cfg.ON_BOARD1 dr2 = false then none
      else if e.dragon_color dr1 ≠ e.dragon_color dr2 then none
      else if dragon1 = dragon2 then some { s with registry := g2 }
      else
        match find_connection cfg g2 dragon1 dragon2 with
        | none => none
        | some (connection, g3) =>
          if (e.worm_attack_code dr1 ≠ 0 ∧ e.worm_defend_code dr1 = 0)
              ∨ (e.worm_attack_code dr2 ≠ 0 ∧ e.worm_defend_code dr2 = 0) then
            some { s with registry := g3 }
          else
            match add_move_reason cfg b s.reasons pos k.CUT_MOVE connection with
            | none => none
            | some t => some { s with reasons := t, registry := g3 }

/-- The function `add_strategical_defense_move`. -/
def add_strategical_defense_move (cfg : Config) (k : Constants) (b : Board)
    (s : State) (pos dr : Int) : Option State :=
  match find_dragon cfg s.registry (b.dragon_origin dr) with
  | none => none
  | some (dragon1, g1) =>
    if cfg.ON_BOARD1 dr = false then none
    else
      match add_move_reason cfg b s.reasons pos k.STRATEGIC_DEFEND_MOVE dragon1 with
      | none => none
      | some t => some { s with reasons := t, registry := g1 }

/-- What `induce_secondary_move_reasons` reads through the macro `DRAGON` of
`liberty.h`, a header that is not among the sources at hand: the fields
`DRAGON(d).color`, `DRAGON(d).size` and `DRAGON(d).origin` of the dragon with
the number `d`. -/
structure Surround where
  DRAGON_color : Int → Int
  DRAGON_size : Int → Int
  DRAGON_origin : Int → Int

/-- A neighbour of a worm as the two pairs of loops of
`induce_secondary_move_reasons` see it: the colour, the size and the origin of
its dragon. -/
structure Neighbor where
  color : Int
  size : Int
  origin : Int

/-- The neighbours that the loops `for (i = 0; i < DRAGON2(aa).neighbors;
i++)` visit, `d` being `DRAGON2(aa).adjacent[i]`. -/
def dragon_neighbors (e : Engine) (w : Surround) (aa : Int) : List Neighbor :=
  (List.range (e.DRAGON2_neighbors aa).toNat).map fun i =>
    { color := w.DRAGON_color (e.DRAGON2_adjacent aa i)
      size := w.DRAGON_size (e.DRAGON2_adjacent aa i)
      origin := w.DRAGON_origin (e.DRAGON2_adjacent aa i) }

/-- The neighbours that the loops `for (i = 0; i < num_adj; i++)` of the
workaround visit, `adj` being `adjs[i]` after `chainlinks(aa, adjs)`. -/
def chain_neighbors (e : Engine) (b : Board) (aa : Int) : List Neighbor :=
  (e.chainlinks aa).map fun adj =>
    { color := e.dragon_color adj, size := e.dragon_size adj, origin := b.dragon_origin adj }

/-- The neighbours of the worm `aa` that the loops visit: those of its dragon
under `dragon[aa].size == worm[aa].size`, those of the worm itself in the
workaround. -/
def worm_neighbors (e : Engine) (w : Surround) (b : Board) (aa : Int) : List Neighbor :=
  if e.dragon_size aa = e.worm_size aa then dragon_neighbors e w aa
  else chain_neighbors e b aa

/-- The body of the first loop over the neighbours: the variables `dd` and
`biggest` after the neighbour `n`, `own` being `dragon[aa].color`. -/
def biggest_neighbor (own : Int) (s : Int × Int) (n : Neighbor) : Int × Int :=
  if n.color = own then s
  else if n.size > s.2 then (n.origin, n.size)
  else s

/-- The block `if (move_reasons[r].type == ATTACK_MOVE) ... else
add_cut_move(pos, dd, ee);` of the second loop over the neighbours. -/
def induce_call (cfg : Config) (k : Constants) (e : Engine) (b : Board)
    (pos type aa dd : Int) (s : State) (ee : Int) : Option State :=
  if type = k.ATTACK_MOVE then
    if e.dragon_matcher_status aa ≠ k.DEAD
        ∨ (e.DRAGON2_safety dd ≠ k.STRONGLY_ALIVE ∧ e.DRAGON2_safety dd ≠ k.INVINCIBLE)
        ∨ (e.DRAGON2_safety ee ≠ k.STRONGLY_ALIVE ∧ e.DRAGON2_safety ee ≠ k.INVINCIBLE) then
      if (e.worm_attack_code dd = 0 ∨ e.does_defend pos dd = true)
          ∧ (e.worm_attack_code ee = 0 ∨ e.does_defend pos ee = true) then
        add_connection_move cfg k e b s pos dd ee
      else some s
    else some s
  else add_cut_move cfg k e b s pos dd ee

/-- The body of the second loop over the neighbours. -/
def induce_pair (cfg : Config) (k : Constants) (e : Engine) (b : Board)
    (pos type aa dd : Int) (st : Option State) (n : Neighbor) : Option State :=
  match st with
  | none => none
  | some s =>
    if n.color = e.dragon_color aa then some s
    else if dd = n.origin then some s
    else induce_call cfg k e b pos type aa dd s n.origin

/-- The origins `ee` with which the second loop over the neighbours `ns`
reaches the block of `induce_call`, in the order of the loop: those of the
neighbours of another colour than `own` whose origin is not `dd`. -/
def induced_partners (own dd : Int) (ns : List Neighbor) : List Int :=
  (ns.filter fun n => decide (n.color ≠ own ∧ dd ≠ n.origin)).map Neighbor.origin

/-- The branch of the loop of `induce_secondary_move_reasons` for a reason of
the kind `type`, `ATTACK_MOVE` or `DEFEND_MOVE`, about the worm number `what`:
the static data and the variable `dd` afterwards.  The two pairs of loops of
the source, over the neighbours of the dragon and over those of the worm, have
the same bodies and are the folds over `dragon_neighbors` and
`chain_neighbors`. -/
def induce_tactical (cfg : Config) (k : Constants) (e : Engine) (w : Surround) (b : Board)
    (mv : Moves) (pos type what dd : Int) (s : State) : Option (State × Int) :=
  let aa := s.registry.worms what.toNat
  if e.worm_defend_code aa = 0 then some (s, dd)
  else if e.DRAGON2_safety aa = k.INESSENTIAL then some (s, dd)
  else if type = k.DEFEND_MOVE ∧ strategically_sound_defense mv aa pos = 0 then some (s, dd)
  else
    let ns := worm_neighbors e w b aa
    let found := ns.foldl (biggest_neighbor (e.dragon_color aa)) (dd, 0)
    if found.2 = 0 then some (s, found.1)
    else
      (ns.foldl (induce_pair cfg k e b pos type aa found.1) (some s)).map fun s1 =>
        (s1, found.1)

/-- The body of the loop of the branch `OWL_ATTACK_MOVE` at the neighbour
number `i` of the dragon `aa`. -/
def induce_owl_neighbor (cfg : Config) (k : Constants) (e : Engine) (b : Board)
    (pos color aa : Int) (st : Option State) (i : Nat) : Option State :=
  match st with
  | none => none
  | some s =>
    let bb := e.dragon2_origin (e.DRAGON2_adjacent aa i)
    if e.dragon_color bb = color ∧ e.worm_attack_code bb = 0 then
      add_strategical_defense_move cfg k b s pos bb
    else some s

/-- The loop `for (k = 0; k < MAX_REASONS; k++)` of
`induce_secondary_move_reasons` at the point `pos`, entered at the index `kk`
with `fuel` rounds to go; the state is the static data with the variable
`dd`.  The list of `pos` is read as the calls before have left it. -/
def induce_loop (cfg : Config) (k : Constants) (e : Engine) (w : Surround) (b : Board)
    (mv : Moves) (pos color : Int) : Nat → Nat → State × Int → Option (State × Int)
  | 0, _, s => some s
  | fuel + 1, kk, s =>
    let r := s.1.reasons.reason pos kk
    if r < 0 then some s
    else
      let ty := (s.1.reasons.move_reasons r.toNat).type
      let what := (s.1.reasons.move_reasons r.toNat).what
      if ty = k.ATTACK_MOVE ∨ ty = k.DEFEND_MOVE then
        match induce_tactical cfg k e w b mv pos ty what s.2 s.1 with
        | none => none
        | some s1 => induce_loop cfg k e w b mv pos color fuel (kk + 1) s1
      else if ty = k.OWL_ATTACK_MOVE then
        match (List.range (e.DRAGON2_neighbors (s.1.registry.dragons what.toNat)).toNat).foldl
            (induce_owl_neighbor cfg k e b pos color (s.1.registry.dragons what.toNat))
            (some s.1) with
        | none => none
        | some s1 => induce_loop cfg k e w b mv pos color fuel (kk + 1) (s1, s.2)
      else induce_loop cfg k e w b mv pos color fuel (kk + 1) s

/-- The function `induce_secondary_move_reasons`. -/
def induce_secondary_move_reasons (cfg : Config) (k : Constants) (e : Engine) (w : Surround)
    (b : Board) (mv : Moves) (color : Int) (s : State) : Option State :=
  ((board_points cfg).foldl
    (fun st pos => st.bind (induce_loop cfg k e w b mv pos color cfg.MAX_REASONS 0))
    (some (s, cfg.NO_MOVE))).map Prod.fst

/-- The header values for `MAX_BOARD = 5` on a 5 by 5 board, with room for
four reasons at a point: `POS(i, j)` is `(MAX_BOARD + 2) + i * (MAX_BOARD + 1)
+ j`, so the rows are 7 to 11, 13 to 17, 19 to 23, 25 to 29 and 31 to 35. -/
def five : Config where
  MAX_BOARD := 5
  MAX_REASONS := 4
  NO_MOVE := 0
  EMPTY := 0
  ACTIVE := 0
  board_size := 5
  POS := fun i j => 7 + 6 * (i : Int) + (j : Int)
  ON_BOARD1 := fun p =>
    (List.range 5).any fun i => (List.range 5).any fun j => 7 + 6 * (i : Int) + (j : Int) == p

/-- A position on the 5 by 5 board: a black stone (colour 2) on the centre
point 21, and three white dragons (colour 1) next to it, the stones 8, 9, 15
above, the stones 19, 20 to the left and the stone 22 to the right; the point
27 below is vacant.  The origins of the white dragons are 8, 19 and 22. -/
def centre_board : Board where
  stackp := 0
  board := fun p =>
    if p = 21 then 2
    else if p = 8 ∨ p = 9 ∨ p = 15 ∨ p = 19 ∨ p = 20 ∨ p = 22 then 1
    else 0
  dragon_origin := fun p => if p = 9 ∨ p = 15 then 8 else if p = 20 then 19 else p
  worm_origin := fun p => if p = 9 ∨ p = 15 then 8 else if p = 20 then 19 else p

/-- The engine in the position `centre_board`: the black stone can be attacked
and defended, the white stones cannot be attacked; the neighbours of the black
dragon are the dragons number 0, 1 and 2 of `dragon2[]`, with the origins 22,
8 and 19. -/
def centre_engine : Engine :=
  { sample_engine with
    ON_BOARD := five.ON_BOARD1
    delta := fun i => if i = 0 then 6 else if i = 1 then -1 else if i = 2 then -6 else 1
    worm_size := fun p => if p = 8 ∨ p = 9 ∨ p = 15 then 3 else if p = 19 ∨ p = 20 then 2 else 1
    worm_attack_code := fun p => if p = 21 then 5 else 0
    worm_defend_code := fun p => if p = 21 then 5 else 0
    dragon_size := fun p => if p = 8 ∨ p = 9 ∨ p = 15 then 3 else if p = 19 ∨ p = 20 then 2 else 1
    dragon_color := fun p => if p = 21 then 2 else 1
    DRAGON2_neighbors := fun p => if p = 21 then 3 else 1
    DRAGON2_adjacent := fun p i => if p = 21 then (i : Int) else 3
    dragon2_origin := fun d => if d = 0 then 22 else if d = 1 then 8 else if d = 2 then 19 else 21
    is_same_dragon := fun a b =>
      (if a = 9 ∨ a = 15 then 8 else if a = 20 then 19 else a)
        == (if b = 9 ∨ b = 15 then 8 else if b = 20 then 19 else b) }

/-- The dragons of `centre_board` by their numbers in `dragon2[]`: the white
dragons 0, 1 and 2 have the sizes 1, 3 and 2, the dragon 3 is the black
stone. -/
def centre_surround : Surround where
  DRAGON_color := fun d => if d = 3 then 2 else 1
  DRAGON_size := fun d => if d = 0 then 1 else if d = 1 then 3 else if d = 2 then 2 else 1
  DRAGON_origin := fun d => if d = 0 then 22 else if d = 1 then 8 else if d = 2 then 19 else 21

/-- The static data on the 5 by 5 board after `clear_move_reasons`,
`find_worm(21)` and `add_move_reason(27, DEFEND_MOVE, 0)`: the point 27 has
the single reason that it defends the black stone. -/
def centre_state : State :=
  { (clear_move_reasons five zero_state) with
    reasons := new_entry five (clear_move_reasons five zero_state).reasons 27 5 0 0
    registry :=
      { (clear_move_reasons five zero_state).registry with
        worms := Function.update (clear_move_reasons five zero_state).registry.worms 0 21
        next_worm := 1 } }

/-! ## The trial moves of find_more_attack_and_defense_moves and of
estimate_territorial_value -/

/-- The function `add_attack_move`; `KO_A` and `KO_B` are constants of
`liberty.h`, a header that is not among the sources at hand. -/
def add_attack_move (cfg : Config) (k : Constants) (KO_A KO_B : Int) (b : Board)
    (s : State) (pos ww code : Int) : Option State :=
  match find_worm cfg s.registry (b.worm_origin ww) with
  | none => none
  | some (worm_number, g1) =>
    if cfg.ON_BOARD1 ww = false then none
    else if code = k.WIN then
      (add_move_reason cfg b s.reasons pos k.ATTACK_MOVE worm_number).map fun t =>
        { s with reasons := t, registry := g1 }
    else if code = KO_A then
      (add_move_reason cfg b s.reasons pos k.ATTACK_MOVE_GOOD_KO worm_number).map fun t =>
        { s with reasons := t, registry := g1 }
    else if code = KO_B then
      (add_move_reason cfg b s.reasons pos k.ATTACK_MOVE_BAD_KO worm_number).map fun t =>
        { s with reasons := t, registry := g1 }
    else some { s with registry := g1 }

/-- The function `add_defense_move`. -/
def add_defense_move (cfg : Config) (k : Constants) (KO_A KO_B : Int) (b : Board)
    (s : State) (pos ww code : Int) : Option State :=
  match find_worm cfg s.registry (b.worm_origin ww) with
  | none => none
  | some (worm_number, g1) =>
    if cfg.ON_BOARD1 ww = false then none
    else if code = k.WIN then
      (add_move_reason cfg b s.reasons pos k.DEFEND_MOVE worm_number).map fun t =>
        { s with reasons := t, registry := g1 }
    else if code = KO_A then
      (add_move_reason cfg b s.reasons pos k.DEFEND_MOVE_GOOD_KO worm_number).map fun t =>
        { s with reasons := t, registry := g1 }
    else if code = KO_B then
      (add_move_reason cfg b s.reasons pos k.DEFEND_MOVE_BAD_KO worm_number).map fun t =>
        { s with reasons := t, registry := g1 }
    else some { s with registry := g1 }

/-- What the engine answers while the stone of the inner `trymove` of
`find_more_attack_and_defense_moves` stands: whether `attack(str, NULL)` is
not 0. -/
structure Retry where
  attack : Int → Bool

/-- What the engine answers while the stone of the outer `trymove` of
`find_more_attack_and_defense_moves` stands: the array `board[]`, whether
`attack(str, NULL)` and `find_defense(str, NULL)` are not 0, and the inner
call `trymove(pos, color, ...)`, `none` when the stone cannot be placed. -/
structure Probe where
  board : Int → Int
  attack : Int → Bool
  find_defense : Int → Bool
  trymove : Int → Int → Option Retry

/-- What `find_more_attack_and_defense_moves` asks of the reading code: the
cell `worm[str].defense_points[0]` and the outer call `trymove(pos, color,
...)`, `none` when the stone cannot be placed. -/
structure Reader where
  defense_point : Int → Int
  trymove : Int → Int → Option Probe

/-- The body of the loops that list the unstable worms: the array
`unstable_worms` with the object tables after the point `ii`. -/
def unstable_step (cfg : Config) (e : Engine) (b : Board)
    (st : Option (List Nat × Registry)) (ii : Int) : Option (List Nat × Registry) :=
  match st with
  | none => none
  | some (unstable_worms, g) =>
    if b.board ii ≠ 0 ∧ b.worm_origin ii = ii ∧ e.worm_attack_code ii ≠ 0
        ∧ e.worm_defend_code ii ≠ 0 then
      match find_worm cfg g ii with
      | none => none
      | some (w, g1) => some (unstable_worms ++ [w], g1)
    else some (unstable_worms, g)

/-- The loop of `find_more_attack_and_defense_moves` that looks for a
tactical reason in the list of `ii`, entered at the index `kk` with `fuel`
rounds to go: the variable `k` after the loop. -/
def tactical_scan (k : Constants) (t : Reasons) (ii : Int) : Nat → Nat → Nat
  | 0, kk => kk
  | fuel + 1, kk =>
    let r := t.reason ii kk
    if r < 0 then kk
    else if (t.move_reasons r.toNat).type = k.ATTACK_MOVE
        ∨ (t.move_reasons r.toNat).type = k.ATTACK_MOVE_GOOD_KO
        ∨ (t.move_reasons r.toNat).type = k.ATTACK_MOVE_BAD_KO
        ∨ (t.move_reasons r.toNat).type = k.DEFEND_MOVE
        ∨ (t.move_reasons r.toNat).type = k.DEFEND_MOVE_GOOD_KO
        ∨ (t.move_reasons r.toNat).type = k.DEFEND_MOVE_BAD_KO
        ∨ (t.move_reasons r.toNat).type = k.CONNECT_MOVE
        ∨ (t.move_reasons r.toNat).type = k.CUT_MOVE
        ∨ (t.move_reasons r.toNat).type = k.ATTACK_EITHER_MOVE
        ∨ (t.move_reasons r.toNat).type = k.DEFEND_BOTH_MOVE then kk
    else tactical_scan k t ii fuel (kk + 1)

/-- The first `if` of the loop over the unstable worms, for a string of our
colour: with the stone at `ii` on the board, which `trial` describes, an extra
defense is recorded when no attack is left. -/
def extra_defense (cfg : Config) (k : Constants) (KO_A KO_B : Int) (pr : Probe)
    (trial : Board) (ii color : Int) (s : State) (uw : Nat) (aa : Int) : Option State :=
  if pr.board aa = color then
    match defense_move_reason_known cfg k s.reasons ii uw with
    | none => none
    | some known =>
      if known = 0 ∧ pr.attack aa = false then
        add_defense_move cfg k KO_A KO_B trial s ii aa k.WIN
      else some s
  else some s

/-- The second `if` of the loop over the unstable worms, for a string of the
other colour: the static data and the depth `stackp` of the stack of trial
moves afterwards.  An inner `trymove` that succeeds raises the depth by one
and is followed by one `popgo`, which lowers it by one; `add_attack_move` is
called after that. -/
def extra_attack (cfg : Config) (k : Constants) (KO_A KO_B : Int) (rd : Reader)
    (pr : Probe) (trial : Board) (ii other : Int) (s : State) (stackp : Int) (uw : Nat)
    (aa : Int) : Option (State × Int) :=
  if pr.board aa = other then
    match attack_move_reason_known cfg k s.reasons ii uw with
    | none => none
    | some known =>
      if known = 0 ∧ pr.find_defense aa = false then
        match pr.trymove (rd.defense_point aa) other with
        | some rt =>
          let inner := stackp + 1
          let attack_works : Int := if rt.attack aa = false then 0 else 1
          let after := inner - 1
          if attack_works ≠ 0 then
            (add_attack_move cfg k KO_A KO_B { trial with stackp := after } s ii aa k.WIN).map
              fun s1 => (s1, after)
          else some (s, after)
        | none =>
          (add_attack_move cfg k KO_A KO_B trial s ii aa k.WIN).map fun s1 => (s1, stackp)
      else some (s, stackp)
  else some (s, stackp)

/-- The body of the loop over the unstable worms, with the stone at `ii` on
the board: the static data and the depth of the stack after the worm number
`uw`. -/
def try_worm (cfg : Config) (k : Constants) (KO_A KO_B : Int) (rd : Reader) (b : Board)
    (pr : Probe) (ii color other : Int) (st : Option (State × Int)) (uw : Nat) :
    Option (State × Int) :=
  match st with
  | none => none
  | some (s, stackp) =>
    match extra_defense cfg k KO_A KO_B pr { b with stackp := stackp, board := pr.board }
        ii color s uw (s.registry.worms uw) with
    | none => none
    | some s1 =>
      extra_attack cfg k KO_A KO_B rd pr { b with stackp := stackp, board := pr.board }
        ii other s1 stackp uw (s.registry.worms uw)

/-- The body of the main loops of `find_more_attack_and_defense_moves` at the
point `ii`: the static data and the depth of the stack afterwards.  An outer
`trymove` that succeeds raises the depth by one; the `popgo` after the loop
over the unstable worms lowers it by one. -/
def try_point (cfg : Config) (k : Constants) (KO_A KO_B : Int) (rd : Reader) (b : Board)
    (color other : Int) (unstable_worms : List Nat) (st : Option (State × Int)) (ii : Int) :
    Option (State × Int) :=
  match st with
  | none => none
  | some (s, stackp) =>
    if tactical_scan k s.reasons ii cfg.MAX_REASONS 0 < cfg.MAX_REASONS
        ∧ s.reasons.reason ii (tactical_scan k s.reasons ii cfg.MAX_REASONS 0) ≠ -1 then
      match rd.trymove ii color with
      | some pr =>
        match unstable_worms.foldl (try_worm cfg k KO_A KO_B rd b pr ii color other)
            (some (s, stackp + 1)) with
        | none => none
        | some (s1, inside) => some (s1, inside - 1)
      | none => some (s, stackp)
    else some (s, stackp)

/-- The function `find_more_attack_and_defense_moves`: the static data and the
depth `stackp` of the stack of trial moves when it returns, `b.stackp` being
the depth on entry.  The calls of `increase_depth_values` and
`decrease_depth_values` change the limits of the reading code only. -/
def find_more_attack_and_defense_moves (cfg : Config) (k : Constants) (KO_A KO_B : Int)
    (e : Engine) (rd : Reader) (b : Board) (color : Int) (s : State) : Option (State × Int) :=
  match (board_points cfg).foldl (unstable_step cfg e b) (some ([], s.registry)) with
  | none => none
  | some (unstable_worms, g) =>
    (board_points cfg).foldl
      (try_point cfg k KO_A KO_B rd b color (e.OTHER_COLOR color) unstable_worms)
      (some ({ s with registry := g }, b.stackp))

/-- The case `ATTACK_THREAT_MOVE` of the `switch` of
`estimate_territorial_value` with the depth `stackp` of the stack of trial
moves: a `trymove` that succeeds raises it by one, the `popgo` at the end of
the block lowers it by one. -/
def attack_threat_stack (cfg : Config) (k : Constants) (e : Engine) (b : Board)
    (pos color : Int) (acc : Territory) (stackp : Int) (what : Int) :
    Option (Territory × Int) :=
  let aa := acc.registry.worms what.toNat
  if b.board aa = color then some (acc, stackp)
  else if e.dragon_matcher_status aa = k.DEAD then some (acc, stackp)
  else
    match e.trymove pos color with
    | none => some (acc, stackp)
    | some tr =>
      let inside := stackp + 1
      let adjs := if tr.board aa = cfg.EMPTY then [] else tr.chainlinks aa
      let adjustment := adjs.foldl (threat_adjustment k e tr pos color) (0, 0)
      let adjusted_value := 2 * e.worm_effective_size aa + adjustment.1 - adjustment.2
      if adjusted_value > 0 then
        (add_followup_value cfg acc.moves pos adjusted_value).map fun mv =>
          ({ acc with moves := mv }, inside - 1)
      else some (acc, inside - 1)

/-- The body of the `switch` of `estimate_territorial_value` with the depth of
the stack: the case `ATTACK_THREAT_MOVE` is the only one with a trial move. -/
def territorial_case_stack (cfg : Config) (k : Constants) (e : Engine) (b : Board)
    (t : Reasons) (pos color : Int) (score : ℚ) (acc : Territory) (stackp : Int)
    (ty what : Int) : Option (Territory × Int) :=
  if ty = k.ATTACK_MOVE ∨ ty = k.ATTACK_MOVE_GOOD_KO ∨ ty = k.ATTACK_MOVE_BAD_KO then
    (territorial_case cfg k e b t pos color score acc ty what).map fun a => (a, stackp)
  else if ty = k.DEFEND_MOVE ∨ ty = k.DEFEND_MOVE_GOOD_KO ∨ ty = k.DEFEND_MOVE_BAD_KO then
    (territorial_case cfg k e b t pos color score acc ty what).map fun a => (a, stackp)
  else if ty = k.ATTACK_THREAT_MOVE then attack_threat_stack cfg k e b pos color acc stackp what
  else (territorial_case cfg k e b t pos color score acc ty what).map fun a => (a, stackp)

/-- The loop over the reasons of `estimate_territorial_value` with the depth
of the stack. -/
def territorial_loop_stack (cfg : Config) (k : Constants) (e : Engine) (b : Board)
    (t : Reasons) (pos color : Int) (score : ℚ) :
    Nat → Nat → Territory × Int → Option (Territory × Int)
  | 0, _, acc => some acc
  | fuel + 1, i, acc =>
    let r := t.reason pos i
    if r < 0 then some acc
    else if Int.land (t.move_reasons r.toNat).status k.TERRITORY_REDUNDANT ≠ 0 then
      territorial_loop_stack cfg k e b t pos color score fuel (i + 1) acc
    else
      match territorial_case_stack cfg k e b t pos color score acc.1 acc.2
          (t.move_reasons r.toNat).type (t.move_reasons r.toNat).what with
      | none => none
      | some acc1 => territorial_loop_stack cfg k e b t pos color score fuel (i + 1) acc1

/-- The function `estimate_territorial_value` with the depth `stackp` of the
stack of trial moves when it returns, `b.stackp` being the depth on entry. -/
def estimate_territorial_value_stack (cfg : Config) (k : Constants) (e : Engine) (b : Board)
    (t : Reasons) (g : Registry) (mv : Moves) (pos color : Int) (score : ℚ) :
    Option ((Moves × Registry) × Int) :=
  match territorial_loop_stack cfg k e b t pos color score cfg.MAX_REASONS 0
      ({ tot_value := 0, secondary_value := 0, does_block := 0, saved_stones := fun _ => 0,
         moves := mv, registry := g }, b.stackp) with
  | none => none
  | some acc =>
    some (({ acc.1.moves with
             territorial_value :=
               Function.update acc.1.moves.territorial_value pos
                 (territorial_total k e pos color acc.1)
             secondary_value :=
               Function.update acc.1.moves.secondary_value pos
                 (acc.1.moves.secondary_value pos + acc.1.secondary_value) },
           acc.1.registry), acc.2)

/-- A position on the 3 by 3 board: white stones (colour 1) on the corner
points 5 and 7, a black stone (colour 2) on the centre point 10. -/
def atari_board : Board where
  stackp := 0
  board := fun p => if p = 5 ∨ p = 7 then 1 else if p = 10 then 2 else 0
  dragon_origin := fun p => p
  worm_origin := fun p => p

/-- The answers of the reading code in the position `atari_board` with black
to move: a black stone can be tried at 6; with it on the board every white
string can be attacked and `find_defense` finds nothing; white can then try
the stored defense point (9 for the stone at 5, 11 for the stone at 7), after
which the attack still works. -/
def atari_reader : Reader where
  defense_point := fun p => if p = 5 then 9 else 11
  trymove := fun p color =>
    if p = 6 ∧ color = 2 then
      some
        { board := fun q => if q = 5 ∨ q = 7 then 1 else if q = 6 ∨ q = 10 then 2 else 0
          attack := fun _ => true
          find_defense := fun _ => false
          trymove := fun _ c => if c = 1 then some { attack := fun _ => true } else none }
    else none

/-- The engine in the position `atari_board`: the two white stones can be
attacked and defended, the black stone cannot be attacked; a black stone can
be tried at 6, after which the white stone at 7 has no neighbour string but
the one of the stone tried. -/
def atari_engine : Engine :=
  { sample_engine with
    ON_BOARD := three.ON_BOARD1
    delta := fun i => if i = 0 then 4 else if i = 1 then -1 else if i = 2 then -4 else 1
    worm_effective_size := fun _ => 1
    worm_attack_code := fun p => if p = 5 ∨ p = 7 then 5 else 0
    worm_defend_code := fun p => if p = 5 ∨ p = 7 then 5 else 0
    dragon_effective_size := fun _ => 1
    dragon_size := fun _ => 1
    dragon_color := fun p => if p = 10 then 2 else 1
    is_same_dragon := fun a b => a == b
    dragon2_origin := fun p => p
    trymove := fun p color =>
      if p = 6 ∧ color = 2 then
        some
          { board := fun q => if q = 5 ∨ q = 7 then 1 else if q = 6 ∨ q = 10 then 2 else 0
            chainlinks := fun _ => [6]
            same_string := fun a b => a == b
            attack := fun _ => false }
      else none }

/-- The static data on the 3 by 3 board after `clear_move_reasons`,
`find_worm(5)` and `add_move_reason(6, ATTACK_MOVE, 0)`: the point 6 has the
single reason that it attacks the white stone at 5. -/
def atari_state : State :=
  { (clear_move_reasons three zero_state) with
    reasons := new_entry three (clear_move_reasons three zero_state).reasons 6 1 0 0
    registry :=
      { (clear_move_reasons three zero_state).registry with
        worms := Function.update (clear_move_reasons three zero_state).registry.worms 0 5
        next_worm := 1 } }

/-- The reasons on the 3 by 3 board with the single reason
`ATTACK_THREAT_MOVE` of the point 6, on the worm number 0. -/
def atari_threat : Reasons :=
  new_entry three (clear_move_reasons three zero_state).reasons 6 4 0 0

/-! ## The scan loops -/

theorem count_from_ge (row : Nat → Int) :
    ∀ fuel k, k ≤ count_from row fuel k := by
  intro fuel
  induction fuel with
  | zero => intro k; simp [count_from]
  | succ n ih =>
    intro k
    simp only [count_from]
    split
    · exact le_refl k
    · exact le_trans (Nat.le_succ k) (ih (k + 1))

theorem count_from_le (row : Nat → Int) :
    ∀ fuel k, count_from row fuel k ≤ k + fuel := by
  intro fuel
  induction fuel with
  | zero => intro k; simp [count_from]
  | succ n ih =>
    intro k
    simp only [count_from]
    split
    · omega
    · have := ih (k + 1); omega

theorem count_from_nonneg (row : Nat → Int) :
    ∀ fuel k j, k ≤ j → j < count_from row fuel k → 0 ≤ row j := by
  intro fuel
  induction fuel with
  | zero => intro k j h1 h2; simp [count_from] at h2; omega
  | succ n ih =>
    intro k j h1 h2
    simp only [count_from] at h2
    split at h2
    · omega
    · rename_i hk
      rcases Nat.eq_or_lt_of_le h1 with h | h
      · subst h; omega
      · exact ih (k + 1) j h h2

theorem count_from_stop (row : Nat → Int) :
    ∀ fuel k, count_from row fuel k < k + fuel → row (count_from row fuel k) < 0 := by
  intro fuel
  induction fuel with
  | zero => intro k h; simp [count_from] at h
  | succ n ih =>
    intro k h
    simp only [count_from] at h ⊢
    split
    · assumption
    · rename_i hk
      rw [if_neg hk] at h
      exact ih (k + 1) (by omega)

theorem count_from_eq (row : Nat → Int) (c : Nat) :
    ∀ fuel k, k ≤ c → c ≤ k + fuel → (∀ j, k ≤ j → j < c → 0 ≤ row j) →
      (c < k + fuel → row c < 0) → count_from row fuel k = c := by
  intro fuel
  induction fuel with
  | zero => intro k h1 h2 _ _; simp [count_from]; omega
  | succ n ih =>
    intro k h1 h2 h3 h4
    simp only [count_from]
    split
    · rename_i hk
      rcases Nat.eq_or_lt_of_le h1 with h | h
      · exact h
      · have := h3 k (le_refl k) h; omega
    · rename_i hk
      rcases Nat.eq_or_lt_of_le h1 with h | h
      · subst h; exact absurd (h4 (by omega)) hk
      · exact ih (k + 1) h (by omega) (fun j hj hjc => h3 j (by omega) hjc)
          (fun hc => h4 (by omega))

theorem add_move_reason_loop_spec (t : Reasons) (pos type what : Int) :
    ∀ fuel k,
      (add_move_reason_loop t pos type what fuel k = Scan.returned
        ∧ ∃ j, k ≤ j ∧ j < count_from (t.reason pos) fuel k ∧ holds_at t pos type what j)
      ∨ (add_move_reason_loop t pos type what fuel k
            = Scan.left (count_from (t.reason pos) fuel k)
        ∧ ∀ j, k ≤ j → j < count_from (t.reason pos) fuel k → ¬ holds_at t pos type what j) := by
  intro fuel
  induction fuel with
  | zero =>
    intro k
    right
    refine ⟨by simp [add_move_reason_loop, count_from], ?_⟩
    intro j h1 h2; simp [count_from] at h2; omega
  | succ n ih =>
    intro k
    simp only [add_move_reason_loop, count_from]
    by_cases hk : t.reason pos k < 0
    · right
      simp only [if_pos hk, true_and]
      intro j h1 h2; omega
    · simp only [if_neg hk]
      by_cases hm : (t.move_reasons (t.reason pos k).toNat).type = type
          ∧ (t.move_reasons (t.reason pos k).toNat).what = what
      · left
        simp only [if_pos hm, true_and]
        exact ⟨k, le_refl k, Nat.lt_of_lt_of_le (Nat.lt_succ_self k) (count_from_ge _ n (k + 1)), hm⟩
      · simp only [if_neg hm]
        rcases ih (k + 1) with ⟨h1, j, hj1, hj2, hj3⟩ | ⟨h1, h2⟩
        · left
          exact ⟨h1, j, by omega, hj2, hj3⟩
        · right
          refine ⟨h1, ?_⟩
          intro j hj1 hj2
          rcases Nat.eq_or_lt_of_le hj1 with h | h
          · subst h; exact hm
          · exact h2 j h hj2

theorem move_reason_known_loop_spec (t : Reasons) (pos type what : Int) :
    ∀ fuel k,
      (move_reason_known_loop t pos type what fuel k = 1
        ∧ ∃ j, k ≤ j ∧ j < count_from (t.reason pos) fuel k ∧ answers_at t pos type what j)
      ∨ (move_reason_known_loop t pos type what fuel k = 0
        ∧ ∀ j, k ≤ j → j < count_from (t.reason pos) fuel k → ¬ answers_at t pos type what j) := by
  intro fuel
  induction fuel with
  | zero =>
    intro k
    right
    refine ⟨by simp [move_reason_known_loop], ?_⟩
    intro j h1 h2; simp [count_from] at h2; omega
  | succ n ih =>
    intro k
    simp only [move_reason_known_loop, count_from]
    by_cases hk : t.reason pos k < 0
    · right
      simp only [if_pos hk, true_and]
      intro j h1 h2; omega
    · simp only [if_neg hk]
      by_cases hm : (t.move_reasons (t.reason pos k).toNat).type = type
          ∧ (what < 0 ∨ (t.move_reasons (t.reason pos k).toNat).what = what)
      · left
        simp only [if_pos hm, true_and]
        exact ⟨k, le_refl k, Nat.lt_of_lt_of_le (Nat.lt_succ_self k) (count_from_ge _ n (k + 1)), hm⟩
      · simp only [if_neg hm]
        rcases ih (k + 1) with ⟨h1, j, hj1, hj2, hj3⟩ | ⟨h1, h2⟩
        · left
          exact ⟨h1, j, by omega, hj2, hj3⟩
        · right
          refine ⟨h1, ?_⟩
          intro j hj1 hj2
          rcases Nat.eq_or_lt_of_le hj1 with h | h
          · subst h; exact hm
          · exact h2 j h hj2

theorem gnugo19_coherent : gnugo19.Coherent := by
  constructor
  · intro p hp
    simp only [gnugo19, List.any_eq_true, List.mem_range, beq_iff_eq] at hp
    obtain ⟨i, hi, j, hj, h⟩ := hp
    simp only [board_points, gnugo19, List.mem_flatMap, List.mem_map, List.mem_range]
    exact ⟨i, hi, j, hj, h⟩
  · decide

theorem small_coherent : small.Coherent := by
  constructor
  · intro p hp
    simp only [small, List.any_eq_true, List.mem_range, beq_iff_eq] at hp
    obtain ⟨i, hi, j, hj, h⟩ := hp
    simp only [board_points, small, List.mem_flatMap, List.mem_map, List.mem_range]
    exact ⟨i, hi, j, hj, h⟩
  · decide

theorem two_reasons_reachable : ReasonsReachable small two_reasons :=
  ReasonsReachable.add empty_board (new_entry small small_fresh.reasons 4 1 1 0) two_reasons
    4 1 2
    (ReasonsReachable.add empty_board small_fresh.reasons
      (new_entry small small_fresh.reasons 4 1 1 0) 4 1 1
      (ReasonsReachable.clear zero_state) rfl) rfl

theorem two_worms_reachable : RegistryReachable small two_worms :=
  RegistryReachable.step
    { small_fresh.registry with
      worms := Function.update small_fresh.registry.worms 0 4
      next_worm := 1 }
    two_worms (RegistryCall.find_worm 5)
    (RegistryReachable.step small_fresh.registry _ (RegistryCall.find_worm 4)
      (RegistryReachable.clear zero_state) rfl) rfl

theorem remove_move_reason_loop_spec (t : Reasons) (pos type what : Int) :
    ∀ fuel k n,
      (remove_move_reason_loop t pos type what fuel k n).1 = count_from (t.reason pos) fuel k
      ∧ (((∀ j, k ≤ j → j < count_from (t.reason pos) fuel k → ¬ holds_at t pos type what j)
            ∧ (remove_move_reason_loop t pos type what fuel k n).2 = n)
          ∨ ∃ j, k ≤ j ∧ j < count_from (t.reason pos) fuel k ∧ holds_at t pos type what j
              ∧ (∀ i, j < i → i < count_from (t.reason pos) fuel k → ¬ holds_at t pos type what i)
              ∧ (remove_move_reason_loop t pos type what fuel k n).2 = some j) := by
  intro fuel
  induction fuel with
  | zero =>
    intro k n
    refine ⟨by simp [remove_move_reason_loop, count_from], Or.inl ⟨?_, by simp [remove_move_reason_loop]⟩⟩
    intro j h1 h2; simp [count_from] at h2; omega
  | succ m ih =>
    intro k n
    simp only [remove_move_reason_loop, count_from]
    by_cases hk : t.reason pos k < 0
    · simp only [if_pos hk, true_and]
      left
      refine ⟨?_, trivial⟩
      intro j h1 h2; omega
    · simp only [if_neg hk]
      by_cases hm : (t.move_reasons (t.reason pos k).toNat).type = type
          ∧ (t.move_reasons (t.reason pos k).toNat).what = what
      · simp only [if_pos hm]
        obtain ⟨h1, h2⟩ := ih (k + 1) (some k)
        refine ⟨h1, Or.inr ?_⟩
        rcases h2 with ⟨h3, h4⟩ | ⟨j, hj1, hj2, hj3, hj4, hj5⟩
        · refine ⟨k, le_refl k, Nat.lt_of_lt_of_le (Nat.lt_succ_self k) (count_from_ge _ m (k + 1)),
            hm, ?_, h4⟩
          intro i hi1 hi2
          exact h3 i hi1 hi2
        · exact ⟨j, by omega, hj2, hj3, hj4, hj5⟩
      · simp only [if_neg hm]
        obtain ⟨h1, h2⟩ := ih (k + 1) n
        refine ⟨h1, ?_⟩
        rcases h2 with ⟨h3, h4⟩ | ⟨j, hj1, hj2, hj3, hj4, hj5⟩
        · left
          refine ⟨?_, h4⟩
          intro j hj1 hj2
          rcases Nat.eq_or_lt_of_le hj1 with h | h
          · subst h; exact hm
          · exact h3 j h hj2
        · right
          exact ⟨j, by omega, hj2, hj3, hj4, hj5⟩

/-! ## clear_move_reasons, cell by cell -/

theorem foldl_clear_point (cfg : Config) :
    ∀ (l : List Int) (s : State),
      (l.foldl (clear_point cfg) s).registry = s.registry
      ∧ (l.foldl (clear_point cfg) s).reasons.next_reason = s.reasons.next_reason
      ∧ (l.foldl (clear_point cfg) s).reasons.move_reasons = s.reasons.move_reasons
      ∧ (∀ p k, (l.foldl (clear_point cfg) s).reasons.reason p k
          = if p ∈ l ∧ k < cfg.MAX_REASONS then -1 else s.reasons.reason p k)
      ∧ (∀ p, (l.foldl (clear_point cfg) s).replacement_map p
          = if p ∈ l then cfg.NO_MOVE else s.replacement_map p) := by
  intro l
  induction l with
  | nil => intro s; simp
  | cons a l ih =>
    intro s
    obtain ⟨h1, h2, h3, h4, h5⟩ := ih (clear_point cfg s a)
    simp only [List.foldl_cons]
    refine ⟨by rw [h1]; rfl, by rw [h2]; rfl, by rw [h3]; rfl, ?_, ?_⟩
    · intro p k
      rw [h4]
      simp only [clear_point, List.mem_cons]
      by_cases hp : p ∈ l <;> by_cases hk : k < cfg.MAX_REASONS <;> by_cases ha : p = a <;>
        simp [hp, hk, ha]
    · intro p
      rw [h5]
      simp only [clear_point, List.mem_cons, Function.update_apply]
      by_cases hp : p ∈ l <;> by_cases ha : p = a <;> simp [hp, ha]

theorem clear_next_reason (cfg : Config) (s : State) :
    (clear_move_reasons cfg s).reasons.next_reason = 0 := by
  unfold clear_move_reasons
  rw [(foldl_clear_point cfg _ _).2.1]

theorem clear_reason (cfg : Config) (hc : cfg.Coherent) (s : State) (p : Int)
    (hp : cfg.ON_BOARD1 p = true) (k : Nat) (hk : k < cfg.MAX_REASONS) :
    (clear_move_reasons cfg s).reasons.reason p k = -1 := by
  unfold clear_move_reasons
  rw [(foldl_clear_point cfg _ _).2.2.2.1]
  simp [hc.on_board_pos p hp, hk]

theorem clear_replacement_map (cfg : Config) (hc : cfg.Coherent) (s : State) (p : Int)
    (hp : cfg.ON_BOARD1 p = true) :
    (clear_move_reasons cfg s).replacement_map p = cfg.NO_MOVE := by
  unfold clear_move_reasons
  rw [(foldl_clear_point cfg _ _).2.2.2.2]
  simp [hc.on_board_pos p hp]

theorem clear_registry (cfg : Config) (s : State) :
    (clear_move_reasons cfg s).registry
      = { s.registry with
          next_worm := 0, next_dragon := 0, next_connection := 0,
          next_worm_pair := 0, next_eye := 0, next_lunch := 0 } := by
  unfold clear_move_reasons
  rw [(foldl_clear_point cfg _ _).1]

theorem clear_reason_count (cfg : Config) (hc : cfg.Coherent) (s : State) (p : Int)
    (hp : cfg.ON_BOARD1 p = true) :
    reason_count cfg (clear_move_reasons cfg s).reasons p = 0 := by
  unfold reason_count
  apply count_from_eq
  · exact le_refl 0
  · omega
  · intro j _ hj; omega
  · intro h
    rw [clear_reason cfg hc s p hp 0 (by omega)]
    decide

theorem clear_inv (cfg : Config) (hc : cfg.Coherent) (s : State) :
    ReasonsInv cfg (clear_move_reasons cfg s).reasons := by
  constructor
  · rw [clear_next_reason]; exact Nat.zero_le _
  · intro pos hp k _ hk
    exact clear_reason cfg hc s pos hp k hk
  · intro pos hp k hk
    rw [clear_reason_count cfg hc s pos hp] at hk
    omega
  · intro pos hp i j hi
    rw [clear_reason_count cfg hc s pos hp] at hi
    omega

/-! ## add_move_reason -/

theorem add_move_reason_eq (cfg : Config) (b : Board) (t : Reasons) (pos type what : Int)
    (hp : cfg.ON_BOARD1 pos = true) (he : b.stackp = 0 → b.board pos = cfg.EMPTY) :
    add_move_reason cfg b t pos type what =
      if listed cfg t pos type what then some t
      else if reason_count cfg t pos < cfg.MAX_REASONS then
        if t.next_reason < MAX_MOVE_REASONS then
          some (new_entry cfg t pos type what (reason_count cfg t pos))
        else none
      else none := by
  have he2 : ¬ (b.stackp = 0 ∧ b.board pos ≠ cfg.EMPTY) := fun h => h.2 (he h.1)
  unfold add_move_reason
  rw [if_neg (by simp [hp]), if_neg he2]
  rcases add_move_reason_loop_spec t pos type what cfg.MAX_REASONS 0 with
    ⟨h1, j, _, hj2, hj3⟩ | ⟨h1, h2⟩
  · rw [h1, if_pos ⟨j, hj2, hj3⟩]
  · have hn : ¬ listed cfg t pos type what := fun ⟨j, hj1, hj2⟩ => h2 j (Nat.zero_le j) hj1 hj2
    rw [h1, if_neg hn]
    rfl

theorem add_move_reason_pre (cfg : Config) (b : Board) (t t1 : Reasons) (pos type what : Int)
    (h : add_move_reason cfg b t pos type what = some t1) :
    cfg.ON_BOARD1 pos = true ∧ (b.stackp = 0 → b.board pos = cfg.EMPTY) := by
  unfold add_move_reason at h
  by_cases hp : cfg.ON_BOARD1 pos = false
  · rw [if_pos hp] at h; exact absurd h (by simp)
  · rw [if_neg hp] at h
    by_cases he : b.stackp = 0 ∧ b.board pos ≠ cfg.EMPTY
    · rw [if_pos he] at h; exact absurd h (by simp)
    · refine ⟨by simpa using hp, ?_⟩
      intro h0
      by_contra hne
      exact he ⟨h0, hne⟩

theorem new_entry_reason (cfg : Config) (t : Reasons) (pos type what : Int) (c : Nat)
    (q : Int) (k : Nat) :
    (new_entry cfg t pos type what c).reason q k
      = if q = pos ∧ k = c then (t.next_reason : Int) else t.reason q k := by
  simp only [new_entry]
  by_cases hq : q = pos
  · subst hq
    by_cases hk : k = c
    · subst hk; simp
    · simp [hk, Function.update_noteq hk]
  · simp [hq, Function.update_noteq hq]

theorem new_entry_count_self (cfg : Config) (t : Reasons) (hi : ReasonsInv cfg t)
    (pos type what : Int) (hp : cfg.ON_BOARD1 pos = true)
    (hc : reason_count cfg t pos < cfg.MAX_REASONS) :
    reason_count cfg (new_entry cfg t pos type what (reason_count cfg t pos)) pos
      = reason_count cfg t pos + 1 := by
  unfold reason_count
  apply count_from_eq
  · omega
  · unfold reason_count at hc; omega
  · intro j _ hj
    rw [new_entry_reason]
    by_cases hjc : j = count_from (t.reason pos) cfg.MAX_REASONS 0
    · rw [if_pos ⟨rfl, hjc⟩]; exact Int.ofNat_nonneg _
    · rw [if_neg (fun h => hjc h.2)]
      exact count_from_nonneg (t.reason pos) cfg.MAX_REASONS 0 j (Nat.zero_le j) (by omega)
  · intro h
    rw [new_entry_reason, if_neg (fun h => by have := h.2; omega)]
    rw [hi.tail pos hp _ (by unfold reason_count; omega) (by omega)]
    decide

theorem new_entry_count_other (cfg : Config) (t : Reasons) (pos type what : Int) (c : Nat)
    (q : Int) (hq : q ≠ pos) :
    reason_count cfg (new_entry cfg t pos type what c) q = reason_count cfg t q := by
  unfold reason_count
  have : (new_entry cfg t pos type what c).reason q = t.reason q := by
    funext k
    rw [new_entry_reason, if_neg (fun h => hq h.1)]
  rw [this]

theorem new_entry_record_new (cfg : Config) (t : Reasons) (pos type what : Int) (c : Nat) :
    (new_entry cfg t pos type what c).move_reasons
        ((new_entry cfg t pos type what c).reason pos c).toNat
      = { type := type, what := what, status := cfg.ACTIVE } := by
  rw [new_entry_reason, if_pos ⟨rfl, rfl⟩]
  simp [new_entry]

theorem new_entry_record_old (cfg : Config) (t : Reasons) (hi : ReasonsInv cfg t)
    (pos type what : Int) (q : Int) (hq : cfg.ON_BOARD1 q = true) (k : Nat)
    (hk : k < reason_count cfg t q) :
    (new_entry cfg t pos type what (reason_count cfg t pos)).reason q k = t.reason q k
    ∧ (new_entry cfg t pos type what (reason_count cfg t pos)).move_reasons
        ((new_entry cfg t pos type what (reason_count cfg t pos)).reason q k).toNat
      = t.move_reasons (t.reason q k).toNat := by
  have h1 : (new_entry cfg t pos type what (reason_count cfg t pos)).reason q k = t.reason q k := by
    rw [new_entry_reason]
    apply if_neg
    rintro ⟨h1, h2⟩
    subst h1; omega
  refine ⟨h1, ?_⟩
  rw [h1]
  have h2 := hi.handle_lt q hq k hk
  simp only [new_entry]
  rw [Function.update_noteq (by omega)]

theorem new_entry_inv (cfg : Config) (t : Reasons) (hi : ReasonsInv cfg t)
    (pos type what : Int) (hp : cfg.ON_BOARD1 pos = true)
    (hl : ¬ listed cfg t pos type what)
    (hc : reason_count cfg t pos < cfg.MAX_REASONS) (hn : t.next_reason < MAX_MOVE_REASONS) :
    ReasonsInv cfg (new_entry cfg t pos type what (reason_count cfg t pos)) := by
  have hcount := new_entry_count_self cfg t hi pos type what hp hc
  constructor
  · show t.next_reason + 1 ≤ MAX_MOVE_REASONS
    omega
  · intro q hq k hk1 hk2
    by_cases hqp : q = pos
    · subst hqp
      rw [hcount] at hk1
      rw [new_entry_reason, if_neg (fun h => by have := h.2; omega)]
      exact hi.tail q hq k (by omega) hk2
    · rw [new_entry_count_other cfg t pos type what _ q hqp] at hk1
      rw [new_entry_reason, if_neg (fun h => hqp h.1)]
      exact hi.tail q hq k hk1 hk2
  · intro q hq k hk
    show _ < t.next_reason + 1
    by_cases hqp : q = pos
    · subst hqp
      rw [hcount] at hk
      by_cases hkc : k = reason_count cfg t q
      · rw [new_entry_reason, if_pos ⟨rfl, hkc⟩]
        simp
      · rw [(new_entry_record_old cfg t hi q type what q hq k (by omega)).1]
        exact Nat.lt_succ_of_lt (hi.handle_lt q hq k (by omega))
    · rw [new_entry_count_other cfg t pos type what _ q hqp] at hk
      rw [(new_entry_record_old cfg t hi pos type what q hq k hk).1]
      exact Nat.lt_succ_of_lt (hi.handle_lt q hq k hk)
  · intro q hq i j hi1 hj1 ht hw
    by_cases hqp : q = pos
    · subst hqp
      rw [hcount] at hi1 hj1
      by_cases hic : i = reason_count cfg t q <;> by_cases hjc : j = reason_count cfg t q
      · omega
      · exfalso
        subst hic
        rw [new_entry_record_new] at ht hw
        rw [(new_entry_record_old cfg t hi q type what q hq j (by omega)).2] at ht hw
        exact hl ⟨j, by omega, ht.symm, hw.symm⟩
      · exfalso
        subst hjc
        rw [new_entry_record_new] at ht hw
        rw [(new_entry_record_old cfg t hi q type what q hq i (by omega)).2] at ht hw
        exact hl ⟨i, by omega, ht, hw⟩
      · rw [(new_entry_record_old cfg t hi q type what q hq i (by omega)).2,
          (new_entry_record_old cfg t hi q type what q hq j (by omega)).2] at ht hw
        exact hi.no_dup q hq i j (by omega) (by omega) ht hw
    · rw [new_entry_count_other cfg t pos type what _ q hqp] at hi1 hj1
      rw [(new_entry_record_old cfg t hi pos type what q hq i hi1).2,
        (new_entry_record_old cfg t hi pos type what q hq j hj1).2] at ht hw
      exact hi.no_dup q hq i j hi1 hj1 ht hw

theorem add_move_reason_inv (cfg : Config) (b : Board) (t t1 : Reasons) (hi : ReasonsInv cfg t)
    (pos type what : Int) (h : add_move_reason cfg b t pos type what = some t1) :
    ReasonsInv cfg t1 := by
  obtain ⟨hp, he⟩ := add_move_reason_pre cfg b t t1 pos type what h
  rw [add_move_reason_eq cfg b t pos type what hp he] at h
  by_cases hl : listed cfg t pos type what
  · rw [if_pos hl] at h
    cases h; exact hi
  · rw [if_neg hl] at h
    by_cases hc : reason_count cfg t pos < cfg.MAX_REASONS
    · rw [if_pos hc] at h
      by_cases hn : t.next_reason < MAX_MOVE_REASONS
      · rw [if_pos hn] at h
        cases h
        exact new_entry_inv cfg t hi pos type what hp hl hc hn
      · rw [if_neg hn] at h; exact absurd h (by simp)
    · rw [if_neg hc] at h; exact absurd h (by simp)

/-! ## remove_move_reason -/

theorem remove_move_reason_cases (cfg : Config) (t : Reasons) (pos type what : Int)
    (hp : cfg.ON_BOARD1 pos = true) :
    (¬ listed cfg t pos type what ∧ remove_move_reason cfg t pos type what = some t)
    ∨ ∃ n, n < reason_count cfg t pos ∧ holds_at t pos type what n
        ∧ (∀ i, n < i → i < reason_count cfg t pos → ¬ holds_at t pos type what i)
        ∧ remove_move_reason cfg t pos type what
            = some (move_last t pos n (reason_count cfg t pos - 1)) := by
  unfold remove_move_reason
  rw [if_neg (by simp [hp])]
  obtain ⟨h1, h2⟩ := remove_move_reason_loop_spec t pos type what cfg.MAX_REASONS 0 none
  rcases h2 with ⟨h3, h4⟩ | ⟨j, _, hj2, hj3, hj4, hj5⟩
  · left
    refine ⟨fun ⟨j, hj1, hj2⟩ => h3 j (Nat.zero_le j) hj1 hj2, ?_⟩
    generalize remove_move_reason_loop t pos type what cfg.MAX_REASONS 0 none = res at h4
    obtain ⟨a, b⟩ := res
    simp only at h4
    subst h4
    rfl
  · right
    refine ⟨j, hj2, hj3, hj4, ?_⟩
    generalize remove_move_reason_loop t pos type what cfg.MAX_REASONS 0 none = res at h1 hj5
    obtain ⟨a, b⟩ := res
    simp only at h1 hj5
    subst h1 hj5
    rfl

theorem move_last_reason (t : Reasons) (pos : Int) (n k : Nat) (q : Int) (j : Nat) :
    (move_last t pos n k).reason q j
      = if q = pos then (if j = k then -1 else if j = n then t.reason pos k else t.reason q j)
        else t.reason q j := by
  simp only [move_last]
  by_cases hq : q = pos
  · subst hq
    by_cases hj : j = k
    · subst hj; simp
    · by_cases hn : j = n
      · subst hn; simp [hj, Function.update_noteq hj]
      · simp [hj, hn, Function.update_noteq hj, Function.update_noteq hn]
  · simp [hq, Function.update_noteq hq]

theorem move_last_count_self (cfg : Config) (t : Reasons)
    (pos : Int) (n : Nat) (hn : n < reason_count cfg t pos) :
    reason_count cfg (move_last t pos n (reason_count cfg t pos - 1)) pos
      = reason_count cfg t pos - 1 := by
  have hle : reason_count cfg t pos ≤ cfg.MAX_REASONS := by
    have := count_from_le (t.reason pos) cfg.MAX_REASONS 0
    unfold reason_count; omega
  have hnn : ∀ j, j < reason_count cfg t pos → 0 ≤ t.reason pos j := fun j hj =>
    count_from_nonneg (t.reason pos) cfg.MAX_REASONS 0 j (Nat.zero_le j) hj
  show count_from _ cfg.MAX_REASONS 0 = _
  apply count_from_eq
  · omega
  · omega
  · intro j _ hj
    rw [move_last_reason, if_pos rfl, if_neg (by omega)]
    by_cases hjn : j = n
    · rw [if_pos hjn]; exact hnn _ (by omega)
    · rw [if_neg hjn]; exact hnn _ (by omega)
  · intro _
    rw [move_last_reason, if_pos rfl, if_pos rfl]
    decide

theorem move_last_count_other (cfg : Config) (t : Reasons) (pos : Int) (n k : Nat)
    (q : Int) (hq : q ≠ pos) :
    reason_count cfg (move_last t pos n k) q = reason_count cfg t q := by
  unfold reason_count
  have : (move_last t pos n k).reason q = t.reason q := by
    funext j
    rw [move_last_reason, if_neg hq]
  rw [this]

/-- Cell `j` of the shortened list of `pos` is cell `n ↦ last, j ↦ j` of the
old one. -/
theorem move_last_cell (cfg : Config) (t : Reasons) (pos : Int) (n : Nat)
    (j : Nat) (hj : j < reason_count cfg t pos - 1) :
    (move_last t pos n (reason_count cfg t pos - 1)).reason pos j
      = t.reason pos (if j = n then reason_count cfg t pos - 1 else j) := by
  rw [move_last_reason, if_pos rfl, if_neg (by omega)]
  by_cases hjn : j = n
  · rw [if_pos hjn, if_pos hjn]
  · rw [if_neg hjn, if_neg hjn]

theorem move_last_inv (cfg : Config) (t : Reasons) (hi : ReasonsInv cfg t)
    (pos : Int) (hp : cfg.ON_BOARD1 pos = true) (n : Nat) (hn : n < reason_count cfg t pos) :
    ReasonsInv cfg (move_last t pos n (reason_count cfg t pos - 1)) := by
  have hcount := move_last_count_self cfg t pos n hn
  constructor
  · exact hi.next_le
  · intro q hq k hk1 hk2
    by_cases hqp : q = pos
    · subst hqp
      rw [hcount] at hk1
      rw [move_last_reason, if_pos rfl]
      by_cases hk : k = reason_count cfg t q - 1
      · rw [if_pos hk]
      · rw [if_neg hk, if_neg (by omega)]
        exact hi.tail q hq k (by omega) hk2
    · rw [move_last_count_other cfg t pos n _ q hqp] at hk1
      rw [move_last_reason, if_neg hqp]
      exact hi.tail q hq k hk1 hk2
  · intro q hq k hk
    show _ < t.next_reason
    by_cases hqp : q = pos
    · subst hqp
      rw [hcount] at hk
      rw [move_last_cell cfg t q n k hk]
      apply hi.handle_lt q hq
      split <;> omega
    · rw [move_last_count_other cfg t pos n _ q hqp] at hk
      rw [move_last_reason, if_neg hqp]
      exact hi.handle_lt q hq k hk
  · intro q hq i j hi1 hj1 ht hw
    by_cases hqp : q = pos
    · subst hqp
      rw [hcount] at hi1 hj1
      rw [move_last_cell cfg t q n i hi1, move_last_cell cfg t q n j hj1] at ht hw
      have := hi.no_dup q hq _ _ (by split <;> omega) (by split <;> omega) ht hw
      split at this <;> split at this <;> omega
    · rw [move_last_count_other cfg t pos n _ q hqp] at hi1 hj1
      have e : ∀ k, (move_last t pos n (reason_count cfg t pos - 1)).reason q k = t.reason q k :=
        fun k => by rw [move_last_reason, if_neg hqp]
      rw [e i, e j] at ht hw
      exact hi.no_dup q hq i j hi1 hj1 ht hw

theorem remove_move_reason_inv (cfg : Config) (t t1 : Reasons) (hi : ReasonsInv cfg t)
    (pos type what : Int) (h : remove_move_reason cfg t pos type what = some t1) :
    ReasonsInv cfg t1 := by
  have hp : cfg.ON_BOARD1 pos = true := by
    by_contra hp
    unfold remove_move_reason at h
    rw [if_pos (by simpa using hp)] at h
    exact absurd h (by simp)
  rcases remove_move_reason_cases cfg t pos type what hp with ⟨_, h2⟩ | ⟨n, hn, _, _, h2⟩
  · rw [h2] at h; cases h; exact hi
  · rw [h2] at h; cases h
    exact move_last_inv cfg t hi pos hp n hn

theorem set_status_inv (cfg : Config) (t : Reasons) (hi : ReasonsInv cfg t)
    (status : Nat → Int) : ReasonsInv cfg (set_status t status) :=
  ⟨hi.next_le, hi.tail, hi.handle_lt, hi.no_dup⟩

theorem rearrange_reason_self (cfg : Config) (t : Reasons) (pos : Int) (order : Nat → Nat)
    (k : Nat) :
    (rearrange cfg t pos order).reason pos k
      = if k < reason_count cfg t pos then t.reason pos (order k) else t.reason pos k := by
  simp [rearrange]

theorem rearrange_reason_other (cfg : Config) (t : Reasons) (pos : Int) (order : Nat → Nat)
    (q : Int) (hq : q ≠ pos) : (rearrange cfg t pos order).reason q = t.reason q := by
  simp [rearrange, Function.update_noteq hq]

theorem rearrange_count (cfg : Config) (t : Reasons) (pos : Int) (order : Nat → Nat)
    (h1 : ∀ k, k < reason_count cfg t pos → order k < reason_count cfg t pos) (q : Int) :
    reason_count cfg (rearrange cfg t pos order) q = reason_count cfg t q := by
  by_cases hq : q = pos
  · subst hq
    show count_from _ cfg.MAX_REASONS 0 = _
    apply count_from_eq
    · exact Nat.zero_le _
    · have := count_from_le (t.reason q) cfg.MAX_REASONS 0
      unfold reason_count; omega
    · intro j _ hj
      rw [rearrange_reason_self, if_pos hj]
      exact count_from_nonneg (t.reason q) cfg.MAX_REASONS 0 _ (Nat.zero_le _) (h1 j hj)
    · intro h
      rw [rearrange_reason_self, if_neg (lt_irrefl _)]
      exact count_from_stop (t.reason q) cfg.MAX_REASONS 0 (by unfold reason_count at h; omega)
  · unfold reason_count
    rw [rearrange_reason_other cfg t pos order q hq]

theorem rearrange_inv (cfg : Config) (t : Reasons) (hi : ReasonsInv cfg t) (pos : Int)
    (order : Nat → Nat)
    (h1 : ∀ k, k < reason_count cfg t pos → order k < reason_count cfg t pos)
    (h2 : ∀ i j, i < reason_count cfg t pos → j < reason_count cfg t pos →
      order i = order j → i = j) :
    ReasonsInv cfg (rearrange cfg t pos order) := by
  constructor
  · exact hi.next_le
  · intro q hq k hk1 hk2
    rw [rearrange_count cfg t pos order h1 q] at hk1
    by_cases hqp : q = pos
    · subst hqp
      rw [rearrange_reason_self, if_neg (by omega)]
      exact hi.tail q hq k hk1 hk2
    · rw [rearrange_reason_other cfg t pos order q hqp]
      exact hi.tail q hq k hk1 hk2
  · intro q hq k hk
    rw [rearrange_count cfg t pos order h1 q] at hk
    show _ < t.next_reason
    by_cases hqp : q = pos
    · subst hqp
      rw [rearrange_reason_self, if_pos hk]
      exact hi.handle_lt q hq _ (h1 k hk)
    · rw [rearrange_reason_other cfg t pos order q hqp]
      exact hi.handle_lt q hq k hk
  · intro q hq i j hi1 hj1 ht hw
    rw [rearrange_count cfg t pos order h1 q] at hi1 hj1
    by_cases hqp : q = pos
    · subst hqp
      rw [rearrange_reason_self, if_pos hi1, rearrange_reason_self, if_pos hj1] at ht hw
      exact h2 i j hi1 hj1 (hi.no_dup q hq _ _ (h1 i hi1) (h1 j hj1) ht hw)
    · rw [rearrange_reason_other cfg t pos order q hqp] at ht hw
      exact hi.no_dup q hq i j hi1 hj1 ht hw

theorem reachable_inv (cfg : Config) (hc : cfg.Coherent) (t : Reasons)
    (h : ReasonsReachable cfg t) : ReasonsInv cfg t := by
  induction h with
  | clear s => exact clear_inv cfg hc s
  | add b t t1 pos type what _ h ih => exact add_move_reason_inv cfg b t t1 ih pos type what h
  | remove t t1 pos type what _ h ih => exact remove_move_reason_inv cfg t t1 ih pos type what h
  | status t status _ ih => exact set_status_inv cfg t ih status
  | sort t pos order _ h1 h2 ih => exact rearrange_inv cfg t ih pos order h1 h2

/-! ## move_reason_known -/

theorem move_reason_known_eq (cfg : Config) (t : Reasons) (pos type what : Int)
    (hp : cfg.ON_BOARD1 pos = true) :
    move_reason_known cfg t pos type what
      = some (if ∃ k, k < reason_count cfg t pos ∧ answers_at t pos type what k then 1 else 0) := by
  unfold move_reason_known
  rw [if_neg (by simp [hp])]
  rcases move_reason_known_loop_spec t pos type what cfg.MAX_REASONS 0 with
    ⟨h1, j, _, hj2, hj3⟩ | ⟨h1, h2⟩
  · rw [h1, if_pos ⟨j, hj2, hj3⟩]
  · rw [h1, if_neg (fun ⟨j, hj1, hj2⟩ => h2 j (Nat.zero_le j) hj1 hj2)]

theorem count_from_gt (row : Nat → Int) (fuel c : Nat) (hc : c < fuel)
    (h : ∀ j, j ≤ c → 0 ≤ row j) : c < count_from row fuel 0 := by
  by_contra hlt
  have h1 := count_from_stop row fuel 0 (by omega)
  have h2 := h (count_from row fuel 0) (by omega)
  omega

theorem add_move_reason_listed (cfg : Config) (b : Board) (t t1 : Reasons)
    (pos type what : Int) (hi : ReasonsInv cfg t)
    (h1 : add_move_reason cfg b t pos type what = some t1) :
    listed cfg t1 pos type what := by
  obtain ⟨hp, he⟩ := add_move_reason_pre cfg b t t1 pos type what h1
  rw [add_move_reason_eq cfg b t pos type what hp he] at h1
  by_cases hl : listed cfg t pos type what
  · rw [if_pos hl] at h1
    cases h1; exact hl
  · rw [if_neg hl] at h1
    by_cases hcap : reason_count cfg t pos < cfg.MAX_REASONS
    · rw [if_pos hcap] at h1
      by_cases hn : t.next_reason < MAX_MOVE_REASONS
      · rw [if_pos hn] at h1
        cases h1
        refine ⟨reason_count cfg t pos, ?_, ?_⟩
        · rw [new_entry_count_self cfg t hi pos type what hp hcap]; omega
        · unfold holds_at
          rw [new_entry_record_new]
          exact ⟨rfl, rfl⟩
      · rw [if_neg hn] at h1; exact absurd h1 (by simp)
    · rw [if_neg hcap] at h1; exact absurd h1 (by simp)

/-! ## The claims on the reason lists -/

/-- C1: in a reachable state, when `add_move_reason(pos, type, what)` has
returned, calling it again returns the very same state (reason lists, shared
table and `next_reason`), and exactly one cell of the list of `pos` refers to
a record `(type, what)`. -/
theorem add_move_reason_idempotent (cfg : Config) (hc : cfg.Coherent) (b : Board)
    (t t1 : Reasons) (pos type what : Int) (hr : ReasonsReachable cfg t)
    (h1 : add_move_reason cfg b t pos type what = some t1) :
    add_move_reason cfg b t1 pos type what = some t1
    ∧ ∃! k, k < reason_count cfg t1 pos ∧ holds_at t1 pos type what k := by
  obtain ⟨hp, he⟩ := add_move_reason_pre cfg b t t1 pos type what h1
  have hi1 := reachable_inv cfg hc t1 (ReasonsReachable.add b t t1 pos type what hr h1)
  have hl : listed cfg t1 pos type what :=
    add_move_reason_listed cfg b t t1 pos type what (reachable_inv cfg hc t hr) h1
  refine ⟨?_, ?_⟩
  · rw [add_move_reason_eq cfg b t1 pos type what hp he, if_pos hl]
  · obtain ⟨k, hk, hh⟩ := hl
    refine ⟨k, ⟨hk, hh⟩, ?_⟩
    rintro k2 ⟨hk2, hh2⟩
    exact hi1.no_dup pos hp k2 k hk2 hk (hh2.1.trans hh.1.symm) (hh2.2.trans hh.2.symm)

set_option maxRecDepth 100000 in
theorem add_move_reason_idempotent_witness :
    ReasonsReachable gnugo19 fresh.reasons
    ∧ add_move_reason gnugo19 empty_board (new_entry gnugo19 fresh.reasons 21 1 3 0) 21 1 3
        = some (new_entry gnugo19 fresh.reasons 21 1 3 0)
    ∧ ∃! k, k < reason_count gnugo19 (new_entry gnugo19 fresh.reasons 21 1 3 0) 21
        ∧ holds_at (new_entry gnugo19 fresh.reasons 21 1 3 0) 21 1 3 k :=
  ⟨ReasonsReachable.clear zero_state,
    add_move_reason_idempotent gnugo19 gnugo19_coherent empty_board fresh.reasons
      (new_entry gnugo19 fresh.reasons 21 1 3 0) 21 1 3 (ReasonsReachable.clear zero_state) rfl⟩

/-- C2: when `(type, what)` is not listed at the on-board point `pos` (empty
unless a trial move is under way), the list of `pos` is shorter than
`MAX_REASONS` and `next_reason < MAX_MOVE_REASONS`, `add_move_reason` returns
and appends: the first free cell of `pos` receives the handle `next_reason`
of the new record `(type, what, ACTIVE)`, every other cell of every point and
every other record is unchanged, `next_reason` grows by one, and
`move_reason_known(pos, type, what)` returns 1 afterwards. -/
theorem add_move_reason_appends (cfg : Config) (b : Board) (t : Reasons) (pos type what : Int)
    (hp : cfg.ON_BOARD1 pos = true) (he : b.stackp = 0 → b.board pos = cfg.EMPTY)
    (hl : ¬ listed cfg t pos type what) (hcap : reason_count cfg t pos < cfg.MAX_REASONS)
    (hn : t.next_reason < MAX_MOVE_REASONS) :
    ∃ t1, add_move_reason cfg b t pos type what = some t1
      ∧ t1.reason pos (reason_count cfg t pos) = (t.next_reason : Int)
      ∧ t1.move_reasons t.next_reason = { type := type, what := what, status := cfg.ACTIVE }
      ∧ (∀ k, k ≠ reason_count cfg t pos → t1.reason pos k = t.reason pos k)
      ∧ (∀ q, q ≠ pos → t1.reason q = t.reason q)
      ∧ (∀ r, r ≠ t.next_reason → t1.move_reasons r = t.move_reasons r)
      ∧ t1.next_reason = t.next_reason + 1
      ∧ move_reason_known cfg t1 pos type what = some 1 := by
  refine ⟨new_entry cfg t pos type what (reason_count cfg t pos), ?_, ?_, ?_, ?_, ?_, ?_, rfl, ?_⟩
  · rw [add_move_reason_eq cfg b t pos type what hp he, if_neg hl, if_pos hcap, if_pos hn]
  · rw [new_entry_reason, if_pos ⟨rfl, rfl⟩]
  · simp [new_entry]
  · intro k hk
    rw [new_entry_reason, if_neg (fun h => hk h.2)]
  · intro q hq
    funext k
    rw [new_entry_reason, if_neg (fun h => hq h.1)]
  · intro r hr
    simp only [new_entry]
    rw [Function.update_noteq hr]
  · rw [move_reason_known_eq cfg _ pos type what hp, if_pos]
    refine ⟨reason_count cfg t pos, ?_, ?_⟩
    · apply count_from_gt _ _ _ hcap
      intro j hj
      rw [new_entry_reason]
      by_cases hjc : j = reason_count cfg t pos
      · rw [if_pos ⟨rfl, hjc⟩]; exact Int.ofNat_nonneg _
      · rw [if_neg (fun h => hjc h.2)]
        have hlt : j < reason_count cfg t pos := by omega
        exact count_from_nonneg (t.reason pos) cfg.MAX_REASONS 0 j (Nat.zero_le j) hlt
    · unfold answers_at
      rw [new_entry_record_new]
      exact ⟨rfl, Or.inr rfl⟩

set_option maxRecDepth 100000 in
theorem add_move_reason_appends_witness :
    ∃ t1, add_move_reason gnugo19 empty_board fresh.reasons 21 1 3 = some t1
      ∧ t1.reason 21 (reason_count gnugo19 fresh.reasons 21) = (fresh.reasons.next_reason : Int)
      ∧ t1.move_reasons fresh.reasons.next_reason
          = { type := 1, what := 3, status := gnugo19.ACTIVE }
      ∧ (∀ k, k ≠ reason_count gnugo19 fresh.reasons 21 → t1.reason 21 k = fresh.reasons.reason 21 k)
      ∧ (∀ q, q ≠ 21 → t1.reason q = fresh.reasons.reason q)
      ∧ (∀ r, r ≠ fresh.reasons.next_reason → t1.move_reasons r = fresh.reasons.move_reasons r)
      ∧ t1.next_reason = fresh.reasons.next_reason + 1
      ∧ move_reason_known gnugo19 t1 21 1 3 = some 1 :=
  add_move_reason_appends gnugo19 empty_board fresh.reasons 21 1 3 (by decide)
    (fun _ => rfl) (by decide) (by decide) (by decide)

/-- C3: in a reachable state and for an on-board point `pos` that is empty
(unless a trial move is under way), `add_move_reason(pos, type, what)` fails
exactly when `(type, what)` is not listed at `pos` and either the list of
`pos` holds `MAX_REASONS` reasons or the shared table holds
`MAX_MOVE_REASONS` records; whenever it returns, `(type, what)` is listed at
`pos`. -/
theorem add_move_reason_fails_iff (cfg : Config) (hc : cfg.Coherent) (b : Board)
    (t : Reasons) (pos type what : Int) (hr : ReasonsReachable cfg t)
    (hp : cfg.ON_BOARD1 pos = true) (he : b.stackp = 0 → b.board pos = cfg.EMPTY) :
    (add_move_reason cfg b t pos type what = none ↔
      ¬ listed cfg t pos type what
        ∧ (reason_count cfg t pos = cfg.MAX_REASONS ∨ t.next_reason = MAX_MOVE_REASONS))
    ∧ ∀ t1, add_move_reason cfg b t pos type what = some t1 → listed cfg t1 pos type what := by
  have hi := reachable_inv cfg hc t hr
  have hle : reason_count cfg t pos ≤ cfg.MAX_REASONS := by
    have := count_from_le (t.reason pos) cfg.MAX_REASONS 0
    unfold reason_count; omega
  have hnle := hi.next_le
  constructor
  · rw [add_move_reason_eq cfg b t pos type what hp he]
    by_cases hl : listed cfg t pos type what
    · rw [if_pos hl]; simp [hl]
    · rw [if_neg hl]
      by_cases hcap : reason_count cfg t pos < cfg.MAX_REASONS
      · rw [if_pos hcap]
        by_cases hn : t.next_reason < MAX_MOVE_REASONS
        · rw [if_pos hn]
          simp only [reduceCtorEq, false_iff, not_and, not_or]
          intro _
          exact ⟨by omega, by omega⟩
        · rw [if_neg hn]
          simp only [true_iff]
          exact ⟨hl, Or.inr (by omega)⟩
      · rw [if_neg hcap]
        simp only [true_iff]
        exact ⟨hl, Or.inl (by omega)⟩
  · intro t1 h1
    exact add_move_reason_listed cfg b t t1 pos type what hi h1


/-- On the 2 by 2 board, where `MAX_REASONS` is 2: with two reasons listed at
the point 4, adding a third one fails and adding a listed one returns. -/
theorem add_move_reason_fails_iff_witness :
    add_move_reason small empty_board two_reasons 4 1 3 = none
    ∧ add_move_reason small empty_board two_reasons 4 1 2 = some two_reasons :=
  ⟨((add_move_reason_fails_iff small small_coherent empty_board two_reasons 4 1 3
      two_reasons_reachable (by decide) (fun _ => rfl)).1).2 ⟨by decide, Or.inl (by decide)⟩,
    rfl⟩

/-- C5: at an on-board point, `move_reason_known(pos, type, what)` returns 1
or 0, and it returns 1 exactly when the list of `pos` has a reason of kind
`type` with object `what`, or `what` is negative and the list has a reason of
kind `type`. -/
theorem move_reason_known_spec (cfg : Config) (t : Reasons) (pos type what : Int)
    (hp : cfg.ON_BOARD1 pos = true) :
    (move_reason_known cfg t pos type what = some 1
      ∨ move_reason_known cfg t pos type what = some 0)
    ∧ (move_reason_known cfg t pos type what = some 1 ↔
        (∃ k, k < reason_count cfg t pos ∧ holds_at t pos type what k)
        ∨ (what < 0 ∧ ∃ k, k < reason_count cfg t pos
            ∧ (t.move_reasons (t.reason pos k).toNat).type = type)) := by
  rw [move_reason_known_eq cfg t pos type what hp]
  by_cases h : ∃ k, k < reason_count cfg t pos ∧ answers_at t pos type what k
  · rw [if_pos h]
    refine ⟨Or.inl rfl, ?_⟩
    simp only [true_iff]
    obtain ⟨k, hk, h1, h2⟩ := h
    rcases h2 with h2 | h2
    · exact Or.inr ⟨h2, k, hk, h1⟩
    · exact Or.inl ⟨k, hk, h1, h2⟩
  · rw [if_neg h]
    refine ⟨Or.inr rfl, ?_⟩
    simp only [Option.some.injEq, zero_ne_one, false_iff, not_or]
    constructor
    · rintro ⟨k, hk, h1, h2⟩
      exact h ⟨k, hk, h1, Or.inr h2⟩
    · rintro ⟨hw, k, hk, h1⟩
      exact h ⟨k, hk, h1, Or.inl hw⟩

set_option maxRecDepth 100000 in
theorem move_reason_known_spec_witness :
    (move_reason_known gnugo19 one_reason 21 1 (-1) = some 1
      ∨ move_reason_known gnugo19 one_reason 21 1 (-1) = some 0)
    ∧ (move_reason_known gnugo19 one_reason 21 1 (-1) = some 1 ↔
        (∃ k, k < reason_count gnugo19 one_reason 21 ∧ holds_at one_reason 21 1 (-1) k)
        ∨ ((-1 : Int) < 0 ∧ ∃ k, k < reason_count gnugo19 one_reason 21
            ∧ (one_reason.move_reasons (one_reason.reason 21 k).toNat).type = 1)) :=
  move_reason_known_spec gnugo19 one_reason 21 1 (-1) (by decide)

/-! ### remove_move_reason -/

theorem move_last_answers (cfg : Config) (t : Reasons) (pos : Int) (n : Nat)
    (hn : n < reason_count cfg t pos) (type what : Int)
    (h : ¬ answers_at t pos type what n) :
    (∃ k, k < reason_count cfg (move_last t pos n (reason_count cfg t pos - 1)) pos
        ∧ answers_at (move_last t pos n (reason_count cfg t pos - 1)) pos type what k)
    ↔ ∃ k, k < reason_count cfg t pos ∧ answers_at t pos type what k := by
  rw [move_last_count_self cfg t pos n hn]
  have e : ∀ k, k < reason_count cfg t pos - 1 →
      (answers_at (move_last t pos n (reason_count cfg t pos - 1)) pos type what k
        ↔ answers_at t pos type what (if k = n then reason_count cfg t pos - 1 else k)) := by
    intro k hk
    unfold answers_at
    rw [move_last_cell cfg t pos n k hk]
    rfl
  constructor
  · rintro ⟨k, hk, ha⟩
    exact ⟨_, by split <;> omega, (e k hk).1 ha⟩
  · rintro ⟨k, hk, ha⟩
    have hkn : k ≠ n := fun hkn => h (hkn ▸ ha)
    by_cases hlast : k = reason_count cfg t pos - 1
    · refine ⟨n, by omega, (e n (by omega)).2 ?_⟩
      rw [if_pos rfl, ← hlast]; exact ha
    · refine ⟨k, by omega, (e k (by omega)).2 ?_⟩
      rw [if_neg hkn]; exact ha

theorem move_reason_known_other_point (cfg : Config) (t t1 : Reasons) (q type what : Int)
    (h1 : t1.reason q = t.reason q) (h2 : t1.move_reasons = t.move_reasons) :
    move_reason_known cfg t1 q type what = move_reason_known cfg t q type what := by
  have hl : ∀ fuel k, move_reason_known_loop t1 q type what fuel k
      = move_reason_known_loop t q type what fuel k := by
    intro fuel
    induction fuel with
    | zero => intro k; rfl
    | succ m ih =>
      intro k
      simp only [move_reason_known_loop, h1, h2, ih]
  unfold move_reason_known
  rw [hl]

/-- C4, the claim as stated fails on wildcard queries.  In the reachable
state that holds the single reason `(1, 3)` at the point 21: removing
`(1, 3)` changes the answer to the other query `(1, -1)` at that point from 1
to 0; and removing `(1, -1)` changes nothing, after which
`move_reason_known(21, 1, -1)` returns 1, not 0. -/
theorem remove_move_reason_wildcard_counterexample :
    ReasonsReachable gnugo19 one_reason
    ∧ remove_move_reason gnugo19 one_reason 21 1 3 = some (move_last one_reason 21 0 0)
    ∧ move_reason_known gnugo19 one_reason 21 1 (-1) = some 1
    ∧ move_reason_known gnugo19 (move_last one_reason 21 0 0) 21 1 (-1) = some 0
    ∧ remove_move_reason gnugo19 one_reason 21 1 (-1) = some one_reason := by
  set_option maxRecDepth 100000 in
  exact ⟨ReasonsReachable.add empty_board fresh.reasons one_reason 21 1 3
      (ReasonsReachable.clear zero_state) rfl, rfl, by decide, by decide, rfl⟩

/-- C4, amended: in a reachable state and for an on-board point `pos`,
`remove_move_reason(pos, type, what)` returns; afterwards
`move_reason_known(pos, type, what)` returns 0 when `what` is not negative;
`move_reason_known(pos, t', w')` is unchanged for every query of another kind
and every query for another non-negative object, and for every other point;
the list of `pos` is shorter by exactly one if the pair was listed, and the
state is unchanged if it was not. -/
theorem remove_move_reason_spec (cfg : Config) (hc : cfg.Coherent) (t : Reasons)
    (pos type what : Int) (hr : ReasonsReachable cfg t) (hp : cfg.ON_BOARD1 pos = true) :
    ∃ t1, remove_move_reason cfg t pos type what = some t1
      ∧ (0 ≤ what → move_reason_known cfg t1 pos type what = some 0)
      ∧ (∀ ty w, ty ≠ type ∨ (0 ≤ w ∧ w ≠ what) →
          move_reason_known cfg t1 pos ty w = move_reason_known cfg t pos ty w)
      ∧ (∀ q ty w, q ≠ pos →
          move_reason_known cfg t1 q ty w = move_reason_known cfg t q ty w)
      ∧ (listed cfg t pos type what → reason_count cfg t1 pos + 1 = reason_count cfg t pos)
      ∧ (¬ listed cfg t pos type what → t1 = t) := by
  have hi := reachable_inv cfg hc t hr
  rcases remove_move_reason_cases cfg t pos type what hp with ⟨hl, h2⟩ | ⟨n, hn, hh, _, h2⟩
  · refine ⟨t, h2, ?_, fun _ _ _ => rfl, fun _ _ _ _ => rfl, fun h => absurd h hl, fun _ => rfl⟩
    intro hw
    rw [move_reason_known_eq cfg t pos type what hp, if_neg]
    rintro ⟨k, hk, h1, h3⟩
    rcases h3 with h3 | h3
    · omega
    · exact hl ⟨k, hk, h1, h3⟩
  · refine ⟨_, h2, ?_, ?_, ?_, ?_, fun h => absurd ⟨n, hn, hh⟩ h⟩
    · intro hw
      rw [move_reason_known_eq cfg _ pos type what hp, if_neg]
      rw [move_last_count_self cfg t pos n hn]
      rintro ⟨k, hk, ha⟩
      unfold answers_at at ha
      rw [move_last_cell cfg t pos n k hk] at ha
      obtain ⟨h1, h3⟩ := ha
      have h3 : (t.move_reasons (t.reason pos
          (if k = n then reason_count cfg t pos - 1 else k)).toNat).what = what := by
        rcases h3 with h3 | h3
        · omega
        · exact h3
      have := hi.no_dup pos hp _ n (by split <;> omega) hn (h1.trans hh.1.symm)
        (h3.trans hh.2.symm)
      split at this <;> omega
    · intro ty w hq
      rw [move_reason_known_eq cfg _ pos ty w hp, move_reason_known_eq cfg t pos ty w hp]
      have hna : ¬ answers_at t pos ty w n := by
        rintro ⟨h1, h3⟩
        rcases hq with hq | ⟨hq1, hq2⟩
        · exact hq (h1.symm.trans hh.1)
        · rcases h3 with h3 | h3
          · omega
          · exact hq2 (h3.symm.trans hh.2)
      simp only [move_last_answers cfg t pos n hn ty w hna]
    · intro q ty w hq
      apply move_reason_known_other_point
      · funext k
        rw [move_last_reason, if_neg hq]
      · rfl
    · intro _
      rw [move_last_count_self cfg t pos n hn]
      omega

set_option maxRecDepth 100000 in
theorem remove_move_reason_spec_witness :
    ∃ t1, remove_move_reason gnugo19 one_reason 21 1 3 = some t1
      ∧ (0 ≤ (3 : Int) → move_reason_known gnugo19 t1 21 1 3 = some 0)
      ∧ (∀ ty w, ty ≠ 1 ∨ (0 ≤ w ∧ w ≠ 3) →
          move_reason_known gnugo19 t1 21 ty w = move_reason_known gnugo19 one_reason 21 ty w)
      ∧ (∀ q ty w, q ≠ 21 →
          move_reason_known gnugo19 t1 q ty w = move_reason_known gnugo19 one_reason q ty w)
      ∧ (listed gnugo19 one_reason 21 1 3 →
          reason_count gnugo19 t1 21 + 1 = reason_count gnugo19 one_reason 21)
      ∧ (¬ listed gnugo19 one_reason 21 1 3 → t1 = one_reason) :=
  remove_move_reason_spec gnugo19 gnugo19_coherent one_reason 21 1 3
    (ReasonsReachable.add empty_board fresh.reasons one_reason 21 1 3
      (ReasonsReachable.clear zero_state) rfl) (by decide)

/-! ## The object tables -/

theorem first_index_succ (n : Nat) (hit : Nat → Bool) :
    first_index (n + 1) hit
      = (first_index n hit).or (if hit n = true then some n else none) := by
  unfold first_index
  rw [List.range_succ, List.find?_append]
  congr 1
  by_cases h : hit n = true <;> simp [List.find?, h]

theorem first_index_cases (hit : Nat → Bool) :
    ∀ n, (∃ k, first_index n hit = some k ∧ k < n ∧ hit k = true ∧ ∀ j, j < k → hit j = false)
      ∨ (first_index n hit = none ∧ ∀ j, j < n → hit j = false) := by
  intro n
  induction n with
  | zero => right; exact ⟨rfl, fun j hj => absurd hj (Nat.not_lt_zero j)⟩
  | succ n ih =>
    rw [first_index_succ]
    rcases ih with ⟨k, h1, h2, h3, h4⟩ | ⟨h1, h2⟩
    · left
      exact ⟨k, by rw [h1]; rfl, by omega, h3, h4⟩
    · rw [h1]
      by_cases h : hit n = true
      · left
        exact ⟨n, by simp [h], by omega, h, h2⟩
      · right
        refine ⟨by simp [h], ?_⟩
        intro j hj
        rcases Nat.eq_or_lt_of_le (Nat.le_of_lt_succ hj) with e | e
        · subst e; simpa using h
        · exact h2 j e

theorem first_index_eq_some (hit : Nat → Bool) (n k : Nat) (hk : k < n) (h1 : hit k = true)
    (h2 : ∀ j, j < k → hit j = false) : first_index n hit = some k := by
  rcases first_index_cases hit n with ⟨k1, e, _, h4, h5⟩ | ⟨_, h3⟩
  · rw [e]
    rcases Nat.lt_trichotomy k1 k with h | h | h
    · rw [h2 k1 h] at h4; exact absurd h4 (by simp)
    · rw [h]
    · rw [h5 k h] at h1; exact absurd h1 (by simp)
  · rw [h3 k hk] at h1; exact absurd h1 (by simp)

theorem canonical_comm (a b : Int) : canonical a b = canonical b a := by
  unfold canonical
  by_cases h1 : a > b <;> by_cases h2 : b > a
  · omega
  · simp [h1, h2]
  · simp [h1, h2]
  · have : a = b := by omega
    subst this; rfl

theorem keeps_refl {κ : Type} (key : Nat → κ) (n : Nat) : keeps key n key n :=
  ⟨le_refl n, fun _ _ => rfl⟩

theorem keeps_trans {κ : Type} (key key1 key2 : Nat → κ) (n n1 n2 : Nat)
    (h1 : keeps key n key1 n1) (h2 : keeps key1 n1 key2 n2) : keeps key n key2 n2 :=
  ⟨le_trans h1.1 h2.1, fun k hk => (h2.2 k (Nat.lt_of_lt_of_le hk h1.1)).trans (h1.2 k hk)⟩

theorem keeps_succ {κ : Type} (key key1 : Nat → κ) (n : Nat)
    (h : ∀ k, k < n → key1 k = key k) : keeps key n key1 (n + 1) :=
  ⟨Nat.le_succ n, h⟩

theorem distinct_keys_succ {κ : Type} (key key1 : Nat → κ) (n : Nat)
    (hd : distinct_keys key n) (h : ∀ k, k < n → key1 k = key k)
    (hnew : ∀ j, j < n → key j ≠ key1 n) : distinct_keys key1 (n + 1) := by
  intro i j hi hj e
  rcases Nat.eq_or_lt_of_le (Nat.le_of_lt_succ hi) with hi1 | hi1 <;>
    rcases Nat.eq_or_lt_of_le (Nat.le_of_lt_succ hj) with hj1 | hj1
  · omega
  · subst hi1
    rw [h j hj1] at e
    exact absurd e.symm (hnew j hj1)
  · subst hj1
    rw [h i hi1] at e
    exact absurd e (hnew i hi1)
  · rw [h i hi1, h j hj1] at e
    exact hd i j hi1 hj1 e

theorem TablesKept.refl (g : Registry) : TablesKept g g :=
  ⟨keeps_refl _ _, keeps_refl _ _, keeps_refl _ _, keeps_refl _ _, keeps_refl _ _⟩

theorem TablesKept.trans (g g1 g2 : Registry) (h1 : TablesKept g g1) (h2 : TablesKept g1 g2) :
    TablesKept g g2 :=
  ⟨keeps_trans _ _ _ _ _ _ h1.worms h2.worms, keeps_trans _ _ _ _ _ _ h1.dragons h2.dragons,
    keeps_trans _ _ _ _ _ _ h1.connections h2.connections,
    keeps_trans _ _ _ _ _ _ h1.worm_pairs h2.worm_pairs,
    keeps_trans _ _ _ _ _ _ h1.eyes h2.eyes⟩

/-! ### find_worm -/

theorem find_worm_cases (cfg : Config) (g : Registry) (str : Int)
    (hp : cfg.ON_BOARD1 str = true) :
    (∃ k, k < g.next_worm ∧ g.worms k = str ∧ find_worm cfg g str = some (k, g))
    ∨ ((∀ j, j < g.next_worm → g.worms j ≠ str)
        ∧ find_worm cfg g str =
          if g.next_worm < MAX_WORMS cfg then
            some (g.next_worm,
              { g with worms := Function.update g.worms g.next_worm str
                       next_worm := g.next_worm + 1 })
          else none) := by
  unfold find_worm
  rw [if_neg (by simp [hp])]
  rcases first_index_cases (fun k => g.worms k == str) g.next_worm with
    ⟨k, h1, h2, h3, _⟩ | ⟨h1, h2⟩
  · left
    exact ⟨k, h2, by simpa using h3, by rw [h1]⟩
  · right
    refine ⟨fun j hj => by simpa using h2 j hj, by rw [h1]⟩

theorem find_worm_on_board (cfg : Config) (g : Registry) (str : Int) (r : Nat × Registry)
    (h : find_worm cfg g str = some r) : cfg.ON_BOARD1 str = true := by
  by_contra hp
  unfold find_worm at h
  rw [if_pos (by simpa using hp)] at h
  exact absurd h (by simp)

/-- What a returning call of `find_worm` establishes. -/
theorem find_worm_some (cfg : Config) (g g1 : Registry) (str : Int) (k : Nat)
    (h : find_worm cfg g str = some (k, g1)) :
    k < g1.next_worm ∧ g1.worms k = str ∧ TablesKept g g1 ∧ LunchesKept g g1
    ∧ (RegistryInv cfg g → RegistryInv cfg g1)
    ∧ ((∃ j, j < g.next_worm ∧ g.worms j = str) → g1 = g) := by
  have hp := find_worm_on_board cfg g str _ h
  rcases find_worm_cases cfg g str hp with ⟨k1, h1, h2, h3⟩ | ⟨h1, h2⟩
  · rw [h3] at h
    cases h
    exact ⟨h1, h2, TablesKept.refl g, keeps_refl _ _, id, fun _ => rfl⟩
  · rw [h2] at h
    by_cases hcap : g.next_worm < MAX_WORMS cfg
    · rw [if_pos hcap] at h
      cases h
      have hold : ∀ j, j < g.next_worm → Function.update g.worms g.next_worm str j = g.worms j :=
        fun j hj => Function.update_noteq (by omega) _ _
      refine ⟨Nat.lt_succ_self _, by simp, ?_, keeps_refl _ _, ?_, ?_⟩
      · exact { TablesKept.refl g with worms := keeps_succ _ _ _ hold }
      · intro hi
        exact { hi with
          worm_le := hcap
          worm_distinct := distinct_keys_succ _ _ _ hi.worm_distinct hold
            (fun j hj => by simpa using h1 j hj) }
      · rintro ⟨j, hj1, hj2⟩
        exact absurd hj2 (h1 j hj1)
    · rw [if_neg hcap] at h
      exact absurd h (by simp)

/-! ### find_dragon -/

theorem find_dragon_cases (cfg : Config) (g : Registry) (str : Int)
    (hp : cfg.ON_BOARD1 str = true) :
    (∃ k, k < g.next_dragon ∧ g.dragons k = str ∧ find_dragon cfg g str = some (k, g))
    ∨ ((∀ j, j < g.next_dragon → g.dragons j ≠ str)
        ∧ find_dragon cfg g str =
          if g.next_dragon < MAX_DRAGONS cfg then
            some (g.next_dragon,
              { g with dragons := Function.update g.dragons g.next_dragon str
                       next_dragon := g.next_dragon + 1 })
          else none) := by
  unfold find_dragon
  rw [if_neg (by simp [hp])]
  rcases first_index_cases (fun k => g.dragons k == str) g.next_dragon with
    ⟨k, h1, h2, h3, _⟩ | ⟨h1, h2⟩
  · left
    exact ⟨k, h2, by simpa using h3, by rw [h1]⟩
  · right
    refine ⟨fun j hj => by simpa using h2 j hj, by rw [h1]⟩

theorem find_dragon_on_board (cfg : Config) (g : Registry) (str : Int) (r : Nat × Registry)
    (h : find_dragon cfg g str = some r) : cfg.ON_BOARD1 str = true := by
  by_contra hp
  unfold find_dragon at h
  rw [if_pos (by simpa using hp)] at h
  exact absurd h (by simp)

/-- What a returning call of `find_dragon` establishes. -/
theorem find_dragon_some (cfg : Config) (g g1 : Registry) (str : Int) (k : Nat)
    (h : find_dragon cfg g str = some (k, g1)) :
    k < g1.next_dragon ∧ g1.dragons k = str ∧ TablesKept g g1 ∧ LunchesKept g g1
    ∧ (RegistryInv cfg g → RegistryInv cfg g1)
    ∧ ((∃ j, j < g.next_dragon ∧ g.dragons j = str) → g1 = g) := by
  have hp := find_dragon_on_board cfg g str _ h
  rcases find_dragon_cases cfg g str hp with ⟨k1, h1, h2, h3⟩ | ⟨h1, h2⟩
  · rw [h3] at h
    cases h
    exact ⟨h1, h2, TablesKept.refl g, keeps_refl _ _, id, fun _ => rfl⟩
  · rw [h2] at h
    by_cases hcap : g.next_dragon < MAX_DRAGONS cfg
    · rw [if_pos hcap] at h
      cases h
      have hold : ∀ j, j < g.next_dragon →
          Function.update g.dragons g.next_dragon str j = g.dragons j :=
        fun j hj => Function.update_noteq (by omega) _ _
      refine ⟨Nat.lt_succ_self _, by simp, ?_, keeps_refl _ _, ?_, ?_⟩
      · exact { TablesKept.refl g with dragons := keeps_succ _ _ _ hold }
      · intro hi
        exact { hi with
          dragon_le := hcap
          dragon_distinct := distinct_keys_succ _ _ _ hi.dragon_distinct hold
            (fun j hj => by simpa using h1 j hj) }
      · rintro ⟨j, hj1, hj2⟩
        exact absurd hj2 (h1 j hj1)
    · rw [if_neg hcap] at h
      exact absurd h (by simp)

/-! ### find_connection -/

theorem find_connection_cases (cfg : Config) (g : Registry) (a b : Int) :
    (∃ k, k < g.next_connection ∧ (g.conn_dragon1 k, g.conn_dragon2 k) = canonical a b
        ∧ find_connection cfg g a b = some (k, g))
    ∨ ((∀ j, j < g.next_connection → (g.conn_dragon1 j, g.conn_dragon2 j) ≠ canonical a b)
        ∧ find_connection cfg g a b =
          if g.next_connection < MAX_CONNECTIONS cfg then
            some (g.next_connection,
              { g with
                conn_dragon1 := Function.update g.conn_dragon1 g.next_connection (canonical a b).1
                conn_dragon2 := Function.update g.conn_dragon2 g.next_connection (canonical a b).2
                next_connection := g.next_connection + 1 })
          else none) := by
  unfold find_connection
  rcases first_index_cases
      (fun k => g.conn_dragon1 k == (canonical a b).1 && g.conn_dragon2 k == (canonical a b).2)
      g.next_connection with ⟨k, h1, h2, h3, _⟩ | ⟨h1, h2⟩
  · left
    refine ⟨k, h2, ?_, ?_⟩
    · simp only [Bool.and_eq_true, beq_iff_eq] at h3
      exact Prod.ext h3.1 h3.2
    · simp only [canonical] at h1
      simp only [h1]
  · right
    refine ⟨?_, ?_⟩
    · intro j hj e
      have := h2 j hj
      simp only [← e, beq_self_eq_true, Bool.and_self] at this
      exact absurd this (by simp)
    · simp only [canonical] at h1
      simp only [h1]
      rfl

/-- What a returning call of `find_connection` establishes. -/
theorem find_connection_some (cfg : Config) (g g1 : Registry) (a b : Int) (k : Nat)
    (h : find_connection cfg g a b = some (k, g1)) :
    k < g1.next_connection ∧ (g1.conn_dragon1 k, g1.conn_dragon2 k) = canonical a b
    ∧ TablesKept g g1 ∧ LunchesKept g g1
    ∧ (RegistryInv cfg g → RegistryInv cfg g1)
    ∧ ((∃ j, j < g.next_connection ∧ (g.conn_dragon1 j, g.conn_dragon2 j) = canonical a b) →
        g1 = g) := by
  rcases find_connection_cases cfg g a b with ⟨k1, h1, h2, h3⟩ | ⟨h1, h2⟩
  · rw [h3] at h
    cases h
    exact ⟨h1, h2, TablesKept.refl g, keeps_refl _ _, id, fun _ => rfl⟩
  · rw [h2] at h
    by_cases hcap : g.next_connection < MAX_CONNECTIONS cfg
    · rw [if_pos hcap] at h
      cases h
      have hold : ∀ j, j < g.next_connection →
          (Function.update g.conn_dragon1 g.next_connection (canonical a b).1 j,
            Function.update g.conn_dragon2 g.next_connection (canonical a b).2 j)
          = (g.conn_dragon1 j, g.conn_dragon2 j) := by
        intro j hj
        rw [Function.update_noteq (by omega), Function.update_noteq (by omega)]
      refine ⟨Nat.lt_succ_self _, by simp, ?_, keeps_refl _ _, ?_, ?_⟩
      · exact { TablesKept.refl g with connections := keeps_succ _ _ _ hold }
      · intro hi
        exact { hi with
          connection_le := hcap
          connection_distinct := distinct_keys_succ _ _ _ hi.connection_distinct hold
            (fun j hj => by simpa using h1 j hj) }
      · rintro ⟨j, hj1, hj2⟩
        exact absurd hj2 (h1 j hj1)
    · rw [if_neg hcap] at h
      exact absurd h (by simp)

/-! ### find_worm_pair -/

theorem find_worm_pair_cases (cfg : Config) (g : Registry) (a b : Int) :
    (∃ k, k < g.next_worm_pair ∧ (g.worm_pair1 k, g.worm_pair2 k) = canonical a b
        ∧ find_worm_pair cfg g a b = some (k, g))
    ∨ ((∀ j, j < g.next_worm_pair → (g.worm_pair1 j, g.worm_pair2 j) ≠ canonical a b)
        ∧ find_worm_pair cfg g a b =
          if g.next_worm_pair < MAX_WORM_PAIRS cfg then
            some (g.next_worm_pair,
              { g with
                worm_pair1 := Function.update g.worm_pair1 g.next_worm_pair (canonical a b).1
                worm_pair2 := Function.update g.worm_pair2 g.next_worm_pair (canonical a b).2
                next_worm_pair := g.next_worm_pair + 1 })
          else none) := by
  unfold find_worm_pair
  rcases first_index_cases
      (fun k => g.worm_pair1 k == (canonical a b).1 && g.worm_pair2 k == (canonical a b).2)
      g.next_worm_pair with ⟨k, h1, h2, h3, _⟩ | ⟨h1, h2⟩
  · left
    refine ⟨k, h2, ?_, ?_⟩
    · simp only [Bool.and_eq_true, beq_iff_eq] at h3
      exact Prod.ext h3.1 h3.2
    · simp only [canonical] at h1
      simp only [h1]
  · right
    refine ⟨?_, ?_⟩
    · intro j hj e
      have := h2 j hj
      simp only [← e, beq_self_eq_true, Bool.and_self] at this
      exact absurd this (by simp)
    · simp only [canonical] at h1
      simp only [h1]
      rfl

/-- What a returning call of `find_worm_pair` establishes. -/
theorem find_worm_pair_some (cfg : Config) (g g1 : Registry) (a b : Int) (k : Nat)
    (h : find_worm_pair cfg g a b = some (k, g1)) :
    k < g1.next_worm_pair ∧ (g1.worm_pair1 k, g1.worm_pair2 k) = canonical a b
    ∧ TablesKept g g1 ∧ LunchesKept g g1
    ∧ (RegistryInv cfg g → RegistryInv cfg g1)
    ∧ ((∃ j, j < g.next_worm_pair ∧ (g.worm_pair1 j, g.worm_pair2 j) = canonical a b) →
        g1 = g) := by
  rcases find_worm_pair_cases cfg g a b with ⟨k1, h1, h2, h3⟩ | ⟨h1, h2⟩
  · rw [h3] at h
    cases h
    exact ⟨h1, h2, TablesKept.refl g, keeps_refl _ _, id, fun _ => rfl⟩
  · rw [h2] at h
    by_cases hcap : g.next_worm_pair < MAX_WORM_PAIRS cfg
    · rw [if_pos hcap] at h
      cases h
      have hold : ∀ j, j < g.next_worm_pair →
          (Function.update g.worm_pair1 g.next_worm_pair (canonical a b).1 j,
            Function.update g.worm_pair2 g.next_worm_pair (canonical a b).2 j)
          = (g.worm_pair1 j, g.worm_pair2 j) := by
        intro j hj
        rw [Function.update_noteq (by omega), Function.update_noteq (by omega)]
      refine ⟨Nat.lt_succ_self _, by simp, ?_, keeps_refl _ _, ?_, ?_⟩
      · exact { TablesKept.refl g with worm_pairs := keeps_succ _ _ _ hold }
      · intro hi
        exact { hi with
          worm_pair_le := hcap
          worm_pair_distinct := distinct_keys_succ _ _ _ hi.worm_pair_distinct hold
            (fun j hj => by simpa using h1 j hj) }
      · rintro ⟨j, hj1, hj2⟩
        exact absurd hj2 (h1 j hj1)
    · rw [if_neg hcap] at h
      exact absurd h (by simp)

/-! ### find_eye -/

theorem find_eye_cases (cfg : Config) (g : Registry) (eye color : Int)
    (hp : cfg.ON_BOARD1 eye = true) :
    (∃ k, k < g.next_eye ∧ (g.eyes k, g.eyecolor k) = (eye, color)
        ∧ find_eye cfg g eye color = some (k, g))
    ∨ ((∀ j, j < g.next_eye → (g.eyes j, g.eyecolor j) ≠ (eye, color))
        ∧ find_eye cfg g eye color =
          if g.next_eye < MAX_EYES cfg then
            some (g.next_eye,
              { g with eyes := Function.update g.eyes g.next_eye eye
                       eyecolor := Function.update g.eyecolor g.next_eye color
                       next_eye := g.next_eye + 1 })
          else none) := by
  unfold find_eye
  rw [if_neg (by simp [hp])]
  rcases first_index_cases (fun k => g.eyes k == eye && g.eyecolor k == color) g.next_eye with
    ⟨k, h1, h2, h3, _⟩ | ⟨h1, h2⟩
  · left
    refine ⟨k, h2, ?_, by rw [h1]⟩
    simp only [Bool.and_eq_true, beq_iff_eq] at h3
    exact Prod.ext h3.1 h3.2
  · right
    refine ⟨?_, by rw [h1]⟩
    intro j hj e
    have := h2 j hj
    simp only [Prod.mk.injEq] at e
    simp only [e.1, e.2, beq_self_eq_true, Bool.and_self] at this
    exact absurd this (by simp)

theorem find_eye_on_board (cfg : Config) (g : Registry) (eye color : Int) (r : Nat × Registry)
    (h : find_eye cfg g eye color = some r) : cfg.ON_BOARD1 eye = true := by
  by_contra hp
  unfold find_eye at h
  rw [if_pos (by simpa using hp)] at h
  exact absurd h (by simp)

/-- What a returning call of `find_eye` establishes. -/
theorem find_eye_some (cfg : Config) (g g1 : Registry) (eye color : Int) (k : Nat)
    (h : find_eye cfg g eye color = some (k, g1)) :
    k < g1.next_eye ∧ (g1.eyes k, g1.eyecolor k) = (eye, color)
    ∧ TablesKept g g1 ∧ LunchesKept g g1
    ∧ (RegistryInv cfg g → RegistryInv cfg g1)
    ∧ ((∃ j, j < g.next_eye ∧ (g.eyes j, g.eyecolor j) = (eye, color)) → g1 = g) := by
  have hp := find_eye_on_board cfg g eye color _ h
  rcases find_eye_cases cfg g eye color hp with ⟨k1, h1, h2, h3⟩ | ⟨h1, h2⟩
  · rw [h3] at h
    cases h
    exact ⟨h1, h2, TablesKept.refl g, keeps_refl _ _, id, fun _ => rfl⟩
  · rw [h2] at h
    by_cases hcap : g.next_eye < MAX_EYES cfg
    · rw [if_pos hcap] at h
      cases h
      have hold : ∀ j, j < g.next_eye →
          (Function.update g.eyes g.next_eye eye j, Function.update g.eyecolor g.next_eye color j)
          = (g.eyes j, g.eyecolor j) := by
        intro j hj
        rw [Function.update_noteq (by omega), Function.update_noteq (by omega)]
      refine ⟨Nat.lt_succ_self _, by simp, ?_, keeps_refl _ _, ?_, ?_⟩
      · exact { TablesKept.refl g with eyes := keeps_succ _ _ _ hold }
      · intro hi
        exact { hi with
          eye_le := hcap
          eye_distinct := distinct_keys_succ _ _ _ hi.eye_distinct hold
            (fun j hj => by simpa using h1 j hj) }
      · rintro ⟨j, hj1, hj2⟩
        exact absurd hj2 (h1 j hj1)
    · rw [if_neg hcap] at h
      exact absurd h (by simp)

/-! ### add_lunch, remove_lunch and sequences of calls -/

theorem add_lunch_some (cfg : Config) (b : Board) (g g1 : Registry) (eater food : Int)
    (h : add_lunch cfg b g eater food = some g1) :
    TablesKept g g1 ∧ LunchesKept g g1 ∧ (RegistryInv cfg g → RegistryInv cfg g1) := by
  unfold add_lunch at h
  rcases hd : find_dragon cfg g (b.dragon_origin eater) with _ | ⟨dragon1, ga⟩
  · rw [hd] at h; exact absurd h (by simp)
  rw [hd] at h
  simp only at h
  rcases hw : find_worm cfg ga (b.worm_origin food) with _ | ⟨worm1, gb⟩
  · rw [hw] at h; exact absurd h (by simp)
  rw [hw] at h
  simp only at h
  obtain ⟨_, _, d3, d4, d5, _⟩ := find_dragon_some cfg g ga _ _ hd
  obtain ⟨_, _, w3, w4, w5, _⟩ := find_worm_some cfg ga gb _ _ hw
  have kept := TablesKept.trans g ga gb d3 w3
  have lkept : LunchesKept g gb := keeps_trans _ _ _ _ _ _ d4 w4
  split at h
  · exact absurd h (by simp)
  split at h
  · exact absurd h (by simp)
  split at h
  · cases h
    exact ⟨kept, lkept, fun hi => w5 (d5 hi)⟩
  · split at h
    · cases h
      refine ⟨TablesKept.trans g gb _ kept ⟨keeps_refl _ _, keeps_refl _ _, keeps_refl _ _,
        keeps_refl _ _, keeps_refl _ _⟩, ?_, ?_⟩
      · refine keeps_trans _ _ _ _ _ _ lkept (keeps_succ _ _ _ ?_)
        intro j hj
        show (Function.update gb.lunch_dragon gb.next_lunch _ j,
          Function.update gb.lunch_worm gb.next_lunch _ j) = _
        rw [Function.update_noteq (by omega), Function.update_noteq (by omega)]
      · intro hi
        have hb := w5 (d5 hi)
        exact ⟨hb.worm_le, hb.dragon_le, hb.connection_le, hb.worm_pair_le, hb.eye_le,
          hb.worm_distinct, hb.dragon_distinct, hb.connection_distinct, hb.worm_pair_distinct,
          hb.eye_distinct⟩
    · exact absurd h (by simp)

theorem remove_lunch_some (cfg : Config) (b : Board) (g g1 : Registry) (eater food : Int)
    (h : remove_lunch cfg b g eater food = some g1) :
    TablesKept g g1 ∧ (RegistryInv cfg g → RegistryInv cfg g1) := by
  unfold remove_lunch at h
  rcases hd : find_dragon cfg g (b.dragon_origin eater) with _ | ⟨dragon1, ga⟩
  · rw [hd] at h; exact absurd h (by simp)
  rw [hd] at h
  simp only at h
  rcases hw : find_worm cfg ga (b.worm_origin food) with _ | ⟨worm1, gb⟩
  · rw [hw] at h; exact absurd h (by simp)
  rw [hw] at h
  simp only at h
  obtain ⟨_, _, d3, _, d5, _⟩ := find_dragon_some cfg g ga _ _ hd
  obtain ⟨_, _, w3, _, w5, _⟩ := find_worm_some cfg ga gb _ _ hw
  have kept := TablesKept.trans g ga gb d3 w3
  split at h
  · exact absurd h (by simp)
  split at h
  · exact absurd h (by simp)
  split at h
  · cases h
    exact ⟨kept, fun hi => w5 (d5 hi)⟩
  · cases h
    refine ⟨TablesKept.trans g gb _ kept ⟨keeps_refl _ _, keeps_refl _ _, keeps_refl _ _,
      keeps_refl _ _, keeps_refl _ _⟩, ?_⟩
    intro hi
    have hb := w5 (d5 hi)
    exact ⟨hb.worm_le, hb.dragon_le, hb.connection_le, hb.worm_pair_le, hb.eye_le,
      hb.worm_distinct, hb.dragon_distinct, hb.connection_distinct, hb.worm_pair_distinct,
      hb.eye_distinct⟩

theorem run_call_some (cfg : Config) (g g1 : Registry) (c : RegistryCall)
    (h : run_call cfg g c = some g1) :
    TablesKept g g1 ∧ (RegistryInv cfg g → RegistryInv cfg g1)
    ∧ (c.is_remove_lunch = false → LunchesKept g g1) := by
  cases c with
  | find_worm str =>
    obtain ⟨⟨k, g2⟩, h1, h2⟩ := Option.map_eq_some'.1 h
    cases h2
    obtain ⟨_, _, h3, h4, h5, _⟩ := find_worm_some cfg g _ str k h1
    exact ⟨h3, h5, fun _ => h4⟩
  | find_dragon str =>
    obtain ⟨⟨k, g2⟩, h1, h2⟩ := Option.map_eq_some'.1 h
    cases h2
    obtain ⟨_, _, h3, h4, h5, _⟩ := find_dragon_some cfg g _ str k h1
    exact ⟨h3, h5, fun _ => h4⟩
  | find_connection a b =>
    obtain ⟨⟨k, g2⟩, h1, h2⟩ := Option.map_eq_some'.1 h
    cases h2
    obtain ⟨_, _, h3, h4, h5, _⟩ := find_connection_some cfg g _ a b k h1
    exact ⟨h3, h5, fun _ => h4⟩
  | find_worm_pair a b =>
    obtain ⟨⟨k, g2⟩, h1, h2⟩ := Option.map_eq_some'.1 h
    cases h2
    obtain ⟨_, _, h3, h4, h5, _⟩ := find_worm_pair_some cfg g _ a b k h1
    exact ⟨h3, h5, fun _ => h4⟩
  | find_eye eye color =>
    obtain ⟨⟨k, g2⟩, h1, h2⟩ := Option.map_eq_some'.1 h
    cases h2
    obtain ⟨_, _, h3, h4, h5, _⟩ := find_eye_some cfg g _ eye color k h1
    exact ⟨h3, h5, fun _ => h4⟩
  | add_lunch b eater food =>
    obtain ⟨h3, h4, h5⟩ := add_lunch_some cfg b g g1 eater food h
    exact ⟨h3, h5, fun _ => h4⟩
  | remove_lunch b eater food =>
    obtain ⟨h3, h5⟩ := remove_lunch_some cfg b g g1 eater food h
    exact ⟨h3, h5, fun hf => absurd hf (by simp [RegistryCall.is_remove_lunch])⟩

theorem clear_registry_inv (cfg : Config) (s : State) :
    RegistryInv cfg (clear_move_reasons cfg s).registry := by
  rw [clear_registry]
  refine ⟨Nat.zero_le _, Nat.zero_le _, Nat.zero_le _, Nat.zero_le _, Nat.zero_le _,
    ?_, ?_, ?_, ?_, ?_⟩ <;>
  · intro i j hi
    exact absurd hi (Nat.not_lt_zero i)

theorem registry_reachable_inv (cfg : Config) (g : Registry) (h : RegistryReachable cfg g) :
    RegistryInv cfg g := by
  induction h with
  | clear s => exact clear_registry_inv cfg s
  | step g g1 c _ h ih => exact (run_call_some cfg g g1 c h).2.1 ih

/-! ## The claims on the object tables -/

theorem find_connection_comm (cfg : Config) (g : Registry) (a b : Int) :
    find_connection cfg g a b = find_connection cfg g b a := by
  have h := canonical_comm a b
  simp only [canonical, Prod.mk.injEq] at h
  unfold find_connection
  simp only [h.1, h.2]

theorem find_worm_pair_comm (cfg : Config) (g : Registry) (a b : Int) :
    find_worm_pair cfg g a b = find_worm_pair cfg g b a := by
  have h := canonical_comm a b
  simp only [canonical, Prod.mk.injEq] at h
  unfold find_worm_pair
  simp only [h.1, h.2]

theorem find_connection_again (cfg : Config) (g g1 : Registry) (a b : Int) (k : Nat)
    (h : find_connection cfg g a b = some (k, g1)) :
    find_connection cfg g1 a b = some (k, g1) := by
  unfold find_connection at h ⊢
  rcases first_index_cases
      (fun k => g.conn_dragon1 k == (if a > b then b else a)
        && g.conn_dragon2 k == (if a > b then a else b))
      g.next_connection with ⟨k1, h1, _, _, _⟩ | ⟨h1, h2⟩
  · simp only [h1] at h
    cases h
    simp only [h1]
  · simp only [h1] at h
    split at h
    · cases h
      simp only
      rw [first_index_eq_some _ _ g.next_connection (Nat.lt_succ_self _) (by simp)]
      intro j hj
      have := h2 j hj
      simp only at this
      rw [Function.update_noteq (by omega), Function.update_noteq (by omega)]
      exact this
    · exact absurd h (by simp)

theorem find_worm_pair_again (cfg : Config) (g g1 : Registry) (a b : Int) (k : Nat)
    (h : find_worm_pair cfg g a b = some (k, g1)) :
    find_worm_pair cfg g1 a b = some (k, g1) := by
  unfold find_worm_pair at h ⊢
  rcases first_index_cases
      (fun k => g.worm_pair1 k == (if a > b then b else a)
        && g.worm_pair2 k == (if a > b then a else b))
      g.next_worm_pair with ⟨k1, h1, _, _, _⟩ | ⟨h1, h2⟩
  · simp only [h1] at h
    cases h
    simp only [h1]
  · simp only [h1] at h
    split at h
    · cases h
      simp only
      rw [first_index_eq_some _ _ g.next_worm_pair (Nat.lt_succ_self _) (by simp)]
      intro j hj
      have := h2 j hj
      simp only at this
      rw [Function.update_noteq (by omega), Function.update_noteq (by omega)]
      exact this
    · exact absurd h (by simp)

/-- C6: in every state of the object tables, when `find_connection(a, b)`
has returned the handle `k`, `find_connection(b, a)` returns `k` as well and
leaves the tables as they are; the same holds of `find_worm_pair`. -/
theorem find_pair_order_independent (cfg : Config) (g : Registry) (a b : Int) :
    (∀ k g1, find_connection cfg g a b = some (k, g1) →
      find_connection cfg g1 b a = some (k, g1))
    ∧ (∀ k g1, find_worm_pair cfg g a b = some (k, g1) →
      find_worm_pair cfg g1 b a = some (k, g1)) := by
  constructor
  · intro k g1 h
    rw [← find_connection_comm]
    exact find_connection_again cfg g g1 a b k h
  · intro k g1 h
    rw [← find_worm_pair_comm]
    exact find_worm_pair_again cfg g g1 a b k h

set_option maxRecDepth 100000 in
theorem find_pair_order_independent_witness :
    find_connection gnugo19 fresh.registry 5 3 = some (0, one_connection)
    ∧ find_connection gnugo19 one_connection 3 5 = some (0, one_connection)
    ∧ find_worm_pair gnugo19 fresh.registry 5 3 = some (0, one_worm_pair)
    ∧ find_worm_pair gnugo19 one_worm_pair 3 5 = some (0, one_worm_pair) :=
  ⟨rfl, (find_pair_order_independent gnugo19 fresh.registry 5 3).1 0 one_connection rfl,
    rfl, (find_pair_order_independent gnugo19 fresh.registry 5 3).2 0 one_worm_pair rfl⟩

theorem handles_agree {κ : Type} (key1 key2 : Nat → κ) (n1 n2 h1 h2 : Nat) (x y : κ)
    (hk : keeps key1 n1 key2 n2) (hd : distinct_keys key2 n2)
    (a1 : h1 < n1) (b1 : key1 h1 = x) (a2 : h2 < n2) (b2 : key2 h2 = y) :
    h1 = h2 ↔ x = y := by
  have e : key2 h1 = x := (hk.2 h1 a1).trans b1
  constructor
  · intro h
    rw [← e, ← b2, h]
  · intro h
    exact hd h1 h2 (Nat.lt_of_lt_of_le a1 hk.1) a2 (by rw [e, b2, h])

theorem run_calls_some (cfg : Config) :
    ∀ (cs : List RegistryCall) (g g1 : Registry), run_calls cfg g cs = some g1 →
      TablesKept g g1 ∧ (RegistryInv cfg g → RegistryInv cfg g1)
      ∧ ((∀ c, c ∈ cs → c.is_remove_lunch = false) → LunchesKept g g1) := by
  intro cs
  induction cs with
  | nil =>
    intro g g1 h
    simp only [run_calls, Option.some.injEq] at h
    subst h
    exact ⟨TablesKept.refl g, id, fun _ => keeps_refl _ _⟩
  | cons c cs ih =>
    intro g g1 h
    simp only [run_calls] at h
    rcases hc : run_call cfg g c with _ | ga
    · rw [hc] at h; exact absurd h (by simp)
    · rw [hc] at h
      simp only at h
      obtain ⟨k1, i1, l1⟩ := run_call_some cfg g ga c hc
      obtain ⟨k2, i2, l2⟩ := ih ga g1 h
      refine ⟨TablesKept.trans g ga g1 k1 k2, fun hi => i2 (i1 hi), ?_⟩
      intro hall
      exact keeps_trans _ _ _ _ _ _ (l1 (hall c (List.mem_cons_self c cs)))
        (l2 (fun c1 hc1 => hall c1 (List.mem_cons_of_mem c hc1)))

/-- C7: in every state of the object tables reachable from
`clear_move_reasons`, no table holds an identity twice; and two lookups in
one table, with any calls of the module in between, return the same handle
exactly when the identities are equal (the origin for worms and dragons, the
unordered pair for connections and worm pairs, origin and colour for eye
spaces), the later lookup adding no entry when they are. -/
theorem registry_identities (cfg : Config) (g : Registry) (hr : RegistryReachable cfg g) :
    (distinct_keys g.worms g.next_worm
      ∧ distinct_keys g.dragons g.next_dragon
      ∧ distinct_keys (fun k => (g.conn_dragon1 k, g.conn_dragon2 k)) g.next_connection
      ∧ distinct_keys (fun k => (g.worm_pair1 k, g.worm_pair2 k)) g.next_worm_pair
      ∧ distinct_keys (fun k => (g.eyes k, g.eyecolor k)) g.next_eye)
    ∧ (∀ x y cs h1 g1 g2 h2 g3, find_worm cfg g x = some (h1, g1) →
        run_calls cfg g1 cs = some g2 → find_worm cfg g2 y = some (h2, g3) →
        (h1 = h2 ↔ x = y) ∧ (x = y → g3 = g2))
    ∧ (∀ x y cs h1 g1 g2 h2 g3, find_dragon cfg g x = some (h1, g1) →
        run_calls cfg g1 cs = some g2 → find_dragon cfg g2 y = some (h2, g3) →
        (h1 = h2 ↔ x = y) ∧ (x = y → g3 = g2))
    ∧ (∀ a b c d cs h1 g1 g2 h2 g3, find_connection cfg g a b = some (h1, g1) →
        run_calls cfg g1 cs = some g2 → find_connection cfg g2 c d = some (h2, g3) →
        (h1 = h2 ↔ canonical a b = canonical c d)
        ∧ (canonical a b = canonical c d → g3 = g2))
    ∧ (∀ a b c d cs h1 g1 g2 h2 g3, find_worm_pair cfg g a b = some (h1, g1) →
        run_calls cfg g1 cs = some g2 → find_worm_pair cfg g2 c d = some (h2, g3) →
        (h1 = h2 ↔ canonical a b = canonical c d)
        ∧ (canonical a b = canonical c d → g3 = g2))
    ∧ (∀ e c e1 c1 cs h1 g1 g2 h2 g3, find_eye cfg g e c = some (h1, g1) →
        run_calls cfg g1 cs = some g2 → find_eye cfg g2 e1 c1 = some (h2, g3) →
        (h1 = h2 ↔ (e, c) = (e1, c1)) ∧ ((e, c) = (e1, c1) → g3 = g2)) := by
  have hi := registry_reachable_inv cfg g hr
  refine ⟨⟨hi.worm_distinct, hi.dragon_distinct, hi.connection_distinct,
    hi.worm_pair_distinct, hi.eye_distinct⟩, ?_, ?_, ?_, ?_, ?_⟩
  · intro x y cs h1 g1 g2 h2 g3 e1 er e2
    obtain ⟨a1, b1, _, _, i1, _⟩ := find_worm_some cfg g g1 x h1 e1
    obtain ⟨kr, ir, _⟩ := run_calls_some cfg cs g1 g2 er
    obtain ⟨a2, b2, k2, _, i2, p2⟩ := find_worm_some cfg g2 g3 y h2 e2
    exact ⟨handles_agree _ _ _ _ _ _ _ _ (keeps_trans _ _ _ _ _ _ kr.worms k2.worms)
        (i2 (ir (i1 hi))).worm_distinct a1 b1 a2 b2,
      fun h => p2 ⟨h1, Nat.lt_of_lt_of_le a1 kr.worms.1, h ▸ (kr.worms.2 h1 a1).trans b1⟩⟩
  · intro x y cs h1 g1 g2 h2 g3 e1 er e2
    obtain ⟨a1, b1, _, _, i1, _⟩ := find_dragon_some cfg g g1 x h1 e1
    obtain ⟨kr, ir, _⟩ := run_calls_some cfg cs g1 g2 er
    obtain ⟨a2, b2, k2, _, i2, p2⟩ := find_dragon_some cfg g2 g3 y h2 e2
    exact ⟨handles_agree _ _ _ _ _ _ _ _ (keeps_trans _ _ _ _ _ _ kr.dragons k2.dragons)
        (i2 (ir (i1 hi))).dragon_distinct a1 b1 a2 b2,
      fun h => p2 ⟨h1, Nat.lt_of_lt_of_le a1 kr.dragons.1, h ▸ (kr.dragons.2 h1 a1).trans b1⟩⟩
  · intro a b c d cs h1 g1 g2 h2 g3 e1 er e2
    obtain ⟨a1, b1, _, _, i1, _⟩ := find_connection_some cfg g g1 a b h1 e1
    obtain ⟨kr, ir, _⟩ := run_calls_some cfg cs g1 g2 er
    obtain ⟨a2, b2, k2, _, i2, p2⟩ := find_connection_some cfg g2 g3 c d h2 e2
    exact ⟨handles_agree _ _ _ _ _ _ _ _
        (keeps_trans _ _ _ _ _ _ kr.connections k2.connections)
        (i2 (ir (i1 hi))).connection_distinct a1 b1 a2 b2,
      fun h => p2 ⟨h1, Nat.lt_of_lt_of_le a1 kr.connections.1,
        h ▸ (kr.connections.2 h1 a1).trans b1⟩⟩
  · intro a b c d cs h1 g1 g2 h2 g3 e1 er e2
    obtain ⟨a1, b1, _, _, i1, _⟩ := find_worm_pair_some cfg g g1 a b h1 e1
    obtain ⟨kr, ir, _⟩ := run_calls_some cfg cs g1 g2 er
    obtain ⟨a2, b2, k2, _, i2, p2⟩ := find_worm_pair_some cfg g2 g3 c d h2 e2
    exact ⟨handles_agree _ _ _ _ _ _ _ _
        (keeps_trans _ _ _ _ _ _ kr.worm_pairs k2.worm_pairs)
        (i2 (ir (i1 hi))).worm_pair_distinct a1 b1 a2 b2,
      fun h => p2 ⟨h1, Nat.lt_of_lt_of_le a1 kr.worm_pairs.1,
        h ▸ (kr.worm_pairs.2 h1 a1).trans b1⟩⟩
  · intro e c e' c' cs h1 g1 g2 h2 g3 e1 er e2
    obtain ⟨a1, b1, _, _, i1, _⟩ := find_eye_some cfg g g1 e c h1 e1
    obtain ⟨kr, ir, _⟩ := run_calls_some cfg cs g1 g2 er
    obtain ⟨a2, b2, k2, _, i2, p2⟩ := find_eye_some cfg g2 g3 e' c' h2 e2
    exact ⟨handles_agree _ _ _ _ _ _ _ _ (keeps_trans _ _ _ _ _ _ kr.eyes k2.eyes)
        (i2 (ir (i1 hi))).eye_distinct a1 b1 a2 b2,
      fun h => p2 ⟨h1, Nat.lt_of_lt_of_le a1 kr.eyes.1, h ▸ (kr.eyes.2 h1 a1).trans b1⟩⟩

set_option maxRecDepth 100000 in
theorem registry_identities_witness :
    RegistryReachable gnugo19 one_connection
    ∧ distinct_keys (fun k => (one_connection.conn_dragon1 k, one_connection.conn_dragon2 k))
        one_connection.next_connection
    ∧ ∀ a b c d cs h1 g1 g2 h2 g3,
        find_connection gnugo19 one_connection a b = some (h1, g1) →
        run_calls gnugo19 g1 cs = some g2 → find_connection gnugo19 g2 c d = some (h2, g3) →
        (h1 = h2 ↔ canonical a b = canonical c d)
        ∧ (canonical a b = canonical c d → g3 = g2) :=
  have hr : RegistryReachable gnugo19 one_connection :=
    RegistryReachable.step fresh.registry one_connection (RegistryCall.find_connection 5 3)
      (RegistryReachable.clear zero_state) rfl
  ⟨hr, (registry_identities gnugo19 one_connection hr).1.2.2.1,
    (registry_identities gnugo19 one_connection hr).2.2.2.1⟩

/-- C8: in a reachable state, `find_worm`, `find_dragon` and `find_eye` at an
on-board origin, `find_connection` and `find_worm_pair` fail exactly when the
identity is not in the table and the table holds `MAX_WORMS`, `MAX_DRAGONS`,
`MAX_EYES`, `MAX_CONNECTIONS`, `MAX_WORM_PAIRS` entries; so the lookup of an
identity that is present returns even when the table is full. -/
theorem find_fails_iff (cfg : Config) (g : Registry) (hr : RegistryReachable cfg g) :
    (∀ str, cfg.ON_BOARD1 str = true →
      (find_worm cfg g str = none ↔
        (∀ k, k < g.next_worm → g.worms k ≠ str) ∧ g.next_worm = MAX_WORMS cfg))
    ∧ (∀ str, cfg.ON_BOARD1 str = true →
      (find_dragon cfg g str = none ↔
        (∀ k, k < g.next_dragon → g.dragons k ≠ str) ∧ g.next_dragon = MAX_DRAGONS cfg))
    ∧ (∀ a b,
      (find_connection cfg g a b = none ↔
        (∀ k, k < g.next_connection → (g.conn_dragon1 k, g.conn_dragon2 k) ≠ canonical a b)
          ∧ g.next_connection = MAX_CONNECTIONS cfg))
    ∧ (∀ a b,
      (find_worm_pair cfg g a b = none ↔
        (∀ k, k < g.next_worm_pair → (g.worm_pair1 k, g.worm_pair2 k) ≠ canonical a b)
          ∧ g.next_worm_pair = MAX_WORM_PAIRS cfg))
    ∧ (∀ eye color, cfg.ON_BOARD1 eye = true →
      (find_eye cfg g eye color = none ↔
        (∀ k, k < g.next_eye → (g.eyes k, g.eyecolor k) ≠ (eye, color))
          ∧ g.next_eye = MAX_EYES cfg)) := by
  have hi := registry_reachable_inv cfg g hr
  refine ⟨?_, ?_, ?_, ?_, ?_⟩
  · intro str hp
    have hle := hi.worm_le
    rcases find_worm_cases cfg g str hp with ⟨k, h1, h2, h3⟩ | ⟨h1, h2⟩
    · rw [h3]
      simp only [reduceCtorEq, false_iff, not_and]
      intro h; exact absurd h2 (h k h1)
    · rw [h2]
      by_cases hcap : g.next_worm < MAX_WORMS cfg
      · rw [if_pos hcap]
        simp only [reduceCtorEq, false_iff, not_and]
        intro _; omega
      · rw [if_neg hcap]
        simp only [true_iff]
        exact ⟨h1, by omega⟩
  · intro str hp
    have hle := hi.dragon_le
    rcases find_dragon_cases cfg g str hp with ⟨k, h1, h2, h3⟩ | ⟨h1, h2⟩
    · rw [h3]
      simp only [reduceCtorEq, false_iff, not_and]
      intro h; exact absurd h2 (h k h1)
    · rw [h2]
      by_cases hcap : g.next_dragon < MAX_DRAGONS cfg
      · rw [if_pos hcap]
        simp only [reduceCtorEq, false_iff, not_and]
        intro _; omega
      · rw [if_neg hcap]
        simp only [true_iff]
        exact ⟨h1, by omega⟩
  · intro a b
    have hle := hi.connection_le
    rcases find_connection_cases cfg g a b with ⟨k, h1, h2, h3⟩ | ⟨h1, h2⟩
    · rw [h3]
      simp only [reduceCtorEq, false_iff, not_and]
      intro h; exact absurd h2 (h k h1)
    · rw [h2]
      by_cases hcap : g.next_connection < MAX_CONNECTIONS cfg
      · rw [if_pos hcap]
        simp only [reduceCtorEq, false_iff, not_and]
        intro _; omega
      · rw [if_neg hcap]
        simp only [true_iff]
        exact ⟨h1, by omega⟩
  · intro a b
    have hle := hi.worm_pair_le
    rcases find_worm_pair_cases cfg g a b with ⟨k, h1, h2, h3⟩ | ⟨h1, h2⟩
    · rw [h3]
      simp only [reduceCtorEq, false_iff, not_and]
      intro h; exact absurd h2 (h k h1)
    · rw [h2]
      by_cases hcap : g.next_worm_pair < MAX_WORM_PAIRS cfg
      · rw [if_pos hcap]
        simp only [reduceCtorEq, false_iff, not_and]
        intro _; omega
      · rw [if_neg hcap]
        simp only [true_iff]
        exact ⟨h1, by omega⟩
  · intro eye color hp
    have hle := hi.eye_le
    rcases find_eye_cases cfg g eye color hp with ⟨k, h1, h2, h3⟩ | ⟨h1, h2⟩
    · rw [h3]
      simp only [reduceCtorEq, false_iff, not_and]
      intro h; exact absurd h2 (h k h1)
    · rw [h2]
      by_cases hcap : g.next_eye < MAX_EYES cfg
      · rw [if_pos hcap]
        simp only [reduceCtorEq, false_iff, not_and]
        intro _; omega
      · rw [if_neg hcap]
        simp only [true_iff]
        exact ⟨h1, by omega⟩

/-- C9, the claim as stated fails for the table of lunches.  After
`add_lunch(21, 22)` and `add_lunch(23, 24)` the table has two entries, the
entry at index 0 being (dragon 0, worm 0); after `remove_lunch(21, 22)` it
has one entry, and index 0 holds (dragon 1, worm 1). -/
theorem remove_lunch_counterexample :
    (run_calls gnugo19 fresh.registry two_lunches).map lunch_summary = some (2, 0, 0)
    ∧ (run_calls gnugo19 fresh.registry
        (two_lunches ++ [RegistryCall.remove_lunch empty_board 21 22])).map lunch_summary
      = some (1, 1, 1) := by
  set_option maxRecDepth 100000 in
  exact ⟨by decide, by decide⟩

/-- C9, amended: along every sequence of calls that return, the tables of
worms, dragons, connections, worm pairs and eye spaces only grow, every
index in use keeping its identity; the table of lunches does so along every
sequence without a call of `remove_lunch`. -/
theorem tables_append_only (cfg : Config) (g g1 : Registry) (cs : List RegistryCall)
    (h : run_calls cfg g cs = some g1) :
    TablesKept g g1 ∧ ((∀ c, c ∈ cs → c.is_remove_lunch = false) → LunchesKept g g1) :=
  ⟨(run_calls_some cfg cs g g1 h).1, (run_calls_some cfg cs g g1 h).2.2⟩

set_option maxRecDepth 100000 in
theorem tables_append_only_witness :
    TablesKept fresh.registry one_connection
    ∧ ((∀ c, c ∈ [RegistryCall.find_connection 5 3] → c.is_remove_lunch = false) →
        LunchesKept fresh.registry one_connection) :=
  tables_append_only gnugo19 fresh.registry one_connection [RegistryCall.find_connection 5 3] rfl

/-- On the 2 by 2 board, where `MAX_WORMS` is 2: with the worms 4 and 5 in the
table, the lookup of a third worm fails and the lookup of the worm 4 returns
its handle. -/
theorem find_fails_iff_witness :
    find_worm small two_worms 7 = none ∧ find_worm small two_worms 4 = some (0, two_worms) :=
  ⟨((find_fails_iff small two_worms two_worms_reachable).1 7 (by decide)).2
      ⟨by decide, by decide⟩, rfl⟩

/-! ## The point redistribution -/

theorem foldl_redirect_point (frm : Int) :
    ∀ (l : List Int) (m : Int → Int), m frm ≠ frm →
      ∀ p, l.foldl (redirect_point frm) m p = if p ∈ l ∧ m p = frm then m frm else m p := by
  intro l
  induction l with
  | nil => intro m _ p; simp
  | cons a l ih =>
    intro m hm p
    simp only [List.foldl_cons]
    have hfrm : redirect_point frm m a frm = m frm := by
      unfold redirect_point
      split
      · rename_i h
        have : frm ≠ a := fun e => hm (e ▸ h)
        rw [Function.update_noteq this]
      · rfl
    rw [ih (redirect_point frm m a) (by rw [hfrm]; exact hm) p, hfrm]
    by_cases hpa : p = a
    · subst hpa
      by_cases hma : m p = frm
      · have e : redirect_point frm m p p = m frm := by
          unfold redirect_point
          rw [if_pos hma, Function.update_same]
        rw [e]
        simp [hm, hma]
      · have e : redirect_point frm m p p = m p := by
          unfold redirect_point
          rw [if_neg hma]
        rw [e, if_neg (fun h => hma h.2), if_neg (fun h => hma h.2)]
    · have e : redirect_point frm m a p = m p := by
        unfold redirect_point
        split
        · rw [Function.update_noteq hpa]
        · rfl
      rw [e]
      simp only [List.mem_cons, hpa, false_or]

theorem leads_to_self (no_move : Int) (m : Int → Int) (target : Int) (fuel : Nat) :
    leads_to no_move m target fuel target = true := by
  cases fuel <;> simp [leads_to]

theorem add_replacement_move_one_hop (cfg : Config) (hc : cfg.Coherent) (m m1 : Int → Int)
    (frm dest : Int) (hi : one_hop cfg m) (hne : dest ≠ frm)
    (h : add_replacement_move cfg m frm dest = some m1) : one_hop cfg m1 := by
  unfold add_replacement_move at h
  by_cases hf : cfg.ON_BOARD1 frm = false
  · rw [if_pos hf] at h; exact absurd h (by simp)
  rw [if_neg hf] at h
  by_cases hd : cfg.ON_BOARD1 dest = false
  · rw [if_pos hd] at h; exact absurd h (by simp)
  rw [if_neg hd] at h
  simp only at h
  have hf : cfg.ON_BOARD1 frm = true := by simpa using hf
  have hd : cfg.ON_BOARD1 dest = true := by simpa using hd
  have hfn : frm ≠ cfg.NO_MOVE := fun e => by
    rw [e, hc.no_move_off_board] at hf; exact absurd hf (by simp)
  have hdn : dest ≠ cfg.NO_MOVE := fun e => by
    rw [e, hc.no_move_off_board] at hd; exact absurd hd (by simp)
  by_cases hold : m frm ≠ cfg.NO_MOVE
  · rw [if_pos hold] at h
    split at h
    · cases h; exact hi
    · exact absurd h (by simp)
  rw [if_neg hold] at h
  have hold : m frm = cfg.NO_MOVE := by simpa using hold
  by_cases hcyc : m dest = frm
  · rw [if_pos hcyc] at h; exact absurd h (by simp)
  rw [if_neg hcyc] at h
  cases h
  -- the value `v` written at `frm`, with the map `ma` before the loops
  obtain ⟨v, ma, hma, hv1, hv2, hv3, hv4⟩ :
      ∃ v ma, (ma = if m dest ≠ cfg.NO_MOVE then Function.update m frm (m dest)
                    else Function.update m frm dest)
        ∧ ma = Function.update m frm v ∧ v ≠ frm ∧ cfg.ON_BOARD1 v = true
        ∧ m v = cfg.NO_MOVE := by
    by_cases hcc : m dest ≠ cfg.NO_MOVE
    · exact ⟨m dest, _, rfl, by rw [if_pos hcc], hcyc, (hi dest hd hcc).1, (hi dest hd hcc).2⟩
    · exact ⟨dest, _, rfl, by rw [if_neg hcc], hne, hd, by simpa using hcc⟩
  rw [← hma]
  have hvn : v ≠ cfg.NO_MOVE := fun e => by
    rw [e, hc.no_move_off_board] at hv3; exact absurd hv3 (by simp)
  have hmaf : ma frm = v := by rw [hv1, Function.update_same]
  have hmao : ∀ p, p ≠ frm → ma p = m p := fun p hp => by
    rw [hv1, Function.update_noteq hp]
  have hres : ∀ p, (board_points cfg).foldl (redirect_point frm) ma p
      = if p ∈ board_points cfg ∧ ma p = frm then v else ma p := by
    intro p
    rw [foldl_redirect_point frm _ ma (by rw [hmaf]; exact hv2) p, hmaf]
  have hresv : (board_points cfg).foldl (redirect_point frm) ma v = cfg.NO_MOVE := by
    rw [hres v, hmao v hv2, hv4, if_neg (fun h => hfn h.2.symm)]
  intro p hp hnz
  rw [hres p] at hnz ⊢
  by_cases hcond : p ∈ board_points cfg ∧ ma p = frm
  · rw [if_pos hcond]
    exact ⟨hv3, hresv⟩
  · rw [if_neg hcond] at hnz ⊢
    by_cases hpf : p = frm
    · rw [hpf, hmaf]
      exact ⟨hv3, hresv⟩
    · rw [hmao p hpf] at hnz ⊢
      have hmp : m p ≠ frm := fun e =>
        hcond ⟨hc.on_board_pos p hp, by rw [hmao p hpf]; exact e⟩
      obtain ⟨h1, h2⟩ := hi p hp hnz
      refine ⟨h1, ?_⟩
      rw [hres (m p), hmao (m p) hmp, h2, if_neg (fun h => hfn h.2.symm)]

theorem replacement_reachable_one_hop (cfg : Config) (hc : cfg.Coherent) (m : Int → Int)
    (hr : ReplacementReachable cfg m) : one_hop cfg m := by
  induction hr with
  | clear s =>
    intro p hp hnz
    exact absurd (clear_replacement_map cfg hc s p hp) hnz
  | step m m1 frm dest _ hcyc h ih =>
    have hne : dest ≠ frm := by
      intro e
      unfold closes_cycle at hcyc
      rw [e, leads_to_self] at hcyc
      exact absurd hcyc (by simp)
    exact add_replacement_move_one_hop cfg hc m m1 frm dest ih hne h

/-- C10: starting from `clear_move_reasons`, after any sequence of calls of
`add_replacement_move` that close no cycle and return, every point `p` of
the board with `replacement_map[p] = d` other than `NO_MOVE` has
`replacement_map[d] = NO_MOVE`. -/
theorem replacement_map_one_hop (cfg : Config) (hc : cfg.Coherent) (m : Int → Int)
    (hr : ReplacementReachable cfg m) (p : Int) (hp : cfg.ON_BOARD1 p = true)
    (hnz : m p ≠ cfg.NO_MOVE) : m (m p) = cfg.NO_MOVE :=
  (replacement_reachable_one_hop cfg hc m hr p hp hnz).2

/-- On the 2 by 2 board, after 4 is sent to 5 and 5 is sent to 7, the point 4
is sent to 7 directly and 7 is not redirected. -/
theorem replacement_map_one_hop_witness :
    sent_5_to_7 4 = 7 ∧ sent_5_to_7 (sent_5_to_7 4) = small.NO_MOVE :=
  ⟨by decide,
    replacement_map_one_hop small small_coherent sent_5_to_7
      (ReplacementReachable.step sent_4_to_5 sent_5_to_7 5 7
        (ReplacementReachable.step small_fresh.replacement_map sent_4_to_5 4 5
          (ReplacementReachable.clear zero_state) (by decide) rfl)
        (by decide) rfl)
      4 (by decide) (by decide)⟩

/-! ## The claims on cycles of redirections -/

theorem leads_to_one_hop (cfg : Config) (m : Int → Int) (frm dest : Int)
    (h1 : m dest ≠ cfg.NO_MOVE → m (m dest) = cfg.NO_MOVE) (hne : dest ≠ frm) :
    ∀ fuel, leads_to cfg.NO_MOVE m frm fuel dest = true → m dest = frm := by
  intro fuel h
  cases fuel with
  | zero => simp [leads_to, hne] at h
  | succ n =>
    simp only [leads_to, Bool.or_eq_true, beq_iff_eq, Bool.and_eq_true, bne_iff_ne] at h
    rcases h with h | ⟨h2, h3⟩
    · exact absurd h hne
    · cases n with
      | zero => simpa [leads_to] using h3
      | succ k =>
        simp only [leads_to, Bool.or_eq_true, beq_iff_eq, Bool.and_eq_true, bne_iff_ne] at h3
        rcases h3 with h3 | ⟨h4, _⟩
        · exact h3
        · exact absurd (h1 h2) h4

/-- In a map where every redirection resolves in one hop, a call of
`add_replacement_move` that would close a cycle through two or more points
fails. -/
theorem longer_cycle_rejected (cfg : Config) (hc : cfg.Coherent) (m : Int → Int)
    (hi : one_hop cfg m) (frm dest : Int) (hd : cfg.ON_BOARD1 dest = true)
    (hne : dest ≠ frm) (hcyc : closes_cycle cfg m frm dest = true) :
    add_replacement_move cfg m frm dest = none := by
  have hmd : m dest = frm :=
    leads_to_one_hop cfg m frm dest (fun h => (hi dest hd h).2) hne _ hcyc
  unfold add_replacement_move
  by_cases hf : cfg.ON_BOARD1 frm = false
  · rw [if_pos hf]
  rw [if_neg hf, if_neg (by simp [hd])]
  have hf : cfg.ON_BOARD1 frm = true := by simpa using hf
  have hfn : frm ≠ cfg.NO_MOVE := fun e => by
    rw [e, hc.no_move_off_board] at hf; exact absurd hf (by simp)
  have hmf : m frm = cfg.NO_MOVE := by
    have := (hi dest hd (by rw [hmd]; exact hfn)).2
    rwa [hmd] at this
  simp only
  rw [if_neg (by simp [hmf]), if_pos hmd]

/-- C11, at the failing input: on the 2 by 2 board, right after
`clear_move_reasons`, the rule sending the point 4 to itself closes a cycle,
yet `add_replacement_move(4, 4)` returns, and the point 4 then redirects to
itself. -/
theorem self_redirect_accepted :
    ReplacementReachable small small_fresh.replacement_map
    ∧ closes_cycle small small_fresh.replacement_map 4 4 = true
    ∧ add_replacement_move small small_fresh.replacement_map 4 4 = some sent_4_to_4
    ∧ sent_4_to_4 4 = 4 :=
  ⟨ReplacementReachable.clear zero_state, by decide, rfl, by decide⟩

/-! ## redistribute_points -/

theorem foldl_copy_value :
    ∀ (l : List Int) (mv : Moves),
      ∃ f, l.foldl copy_value mv = { mv with final_value := f }
        ∧ ∀ p, f p = if p ∈ l then mv.value p else mv.final_value p := by
  intro l
  induction l with
  | nil => intro mv; exact ⟨mv.final_value, rfl, fun p => by simp⟩
  | cons a l ih =>
    intro mv
    obtain ⟨f, h1, h2⟩ := ih (copy_value mv a)
    refine ⟨f, by rw [List.foldl_cons, h1]; rfl, ?_⟩
    intro p
    rw [h2 p]
    simp only [copy_value, List.mem_cons, Function.update_apply]
    by_cases hp : p ∈ l <;> by_cases ha : p = a <;> simp [hp, ha]

theorem redistribute_point_eq (cfg : Config) (m : Int → Int) (mv : Moves) (a : Int) :
    redistribute_point cfg m mv a =
      { mv with
        final_value :=
          if m a = cfg.NO_MOVE then mv.final_value
          else Function.update
            (Function.update mv.final_value (m a) (max (mv.final_value (m a)) (mv.final_value a)))
            a 0 } := by
  unfold redistribute_point
  by_cases h : m a = cfg.NO_MOVE
  · simp [h]
  · simp only [h, if_false]
    by_cases hlt : mv.final_value (m a) < mv.final_value a
    · simp [hlt, max_eq_right (le_of_lt hlt)]
    · have hle : mv.final_value a ≤ mv.final_value (m a) := not_lt.1 hlt
      simp only [hlt, if_false, max_eq_left hle, Function.update_eq_self]

theorem foldl_congr_mem {α β : Type} (f g : α → β → α) :
    ∀ (l : List β) (a : α), (∀ x, ∀ b ∈ l, f x b = g x b) → l.foldl f a = l.foldl g a := by
  intro l
  induction l with
  | nil => intro a _; rfl
  | cons b l ih =>
    intro a h
    rw [List.foldl_cons, List.foldl_cons, h a b (List.mem_cons_self b l)]
    exact ih _ (fun x c hc => h x c (List.mem_cons_of_mem b hc))

theorem foldl_redistribute_point (cfg : Config) (m : Int → Int) :
    ∀ (l : List Int), l.Nodup →
      (∀ s, s ∈ l → m s ≠ cfg.NO_MOVE → m (m s) = cfg.NO_MOVE) →
      ∀ (mv : Moves),
        ∃ f, l.foldl (redistribute_point cfg m) mv = { mv with final_value := f }
          ∧ (∀ p, m p ≠ cfg.NO_MOVE → p ∈ l → f p = 0)
          ∧ (∀ p, m p ≠ cfg.NO_MOVE → p ∉ l → f p = mv.final_value p)
          ∧ (∀ p, m p = cfg.NO_MOVE →
              f p = l.foldl
                (fun acc s => if m s ≠ cfg.NO_MOVE ∧ m s = p then max acc (mv.final_value s)
                  else acc)
                (mv.final_value p)) := by
  intro l
  induction l with
  | nil =>
    intro _ _ mv
    exact ⟨mv.final_value, rfl, fun p _ hp => absurd hp (List.not_mem_nil p),
      fun _ _ _ => rfl, fun _ _ => rfl⟩
  | cons a l ih =>
    intro hnd hop mv
    have hal : a ∉ l := (List.nodup_cons.1 hnd).1
    have hop1 : ∀ s, s ∈ l → m s ≠ cfg.NO_MOVE → m (m s) = cfg.NO_MOVE :=
      fun s hs => hop s (List.mem_cons_of_mem a hs)
    obtain ⟨f, h1, h2, h3, h4⟩ := ih (List.nodup_cons.1 hnd).2 hop1 (redistribute_point cfg m mv a)
    rw [redistribute_point_eq] at h1 h3 h4
    simp only at h3 h4
    refine ⟨f, by rw [List.foldl_cons, redistribute_point_eq, h1], ?_, ?_, ?_⟩
    · intro p hp hpl
      rcases List.mem_cons.1 hpl with e | hpl
      · subst e
        rw [h3 p hp hal, if_neg hp, Function.update_same]
      · exact h2 p hp hpl
    · intro p hp hpl
      have hpa : p ≠ a := fun e => hpl (e ▸ List.mem_cons_self a l)
      have hpl1 : p ∉ l := fun h => hpl (List.mem_cons_of_mem a h)
      rw [h3 p hp hpl1]
      by_cases hma : m a = cfg.NO_MOVE
      · rw [if_pos hma]
      · rw [if_neg hma, Function.update_noteq hpa]
        have : p ≠ m a := fun e => hp (e ▸ hop a (List.mem_cons_self a l) hma)
        rw [Function.update_noteq this]
    · intro p hp
      rw [h4 p hp, List.foldl_cons]
      have hcongr : ∀ (x : ℚ), ∀ s ∈ l,
          (if m s ≠ cfg.NO_MOVE ∧ m s = p then
            max x ((if m a = cfg.NO_MOVE then mv.final_value
              else Function.update
                (Function.update mv.final_value (m a)
                  (max (mv.final_value (m a)) (mv.final_value a))) a 0) s)
          else x)
          = (if m s ≠ cfg.NO_MOVE ∧ m s = p then max x (mv.final_value s) else x) := by
        intro x s hs
        by_cases hc : m s ≠ cfg.NO_MOVE ∧ m s = p
        · rw [if_pos hc, if_pos hc]
          by_cases hma : m a = cfg.NO_MOVE
          · rw [if_pos hma]
          · rw [if_neg hma]
            have hsa : s ≠ a := fun e => hal (e ▸ hs)
            have hsm : s ≠ m a := fun e => hc.1 (e ▸ hop a (List.mem_cons_self a l) hma)
            rw [Function.update_noteq hsa, Function.update_noteq hsm]
        · rw [if_neg hc, if_neg hc]
      rw [foldl_congr_mem _ _ l _ hcongr]
      congr 1
      by_cases hma : m a = cfg.NO_MOVE
      · rw [if_pos hma, if_neg (fun h => h.1 hma)]
      · rw [if_neg hma]
        have hpa : p ≠ a := fun e => hma (e ▸ hp)
        rw [Function.update_noteq hpa]
        by_cases hmp : m a = p
        · rw [if_pos ⟨hma, hmp⟩, ← hmp, Function.update_same]
        · rw [if_neg (fun h => hmp h.2), Function.update_noteq (fun e => hmp e.symm)]

theorem gather_spec (c : Int → Prop) [DecidablePred c] (f : Int → ℚ) :
    ∀ (l : List Int) (init : ℚ),
      init ≤ l.foldl (fun acc s => if c s then max acc (f s) else acc) init
      ∧ (∀ s, s ∈ l → c s →
          f s ≤ l.foldl (fun acc s => if c s then max acc (f s) else acc) init)
      ∧ (l.foldl (fun acc s => if c s then max acc (f s) else acc) init = init
          ∨ ∃ s, s ∈ l ∧ c s
              ∧ l.foldl (fun acc s => if c s then max acc (f s) else acc) init = f s) := by
  intro l
  induction l with
  | nil =>
    intro init
    exact ⟨le_refl _, fun s hs => absurd hs (List.not_mem_nil s), Or.inl rfl⟩
  | cons a l ih =>
    intro init
    rw [List.foldl_cons]
    by_cases hca : c a
    · simp only [if_pos hca]
      obtain ⟨h1, h2, h3⟩ := ih (max init (f a))
      refine ⟨le_trans (le_max_left _ _) h1, ?_, ?_⟩
      · intro s hs hcs
        rcases List.mem_cons.1 hs with e | hs
        · subst e
          exact le_trans (le_max_right _ _) h1
        · exact h2 s hs hcs
      · rcases h3 with h3 | ⟨s, hs, hcs, h3⟩
        · rcases max_choice init (f a) with e | e
          · left; rw [h3, e]
          · right
            exact ⟨a, List.mem_cons_self a l, hca, by rw [h3, e]⟩
        · right
          exact ⟨s, List.mem_cons_of_mem a hs, hcs, h3⟩
    · simp only [if_neg hca]
      obtain ⟨h1, h2, h3⟩ := ih init
      refine ⟨h1, ?_, ?_⟩
      · intro s hs hcs
        rcases List.mem_cons.1 hs with e | hs
        · subst e
          exact absurd hcs hca
        · exact h2 s hs hcs
      · rcases h3 with h3 | ⟨s, hs, hcs, h3⟩
        · exact Or.inl h3
        · exact Or.inr ⟨s, List.mem_cons_of_mem a hs, hcs, h3⟩

/-- C12: when the points `POS(i, j)` are pairwise different, `NO_MOVE` is not
among them and every redirection of the map resolves in one hop (so no point
redirects to itself), `redistribute_points` changes `final_value` only: a
redirected point of the board receives 0, and a point `d` of the board that
is not redirected receives the largest of `value(d)` and the `value(s)` of
the board points `s` redirected to `d`. -/
theorem redistribute_points_spec (cfg : Config) (m : Int → Int) (mv : Moves)
    (hnd : (board_points cfg).Nodup) (hno : cfg.NO_MOVE ∉ board_points cfg)
    (hop : ∀ s, s ∈ board_points cfg → m s ≠ cfg.NO_MOVE → m (m s) = cfg.NO_MOVE) :
    redistribute_points cfg m mv
        = { mv with final_value := (redistribute_points cfg m mv).final_value }
    ∧ (∀ s, s ∈ board_points cfg → m s ≠ cfg.NO_MOVE →
        (redistribute_points cfg m mv).final_value s = 0)
    ∧ (∀ d, d ∈ board_points cfg → m d = cfg.NO_MOVE →
        mv.value d ≤ (redistribute_points cfg m mv).final_value d
        ∧ (∀ s, s ∈ board_points cfg → m s = d →
            mv.value s ≤ (redistribute_points cfg m mv).final_value d)
        ∧ ((redistribute_points cfg m mv).final_value d = mv.value d
            ∨ ∃ s, s ∈ board_points cfg ∧ m s = d
                ∧ (redistribute_points cfg m mv).final_value d = mv.value s)) := by
  obtain ⟨f0, e0, hf0⟩ := foldl_copy_value (board_points cfg) mv
  obtain ⟨f, e1, h1, _, h3⟩ :=
    foldl_redistribute_point cfg m (board_points cfg) hnd hop ((board_points cfg).foldl copy_value mv)
  have e : redistribute_points cfg m mv = { mv with final_value := f } := by
    unfold redistribute_points
    rw [e1, e0]
  rw [e]
  refine ⟨rfl, fun s hs hms => h1 s hms hs, ?_⟩
  intro d hd hmd
  have hf0v : ∀ s, s ∈ board_points cfg → f0 s = mv.value s := fun s hs => by
    rw [hf0 s, if_pos hs]
  have hfd := h3 d hmd
  rw [e0] at hfd
  simp only at hfd
  have hcongr : ∀ (x : ℚ), ∀ s ∈ board_points cfg,
      (if m s ≠ cfg.NO_MOVE ∧ m s = d then max x (f0 s) else x)
      = (if m s ≠ cfg.NO_MOVE ∧ m s = d then max x (mv.value s) else x) := by
    intro x s hs
    rw [hf0v s hs]
  rw [foldl_congr_mem _ _ _ _ hcongr, hf0v d hd] at hfd
  obtain ⟨g1, g2, g3⟩ := gather_spec (fun s => m s ≠ cfg.NO_MOVE ∧ m s = d) mv.value
    (board_points cfg) (mv.value d)
  have hdn : d ≠ cfg.NO_MOVE := fun e => hno (e ▸ hd)
  show mv.value d ≤ f d ∧ (∀ s, s ∈ board_points cfg → m s = d → mv.value s ≤ f d)
    ∧ (f d = mv.value d ∨ ∃ s, s ∈ board_points cfg ∧ m s = d ∧ f d = mv.value s)
  rw [hfd]
  refine ⟨g1, fun s hs hsd => g2 s hs ⟨by rw [hsd]; exact hdn, hsd⟩, ?_⟩
  rcases g3 with g3 | ⟨s, hs, hcs, g3⟩
  · exact Or.inl g3
  · exact Or.inr ⟨s, hs, hcs.2, g3⟩

/-- On the 2 by 2 board with the points 4 and 5 redirected to 7 and the values
3, 5, 1, 2 at the points 4, 5, 7, 8. -/
theorem redistribute_points_spec_witness :
    (redistribute_points small sent_5_to_7 sample_moves).final_value 4 = 0
    ∧ sample_moves.value 5 ≤ (redistribute_points small sent_5_to_7 sample_moves).final_value 7
    ∧ (redistribute_points small sent_5_to_7 sample_moves).final_value 7 = 5 :=
  have h := redistribute_points_spec small sent_5_to_7 sample_moves (by decide) (by decide)
    (by decide)
  ⟨h.2.1 4 (by decide) (by decide), (h.2.2 7 (by decide) (by decide)).2.1 5 (by decide) (by decide),
    by decide!⟩

/-! ## review_move_reasons: the search for the highest valued move -/

theorem scan_point_inv (c : Referee) (color no_move : Int) (mv : Moves) (pre : List Int)
    (st : Best) (a : Int) (hi : ScanInv c color no_move mv pre st) :
    ScanInv c color no_move mv (pre ++ [a]) (scan_point c color st a) := by
  unfold scan_point
  by_cases h0 : st.moves.final_value a = 0
  · rw [if_pos h0]
    refine ⟨hi.nonneg, hi.none_found, ?_, ?_, ?_, hi.frame⟩
    · intro hpos
      obtain ⟨f1, f2, f3, l1, l2, f4, f5⟩ := hi.found hpos
      exact ⟨List.mem_append_left _ f1, f2, f3, l1, l2 ++ [a], by rw [f4]; simp, f5⟩
    · intro q hq
      rcases List.mem_append.1 hq with hq | hq
      · exact hi.bound q hq
      · rw [List.mem_singleton.1 hq, h0]; exact hi.nonneg
    · intro q
      rcases hi.zeroed q with h | ⟨z1, z2, z3, z4, z5⟩
      · exact Or.inl h
      · exact Or.inr ⟨z1, z2, z3, List.mem_append_left _ z4, z5⟩
  · rw [if_neg h0]
    simp only
    by_cases hgt : st.moves.final_value a > st.bestval
    · rw [if_pos hgt]
      by_cases hleg : (c.is_legal a color || c.is_illegal_ko_capture a color) = true
      · rw [if_pos hleg]
        have hpos : 0 < st.moves.final_value a := lt_of_le_of_lt hi.nonneg hgt
        refine ⟨le_of_lt hpos, fun h => absurd h (ne_of_gt hpos), ?_, ?_, (fun q => (hi.zeroed q).imp id
            (fun ⟨z1, z2, z3, z4, z5⟩ => ⟨z1, z2, z3, List.mem_append_left _ z4, z5⟩)),
          hi.frame⟩
        · intro _
          refine ⟨List.mem_append_right _ (List.mem_singleton_self a), rfl, hleg, pre, [], rfl, ?_⟩
          intro q hq
          exact ne_of_lt (lt_of_le_of_lt (hi.bound q hq) hgt)
        · intro q hq
          rcases List.mem_append.1 hq with hq | hq
          · exact le_trans (hi.bound q hq) (le_of_lt hgt)
          · rw [List.mem_singleton.1 hq]
      · rw [if_neg hleg]
        have hleg : (c.is_legal a color || c.is_illegal_ko_capture a color) = false := by
          simpa using hleg
        have hfa : ∀ q, (zero_move st.moves a).final_value q
            = if q = a then 0 else st.moves.final_value q := fun q => by
          simp only [zero_move, Function.update_apply]
        have hva : ∀ q, (zero_move st.moves a).value q
            = if q = a then 0 else st.moves.value q := fun q => by
          simp only [zero_move, Function.update_apply]
        have hma : mv.final_value a = st.moves.final_value a := by
          rcases hi.zeroed a with h | h
          · exact h.1.symm
          · exact absurd h.1 h0
        refine ⟨hi.nonneg, hi.none_found, ?_, ?_, ?_, ?_⟩
        · intro hpos
          obtain ⟨f1, f2, f3, l1, l2, f4, f5⟩ := hi.found hpos
          have hne : st.best_move ≠ a := fun e => by
            rw [e] at f2; rw [f2] at hgt; exact lt_irrefl _ hgt
          refine ⟨List.mem_append_left _ f1, ?_, f3, l1, l2 ++ [a], by rw [f4]; simp, ?_⟩
          · show (zero_move st.moves a).final_value st.best_move = st.bestval
            rw [hfa, if_neg hne, f2]
          · intro q hq
            show (zero_move st.moves a).final_value q ≠ st.bestval
            rw [hfa]
            by_cases hqa : q = a
            · rw [if_pos hqa]; exact ne_of_lt hpos
            · rw [if_neg hqa]; exact f5 q hq
        · intro q hq
          show (zero_move st.moves a).final_value q ≤ st.bestval
          rw [hfa]
          by_cases hqa : q = a
          · rw [if_pos hqa]; exact hi.nonneg
          · rw [if_neg hqa]
            rcases List.mem_append.1 hq with hq | hq
            · exact hi.bound q hq
            · exact absurd (List.mem_singleton.1 hq) hqa
        · intro q
          show ((zero_move st.moves a).final_value q = _ ∧ (zero_move st.moves a).value q = _)
            ∨ ((zero_move st.moves a).final_value q = 0 ∧ (zero_move st.moves a).value q = 0 ∧ _)
          rw [hfa, hva]
          by_cases hqa : q = a
          · right
            rw [if_pos hqa, if_pos hqa, hqa]
            refine ⟨rfl, rfl, hleg, List.mem_append_right _ (List.mem_singleton_self a), ?_⟩
            rw [hma]
            exact lt_of_le_of_lt hi.nonneg hgt
          · rw [if_neg hqa, if_neg hqa]
            rcases hi.zeroed q with h | ⟨z1, z2, z3, z4, z5⟩
            · exact Or.inl h
            · exact Or.inr ⟨z1, z2, z3, List.mem_append_left _ z4, z5⟩
        · show zero_move st.moves a = _
          have := hi.frame
          rw [this]
          rfl
    · rw [if_neg hgt]
      refine ⟨hi.nonneg, hi.none_found, ?_, ?_, ?_, hi.frame⟩
      · intro hpos
        obtain ⟨f1, f2, f3, l1, l2, f4, f5⟩ := hi.found hpos
        exact ⟨List.mem_append_left _ f1, f2, f3, l1, l2 ++ [a], by rw [f4]; simp, f5⟩
      · intro q hq
        rcases List.mem_append.1 hq with hq | hq
        · exact hi.bound q hq
        · rw [List.mem_singleton.1 hq]; exact not_lt.1 hgt
      · intro q
        rcases hi.zeroed q with h | ⟨z1, z2, z3, z4, z5⟩
        · exact Or.inl h
        · exact Or.inr ⟨z1, z2, z3, List.mem_append_left _ z4, z5⟩

theorem foldl_scan_point_inv (c : Referee) (color no_move : Int) (mv : Moves) :
    ∀ (l pre : List Int) (st : Best), ScanInv c color no_move mv pre st →
      ScanInv c color no_move mv (pre ++ l) (l.foldl (scan_point c color) st) := by
  intro l
  induction l with
  | nil => intro pre st hi; simpa using hi
  | cons a l ih =>
    intro pre st hi
    have := ih (pre ++ [a]) _ (scan_point_inv c color no_move mv pre st a hi)
    simpa using this

theorem scan_moves_inv (cfg : Config) (c : Referee) (color : Int) (mv : Moves) :
    ScanInv c color cfg.NO_MOVE mv (board_points cfg) (scan_moves cfg c color mv) := by
  have h0 : ScanInv c color cfg.NO_MOVE mv []
      { bestval := 0, best_move := cfg.NO_MOVE, moves := mv } :=
    ⟨le_refl _, fun _ => rfl, fun h => absurd h (lt_irrefl _),
      fun q hq => absurd hq (List.not_mem_nil q), fun _ => Or.inl ⟨rfl, rfl⟩, rfl⟩
  have := foldl_scan_point_inv c color cfg.NO_MOVE mv (board_points cfg) [] _ h0
  simpa [scan_moves] using this

/-- What the variables of a run of the loop that returns are: the result of
the last search, which neither was an illegal ko capture nor failed the
blunder check. -/
theorem review_loop_returned (cfg : Config) (c : Referee) (m : Int → Int) (color : Int) :
    ∀ (fuel : Nat) (mv : Moves) (ko : Bool) (sel : Selection),
      review_loop cfg c m color fuel mv ko = Outcome.returned sel →
      ∃ mv0 ko0,
        sel.moves = (scan_moves cfg c color mv0).moves
        ∧ sel.bestval = (scan_moves cfg c color mv0).bestval
        ∧ sel.best_move = (scan_moves cfg c color mv0).best_move
        ∧ allowed_blunder_size cfg c ko0 (scan_moves cfg c color mv0)
            = some sel.allowed_blunder_size
        ∧ sel.ko_values_have_been_added = ko0
        ∧ ¬ (sel.bestval > 0 ∧ c.is_illegal_ko_capture sel.best_move color = true)
        ∧ ¬ (sel.bestval > 0
            ∧ c.move_reasons_confirm_safety sel.best_move color sel.allowed_blunder_size
                = false) := by
  intro fuel
  induction fuel with
  | zero => intro mv ko sel h; simp [review_loop] at h
  | succ n ih =>
    intro mv ko sel h
    rw [review_loop] at h
    rcases ha : allowed_blunder_size cfg c ko (scan_moves cfg c color mv) with _ | allowed
    · rw [ha] at h; simp at h
    · rw [ha] at h
      simp only at h
      by_cases h1 : (scan_moves cfg c color mv).bestval > 0
          ∧ c.is_illegal_ko_capture (scan_moves cfg c color mv).best_move color = true
      · rw [if_pos h1] at h
        exact ih _ _ _ h
      · rw [if_neg h1] at h
        by_cases h2 : (scan_moves cfg c color mv).bestval > 0
            ∧ c.move_reasons_confirm_safety (scan_moves cfg c color mv).best_move color allowed
                = false
        · rw [if_pos h2] at h
          exact ih _ _ _ h
        · rw [if_neg h2] at h
          cases h
          exact ⟨mv, ko, rfl, rfl, rfl, ha, rfl, h1, h2⟩

theorem review_move_reasons_returned (cfg : Config) (c : Referee) (m : Int → Int) (color : Int)
    (fuel : Nat) (mv : Moves) (the_move : Int) (val : ℚ) (r : Review)
    (h : review_move_reasons cfg c m color fuel mv the_move val = Outcome.returned r) :
    review_loop cfg c m color fuel (redistribute_points cfg m mv) false
        = Outcome.returned r.selection
    ∧ ((r.selection.bestval > 0 ∧ r.selection.best_move ≠ cfg.NO_MOVE ∧ r.result = 1
          ∧ r.the_move = r.selection.best_move ∧ r.val = r.selection.bestval)
        ∨ (¬ (r.selection.bestval > 0 ∧ r.selection.best_move ≠ cfg.NO_MOVE) ∧ r.result = 0
          ∧ r.the_move = the_move ∧ r.val = val)) := by
  unfold review_move_reasons at h
  rcases hl : review_loop cfg c m color fuel (redistribute_points cfg m mv) false with
    sel | _ | _
  · rw [hl] at h
    simp only at h
    by_cases hb : sel.bestval > 0 ∧ sel.best_move ≠ cfg.NO_MOVE
    · rw [if_pos hb] at h
      cases h
      exact ⟨rfl, Or.inl ⟨hb.1, hb.2, rfl, rfl, rfl⟩⟩
    · rw [if_neg hb] at h
      cases h
      exact ⟨rfl, Or.inr ⟨hb, rfl, rfl, rfl⟩⟩
  · rw [hl] at h; simp at h
  · rw [hl] at h; simp at h

/-! ## The claims on the choice of the move -/

/-- C13: when `review_move_reasons` returns, it returns 1 or 0.  If it returns
1 with the point `p` and the value `v`, then `v > 0`, `v` is the
`final_value` of `p`, `p` is legal and not an illegal ko capture, and
`move_reasons_confirm_safety(p, color, allowed_blunder_size)` succeeded.  If
it returns 0, no point of the board that is legal or an illegal ko capture
has a positive `final_value`, and `*the_move` and `*val` are as on entry. -/
theorem review_move_reasons_result (cfg : Config) (c : Referee) (m : Int → Int) (color : Int)
    (fuel : Nat) (mv : Moves) (the_move : Int) (val : ℚ) (r : Review)
    (hno : cfg.NO_MOVE ∉ board_points cfg)
    (h : review_move_reasons cfg c m color fuel mv the_move val = Outcome.returned r) :
    (r.result = 1 ∨ r.result = 0)
    ∧ (r.result = 1 →
        0 < r.val ∧ r.selection.moves.final_value r.the_move = r.val
        ∧ c.is_legal r.the_move color = true
        ∧ c.is_illegal_ko_capture r.the_move color = false
        ∧ c.move_reasons_confirm_safety r.the_move color r.selection.allowed_blunder_size = true)
    ∧ (r.result = 0 →
        (∀ q, q ∈ board_points cfg →
          c.is_legal q color = true ∨ c.is_illegal_ko_capture q color = true →
          ¬ 0 < r.selection.moves.final_value q)
        ∧ r.the_move = the_move ∧ r.val = val) := by
  obtain ⟨hl, hr⟩ := review_move_reasons_returned cfg c m color fuel mv the_move val r h
  obtain ⟨mv0, ko0, e1, e2, e3, _, _, n1, n2⟩ := review_loop_returned cfg c m color _ _ _ _ hl
  have hi : ScanInv c color cfg.NO_MOVE mv0 (board_points cfg)
      { bestval := r.selection.bestval, best_move := r.selection.best_move,
        moves := r.selection.moves } := by
    rw [e1, e2, e3]
    exact scan_moves_inv cfg c color mv0
  rcases hr with ⟨b1, b2, b3, b4, b5⟩ | ⟨b1, b3, b4, b5⟩
  · refine ⟨Or.inl b3, ?_, fun h0 => by rw [b3] at h0; exact absurd h0 (by decide)⟩
    intro _
    obtain ⟨_, f2, f3, _⟩ := hi.found b1
    have hko : c.is_illegal_ko_capture r.selection.best_move color = false := by
      by_contra hk
      exact n1 ⟨b1, by simpa using hk⟩
    have hleg : c.is_legal r.selection.best_move color = true := by
      rw [hko, Bool.or_false] at f3
      exact f3
    have hsafe : c.move_reasons_confirm_safety r.selection.best_move color
        r.selection.allowed_blunder_size = true := by
      by_contra hk
      exact n2 ⟨b1, by simpa using hk⟩
    rw [b4, b5]
    exact ⟨b1, f2, hleg, hko, hsafe⟩
  · refine ⟨Or.inr b3, fun h1 => by rw [b3] at h1; exact absurd h1 (by decide), ?_⟩
    intro _
    refine ⟨?_, b4, b5⟩
    intro q hq _
    have hb0 : r.selection.bestval = 0 := by
      by_contra hne
      have hpos : 0 < r.selection.bestval := lt_of_le_of_ne hi.nonneg (Ne.symm hne)
      apply b1
      refine ⟨hpos, fun e => hno ?_⟩
      rw [← e]
      exact (hi.found hpos).1
    have := hi.bound q hq
    rw [hb0] at this
    exact not_lt.2 this

/-- C14: when `review_move_reasons` returns 1 with the point `p` and the value
`v`, every point `q` of the board has `final_value(q) ≤ v` at that time, and
`p` is the first point in the order of the search (`POS(m, n)` with `m` in
the outer and `n` in the inner loop) whose `final_value` is `v`. -/
theorem review_move_reasons_best (cfg : Config) (c : Referee) (m : Int → Int) (color : Int)
    (fuel : Nat) (mv : Moves) (the_move : Int) (val : ℚ) (r : Review)
    (h : review_move_reasons cfg c m color fuel mv the_move val = Outcome.returned r)
    (h1 : r.result = 1) :
    (∀ q, q ∈ board_points cfg → r.selection.moves.final_value q ≤ r.val)
    ∧ r.selection.moves.final_value r.the_move = r.val
    ∧ ∃ l1 l2, board_points cfg = l1 ++ r.the_move :: l2
        ∧ ∀ q, q ∈ l1 → r.selection.moves.final_value q ≠ r.val := by
  obtain ⟨hl, hr⟩ := review_move_reasons_returned cfg c m color fuel mv the_move val r h
  obtain ⟨mv0, ko0, e1, e2, e3, _, _, _, _⟩ := review_loop_returned cfg c m color _ _ _ _ hl
  have hi : ScanInv c color cfg.NO_MOVE mv0 (board_points cfg)
      { bestval := r.selection.bestval, best_move := r.selection.best_move,
        moves := r.selection.moves } := by
    rw [e1, e2, e3]
    exact scan_moves_inv cfg c color mv0
  rcases hr with ⟨b1, _, _, b4, b5⟩ | ⟨_, b3, _, _⟩
  · obtain ⟨_, f2, _, f4⟩ := hi.found b1
    rw [b4, b5]
    exact ⟨hi.bound, f2, f4⟩
  · rw [b3] at h1; exact absurd h1 (by decide)

theorem Outcome.value_eq_some {α : Type} (o : Outcome α) (a : α) (h : o.value = some a) :
    o = Outcome.returned a := by
  cases o with
  | returned b => simp only [Outcome.value, Option.some.injEq] at h; rw [h]
  | aborted => simp [Outcome.value] at h
  | unfinished => simp [Outcome.value] at h

theorem Outcome.exists_value {α : Type} (o : Outcome α) (h : o.is_returned = true) :
    ∃ a, o = Outcome.returned a := by
  cases o with
  | returned b => exact ⟨b, rfl⟩
  | aborted => simp [Outcome.is_returned] at h
  | unfinished => simp [Outcome.is_returned] at h

/-- On the 2 by 2 board with the points 4 and 5 redirected to 7, the values
3, 5, 1, 2 and a blunder check that rejects the point 7: the run returns 1
with the point 8 and the value 2. -/
theorem review_move_reasons_result_witness :
    ∃ r, review_move_reasons small sample_referee sent_5_to_7 1 3 sample_moves 0 0
        = Outcome.returned r
      ∧ r.result = 1 ∧ r.the_move = 8 ∧ r.val = 2
      ∧ 0 < r.val ∧ r.selection.moves.final_value r.the_move = r.val
      ∧ sample_referee.is_legal r.the_move 1 = true
      ∧ sample_referee.is_illegal_ko_capture r.the_move 1 = false
      ∧ sample_referee.move_reasons_confirm_safety r.the_move 1
          r.selection.allowed_blunder_size = true := by
  obtain ⟨r, hr⟩ := Outcome.exists_value
    (review_move_reasons small sample_referee sent_5_to_7 1 3 sample_moves 0 0) (by decide!)
  have h1 : ((review_move_reasons small sample_referee sent_5_to_7 1 3 sample_moves 0 0).value.map
      fun r => (r.result, r.the_move, r.val)) = some (1, 8, 2) := by decide!
  rw [hr] at h1
  simp only [Outcome.value, Option.map_some', Option.some.injEq, Prod.mk.injEq] at h1
  have h := review_move_reasons_result small sample_referee sent_5_to_7 1 3 sample_moves 0 0 r
    (by decide) hr
  exact ⟨r, hr, h1.1, h1.2.1, h1.2.2, h.2.1 h1.1⟩

/-- The same run as for C13: the point 8, with the value 2, is returned, every
`final_value` is at most 2, and no point before 8 has the `final_value` 2. -/
theorem review_move_reasons_best_witness :
    ∃ r, review_move_reasons small sample_referee sent_5_to_7 1 3 sample_moves 0 0
        = Outcome.returned r
      ∧ r.result = 1 ∧ r.the_move = 8 ∧ r.val = 2
      ∧ (∀ q, q ∈ board_points small → r.selection.moves.final_value q ≤ r.val)
      ∧ r.selection.moves.final_value r.the_move = r.val
      ∧ ∃ l1 l2, board_points small = l1 ++ r.the_move :: l2
          ∧ ∀ q, q ∈ l1 → r.selection.moves.final_value q ≠ r.val := by
  obtain ⟨r, hr⟩ := Outcome.exists_value
    (review_move_reasons small sample_referee sent_5_to_7 1 3 sample_moves 0 0) (by decide!)
  have h1 : ((review_move_reasons small sample_referee sent_5_to_7 1 3 sample_moves 0 0).value.map
      fun r => (r.result, r.the_move, r.val)) = some (1, 8, 2) := by decide!
  rw [hr] at h1
  simp only [Outcome.value, Option.map_some', Option.some.injEq, Prod.mk.injEq] at h1
  exact ⟨r, hr, h1.1, h1.2.1, h1.2.2,
    review_move_reasons_best small sample_referee sent_5_to_7 1 3 sample_moves 0 0 r hr h1.1⟩

/-! ### The round that meets an illegal ko capture -/

theorem foldl_reevaluate_point :
    ∀ (l : List Int), l.Nodup → ∀ (mv : Moves),
      ∃ f, l.foldl reevaluate_point mv = { mv with value := f }
        ∧ ∀ p, f p = if p ∈ l ∧ mv.additional_ko_value p > 0
            then mv.value p + mv.additional_ko_value p else mv.value p := by
  intro l
  induction l with
  | nil => intro _ mv; exact ⟨mv.value, rfl, fun p => by simp⟩
  | cons a l ih =>
    intro hnd mv
    have hal : a ∉ l := (List.nodup_cons.1 hnd).1
    obtain ⟨f, h1, h2⟩ := ih (List.nodup_cons.1 hnd).2 (reevaluate_point mv a)
    by_cases ha : mv.additional_ko_value a > 0
    · have e : reevaluate_point mv a
          = { mv with value := Function.update mv.value a (mv.value a + mv.additional_ko_value a) } := by
        unfold reevaluate_point
        rw [if_pos ha]
      rw [e] at h1 h2
      refine ⟨f, by rw [List.foldl_cons, e, h1], ?_⟩
      intro p
      rw [h2 p]
      simp only [List.mem_cons]
      by_cases hpa : p = a
      · subst hpa
        simp [hal, ha]
      · simp [hpa, Function.update_noteq hpa]
    · have e : reevaluate_point mv a = mv := by
        unfold reevaluate_point
        rw [if_neg ha]
      rw [e] at h1 h2
      refine ⟨f, by rw [List.foldl_cons, e, h1], ?_⟩
      intro p
      rw [h2 p]
      simp only [List.mem_cons]
      by_cases hpa : p = a
      · subst hpa
        simp [hal, ha]
      · simp [hpa]

theorem countP_pos_le (f g : Int → ℚ) (l : List Int)
    (h : ∀ q, q ∈ l → g q = f q ∨ g q = 0) :
    l.countP (fun p => decide (0 < g p)) ≤ l.countP (fun p => decide (0 < f p)) := by
  apply List.countP_mono_left
  intro x hx hg
  rcases h x hx with e | e
  · rw [e] at hg; exact hg
  · rw [e] at hg; simp at hg

theorem countP_pos_lt (f g : Int → ℚ) :
    ∀ (l : List Int), (∀ q, q ∈ l → g q = f q ∨ g q = 0) →
      ∀ b, b ∈ l → 0 < f b → g b = 0 →
      l.countP (fun p => decide (0 < g p)) < l.countP (fun p => decide (0 < f p)) := by
  intro l
  induction l with
  | nil => intro _ b hb; exact absurd hb (List.not_mem_nil b)
  | cons a l ih =>
    intro h b hb hfb hgb
    have hl : ∀ q, q ∈ l → g q = f q ∨ g q = 0 := fun q hq => h q (List.mem_cons_of_mem a hq)
    have hle := countP_pos_le f g l hl
    rw [List.countP_cons, List.countP_cons]
    by_cases hab : a = b
    · subst hab
      simp only [hgb, lt_irrefl, decide_False, hfb, decide_True, if_true]
      simp only [Bool.false_eq_true, if_false]
      omega
    · have hbl : b ∈ l := by
        rcases List.mem_cons.1 hb with e | e
        · exact absurd e.symm hab
        · exact e
      have hlt := ih hl b hbl hfb hgb
      rcases h a (List.mem_cons_self a l) with e | e
      · rw [e]
        omega
      · have : ¬ (0 < g a) := by rw [e]; exact lt_irrefl _
        simp only [this, decide_False, Bool.false_eq_true, if_false]
        split <;> omega

/-- The search zeroes points only. -/
theorem live_scan_le (cfg : Config) (c : Referee) (color : Int) (mv : Moves) :
    live cfg (scan_moves cfg c color mv).moves ≤ live cfg mv := by
  unfold live
  apply countP_pos_le
  intro q _
  rcases (scan_moves_inv cfg c color mv).zeroed q with h | h
  · exact Or.inl h.1
  · exact Or.inr h.1

/-- Rejecting the point the search found leaves fewer candidates. -/
theorem live_reject_lt (cfg : Config) (c : Referee) (color : Int) (mv : Moves)
    (hv : 0 < (scan_moves cfg c color mv).bestval) :
    live cfg (zero_move (scan_moves cfg c color mv).moves (scan_moves cfg c color mv).best_move)
      < live cfg mv := by
  have hi := scan_moves_inv cfg c color mv
  obtain ⟨hb, hf, _, _⟩ := hi.found hv
  refine lt_of_lt_of_le ?_ (live_scan_le cfg c color mv)
  unfold live
  apply countP_pos_lt _ _ _ _ (scan_moves cfg c color mv).best_move hb
  · rw [hf]; exact hv
  · simp [zero_move]
  · intro q _
    by_cases hq : q = (scan_moves cfg c color mv).best_move
    · right; rw [hq]; simp [zero_move]
    · left; simp [zero_move, Function.update_noteq hq]

theorem live_le_length (cfg : Config) (mv : Moves) : live cfg mv ≤ (board_points cfg).length :=
  List.countP_le_length _

/-- Once no illegal ko capture has a positive `final_value`, every round
that does not end the loop leaves fewer candidates. -/
theorem review_loop_second_phase (cfg : Config) (c : Referee) (m : Int → Int) (color : Int) :
    ∀ (fuel : Nat) (mv : Moves) (ko : Bool),
      (∀ p, p ∈ board_points cfg → c.is_illegal_ko_capture p color = true →
        mv.final_value p = 0) →
      live cfg mv < fuel →
      review_loop cfg c m color fuel mv ko ≠ Outcome.unfinished := by
  intro fuel
  induction fuel with
  | zero => intro mv ko _ h; exact absurd h (Nat.not_lt_zero _)
  | succ n ih =>
    intro mv ko hJ hlt
    have hi := scan_moves_inv cfg c color mv
    have hJs : ∀ p, p ∈ board_points cfg → c.is_illegal_ko_capture p color = true →
        (scan_moves cfg c color mv).moves.final_value p = 0 := by
      intro p hp hk
      rcases hi.zeroed p with h | h
      · rw [h.1]; exact hJ p hp hk
      · exact h.1
    rw [review_loop]
    rcases ha : allowed_blunder_size cfg c ko (scan_moves cfg c color mv) with _ | allowed
    · simp
    · simp only
      by_cases h1 : (scan_moves cfg c color mv).bestval > 0
          ∧ c.is_illegal_ko_capture (scan_moves cfg c color mv).best_move color = true
      · exfalso
        obtain ⟨hb, hf, _, _⟩ := hi.found h1.1
        have := hJs _ hb h1.2
        rw [hf] at this
        exact absurd this (ne_of_gt h1.1)
      · rw [if_neg h1]
        by_cases h2 : (scan_moves cfg c color mv).bestval > 0
            ∧ c.move_reasons_confirm_safety (scan_moves cfg c color mv).best_move color allowed
                = false
        · rw [if_pos h2]
          apply ih
          · intro p hp hk
            by_cases hq : p = (scan_moves cfg c color mv).best_move
            · rw [hq]; simp [zero_move]
            · simp only [zero_move, Function.update_noteq hq]
              exact hJs p hp hk
          · have := live_reject_lt cfg c color mv h2.1
            omega
        · rw [if_neg h2]
          simp

/-- With at most one illegal ko capture on the board, the loop ends within
`live + length + 2` rounds: a round that rejects a blunder leaves fewer
candidates, and after the round that rejects the ko capture no ko capture has
a positive `final_value` any more. -/
theorem review_loop_first_phase (cfg : Config) (c : Referee) (m : Int → Int) (color : Int)
    (hone : ∀ p q, p ∈ board_points cfg → q ∈ board_points cfg →
      c.is_illegal_ko_capture p color = true → c.is_illegal_ko_capture q color = true → p = q) :
    ∀ (fuel : Nat) (mv : Moves) (ko : Bool),
      live cfg mv + (board_points cfg).length + 1 < fuel →
      review_loop cfg c m color fuel mv ko ≠ Outcome.unfinished := by
  intro fuel
  induction fuel with
  | zero => intro mv ko h; exact absurd h (Nat.not_lt_zero _)
  | succ n ih =>
    intro mv ko hlt
    have hi := scan_moves_inv cfg c color mv
    rw [review_loop]
    rcases ha : allowed_blunder_size cfg c ko (scan_moves cfg c color mv) with _ | allowed
    · simp
    · simp only
      by_cases h1 : (scan_moves cfg c color mv).bestval > 0
          ∧ c.is_illegal_ko_capture (scan_moves cfg c color mv).best_move color = true
      · rw [if_pos h1]
        obtain ⟨hb, _, _, _⟩ := hi.found h1.1
        apply review_loop_second_phase
        · intro p hp hk
          have : p = (scan_moves cfg c color mv).best_move := hone p _ hp hb hk h1.2
          rw [this]
          simp [zero_move]
        · have := live_le_length cfg
            (zero_move
              (redistribute_points cfg m
                (reevaluate_ko_threats cfg (scan_moves cfg c color mv).moves))
              (scan_moves cfg c color mv).best_move)
          omega
      · rw [if_neg h1]
        by_cases h2 : (scan_moves cfg c color mv).bestval > 0
            ∧ c.move_reasons_confirm_safety (scan_moves cfg c color mv).best_move color allowed
                = false
        · rw [if_pos h2]
          apply ih
          have := live_reject_lt cfg c color mv h2.1
          omega
        · rw [if_neg h2]
          simp

/-- C15, amended: when at most one point of the board is an illegal ko
capture (as with the single ko point of a position), the loop of
`review_move_reasons` ends, whatever the move table, the redistribution map
and the other collaborators are: `2 * board_size² + 2` rounds are enough for
the run to return or to stop at the assertion. -/
theorem review_move_reasons_terminates (cfg : Config) (c : Referee) (m : Int → Int)
    (color : Int) (mv : Moves) (the_move : Int) (val : ℚ) (fuel : Nat)
    (hone : ∀ p q, p ∈ board_points cfg → q ∈ board_points cfg →
      c.is_illegal_ko_capture p color = true → c.is_illegal_ko_capture q color = true → p = q)
    (hfuel : 2 * (board_points cfg).length + 2 ≤ fuel) :
    review_move_reasons cfg c m color fuel mv the_move val ≠ Outcome.unfinished
    ∧ ∀ ko, review_loop cfg c m color fuel mv ko ≠ Outcome.unfinished := by
  have hl : ∀ (mv : Moves) ko, review_loop cfg c m color fuel mv ko ≠ Outcome.unfinished := by
    intro mv ko
    apply review_loop_first_phase cfg c m color hone
    have := live_le_length cfg mv
    omega
  refine ⟨?_, hl mv⟩
  unfold review_move_reasons
  have := hl (redistribute_points cfg m mv) false
  rcases h : review_loop cfg c m color fuel (redistribute_points cfg m mv) false with sel | _ | _
  · simp only
    split <;> simp
  · simp
  · exact absurd h this

/-- On the 2 by 2 board with the single ko point 4, ten rounds are enough:
the run returns. -/
theorem review_move_reasons_terminates_witness :
    review_move_reasons small ko_referee small_fresh.replacement_map 1 10 ko_moves 0 0
        ≠ Outcome.unfinished
    ∧ (review_move_reasons small ko_referee small_fresh.replacement_map 1 10 ko_moves 0
        0).is_returned = true :=
  ⟨(review_move_reasons_terminates small ko_referee small_fresh.replacement_map 1 ko_moves 0 0 10
      (fun p q _ _ hp hq => by
        simp only [ko_referee, beq_iff_eq] at hp hq
        rw [hp, hq])
      (by decide)).1,
    by decide!⟩

theorem foldl_id_step {α β : Type} (l : List β) (a : α) :
    l.foldl (fun x _ => x) a = a := by
  induction l with
  | nil => rfl
  | cons b l ih => rw [List.foldl_cons, ih]

/-- Without redirections `redistribute_points` copies `value` to
`final_value` on the board and does nothing else. -/
theorem redistribute_points_no_redirect (cfg : Config) (m : Int → Int) (mv : Moves)
    (h : ∀ s, s ∈ board_points cfg → m s = cfg.NO_MOVE) :
    ∃ f, redistribute_points cfg m mv = { mv with final_value := f }
      ∧ ∀ p, f p = if p ∈ board_points cfg then mv.value p else mv.final_value p := by
  obtain ⟨f, e, hf⟩ := foldl_copy_value (board_points cfg) mv
  refine ⟨f, ?_, hf⟩
  unfold redistribute_points
  rw [foldl_congr_mem (redistribute_point cfg m) (fun x _ => x) (board_points cfg) _
    (fun x b hb => by unfold redistribute_point; simp [h b hb]), foldl_id_step, e]

theorem small_points : board_points small = [4, 5, 7, 8] := by decide

/-- One round from a state of the cycle: the search finds the point 4 or 5,
an illegal ko capture, and the round leaves a state of the cycle. -/
theorem ko_cycle_round (mv : Moves) (hq : KoCycle mv) :
    ∃ mv1, KoCycle mv1 ∧ ∀ fuel ko,
      review_loop small two_ko_referee small_fresh.replacement_map 1 (fuel + 1) mv ko
        = review_loop small two_ko_referee small_fresh.replacement_map 1 fuel mv1 true := by
  have hi := scan_moves_inv small two_ko_referee 1 mv
  have hfr := hi.frame
  have hako : (scan_moves small two_ko_referee 1 mv).moves.additional_ko_value
      = mv.additional_ko_value := by rw [hfr]
  have k4 : (scan_moves small two_ko_referee 1 mv).moves.final_value 4 = mv.final_value 4
      ∧ (scan_moves small two_ko_referee 1 mv).moves.value 4 = mv.value 4 := by
    rcases hi.zeroed 4 with h | h
    · exact h
    · exact absurd h.2.2.1 (by decide)
  have k5 : (scan_moves small two_ko_referee 1 mv).moves.final_value 5 = mv.final_value 5
      ∧ (scan_moves small two_ko_referee 1 mv).moves.value 5 = mv.value 5 := by
    rcases hi.zeroed 5 with h | h
    · exact h
    · exact absurd h.2.2.1 (by decide)
  have k7 : (scan_moves small two_ko_referee 1 mv).moves.final_value 7 = 0
      ∧ (scan_moves small two_ko_referee 1 mv).moves.value 7 = 0 := by
    rcases hi.zeroed 7 with h | h
    · exact ⟨h.1.trans hq.f7, h.2.trans hq.v7⟩
    · exact ⟨h.1, h.2.1⟩
  have k8 : (scan_moves small two_ko_referee 1 mv).moves.final_value 8 = 0
      ∧ (scan_moves small two_ko_referee 1 mv).moves.value 8 = 0 := by
    rcases hi.zeroed 8 with h | h
    · exact ⟨h.1.trans hq.f8, h.2.trans hq.v8⟩
    · exact ⟨h.1, h.2.1⟩
  have hv : 0 < (scan_moves small two_ko_referee 1 mv).bestval := by
    rcases hq.pos with h | h
    · have := hi.bound 4 (by decide)
      rw [k4.1, hq.f4] at this
      exact lt_of_lt_of_le h this
    · have := hi.bound 5 (by decide)
      rw [k5.1, hq.f5] at this
      exact lt_of_lt_of_le h this
  obtain ⟨hb, hf, _, _⟩ := hi.found hv
  have hbest : (scan_moves small two_ko_referee 1 mv).best_move = 4
      ∨ (scan_moves small two_ko_referee 1 mv).best_move = 5 := by
    rw [small_points] at hb
    simp only [List.mem_cons, List.mem_singleton, List.not_mem_nil, or_false] at hb
    rcases hb with h | h | h | h
    · exact Or.inl h
    · exact Or.inr h
    · rw [h, k7.1] at hf; exact absurd hf (ne_of_lt hv)
    · rw [h, k8.1] at hf; exact absurd hf (ne_of_lt hv)
  have hko : two_ko_referee.is_illegal_ko_capture
      (scan_moves small two_ko_referee 1 mv).best_move 1 = true := by
    rcases hbest with h | h <;> rw [h] <;> decide
  have hon : small.ON_BOARD1 (scan_moves small two_ko_referee 1 mv).best_move = true := by
    rcases hbest with h | h <;> rw [h] <;> decide
  have hall : ∀ ko, ∃ a,
      allowed_blunder_size small two_ko_referee ko (scan_moves small two_ko_referee 1 mv)
        = some a := by
    intro ko
    unfold allowed_blunder_size
    split
    · exact ⟨_, rfl⟩
    · rw [hon]
      simp
  obtain ⟨g, eg, hg⟩ := foldl_reevaluate_point (board_points small) (by decide)
    (scan_moves small two_ko_referee 1 mv).moves
  have eg1 : reevaluate_ko_threats small (scan_moves small two_ko_referee 1 mv).moves
      = { (scan_moves small two_ko_referee 1 mv).moves with value := g } := eg
  obtain ⟨f, ef, hf1⟩ := redistribute_points_no_redirect small small_fresh.replacement_map
    (reevaluate_ko_threats small (scan_moves small two_ko_referee 1 mv).moves) (by decide)
  rw [eg1] at ef hf1
  simp only at hf1
  have g4 : g 4 = mv.value 4 + 1 := by
    rw [hg 4, hako, hq.ako4, k4.2]
    simp [small_points]
  have g5 : g 5 = mv.value 5 + 1 := by
    rw [hg 5, hako, hq.ako5, k5.2]
    simp [small_points]
  have g7 : g 7 = 0 := by
    rw [hg 7, hako, hq.ako7, k7.2]
    simp
  have g8 : g 8 = 0 := by
    rw [hg 8, hako, hq.ako8, k8.2]
    simp
  have f4 : f 4 = g 4 := by rw [hf1 4]; simp [small_points]
  have f5 : f 5 = g 5 := by rw [hf1 5]; simp [small_points]
  have f7 : f 7 = g 7 := by rw [hf1 7]; simp [small_points]
  have f8 : f 8 = g 8 := by rw [hf1 8]; simp [small_points]
  refine ⟨zero_move
    (redistribute_points small small_fresh.replacement_map
      (reevaluate_ko_threats small (scan_moves small two_ko_referee 1 mv).moves))
    (scan_moves small two_ko_referee 1 mv).best_move, ?_, ?_⟩
  · rw [eg1, ef]
    have n4 := hq.n4
    have n5 := hq.n5
    rcases hbest with h | h
    · rw [h]
      refine ⟨?_, ?_, ?_, ?_, ?_, ?_, ?_, ?_, ?_, ?_, ?_, ?_, ?_⟩ <;>
        simp [zero_move, hako, hq.ako4, hq.ako5, hq.ako7, hq.ako8, f4, f5, f7, f8, g4, g5, g7,
          g8] <;> linarith
    · rw [h]
      refine ⟨?_, ?_, ?_, ?_, ?_, ?_, ?_, ?_, ?_, ?_, ?_, ?_, ?_⟩ <;>
        simp [zero_move, hako, hq.ako4, hq.ako5, hq.ako7, hq.ako8, f4, f5, f7, f8, g4, g5, g7,
          g8] <;> linarith
  · intro fuel ko
    obtain ⟨a, ha⟩ := hall ko
    rw [review_loop, ha]
    simp only
    rw [if_pos ⟨hv, hko⟩]

theorem ko_cycle_forever :
    ∀ (fuel : Nat) (mv : Moves) (ko : Bool), KoCycle mv →
      review_loop small two_ko_referee small_fresh.replacement_map 1 fuel mv ko
        = Outcome.unfinished := by
  intro fuel
  induction fuel with
  | zero => intro mv ko _; rfl
  | succ n ih =>
    intro mv ko hq
    obtain ⟨mv1, hq1, h⟩ := ko_cycle_round mv hq
    rw [h n ko]
    exact ih mv1 true hq1

/-- C15, as stated, fails: on the 2 by 2 board, when both the points 4 and 5
are illegal ko captures with the value 1 and the additional ko value 1, the
loop of `review_move_reasons` rejects the point 4 and the point 5 in turn for
ever, since each ko round gives the point rejected in the round before a
positive value again; no number of rounds ends the run. -/
theorem review_move_reasons_two_ko_counterexample :
    never_ends fun fuel =>
      review_move_reasons small two_ko_referee small_fresh.replacement_map 1 fuel two_ko_moves
        0 0 := by
  intro fuel
  show review_move_reasons small two_ko_referee small_fresh.replacement_map 1 fuel two_ko_moves
    0 0 = Outcome.unfinished
  obtain ⟨f, ef, hf⟩ := redistribute_points_no_redirect small small_fresh.replacement_map
    two_ko_moves (by decide)
  have hq : KoCycle (redistribute_points small small_fresh.replacement_map two_ko_moves) := by
    rw [ef]
    refine ⟨?_, ?_, ?_, ?_, ?_, ?_, ?_, ?_, ?_, ?_, ?_, ?_, ?_⟩ <;>
      simp [hf, small_points, two_ko_moves, zero_moves]
  unfold review_move_reasons
  rw [ko_cycle_forever fuel _ false hq]

/-! ## Valuation: what a call leaves alone -/

theorem is_antisuji_move_loop_eq (k : Constants) (t : Reasons) (pos : Int) :
    ∀ fuel i, is_antisuji_move_loop k t pos fuel i
      = move_reason_known_loop t pos k.ANTISUJI_MOVE (-1) fuel i := by
  intro fuel
  induction fuel with
  | zero => intro i; rfl
  | succ n ih =>
    intro i
    simp only [is_antisuji_move_loop, move_reason_known_loop]
    by_cases h : t.reason pos i < 0
    · simp [h]
    · simp only [h, if_false]
      by_cases h2 : (t.move_reasons (t.reason pos i).toNat).type = k.ANTISUJI_MOVE
      · simp [h2]
      · simp only [h2, if_false, false_and]
        exact ih (i + 1)

/-- The function `is_antisuji_move` answers 1 exactly for the points whose
list contains a reason of the kind `ANTISUJI_MOVE`, and 0 for the others. -/
theorem is_antisuji_move_spec (cfg : Config) (k : Constants) (t : Reasons) (pos : Int) :
    (is_antisuji_move cfg k t pos = 1 ∧ has_antisuji cfg k t pos)
    ∨ (is_antisuji_move cfg k t pos = 0 ∧ ¬ has_antisuji cfg k t pos) := by
  unfold is_antisuji_move has_antisuji reason_count
  rw [is_antisuji_move_loop_eq]
  rcases move_reason_known_loop_spec t pos k.ANTISUJI_MOVE (-1) cfg.MAX_REASONS 0 with
    ⟨h1, j, _, hj, ha⟩ | ⟨h1, h2⟩
  · exact Or.inl ⟨h1, j, hj, ha.1⟩
  · refine Or.inr ⟨h1, ?_⟩
    rintro ⟨i, hi, hty⟩
    exact h2 i (Nat.zero_le i) hi ⟨hty, Or.inl (by decide)⟩

theorem same_reasons_refl (t : Reasons) : SameReasons t t :=
  ⟨rfl, rfl, fun _ => ⟨rfl, rfl⟩⟩

theorem same_reasons_trans {t t1 t2 : Reasons} (h1 : SameReasons t t1)
    (h2 : SameReasons t1 t2) : SameReasons t t2 :=
  ⟨h2.1.trans h1.1, h2.2.1.trans h1.2.1,
    fun r => ⟨(h2.2.2 r).1.trans (h1.2.2 r).1, (h2.2.2 r).2.trans (h1.2.2 r).2⟩⟩

theorem same_reasons_set_flags (t : Reasons) (r : Nat) (flags : Int) :
    SameReasons t
      { t with
        move_reasons := Function.update t.move_reasons r
          { t.move_reasons r with status := Int.lor (t.move_reasons r).status flags } } := by
  refine ⟨rfl, rfl, fun r1 => ?_⟩
  by_cases h : r1 = r
  · subst h; simp
  · simp [Function.update_noteq h]

theorem discard_scan_same (cfg : Config) (k : Constants) (e : Engine) (b : Board)
    (rule : discard_rule) (ty : Int) (pos : Int) :
    ∀ fuel l (s s1 : Reasons × Registry),
      discard_scan cfg k e b rule ty pos fuel l s = some s1 → SameReasons s.1 s1.1 := by
  intro fuel
  induction fuel with
  | zero =>
    intro l s s1 h
    simp only [discard_scan, Option.some.injEq] at h
    rw [← h]; exact same_reasons_refl _
  | succ n ih =>
    intro l s s1 h
    obtain ⟨t, g⟩ := s
    simp only [discard_scan] at h
    split at h
    · simp only [Option.some.injEq] at h
      rw [← h]; exact same_reasons_refl _
    · split at h
      · split at h
        · exact absurd h (by simp)
        · split at h
          · have h1 := ih _ _ _ h
            exact same_reasons_trans (same_reasons_set_flags t _ _) h1
          · have h1 := ih _ _ _ h
            exact h1
      · have h1 := ih _ _ _ h
        exact h1

theorem discard_kinds_same (cfg : Config) (k : Constants) (e : Engine) (b : Board)
    (rule : discard_rule) (pos : Int) :
    ∀ (l : List Int) (s s1 : Reasons × Registry),
      discard_kinds cfg k e b rule pos l s = some s1 → SameReasons s.1 s1.1 := by
  intro l
  induction l with
  | nil =>
    intro s s1 h
    simp only [discard_kinds, Option.some.injEq] at h
    rw [← h]; exact same_reasons_refl _
  | cons ty rest ih =>
    intro s s1 h
    simp only [discard_kinds] at h
    split at h
    · simp only [Option.some.injEq] at h
      rw [← h]; exact same_reasons_refl _
    · split at h
      · exact absurd h (by simp)
      · rename_i s2 hs2
        exact same_reasons_trans (discard_scan_same cfg k e b rule ty pos _ _ _ _ hs2) (ih _ _ h)

theorem discard_with_same (cfg : Config) (k : Constants) (e : Engine) (b : Board) (pos : Int) :
    ∀ (rules : List discard_rule) (s s1 : Reasons × Registry),
      discard_with cfg k e b pos rules s = some s1 → SameReasons s.1 s1.1 := by
  intro rules
  induction rules with
  | nil =>
    intro s s1 h
    simp only [discard_with, Option.some.injEq] at h
    rw [← h]; exact same_reasons_refl _
  | cons rule rest ih =>
    intro s s1 h
    simp only [discard_with] at h
    split at h
    · simp only [Option.some.injEq] at h
      rw [← h]; exact same_reasons_refl _
    · split at h
      · exact absurd h (by simp)
      · rename_i s2 hs2
        exact same_reasons_trans (discard_kinds_same cfg k e b rule pos _ _ _ hs2) (ih _ _ h)

/-- The redundancy pass changes status flags only. -/
theorem discard_redundant_move_reasons_same (cfg : Config) (k : Constants) (e : Engine)
    (b : Board) (t : Reasons) (g : Registry) (pos : Int) (s1 : Reasons × Registry)
    (h : discard_redundant_move_reasons cfg k e b t g pos = some s1) : SameReasons t s1.1 :=
  discard_with_same cfg k e b pos _ _ _ h

theorem followup_only_refl (pos : Int) (mv : Moves) : FollowupOnly pos mv mv :=
  ⟨rfl, fun _ _ => rfl, fun _ _ => rfl⟩

theorem followup_only_trans {pos : Int} {mv mv1 mv2 : Moves} (h1 : FollowupOnly pos mv mv1)
    (h2 : FollowupOnly pos mv1 mv2) : FollowupOnly pos mv mv2 := by
  obtain ⟨a1, b1, c1⟩ := h1
  obtain ⟨a2, b2, c2⟩ := h2
  refine ⟨?_, fun q hq => (b2 q hq).trans (b1 q hq), fun q hq => (c2 q hq).trans (c1 q hq)⟩
  rw [a2, a1]

theorem add_followup_value_only (cfg : Config) (mv mv1 : Moves) (pos : Int) (v : ℚ)
    (h : add_followup_value cfg mv pos v = some mv1) : FollowupOnly pos mv mv1 := by
  unfold add_followup_value at h
  split at h
  · exact absurd h (by simp)
  · split at h
    · simp only [Option.some.injEq] at h
      subst h
      exact ⟨rfl, fun q hq => by simp [Function.update_noteq hq], fun _ _ => rfl⟩
    · simp only [Option.some.injEq] at h
      subst h
      exact followup_only_refl _ _

theorem add_reverse_followup_value_only (cfg : Config) (mv mv1 : Moves) (pos : Int) (v : ℚ)
    (h : add_reverse_followup_value cfg mv pos v = some mv1) : FollowupOnly pos mv mv1 := by
  unfold add_reverse_followup_value at h
  split at h
  · exact absurd h (by simp)
  · split at h
    · simp only [Option.some.injEq] at h
      subst h
      exact ⟨rfl, fun _ _ => rfl, fun q hq => by simp [Function.update_noteq hq]⟩
    · simp only [Option.some.injEq] at h
      subst h
      exact followup_only_refl _ _

theorem territorial_attack_only (k : Constants) (e : Engine) (b : Board) (pos color : Int)
    (acc acc1 : Territory) (ty what : Int)
    (h : territorial_attack k e b pos color acc ty what = some acc1) :
    FollowupOnly pos acc.moves acc1.moves := by
  unfold territorial_attack at h
  simp only at h
  split_ifs at h <;> simp only [Option.some.injEq] at h <;> subst h <;>
    exact followup_only_refl _ _

theorem territorial_defend_only (k : Constants) (e : Engine) (b : Board) (pos color : Int)
    (acc acc1 : Territory) (ty what : Int)
    (h : territorial_defend k e b pos color acc ty what = some acc1) :
    FollowupOnly pos acc.moves acc1.moves := by
  unfold territorial_defend at h
  simp only at h
  split_ifs at h <;> simp only [Option.some.injEq] at h <;> subst h <;>
    exact followup_only_refl _ _

theorem map_moves_only (cfg : Config) (acc acc1 : Territory) (pos : Int) (v : ℚ)
    (h : ((add_followup_value cfg acc.moves pos v).map fun mv => { acc with moves := mv })
      = some acc1) :
    FollowupOnly pos acc.moves acc1.moves := by
  simp only [Option.map_eq_some'] at h
  obtain ⟨mv, hm, rfl⟩ := h
  exact add_followup_value_only cfg _ _ _ _ hm

theorem territorial_attack_threat_only (cfg : Config) (k : Constants) (e : Engine)
    (b : Board) (pos color : Int) (acc acc1 : Territory) (what : Int)
    (h : territorial_attack_threat cfg k e b pos color acc what = some acc1) :
    FollowupOnly pos acc.moves acc1.moves := by
  unfold territorial_attack_threat at h
  dsimp only at h
  split_ifs at h
  · simp only [Option.some.injEq] at h; subst h; exact followup_only_refl _ _
  · simp only [Option.some.injEq] at h; subst h; exact followup_only_refl _ _
  · split at h
    · simp only [Option.some.injEq] at h; subst h; exact followup_only_refl _ _
    · split_ifs at h
      all_goals first
        | exact map_moves_only cfg _ _ _ _ h
        | (simp only [Option.some.injEq] at h; subst h; exact followup_only_refl _ _)

theorem territorial_defend_threat_only (cfg : Config) (k : Constants) (e : Engine)
    (b : Board) (pos color : Int) (acc acc1 : Territory) (what : Int)
    (h : territorial_defend_threat cfg k e b pos color acc what = some acc1) :
    FollowupOnly pos acc.moves acc1.moves := by
  unfold territorial_defend_threat at h
  simp only at h
  split at h
  · simp only [Option.some.injEq] at h; subst h; exact followup_only_refl _ _
  · split at h
    · simp only [Option.some.injEq] at h; subst h; exact followup_only_refl _ _
    · exact map_moves_only cfg _ _ _ _ h

theorem territorial_owl_only (k : Constants) (e : Engine) (b : Board) (pos : Int)
    (acc acc1 : Territory) (ty what : Int)
    (h : territorial_owl k e b acc ty what = some acc1) :
    FollowupOnly pos acc.moves acc1.moves := by
  unfold territorial_owl at h
  simp only at h
  split at h <;> simp only [Option.some.injEq] at h <;> subst h <;>
    exact followup_only_refl _ _

theorem territorial_owl_attack_threat_only (cfg : Config) (k : Constants) (e : Engine)
    (t : Reasons) (pos color : Int) (acc acc1 : Territory) (what : Int)
    (h : territorial_owl_attack_threat cfg k e t pos color acc what = some acc1) :
    FollowupOnly pos acc.moves acc1.moves := by
  unfold territorial_owl_attack_threat at h
  simp only at h
  split at h
  · simp only [Option.some.injEq] at h; subst h; exact followup_only_refl _ _
  · split at h
    · exact absurd h (by simp)
    · split at h
      · simp only [Option.map_eq_some'] at h
        obtain ⟨mv, hm, rfl⟩ := h
        exact add_followup_value_only cfg _ _ _ _ hm
      · simp only [Option.some.injEq] at h; subst h; exact followup_only_refl _ _

theorem territorial_owl_prevent_threat_only (cfg : Config) (k : Constants) (e : Engine)
    (pos color : Int) (score : ℚ) (acc acc1 : Territory) (what : Int)
    (h : territorial_owl_prevent_threat cfg k e pos color score acc what = some acc1) :
    FollowupOnly pos acc.moves acc1.moves := by
  unfold territorial_owl_prevent_threat at h
  simp only at h
  split at h
  · simp only [Option.some.injEq] at h; subst h; exact followup_only_refl _ _
  · split at h
    · simp only [Option.some.injEq] at h; subst h; exact followup_only_refl _ _
    · simp only [Option.map_eq_some'] at h
      obtain ⟨mv, hm, rfl⟩ := h
      exact add_reverse_followup_value_only cfg _ _ _ _ hm

/-- A round of the loop of `estimate_territorial_value` writes to `move[]`
through `add_followup_value` and `add_reverse_followup_value` only. -/
theorem territorial_case_only (cfg : Config) (k : Constants) (e : Engine) (b : Board)
    (t : Reasons) (pos color : Int) (score : ℚ) (acc acc1 : Territory) (ty what : Int)
    (h : territorial_case cfg k e b t pos color score acc ty what = some acc1) :
    FollowupOnly pos acc.moves acc1.moves := by
  unfold territorial_case at h
  by_cases c0 : ty = k.ATTACK_MOVE ∨ ty = k.ATTACK_MOVE_GOOD_KO ∨ ty = k.ATTACK_MOVE_BAD_KO
  · rw [if_pos c0] at h
    exact territorial_attack_only k e b pos color _ _ _ _ h
  rw [if_neg c0] at h
  by_cases c1 : ty = k.DEFEND_MOVE ∨ ty = k.DEFEND_MOVE_GOOD_KO ∨ ty = k.DEFEND_MOVE_BAD_KO
  · rw [if_pos c1] at h
    exact territorial_defend_only k e b pos color _ _ _ _ h
  rw [if_neg c1] at h
  by_cases c2 : ty = k.ATTACK_THREAT_MOVE
  · rw [if_pos c2] at h
    exact territorial_attack_threat_only cfg k e b pos color _ _ _ h
  rw [if_neg c2] at h
  by_cases c3 : ty = k.DEFEND_THREAT_MOVE
  · rw [if_pos c3] at h
    exact territorial_defend_threat_only cfg k e b pos color _ _ _ h
  rw [if_neg c3] at h
  by_cases c4 : ty = k.UNCERTAIN_OWL_DEFENSE
  · rw [if_pos c4] at h
    simp only [Option.some.injEq] at h; subst h; exact followup_only_refl _ _
  rw [if_neg c4] at h
  by_cases c5 : ty = k.CONNECT_MOVE ∨ ty = k.CUT_MOVE ∨ ty = k.STRATEGIC_ATTACK_MOVE
      ∨ ty = k.STRATEGIC_DEFEND_MOVE ∨ ty = k.BLOCK_TERRITORY_MOVE
  · rw [if_pos c5] at h
    simp only [Option.some.injEq] at h; subst h; exact followup_only_refl _ _
  rw [if_neg c5] at h
  by_cases c6 : ty = k.EXPAND_MOYO_MOVE ∨ ty = k.EXPAND_TERRITORY_MOVE
  · rw [if_pos c6] at h
    simp only [Option.some.injEq] at h; subst h; exact followup_only_refl _ _
  rw [if_neg c6] at h
  by_cases c7 : ty = k.SEMEAI_MOVE
  · rw [if_pos c7] at h
    simp only [Option.some.injEq] at h; subst h; exact followup_only_refl _ _
  rw [if_neg c7] at h
  by_cases c8 : ty = k.SEMEAI_THREAT
  · rw [if_pos c8] at h
    exact map_moves_only cfg _ _ _ _ h
  rw [if_neg c8] at h
  by_cases c9 : ty = k.VITAL_EYE_MOVE
  · rw [if_pos c9] at h
    simp only [Option.some.injEq] at h; subst h; exact followup_only_refl _ _
  rw [if_neg c9] at h
  by_cases c10 : ty = k.OWL_ATTACK_MOVE ∨ ty = k.OWL_ATTACK_MOVE_GOOD_KO
      ∨ ty = k.OWL_ATTACK_MOVE_BAD_KO ∨ ty = k.OWL_DEFEND_MOVE
      ∨ ty = k.OWL_DEFEND_MOVE_GOOD_KO ∨ ty = k.OWL_DEFEND_MOVE_BAD_KO
  · rw [if_pos c10] at h
    exact territorial_owl_only k e b pos _ _ _ _ h
  rw [if_neg c10] at h
  by_cases c11 : ty = k.OWL_ATTACK_THREAT
  · rw [if_pos c11] at h
    exact territorial_owl_attack_threat_only cfg k e t pos color _ _ _ h
  rw [if_neg c11] at h
  by_cases c12 : ty = k.OWL_DEFENSE_THREAT
  · rw [if_pos c12] at h
    exact map_moves_only cfg _ _ _ _ h
  rw [if_neg c12] at h
  by_cases c13 : ty = k.OWL_PREVENT_THREAT
  · rw [if_pos c13] at h
    exact territorial_owl_prevent_threat_only cfg k e pos color score _ _ _ h
  rw [if_neg c13] at h
  by_cases c14 : ty = k.MY_ATARI_ATARI_MOVE
  · rw [if_pos c14] at h
    simp only [Option.some.injEq] at h; subst h; exact followup_only_refl _ _
  rw [if_neg c14] at h
  by_cases c15 : ty = k.YOUR_ATARI_ATARI_MOVE
  · rw [if_pos c15] at h
    simp only [Option.some.injEq] at h; subst h; exact followup_only_refl _ _
  rw [if_neg c15] at h
  simp only [Option.some.injEq] at h; subst h; exact followup_only_refl _ _

theorem territorial_loop_only (cfg : Config) (k : Constants) (e : Engine) (b : Board)
    (t : Reasons) (pos color : Int) (score : ℚ) :
    ∀ fuel i (acc acc1 : Territory),
      territorial_loop cfg k e b t pos color score fuel i acc = some acc1 →
      FollowupOnly pos acc.moves acc1.moves := by
  intro fuel
  induction fuel with
  | zero =>
    intro i acc acc1 h
    simp only [territorial_loop, Option.some.injEq] at h
    subst h; exact followup_only_refl _ _
  | succ n ih =>
    intro i acc acc1 h
    simp only [territorial_loop] at h
    split at h
    · simp only [Option.some.injEq] at h
      subst h; exact followup_only_refl _ _
    · split at h
      · exact ih _ _ _ h
      · split at h
        · exact absurd h (by simp)
        · rename_i acc2 h2
          exact followup_only_trans (territorial_case_only cfg k e b t pos color score _ _ _ _ h2)
            (ih _ _ _ h)

theorem sort_reasons_frame (t : Reasons) (pos : Int) (n : Nat) :
    (∀ p, p ≠ pos → (sort_reasons t pos n).reason p = t.reason p)
    ∧ (sort_reasons t pos n).move_reasons = t.move_reasons
    ∧ (sort_reasons t pos n).next_reason = t.next_reason := by
  refine ⟨fun p hp => ?_, rfl, rfl⟩
  simp [sort_reasons, Function.update_noteq hp]

theorem estimate_territorial_value_only (cfg : Config) (k : Constants) (e : Engine)
    (b : Board) (t : Reasons) (g : Registry) (mv : Moves) (pos color : Int) (score : ℚ)
    (r : Moves × Registry)
    (h : estimate_territorial_value cfg k e b t g mv pos color score = some r) :
    r.1.value = mv.value := by
  unfold estimate_territorial_value at h
  split at h
  · exact absurd h (by simp)
  · rename_i acc hacc
    simp only [Option.some.injEq] at h
    subst h
    have := (territorial_loop_only cfg k e b t pos color score _ _ _ _ hacc).1
    simp only at this ⊢
    rw [this]

theorem estimate_strategical_value_only (cfg : Config) (k : Constants) (e : Engine)
    (b : Board) (t : Reasons) (g : Registry) (dv : Nat → ℚ) (mv : Moves) (pos color : Int)
    (score : ℚ) (r : Moves × Registry × (Nat → ℚ))
    (h : estimate_strategical_value cfg k e b t g dv mv pos color score = some r) :
    r.1 = { mv with strategical_value := r.1.strategical_value }
    ∧ ∀ q, q ≠ pos → r.1.strategical_value q = mv.strategical_value q := by
  unfold estimate_strategical_value at h
  split at h
  · exact absurd h (by simp)
  · split at h
    · exact absurd h (by simp)
    · simp only [Option.some.injEq] at h
      subst h
      exact ⟨rfl, fun q hq => by simp [Function.update_noteq hq]⟩

theorem estimate_values_frame (cfg : Config) (k : Constants) (e : Engine) (b : Board)
    (s s1 : Valuation) (pos color : Int) (score : ℚ)
    (h : estimate_values cfg k e b s pos color score = some s1) :
    s1.moves.value = s.moves.value
    ∧ (∀ p, p ≠ pos → s1.reasons.reason p = s.reasons.reason p)
    ∧ ∀ r, (s1.reasons.move_reasons r).type = (s.reasons.move_reasons r).type := by
  unfold estimate_values at h
  split at h
  · exact absurd h (by simp)
  · rename_i n _
    split at h
    · exact absurd h (by simp)
    · rename_i t1 g1 hd
      split at h
      · exact absurd h (by simp)
      · rename_i mv2 g2 ht
        split at h
        · exact absurd h (by simp)
        · rename_i mv3 g3 dv3 hs
          simp only [Option.some.injEq] at h
          subst h
          have hsame := discard_redundant_move_reasons_same cfg k e b _ _ _ _ hd
          have hsort := sort_reasons_frame s.reasons pos n
          have h2 := estimate_territorial_value_only cfg k e b _ _ _ _ _ _ _ ht
          have h3 := (estimate_strategical_value_only cfg k e b _ _ _ _ _ _ _ _ hs).1
          simp only at hsame h2 h3 ⊢
          refine ⟨?_, ?_, ?_⟩
          · rw [h3]; exact h2
          · intro p hp
            rw [hsame.1]
            exact hsort.1 p hp
          · intro r
            rw [(hsame.2.2 r).1, hsort.2.1]

theorem bound_value_value (mv : Moves) (pos : Int) (tot : ℚ) :
    (bound_value mv pos tot).2.value = mv.value := rfl

theorem followup_adjustment_value (cfg : Config) (e : Engine) (b : Board) (mv : Moves)
    (pos color : Int) (shape_factor tot : ℚ) :
    (followup_adjustment cfg e b mv pos color shape_factor tot).2.value = mv.value := by
  unfold followup_adjustment
  split <;> rfl

/-- What a call of `value_move_reasons` for the point `q` leaves alone: the
field `value` of every point, the reason lists of the other points, and the
kind of every reason. -/
theorem value_move_reasons_frame (cfg : Config) (k : Constants) (e : Engine) (c : Referee)
    (b : Board) (s s1 : Valuation) (q color : Int) (pure_threat_value score v : ℚ)
    (h : value_move_reasons cfg k e c b s q color pure_threat_value score = some (s1, v)) :
    s1.moves.value = s.moves.value
    ∧ (∀ p, p ≠ q → s1.reasons.reason p = s.reasons.reason p)
    ∧ ∀ r, (s1.reasons.move_reasons r).type = (s.reasons.move_reasons r).type := by
  unfold value_move_reasons at h
  split_ifs at h with h1 h2 h3
  · simp only [Option.some.injEq, Prod.mk.injEq] at h
    rw [← h.1]
    exact ⟨rfl, fun _ _ => rfl, fun _ => rfl⟩
  · dsimp only at h
    split at h
    · exact absurd h (by simp)
    · rename_i s2 hs2
      split at h
      · exact absurd h (by simp)
      · simp only [Option.some.injEq, Prod.mk.injEq] at h
        rw [← h.1]
        have := estimate_values_frame cfg k e b s s2 q color score hs2
        refine ⟨?_, this.2⟩
        show (bound_value _ q _).2.value = s.moves.value
        rw [bound_value_value, followup_adjustment_value]
        exact this.1
  · dsimp only at h
    split at h
    · exact absurd h (by simp)
    · simp only [Option.some.injEq, Prod.mk.injEq] at h
      rw [← h.1]
      refine ⟨?_, fun _ _ => rfl, fun _ => rfl⟩
      show (bound_value _ q _).2.value = s.moves.value
      rw [bound_value_value, followup_adjustment_value]

theorem has_antisuji_congr (cfg : Config) (k : Constants) (t t1 : Reasons) (pos : Int)
    (h1 : t1.reason pos = t.reason pos)
    (h2 : ∀ r, (t1.move_reasons r).type = (t.move_reasons r).type)
    (h : has_antisuji cfg k t pos) : has_antisuji cfg k t1 pos := by
  obtain ⟨i, hi, hty⟩ := h
  refine ⟨i, ?_, ?_⟩
  · unfold reason_count at hi ⊢
    rw [h1]; exact hi
  · rw [h1, h2]; exact hty

theorem value_move_reasons_antisuji (cfg : Config) (k : Constants) (e : Engine) (c : Referee)
    (b : Board) (s : Valuation) (pos color : Int) (pure_threat_value score : ℚ)
    (hstack : b.stackp = 0) (hanti : has_antisuji cfg k s.reasons pos) :
    value_move_reasons cfg k e c b s pos color pure_threat_value score = some (s, 0) := by
  unfold value_move_reasons
  rcases is_antisuji_move_spec cfg k s.reasons pos with ⟨h1, _⟩ | ⟨_, h2⟩
  · rw [if_neg (by simpa using hstack), if_pos (by rw [h1]; decide)]
    norm_num
  · exact absurd hanti h2

theorem foldl_value_point_antisuji (cfg : Config) (k : Constants) (e : Engine) (c : Referee)
    (b : Board) (pos color : Int) (pure_threat_value score : ℚ) (hstack : b.stackp = 0) :
    ∀ (l : List Int) (st : Option Valuation) (s1 : Valuation) (seen : Prop),
      (∀ s, st = some s → has_antisuji cfg k s.reasons pos ∧ (seen → s.moves.value pos = 0)) →
      l.foldl (value_point cfg k e c b color pure_threat_value score) st = some s1 →
      has_antisuji cfg k s1.reasons pos ∧ (seen ∨ pos ∈ l → s1.moves.value pos = 0) := by
  intro l
  induction l with
  | nil =>
    intro st s1 seen hinv h
    simp only [List.foldl_nil] at h
    obtain ⟨h1, h2⟩ := hinv s1 h
    exact ⟨h1, fun hs => h2 (hs.resolve_right (List.not_mem_nil pos))⟩
  | cons q l ih =>
    intro st s1 seen hinv h
    rw [List.foldl_cons] at h
    have key : ∀ s, value_point cfg k e c b color pure_threat_value score st q = some s →
        has_antisuji cfg k s.reasons pos ∧ (seen ∨ pos = q → s.moves.value pos = 0) := by
      intro s2 hs2
      unfold value_point at hs2
      split at hs2
      · exact absurd hs2 (by simp)
      · rename_i s0
        obtain ⟨ha, hz⟩ := hinv s0 rfl
        by_cases hq : pos = q
        · subst hq
          rw [value_move_reasons_antisuji cfg k e c b s0 pos color pure_threat_value score
            hstack ha] at hs2
          simp only [if_true, Option.some.injEq] at hs2
          subst hs2
          exact ⟨ha, fun _ => by simp⟩
        · split at hs2
          · exact absurd hs2 (by simp)
          · rename_i s3 v hv
            obtain ⟨f1, f2, f3⟩ := value_move_reasons_frame cfg k e c b _ _ _ _ _ _ _ hv
            have ha3 : has_antisuji cfg k s3.reasons pos :=
              has_antisuji_congr cfg k _ _ pos (f2 pos hq) f3 ha
            have hz3 : seen → s3.moves.value pos = 0 := fun hs => by rw [f1]; exact hz hs
            split_ifs at hs2 <;> simp only [Option.some.injEq] at hs2 <;> subst hs2 <;>
              exact ⟨ha3, fun hs => by
                simpa [Function.update_noteq hq] using hz3 (hs.resolve_right hq)⟩
    have := ih _ s1 (seen ∨ pos = q) key h
    refine ⟨this.1, fun hs => this.2 ?_⟩
    rcases hs with hs | hs
    · exact Or.inl (Or.inl hs)
    · rcases List.mem_cons.1 hs with e1 | e1
      · exact Or.inl (Or.inr e1)
      · exact Or.inr e1

/-- C17: for a point `pos` whose reason list contains a reason of the kind
`ANTISUJI_MOVE`, whatever else the state holds, `value_move_reasons` (called
outside trial moves, as it asserts) returns exactly 0 and changes nothing, so
`territorial_value`, `strategical_value`, `additional_ko_value`, `min_value`
and `max_value` are as before; and when `value_moves` returns, the field
`move[pos].value` of such a point of the board is 0 and the point still has
its antisuji reason. -/
theorem antisuji_scores_zero (cfg : Config) (k : Constants) (e : Engine) (c : Referee)
    (b : Board) (s : Valuation) (pos color : Int) (pure_threat_value score : ℚ)
    (hstack : b.stackp = 0) (hanti : has_antisuji cfg k s.reasons pos) :
    value_move_reasons cfg k e c b s pos color pure_threat_value score = some (s, 0)
    ∧ ∀ s1, value_moves cfg k e c b s color pure_threat_value score = some s1 →
        has_antisuji cfg k s1.reasons pos
        ∧ (pos ∈ value_points cfg → s1.moves.value pos = 0) := by
  refine ⟨value_move_reasons_antisuji cfg k e c b s pos color pure_threat_value score hstack
    hanti, ?_⟩
  intro s1 h
  have := foldl_value_point_antisuji cfg k e c b pos color pure_threat_value score hstack
    (value_points cfg) (some s) s1 False
    (fun s0 hs0 => by
      simp only [Option.some.injEq] at hs0
      subst hs0
      exact ⟨hanti, fun hf => absurd hf id⟩) h
  exact ⟨this.1, fun hp => this.2 (Or.inr hp)⟩

/-- In the sample position the point 8 has an antisuji reason beside an attack
with ko: its valuation returns 0 and changes nothing, and `value_moves`
returns with `move[8].value` equal to 0. -/
theorem antisuji_scores_zero_witness :
    value_move_reasons small sample_constants sample_engine sample_referee sample_board
        sample_valuation 8 2 0 0 = some (sample_valuation, 0)
    ∧ ∃ s1, value_moves small sample_constants sample_engine sample_referee sample_board
        sample_valuation 2 0 0 = some s1
      ∧ s1.moves.value 8 = 0 := by
  have h := antisuji_scores_zero small sample_constants sample_engine sample_referee
    sample_board sample_valuation 8 2 0 0 rfl (by decide)
  obtain ⟨s1, hs1⟩ := Option.isSome_iff_exists.1
    (by decide! : (value_moves small sample_constants sample_engine sample_referee sample_board
      sample_valuation 2 0 0).isSome = true)
  exact ⟨h.1, s1, hs1, (h.2 s1 hs1).2 (by decide)⟩

/-! ## estimate_territorial_value -/

theorem territorial_loop_stop (cfg : Config) (k : Constants) (e : Engine) (b : Board)
    (t : Reasons) (pos color : Int) (score : ℚ) (fuel i : Nat) (acc : Territory)
    (h : fuel = 0 ∨ t.reason pos i < 0) :
    territorial_loop cfg k e b t pos color score fuel i acc = some acc := by
  cases fuel with
  | zero => rfl
  | succ n =>
    rcases h with h | h
    · exact absurd h (Nat.succ_ne_zero n)
    · simp only [territorial_loop, h, if_true]

/-- The loop of `estimate_territorial_value` at a point with exactly one
reason: the reason is passed over when it is flagged `TERRITORY_REDUNDANT`,
and goes through the `switch` otherwise. -/
theorem territorial_loop_single (cfg : Config) (k : Constants) (e : Engine) (b : Board)
    (t : Reasons) (pos color : Int) (score : ℚ) (acc : Territory)
    (hone : reason_count cfg t pos = 1) :
    territorial_loop cfg k e b t pos color score cfg.MAX_REASONS 0 acc
      = if Int.land (t.move_reasons (t.reason pos 0).toNat).status k.TERRITORY_REDUNDANT ≠ 0
        then some acc
        else territorial_case cfg k e b t pos color score acc
          (t.move_reasons (t.reason pos 0).toNat).type
          (t.move_reasons (t.reason pos 0).toNat).what := by
  unfold reason_count at hone
  have hle := count_from_le (t.reason pos) cfg.MAX_REASONS 0
  have h0 : 0 ≤ t.reason pos 0 :=
    count_from_nonneg (t.reason pos) cfg.MAX_REASONS 0 0 (le_refl 0) (by omega)
  obtain ⟨n, hn⟩ : ∃ n, cfg.MAX_REASONS = n + 1 := ⟨cfg.MAX_REASONS - 1, by omega⟩
  have hnext : n = 0 ∨ t.reason pos 1 < 0 := by
    by_cases h : n = 0
    · exact Or.inl h
    · right
      have := count_from_stop (t.reason pos) cfg.MAX_REASONS 0 (by omega)
      rw [hone] at this
      exact this
  rw [hn]
  simp only [territorial_loop, not_lt.2 h0, if_false]
  split
  · exact territorial_loop_stop cfg k e b t pos color score n 1 acc hnext
  · rcases hc : territorial_case cfg k e b t pos color score acc
        (t.move_reasons (t.reason pos 0).toNat).type
        (t.move_reasons (t.reason pos 0).toNat).what with _ | acc1
    · rfl
    · exact territorial_loop_stop cfg k e b t pos color score n 1 acc1 hnext

/-- C18, amended: if the point `pos` carries exactly one reason, an
`ATTACK_MOVE` that is not flagged `TERRITORY_REDUNDANT`, on an enemy worm
without defense (defend code 0), then `estimate_territorial_value(pos)`
returns with nothing taken for territory: `secondary_value(pos)` grows by the
effective size of the worm, and `territorial_value(pos)` is the value 0 put
between the bounds `min_territory(pos)` and `max_territory(pos)` (less one
point for a sacrifice), which is 0 when `min_territory(pos) <= 0 <=
max_territory(pos)`. -/
theorem defenseless_attack_value (cfg : Config) (k : Constants) (e : Engine) (b : Board)
    (t : Reasons) (g : Registry) (mv : Moves) (pos color : Int) (score : ℚ)
    (hone : reason_count cfg t pos = 1)
    (hty : (t.move_reasons (t.reason pos 0).toNat).type = k.ATTACK_MOVE)
    (hact : Int.land (t.move_reasons (t.reason pos 0).toNat).status k.TERRITORY_REDUNDANT = 0)
    (henemy : b.board (g.worms (t.move_reasons (t.reason pos 0).toNat).what.toNat) ≠ color)
    (hdef : e.worm_defend_code (g.worms (t.move_reasons (t.reason pos 0).toNat).what.toNat)
      = 0) :
    ∃ tv : ℚ,
      estimate_territorial_value cfg k e b t g mv pos color score
        = some ({ mv with
                  territorial_value := Function.update mv.territorial_value pos tv
                  secondary_value := Function.update mv.secondary_value pos
                    (mv.secondary_value pos
                      + e.worm_effective_size
                          (g.worms (t.move_reasons (t.reason pos 0).toNat).what.toNat)) }, g)
      ∧ tv = (if (if (if mv.min_territory pos > 0 then mv.min_territory pos else 0)
                      > mv.max_territory pos
                  then mv.max_territory pos
                  else (if mv.min_territory pos > 0 then mv.min_territory pos else 0)) > 1
                ∧ e.safe_move pos color ≠ k.WIN
              then (if (if mv.min_territory pos > 0 then mv.min_territory pos else 0)
                      > mv.max_territory pos
                  then mv.max_territory pos
                  else (if mv.min_territory pos > 0 then mv.min_territory pos else 0)) - 1
              else (if (if mv.min_territory pos > 0 then mv.min_territory pos else 0)
                      > mv.max_territory pos
                  then mv.max_territory pos
                  else (if mv.min_territory pos > 0 then mv.min_territory pos else 0)))
      ∧ (mv.min_territory pos ≤ 0 → 0 ≤ mv.max_territory pos → tv = 0) := by
  have hloop := territorial_loop_single cfg k e b t pos color score
    { tot_value := 0, secondary_value := 0, does_block := 0, saved_stones := fun _ => 0,
      moves := mv, registry := g } hone
  rw [if_neg (by rw [hact]; simp), hty] at hloop
  unfold territorial_case at hloop
  rw [if_pos (Or.inl rfl)] at hloop
  unfold territorial_attack at hloop
  simp only [henemy, if_false, hdef, if_true] at hloop
  unfold estimate_territorial_value
  rw [hloop]
  refine ⟨territorial_total k e pos color
    { tot_value := 0
      secondary_value := 0 + e.worm_effective_size
        (g.worms (t.move_reasons (t.reason pos 0).toNat).what.toNat)
      does_block := 0, saved_stones := fun _ => 0, moves := mv, registry := g }, ?_, ?_, ?_⟩
  · simp only [zero_add]
  · simp only [territorial_total, ne_eq, not_true_eq_false, if_false, zero_add]
    by_cases hm : 0 < mv.min_territory pos <;> simp [hm]
  · intro h1 h2
    simp only [territorial_total, ne_eq, not_true_eq_false, if_false, zero_add]
    have hm : ¬ (0 < mv.min_territory pos) := not_lt.2 h1
    have hx : ¬ (mv.max_territory pos < 0) := not_lt.2 h2
    simp [hm, hx]

/-- In the sample position the point 7 has the single reason `ATTACK_MOVE` on
the defenseless worm at 4 of effective size 3: the territorial value is 0 and
the secondary value is 3. -/
theorem defenseless_attack_value_witness :
    ∃ tv : ℚ,
      estimate_territorial_value small sample_constants sample_engine sample_board
          sample_reasons two_worms sample_fields 7 2 0
        = some ({ sample_fields with
                  territorial_value := Function.update sample_fields.territorial_value 7 tv
                  secondary_value := Function.update sample_fields.secondary_value 7
                    (sample_fields.secondary_value 7 + 3) }, two_worms)
      ∧ tv = 0 := by
  obtain ⟨tv, h1, _, h3⟩ := defenseless_attack_value small sample_constants sample_engine
    sample_board sample_reasons two_worms sample_fields 7 2 0 (by decide) (by decide)
    (by decide) (by decide) (by decide)
  exact ⟨tv, h1, h3 (by decide!) (by decide!)⟩

/-- C18, as stated, fails: in the sample position the point 7 carries exactly
one reason, an `ATTACK_MOVE` on the enemy worm at 4, which has defend code 0
and effective size 3; after `estimate_territorial_value(7)` the territorial
value of the point is 0, not 6, and its secondary value is 3. -/
theorem defenseless_attack_counterexample :
    reason_count small sample_reasons 7 = 1
    ∧ (sample_reasons.move_reasons (sample_reasons.reason 7 0).toNat).type
        = sample_constants.ATTACK_MOVE
    ∧ sample_engine.worm_defend_code
        (two_worms.worms (sample_reasons.move_reasons (sample_reasons.reason 7 0).toNat).what.toNat)
        = 0
    ∧ 2 * sample_engine.worm_effective_size
        (two_worms.worms (sample_reasons.move_reasons (sample_reasons.reason 7 0).toNat).what.toNat)
        = 6
    ∧ (estimate_territorial_value small sample_constants sample_engine sample_board
          sample_reasons two_worms sample_fields 7 2 0).map
        (fun r => (r.1.territorial_value 7, r.1.secondary_value 7)) = some (0, 3) := by
  refine ⟨by decide, by decide, by decide, by decide!, by decide!⟩

/-! ## estimate_strategical_value -/

theorem move_reason_known_cases (cfg : Config) (t : Reasons) (pos type what : Int)
    (hpos : cfg.ON_BOARD1 pos = true) :
    (move_reason_known cfg t pos type what = some 1
      ∧ ∃ j, j < reason_count cfg t pos ∧ answers_at t pos type what j)
    ∨ (move_reason_known cfg t pos type what = some 0
      ∧ ∀ j, j < reason_count cfg t pos → ¬ answers_at t pos type what j) := by
  unfold move_reason_known reason_count
  rw [if_neg (by simp [hpos])]
  rcases move_reason_known_loop_spec t pos type what cfg.MAX_REASONS 0 with
    ⟨h1, j, _, hj, ha⟩ | ⟨h1, h2⟩
  · exact Or.inl ⟨by rw [h1], j, hj, ha⟩
  · exact Or.inr ⟨by rw [h1], fun j hj => h2 j (Nat.zero_le j) hj⟩

theorem c_or3_bit (a b c : Option Int) (ha : a = some 0 ∨ a = some 1)
    (hb : b = some 0 ∨ b = some 1) (hc : c = some 0 ∨ c = some 1) :
    c_or (c_or a b) c = some 0 ∨ c_or (c_or a b) c = some 1 := by
  rcases ha with rfl | rfl <;> rcases hb with rfl | rfl <;> rcases hc with rfl | rfl <;>
    decide

theorem c_or3_one (a b c : Option Int) (ha : a = some 0 ∨ a = some 1)
    (hb : b = some 0 ∨ b = some 1) (hc : c = some 0 ∨ c = some 1)
    (h : a = some 1 ∨ b = some 1 ∨ c = some 1) : c_or (c_or a b) c = some 1 := by
  rcases ha with rfl | rfl <;> rcases hb with rfl | rfl <;> rcases hc with rfl | rfl <;>
    first
      | rfl
      | (exfalso; revert h; decide)

/-- The test of the last loop of `estimate_strategical_value` for a dragon
counted in the territorial value answers 1 when the point carries a reason of
one of the kinds tested for the dragon. -/
theorem counted_known (cfg : Config) (k : Constants) (t : Reasons) (pos : Int) (d : Nat)
    (hpos : cfg.ON_BOARD1 pos = true)
    (hcarry : ∃ ty, ty ∈ counted_kinds k ∧ listed cfg t pos ty d) :
    c_or (c_or (owl_attack_move_reason_known cfg k t pos d)
        (owl_defense_move_reason_known cfg k t pos d))
      (move_reason_known cfg t pos k.SEMEAI_MOVE d) = some 1 := by
  have bit : ∀ ty, move_reason_known cfg t pos ty d = some 0
      ∨ move_reason_known cfg t pos ty d = some 1 := fun ty => by
    rcases move_reason_known_cases cfg t pos ty d hpos with h | h
    · exact Or.inr h.1
    · exact Or.inl h.1
  have one : ∀ ty, listed cfg t pos ty d → move_reason_known cfg t pos ty d = some 1 := by
    intro ty ⟨j, hj, hh⟩
    rcases move_reason_known_cases cfg t pos ty d hpos with h | h
    · exact h.1
    · exact absurd ⟨hh.1, Or.inr hh.2⟩ (h.2 j hj)
  obtain ⟨ty, hty, hl⟩ := hcarry
  have h1 := one ty hl
  have ha := c_or3_bit _ _ _ (bit k.OWL_ATTACK_MOVE) (bit k.OWL_ATTACK_MOVE_GOOD_KO)
    (bit k.OWL_ATTACK_MOVE_BAD_KO)
  have hd := c_or3_bit _ _ _ (bit k.OWL_DEFEND_MOVE) (bit k.OWL_DEFEND_MOVE_GOOD_KO)
    (bit k.OWL_DEFEND_MOVE_BAD_KO)
  have ha1 := c_or3_one _ _ _ (bit k.OWL_ATTACK_MOVE) (bit k.OWL_ATTACK_MOVE_GOOD_KO)
    (bit k.OWL_ATTACK_MOVE_BAD_KO)
  have hd1 := c_or3_one _ _ _ (bit k.OWL_DEFEND_MOVE) (bit k.OWL_DEFEND_MOVE_GOOD_KO)
    (bit k.OWL_DEFEND_MOVE_BAD_KO)
  unfold owl_attack_move_reason_known owl_defense_move_reason_known
  apply c_or3_one _ _ _ ha hd (bit k.SEMEAI_MOVE)
  simp only [counted_kinds, List.mem_cons, List.mem_singleton, List.not_mem_nil, or_false]
    at hty
  rcases hty with e | e | e | e | e | e | e <;> subst e
  · exact Or.inl (ha1 (Or.inl h1))
  · exact Or.inl (ha1 (Or.inr (Or.inl h1)))
  · exact Or.inl (ha1 (Or.inr (Or.inr h1)))
  · exact Or.inr (Or.inl (hd1 (Or.inl h1)))
  · exact Or.inr (Or.inl (hd1 (Or.inr (Or.inl h1))))
  · exact Or.inr (Or.inl (hd1 (Or.inr (Or.inr h1))))
  · exact Or.inr (Or.inr h1)

theorem find_worm_dragons (cfg : Config) (g g1 : Registry) (str : Int) (w : Nat)
    (h : find_worm cfg g str = some (w, g1)) : g1.dragons = g.dragons := by
  have hp := find_worm_on_board cfg g str _ h
  rcases find_worm_cases cfg g str hp with ⟨k1, _, _, h3⟩ | ⟨_, h2⟩
  · rw [h3] at h
    simp only [Option.some.injEq, Prod.mk.injEq] at h
    rw [← h.2]
  · rw [h2] at h
    split_ifs at h
    simp only [Option.some.injEq, Prod.mk.injEq] at h
    rw [← h.2]

theorem tactical_move_known_dragons (cfg : Config) (k : Constants) (t : Reasons)
    (g : Registry) (pos aa : Int) (r : Int × Registry)
    (h : tactical_move_known cfg k t g pos aa = some r) : r.2.dragons = g.dragons := by
  unfold tactical_move_known at h
  split at h
  · exact absurd h (by simp)
  · rename_i w1 g1 h1
    have e1 := find_worm_dragons cfg g g1 aa w1 h1
    split at h
    · exact absurd h (by simp)
    · split_ifs at h
      · simp only [Option.some.injEq] at h
        rw [← h]; exact e1
      · split at h
        · exact absurd h (by simp)
        · rename_i w2 g2 h2
          have e2 := find_worm_dragons cfg g1 g2 aa w2 h2
          split at h
          · exact absurd h (by simp)
          · simp only [Option.some.injEq] at h
            rw [← h]; exact e2.trans e1

theorem single_worm_counted_dragons (cfg : Config) (k : Constants) (e : Engine)
    (t : Reasons) (g : Registry) (pos aa : Int) (r : Int × Registry)
    (h : single_worm_counted cfg k e t g pos aa = some r) : r.2.dragons = g.dragons := by
  unfold single_worm_counted at h
  split_ifs at h
  · exact tactical_move_known_dragons cfg k t _ _ _ _ h
  · simp only [Option.some.injEq] at h
    rw [← h]

/-- C20: in the last loop of `estimate_strategical_value`, for a dragon `d` of
the table for which the point `pos` carries an owl attack, an owl defense (of
any ko variant) or a `SEMEAI_MOVE` reason, the round for `d` leaves
`dragon_value` alone and adds to the total an amount between 0 and
`max(0, dragon_value[d] - 2 * effective_size)`: either nothing or the excess;
with a positive effective size this is less than a positive `dragon_value[d]`,
which is thus never added in full. -/
theorem strategical_dragon_capped (cfg : Config) (k : Constants) (e : Engine) (t : Reasons)
    (pos : Int) (acc acc1 : Strategy) (d : Nat)
    (hpos : cfg.ON_BOARD1 pos = true)
    (hcarry : ∃ ty, ty ∈ counted_kinds k ∧ listed cfg t pos ty d)
    (h : strategical_dragon cfg k e t pos (some acc) d = some acc1) :
    acc1.dragon_value = acc.dragon_value
    ∧ 0 ≤ acc1.tot_value - acc.tot_value
    ∧ acc1.tot_value - acc.tot_value
        ≤ max 0 (acc.dragon_value d - 2 * e.dragon_effective_size (acc.registry.dragons d))
    ∧ (acc1.tot_value - acc.tot_value = 0
        ∨ acc1.tot_value - acc.tot_value
            = acc.dragon_value d - 2 * e.dragon_effective_size (acc.registry.dragons d))
    ∧ (0 < e.dragon_effective_size (acc.registry.dragons d) → 0 < acc.dragon_value d →
        acc1.tot_value - acc.tot_value < acc.dragon_value d) := by
  have hk := counted_known cfg k t pos d hpos hcarry
  have key : acc1.dragon_value = acc.dragon_value
      ∧ (acc1.tot_value = acc.tot_value
        ∨ (acc.dragon_value d - 2 * e.dragon_effective_size (acc.registry.dragons d) > 0
          ∧ acc1.tot_value = acc.tot_value
            + (acc.dragon_value d
              - 2 * e.dragon_effective_size (acc.registry.dragons d)))) := by
    unfold strategical_dragon at h
    simp only at h
    by_cases h0 : acc.dragon_value d = 0
    · rw [if_pos h0] at h
      simp only [Option.some.injEq] at h
      subst h
      exact ⟨rfl, Or.inl rfl⟩
    · rw [if_neg h0] at h
      rcases hc : single_worm_counted cfg k e t acc.registry pos (acc.registry.dragons d) with
        _ | ⟨c, g1⟩
      · rw [hc] at h
        exact absurd h (by simp)
      · rw [hc] at h
        have hg : g1.dragons = acc.registry.dragons :=
          single_worm_counted_dragons cfg k e t _ _ _ _ hc
        simp only at h
        by_cases h1 : c ≠ 0
        · rw [if_pos h1] at h
          simp only [Option.some.injEq] at h
          subst h
          exact ⟨rfl, Or.inl rfl⟩
        · rw [if_neg h1, hk] at h
          simp only [ne_eq, one_ne_zero, not_false_eq_true, if_true, hg] at h
          by_cases h2 : acc.dragon_value d
              - 2 * e.dragon_effective_size (acc.registry.dragons d) > 0
          · rw [if_pos h2] at h
            simp only [Option.some.injEq] at h
            subst h
            exact ⟨rfl, Or.inr ⟨h2, rfl⟩⟩
          · rw [if_neg h2] at h
            simp only [Option.some.injEq] at h
            subst h
            exact ⟨rfl, Or.inl rfl⟩
  obtain ⟨hdv, hcase⟩ := key
  refine ⟨hdv, ?_⟩
  rcases hcase with htot | ⟨hex, htot⟩
  · rw [htot, sub_self]
    exact ⟨le_refl 0, le_max_left _ _, Or.inl rfl, fun _ h2 => h2⟩
  · have hamount : acc1.tot_value - acc.tot_value
        = acc.dragon_value d - 2 * e.dragon_effective_size (acc.registry.dragons d) := by
      rw [htot]; ring
    rw [hamount]
    exact ⟨le_of_lt hex, le_max_right _ _, Or.inr rfl, fun h1 _ => by linarith⟩

/-- On the 2 by 2 board the point 7 carries an owl attack on the dragon number
0, of effective size 3 and with `dragon_value[0]` = 10: the round adds the
excess 4 to the total 1. -/
theorem strategical_dragon_capped_witness :
    ∃ acc1, strategical_dragon small sample_constants sample_engine owl_reasons 7
        (some owl_strategy) 0 = some acc1
      ∧ acc1.tot_value = 5
      ∧ acc1.tot_value - owl_strategy.tot_value
          ≤ max 0 (owl_strategy.dragon_value 0
            - 2 * sample_engine.dragon_effective_size (owl_strategy.registry.dragons 0)) := by
  obtain ⟨acc1, h1⟩ := Option.isSome_iff_exists.1
    (by decide! : (strategical_dragon small sample_constants sample_engine owl_reasons 7
      (some owl_strategy) 0).isSome = true)
  have h2 : (strategical_dragon small sample_constants sample_engine owl_reasons 7
      (some owl_strategy) 0).map (fun a => a.tot_value) = some 5 := by decide!
  rw [h1] at h2
  simp only [Option.map_some', Option.some.injEq] at h2
  exact ⟨acc1, h1, h2,
    (strategical_dragon_capped small sample_constants sample_engine owl_reasons 7
      owl_strategy acc1 0 (by decide) ⟨22, by decide, by decide⟩ h1).2.2.1⟩

/-! ## Reasons flagged as redundant -/

theorem foldl_territorial_step_none (cfg : Config) (k : Constants) (e : Engine) (b : Board)
    (t : Reasons) (pos color : Int) (score : ℚ) (l : List Int) :
    l.foldl (territorial_step cfg k e b t pos color score) none = none := by
  induction l with
  | nil => rfl
  | cons r l ih => rw [List.foldl_cons]; exact ih

theorem foldl_strategical_step_none (cfg : Config) (k : Constants) (e : Engine) (b : Board)
    (t : Reasons) (mv : Moves) (pos color : Int) (score : ℚ) (l : List Int) :
    l.foldl (strategical_step cfg k e b t mv pos color score) none = none := by
  induction l with
  | nil => rfl
  | cons r l ih => rw [List.foldl_cons]; exact ih

theorem range_count_from (row : Nat → Int) (fuel i : Nat) (h : ¬ row i < 0) :
    List.range' i (count_from row (fuel + 1) i - i)
      = i :: List.range' (i + 1) (count_from row fuel (i + 1) - (i + 1)) := by
  have hge := count_from_ge row fuel (i + 1)
  simp only [count_from, if_neg h]
  have : count_from row fuel (i + 1) - i = (count_from row fuel (i + 1) - (i + 1)) + 1 := by
    omega
  rw [this, List.range'_succ]

theorem territorial_loop_fold (cfg : Config) (k : Constants) (e : Engine) (b : Board)
    (t : Reasons) (pos color : Int) (score : ℚ) :
    ∀ fuel i (acc : Territory),
      territorial_loop cfg k e b t pos color score fuel i acc
        = (((List.range' i (count_from (t.reason pos) fuel i - i)).map (t.reason pos)).filter
            fun r => decide (Int.land (t.move_reasons r.toNat).status k.TERRITORY_REDUNDANT = 0)
          ).foldl (territorial_step cfg k e b t pos color score) (some acc) := by
  intro fuel
  induction fuel with
  | zero => intro i acc; simp [territorial_loop, count_from]
  | succ n ih =>
    intro i acc
    by_cases h : t.reason pos i < 0
    · simp [territorial_loop, count_from, h]
    · rw [range_count_from _ _ _ h, List.map_cons, List.filter_cons]
      simp only [territorial_loop, h, if_false]
      by_cases hf : Int.land (t.move_reasons (t.reason pos i).toNat).status
          k.TERRITORY_REDUNDANT = 0
      · simp only [hf, ne_eq, not_true_eq_false, if_false, decide_True, if_true,
          List.foldl_cons, territorial_step]
        rcases territorial_case cfg k e b t pos color score acc
            (t.move_reasons (t.reason pos i).toNat).type
            (t.move_reasons (t.reason pos i).toNat).what with _ | acc1
        · simp only
          rw [foldl_territorial_step_none]
        · simp only
          exact ih (i + 1) acc1
      · simp only [hf, ne_eq, not_false_eq_true, if_true, decide_False, Bool.false_eq_true,
          if_false]
        exact ih (i + 1) acc

theorem strategical_loop_fold (cfg : Config) (k : Constants) (e : Engine) (b : Board)
    (t : Reasons) (mv : Moves) (pos color : Int) (score : ℚ) :
    ∀ fuel i (acc : Strategy),
      strategical_loop cfg k e b t mv pos color score fuel i acc
        = (((List.range' i (count_from (t.reason pos) fuel i - i)).map (t.reason pos)).filter
            fun r =>
              decide (Int.land (t.move_reasons r.toNat).status k.STRATEGICALLY_REDUNDANT = 0)
          ).foldl (strategical_step cfg k e b t mv pos color score) (some acc) := by
  intro fuel
  induction fuel with
  | zero => intro i acc; simp [strategical_loop, count_from]
  | succ n ih =>
    intro i acc
    by_cases h : t.reason pos i < 0
    · simp [strategical_loop, count_from, h]
    · rw [range_count_from _ _ _ h, List.map_cons, List.filter_cons]
      simp only [strategical_loop, h, if_false]
      by_cases hf : Int.land (t.move_reasons (t.reason pos i).toNat).status
          k.STRATEGICALLY_REDUNDANT = 0
      · simp only [hf, ne_eq, not_true_eq_false, if_false, decide_True, if_true,
          List.foldl_cons, strategical_step]
        rcases strategical_case cfg k e b t mv pos color score acc
            (t.move_reasons (t.reason pos i).toNat).type
            (t.move_reasons (t.reason pos i).toNat).what with _ | acc1
        · simp only
          rw [foldl_strategical_step_none]
        · simp only
          exact ih (i + 1) acc1
      · simp only [hf, ne_eq, not_false_eq_true, if_true, decide_False, Bool.false_eq_true,
          if_false]
        exact ih (i + 1) acc

/-- C19, amended: a reason flagged by `discard_redundant_move_reasons` takes
no part in the valuation, whatever it would have added or taken away.  The
loop of `estimate_territorial_value` is the `switch` applied, in the order of
the list, to the reasons of the point whose status is free of
`TERRITORY_REDUNDANT`, and the first loop of `estimate_strategical_value` is
its `switch` applied to the reasons whose status is free of
`STRATEGICALLY_REDUNDANT`; with no flag set these are all the reasons of the
point.  No order between the value with and without flags follows. -/
theorem flagged_reasons_skipped (cfg : Config) (k : Constants) (e : Engine) (b : Board)
    (t : Reasons) (mv : Moves) (pos color : Int) (score : ℚ) (acc : Territory)
    (sacc : Strategy) :
    territorial_loop cfg k e b t pos color score cfg.MAX_REASONS 0 acc
      = ((reason_handles cfg t pos).filter fun r =>
          decide (Int.land (t.move_reasons r.toNat).status k.TERRITORY_REDUNDANT = 0)
        ).foldl (territorial_step cfg k e b t pos color score) (some acc)
    ∧ strategical_loop cfg k e b t mv pos color score cfg.MAX_REASONS 0 sacc
      = ((reason_handles cfg t pos).filter fun r =>
          decide (Int.land (t.move_reasons r.toNat).status k.STRATEGICALLY_REDUNDANT = 0)
        ).foldl (strategical_step cfg k e b t mv pos color score) (some sacc) := by
  constructor
  · rw [territorial_loop_fold]
    simp [reason_handles, reason_count, List.range_eq_range']
  · rw [strategical_loop_fold]
    simp [reason_handles, reason_count, List.range_eq_range']

/-- C19, as stated, fails for both values.  Territorial: on the 2 by 2 board
the point 7 has the single reason `ATTACK_MOVE_GOOD_KO` on an inessential
worm of effective size 3; `discard_redundant_move_reasons` flags it
`TERRITORY_REDUNDANT`, with the flag the territorial value is 0, and with the
reason left `ACTIVE` it is -9/5, the deduction for the ko.  Strategical: the
point 7 has an `ATTACK_MOVE` and an `ATTACK_EITHER_MOVE`, which is flagged
`REDUNDANT`; with the flag the strategical value is 0, and with the reason
left `ACTIVE` it is -4, the adjusted attack value of worms with a larger
neighbour under attack. -/
theorem flagged_value_larger_counterexample :
    (discard_redundant_move_reasons small sample_constants inessential_engine sample_board
        ko_attack_reasons two_worms 7).map (fun r => (r.1.move_reasons 0).status)
      = some sample_constants.TERRITORY_REDUNDANT
    ∧ ((discard_redundant_move_reasons small sample_constants inessential_engine sample_board
        ko_attack_reasons two_worms 7).bind fun r =>
          (estimate_territorial_value small sample_constants inessential_engine sample_board
            r.1 r.2 sample_fields 7 2 0).map fun x => x.1.territorial_value 7) = some 0
    ∧ ((discard_redundant_move_reasons small sample_constants inessential_engine sample_board
        ko_attack_reasons two_worms 7).bind fun r =>
          (estimate_territorial_value small sample_constants inessential_engine sample_board
            ko_attack_reasons r.2 sample_fields 7 2 0).map fun x => x.1.territorial_value 7)
        = some (-9 / 5)
    ∧ (discard_redundant_move_reasons small sample_constants crowded_engine sample_board
        either_reasons pair_registry 7).map
          (fun r => ((r.1.move_reasons 0).status, (r.1.move_reasons 1).status))
      = some (small.ACTIVE, sample_constants.REDUNDANT)
    ∧ ((discard_redundant_move_reasons small sample_constants crowded_engine sample_board
        either_reasons pair_registry 7).bind fun r =>
          (estimate_strategical_value small sample_constants crowded_engine sample_board
            r.1 r.2 (fun _ => 0) sample_fields 7 2 0).map fun x => x.1.strategical_value 7)
        = some 0
    ∧ ((discard_redundant_move_reasons small sample_constants crowded_engine sample_board
        either_reasons pair_registry 7).bind fun r =>
          (estimate_strategical_value small sample_constants crowded_engine sample_board
            either_reasons r.2 (fun _ => 0) sample_fields 7 2 0).map fun x =>
              x.1.strategical_value 7) = some (-4) := by
  refine ⟨by decide!, by decide!, by decide!, by decide!, by decide!, by decide!⟩

/-! ## The bounds of the territorial value -/

/-- The loop of `estimate_territorial_value` and the following lines leave
the bounds `min_territory` and `max_territory` and the field `move_safety` as
they are. -/
theorem territorial_loop_bounds (cfg : Config) (k : Constants) (e : Engine) (b : Board)
    (t : Reasons) (pos color : Int) (score : ℚ) (fuel i : Nat) (acc acc1 : Territory)
    (h : territorial_loop cfg k e b t pos color score fuel i acc = some acc1) :
    acc1.moves.min_territory = acc.moves.min_territory
    ∧ acc1.moves.max_territory = acc.moves.max_territory
    ∧ acc1.moves.move_safety = acc.moves.move_safety := by
  have := (territorial_loop_only cfg k e b t pos color score fuel i acc acc1 h).1
  rw [this]
  exact ⟨rfl, rfl, rfl⟩

theorem clamp_bounds (x mn mx : ℚ) :
    (if (if x < mn ∧ mn > 0 then mn else x) > mx then mx
      else (if x < mn ∧ mn > 0 then mn else x)) ≤ mx
    ∧ (0 < mn → mn ≤ mx →
        mn ≤ (if (if x < mn ∧ mn > 0 then mn else x) > mx then mx
          else (if x < mn ∧ mn > 0 then mn else x))) := by
  constructor
  · by_cases h : (if x < mn ∧ mn > 0 then mn else x) > mx
    · rw [if_pos h]
    · rw [if_neg h]; exact not_lt.1 h
  · intro h1 h2
    by_cases h : x < mn ∧ mn > 0
    · rw [if_pos h, if_neg (not_lt.2 h2)]
    · have hx : mn ≤ x := by
        rcases not_and_or.1 h with a | a
        · exact not_lt.1 a
        · exact absurd h1 a
      rw [if_neg h]
      by_cases h3 : x > mx
      · rw [if_pos h3]; exact h2
      · rw [if_neg h3]; exact hx

/-- The value that `estimate_territorial_value` stores is a value `clamped`
that has been put under `max_territory` last, less one point when `clamped`
exceeds 1 and `safe_move` is not `WIN`. -/
theorem territorial_total_clamped (k : Constants) (e : Engine) (pos color : Int)
    (acc : Territory) :
    ∃ clamped : ℚ,
      clamped ≤ acc.moves.max_territory pos
      ∧ (0 < acc.moves.min_territory pos →
          acc.moves.min_territory pos ≤ acc.moves.max_territory pos →
          acc.moves.min_territory pos ≤ clamped)
      ∧ territorial_total k e pos color acc
          = if clamped > 1 ∧ e.safe_move pos color ≠ k.WIN then clamped - 1 else clamped := by
  unfold territorial_total
  dsimp only
  exact ⟨_, (clamp_bounds _ _ _).1, (clamp_bounds _ _ _).2, rfl⟩

/-- C22, amended: after `estimate_territorial_value(pos)` the bounds are as
before and `territorial_value(pos) <= max_territory(pos)` in every case.  The
lower bound holds when the bounds do not contradict each other: if
`0 < min_territory(pos) <= max_territory(pos)`, the clamped value is at least
`min_territory(pos)`, so the stored value, which is the clamped value less
one point when that exceeds 1 and `safe_move(pos)` is not `WIN`, is at least
`min_territory(pos) - 1`, and at least `min_territory(pos)` when `safe_move`
is `WIN`. -/
theorem territorial_value_bounds (cfg : Config) (k : Constants) (e : Engine) (b : Board)
    (t : Reasons) (g : Registry) (mv : Moves) (pos color : Int) (score : ℚ)
    (r : Moves × Registry)
    (h : estimate_territorial_value cfg k e b t g mv pos color score = some r) :
    r.1.min_territory = mv.min_territory ∧ r.1.max_territory = mv.max_territory
    ∧ r.1.territorial_value pos ≤ mv.max_territory pos
    ∧ (∃ clamped : ℚ,
        clamped ≤ mv.max_territory pos
        ∧ (0 < mv.min_territory pos → mv.min_territory pos ≤ mv.max_territory pos →
            mv.min_territory pos ≤ clamped)
        ∧ r.1.territorial_value pos
            = if clamped > 1 ∧ e.safe_move pos color ≠ k.WIN then clamped - 1 else clamped)
    ∧ (0 < mv.min_territory pos → mv.min_territory pos ≤ mv.max_territory pos →
        mv.min_territory pos - 1 ≤ r.1.territorial_value pos
        ∧ (e.safe_move pos color = k.WIN →
            mv.min_territory pos ≤ r.1.territorial_value pos)) := by
  unfold estimate_territorial_value at h
  split at h
  · exact absurd h (by simp)
  · rename_i acc hacc
    simp only [Option.some.injEq] at h
    subst h
    obtain ⟨b1, b2, _⟩ := territorial_loop_bounds cfg k e b t pos color score _ _ _ _ hacc
    simp only at b1 b2
    obtain ⟨clamped, c1, c2, c3⟩ := territorial_total_clamped k e pos color acc
    rw [b2] at c1
    rw [b1, b2] at c2
    dsimp only
    rw [Function.update_same, c3]
    refine ⟨b1, b2, ?_, ⟨clamped, c1, c2, rfl⟩, ?_⟩
    · split_ifs
      · linarith
      · exact c1
    · intro h1 h2
      have hc := c2 h1 h2
      refine ⟨?_, ?_⟩
      · split_ifs
        · linarith
        · linarith
      · intro hw
        rw [if_neg (fun hh => hh.2 hw)]
        exact hc

/-- In the sample position the point 7 has an attack on a defenseless worm
and the bounds 0 and 1000: the territorial value 0 lies under 1000. -/
theorem territorial_value_bounds_witness :
    ∃ r, estimate_territorial_value small sample_constants sample_engine sample_board
        sample_reasons two_worms sample_fields 7 2 0 = some r
      ∧ r.1.territorial_value 7 ≤ sample_fields.max_territory 7
      ∧ r.1.max_territory = sample_fields.max_territory := by
  obtain ⟨r, hr⟩ := Option.isSome_iff_exists.1
    (by decide! : (estimate_territorial_value small sample_constants sample_engine sample_board
      sample_reasons two_worms sample_fields 7 2 0).isSome = true)
  have h := territorial_value_bounds small sample_constants sample_engine sample_board
    sample_reasons two_worms sample_fields 7 2 0 r hr
  exact ⟨r, hr, h.2.2.1, h.2.1⟩

/-- C22, as stated, fails: on the 2 by 2 board, after `clear_move_reasons`,
`set_minimum_territorial_value(7, 5)` and `set_maximum_territorial_value(7, 3)`
the point 7, without reasons and with `safe_move` = `WIN`, gets the
territorial value 3 although its `min_territory` is 5 > 0: the upper bound is
applied last, and no sacrifice is deducted here. -/
theorem territorial_bounds_counterexample :
    (contradictory_territory.bind fun mv =>
      (estimate_territorial_value small sample_constants sample_engine sample_board
        small_fresh.reasons two_worms mv 7 2 0).map fun r =>
          (r.1.territorial_value 7, r.1.min_territory 7, r.1.max_territory 7))
      = some (3, 5, 3)
    ∧ sample_engine.safe_move 7 2 = sample_constants.WIN := by
  refine ⟨by decide!, by decide⟩

/-! ## The end of value_move_reasons -/

theorem contribution_bounds (mv : Moves) (pos : Int) (tot : ℚ) (htot : 0 < tot)
    (hf : 0 ≤ mv.followup_value pos) (hr : 0 ≤ mv.reverse_followup_value pos) :
    0 ≤ contribution mv pos tot
    ∧ contribution mv pos tot
        ≤ (mv.followup_value pos + mv.reverse_followup_value pos) / 2 := by
  unfold contribution gg_min
  constructor
  · apply le_min
    · apply le_min
      · linarith
      · linarith
    · linarith
  · apply le_trans (min_le_left _ _)
    apply le_trans (min_le_left _ _)
    linarith

/-- C28: in `value_move_reasons`, when the total `tot` of the territorial and
the strategical value satisfies `tot >= 0.5`, or `tot > 0` and
`reverse_followup_value >= 1`, the total goes on, to the secondary value, the
shape factor and the connection bonus, as `tot + c` with
`c = min(0.5*f + 0.5*r, tot + f, 1.1*tot + r)`, `f` the followup and `r` the
reverse followup value, both not negative as `clear_move_reasons` and
`add_followup_value` leave them; the value stored in `additional_ko_value` is
`f + r - c`, the two amounts add up to `f + r`, and `0 <= c <= (f + r) / 2`. -/
theorem followup_contribution_spec (cfg : Config) (e : Engine) (b : Board) (mv : Moves)
    (pos color : Int) (shape_factor tot : ℚ)
    (hbranch : tot ≥ 0.5 ∨ (tot > 0 ∧ mv.reverse_followup_value pos ≥ 1))
    (hf : 0 ≤ mv.followup_value pos) (hr : 0 ≤ mv.reverse_followup_value pos) :
    contribution mv pos tot
      = min (min (0.5 * mv.followup_value pos + 0.5 * mv.reverse_followup_value pos)
          (tot + mv.followup_value pos)) (1.1 * tot + mv.reverse_followup_value pos)
    ∧ (followup_adjustment cfg e b mv pos color shape_factor tot).1
      = after_contribution cfg e b mv pos color shape_factor (tot + contribution mv pos tot)
    ∧ (followup_adjustment cfg e b mv pos color shape_factor tot).2
      = { mv with
          additional_ko_value := Function.update mv.additional_ko_value pos
            (mv.followup_value pos + mv.reverse_followup_value pos - contribution mv pos tot) }
    ∧ contribution mv pos tot
        + (mv.followup_value pos + mv.reverse_followup_value pos - contribution mv pos tot)
      = mv.followup_value pos + mv.reverse_followup_value pos
    ∧ 0 ≤ contribution mv pos tot
    ∧ contribution mv pos tot
        ≤ (mv.followup_value pos + mv.reverse_followup_value pos) / 2 := by
  have htot : 0 < tot := by
    rcases hbranch with h | h
    · have : (0 : ℚ) < 0.5 := by norm_num
      exact lt_of_lt_of_le this h
    · exact h.1
  have hb : tot ≥ 0.5 ∨ mv.reverse_followup_value pos ≥ 1.0 := by
    rcases hbranch with h | h
    · exact Or.inl h
    · right
      have : (1.0 : ℚ) = 1 := by norm_num
      rw [this]; exact h.2
  obtain ⟨c0, c1⟩ := contribution_bounds mv pos tot htot hf hr
  have hako : ¬ (mv.followup_value pos + mv.reverse_followup_value pos
      - (tot + contribution mv pos tot - tot) < 0) := by
    have : tot + contribution mv pos tot - tot = contribution mv pos tot := by ring
    rw [this]
    linarith
  refine ⟨?_, ?_, ?_, by ring, c0, c1⟩
  · unfold contribution gg_min
    have : (1.0 : ℚ) * tot = tot := by norm_num
    rw [this]
  · unfold followup_adjustment
    rw [if_pos htot]
    dsimp only
    rw [if_pos hb]
    rfl
  · unfold followup_adjustment
    rw [if_pos htot]
    dsimp only
    rw [if_pos hb]
    dsimp only
    have e1 : gg_min
        (gg_min (0.5 * mv.followup_value pos + 0.5 * mv.reverse_followup_value pos)
          (1.0 * tot + mv.followup_value pos))
        (1.1 * tot + mv.reverse_followup_value pos) = contribution mv pos tot := rfl
    rw [e1, if_neg hako]
    have : tot + contribution mv pos tot - tot = contribution mv pos tot := by ring
    rw [this]

/-- A total of 2 with the followup value 3 and the reverse followup value 1:
the contribution is 2, and 2 is stored as additional ko value. -/
theorem followup_contribution_spec_witness :
    contribution { zero_moves with
        followup_value := fun _ => 3, reverse_followup_value := fun _ => 1 } 7 2 = 2
    ∧ (followup_adjustment small sample_engine sample_board
        { zero_moves with followup_value := fun _ => 3, reverse_followup_value := fun _ => 1 }
        7 2 1 2).2.additional_ko_value 7 = 2 := by
  have h := followup_contribution_spec small sample_engine sample_board
    { zero_moves with followup_value := fun _ => 3, reverse_followup_value := fun _ => 1 }
    7 2 1 2 (Or.inl (by norm_num)) (by decide!) (by decide!)
  exact ⟨by decide!, by rw [h.2.2.1]; decide!⟩

/-- The pure threat adjustment stays under the ceiling when the total is at
least `-9 * pure_threat_value`, or when the capped sum
`min(pure_threat_value, tot + 0.25 * additional_ko_value)` is not negative. -/
theorem threat_adjusted_le (cfg : Config) (c : Referee) (b : Board) (mv : Moves)
    (pos color : Int) (pure_threat_value tot : ℚ) (hp : 0 < pure_threat_value)
    (ht : tot ≤ pure_threat_value)
    (hsafe : -9 * pure_threat_value ≤ tot
      ∨ 0 ≤ min pure_threat_value (tot + 0.25 * mv.additional_ko_value pos)) :
    threat_adjusted cfg c b mv pos color pure_threat_value tot ≤ pure_threat_value := by
  unfold threat_adjusted
  by_cases h1 : pure_threat_value > 0 ∧ mv.worthwhile_threat pos ≠ 0 ∧ tot ≤ pure_threat_value
      ∧ b.board pos = cfg.EMPTY ∧ mv.additional_ko_value pos > 0
      ∧ c.is_legal pos color = true ∧ c.move_reasons_confirm_safety pos color 0 = true
  swap
  · rw [if_neg h1]; exact ht
  rw [if_pos h1]
  dsimp only
  unfold gg_min
  by_cases h2 : min pure_threat_value (tot + 0.25 * mv.additional_ko_value pos)
      * (1.0 - 0.1 * (pure_threat_value - tot) / pure_threat_value) > tot
  swap
  · rw [if_neg h2]; exact ht
  rw [if_pos h2]
  · have hF1 : 1.0 - 0.1 * (pure_threat_value - tot) / pure_threat_value ≤ 1 := by
      have : 0 ≤ 0.1 * (pure_threat_value - tot) / pure_threat_value := by
        apply div_nonneg _ (le_of_lt hp)
        have : 0 ≤ pure_threat_value - tot := by linarith
        nlinarith
      norm_num at this ⊢
      linarith
    have hm : min pure_threat_value (tot + 0.25 * mv.additional_ko_value pos)
        ≤ pure_threat_value := min_le_left _ _
    rcases hsafe with hs | hs
    · have hF0 : 0 ≤ 1.0 - 0.1 * (pure_threat_value - tot) / pure_threat_value := by
        have : 0.1 * (pure_threat_value - tot) / pure_threat_value ≤ 1 := by
          rw [div_le_one hp]
          norm_num
          linarith
        norm_num at this ⊢
        linarith
      by_cases hneg : min pure_threat_value (tot + 0.25 * mv.additional_ko_value pos) ≤ 0
      · have := mul_nonpos_of_nonpos_of_nonneg hneg hF0
        linarith
      · have hpos := le_of_lt (not_le.1 hneg)
        calc min pure_threat_value (tot + 0.25 * mv.additional_ko_value pos)
              * (1.0 - 0.1 * (pure_threat_value - tot) / pure_threat_value)
            ≤ min pure_threat_value (tot + 0.25 * mv.additional_ko_value pos) * 1 :=
              mul_le_mul_of_nonneg_left hF1 hpos
          _ ≤ pure_threat_value := by rw [mul_one]; exact hm
    · calc min pure_threat_value (tot + 0.25 * mv.additional_ko_value pos)
            * (1.0 - 0.1 * (pure_threat_value - tot) / pure_threat_value)
          ≤ min pure_threat_value (tot + 0.25 * mv.additional_ko_value pos) * 1 :=
            mul_le_mul_of_nonneg_left hF1 hs
        _ ≤ pure_threat_value := by rw [mul_one]; exact hm

/-- C29 fails in the code: in the sample position the point 7 has the single
reason `ATTACK_MOVE_GOOD_KO` on a worm of effective size 3, the followup value
1 and the flag of a worthwhile threat; with `pure_threat_value` = 0.1 the
total before the pure threat adjustment is -9/5, below the ceiling, the
additional ko value is 1 > 0, and `value_move_reasons` returns 279/200, above
the ceiling: the capped sum -31/20 and the factor -9/10 are both negative. -/
theorem pure_threat_above_ceiling :
    (value_move_reasons small sample_constants sample_engine ko_referee sample_board
        threat_valuation 7 2 0.1 0).map
      (fun r => (r.2, r.1.moves.territorial_value 7 + r.1.moves.strategical_value 7,
        r.1.moves.additional_ko_value 7)) = some (279 / 200, -9 / 5, 1)
    ∧ threat_adjusted small ko_referee sample_board
        { threat_fields with additional_ko_value := fun _ => 1 } 7 2 0.1 (-9 / 5) = 279 / 200
    ∧ (-9 / 5 : ℚ) ≤ 0.1 ∧ (0.1 : ℚ) < 279 / 200 := by
  refine ⟨by decide!, by decide!, by norm_num, by norm_num⟩

/-- The estimates of `value_move_reasons` write to the fields
`followup_value`, `reverse_followup_value`, `territorial_value`,
`secondary_value` and `strategical_value` of `move[]` only. -/
theorem estimate_values_fields (cfg : Config) (k : Constants) (e : Engine) (b : Board)
    (s s1 : Valuation) (pos color : Int) (score : ℚ)
    (h : estimate_values cfg k e b s pos color score = some s1) :
    s1.moves = { s.moves with
                 followup_value := s1.moves.followup_value
                 reverse_followup_value := s1.moves.reverse_followup_value
                 territorial_value := s1.moves.territorial_value
                 secondary_value := s1.moves.secondary_value
                 strategical_value := s1.moves.strategical_value } := by
  unfold estimate_values at h
  split at h
  · exact absurd h (by simp)
  · split at h
    · exact absurd h (by simp)
    · split at h
      · exact absurd h (by simp)
      · rename_i mv2 g2 ht
        split at h
        · exact absurd h (by simp)
        · rename_i mv3 g3 dv3 hs
          simp only [Option.some.injEq] at h
          subst h
          have h3 := (estimate_strategical_value_only cfg k e b _ _ _ _ _ _ _ _ hs).1
          simp only at h3 ⊢
          unfold estimate_territorial_value at ht
          split at ht
          · exact absurd ht (by simp)
          · rename_i acc hacc
            simp only [Option.some.injEq, Prod.mk.injEq] at ht
            have h1 := (territorial_loop_only cfg k e b _ pos color score _ _ _ _ hacc).1
            simp only at h1
            rw [h3, ← ht.1, h1]

/-- The value that the last lines of `value_move_reasons` make of `tot`:
at most the larger of the two bounds; at least the minimum as these lines
have adjusted it, when that is positive and not above the upper bound. -/
theorem bound_value_spec (mv : Moves) (pos : Int) (tot : ℚ) :
    (bound_value mv pos tot).2.max_value pos = max (mv.max_value pos) (mv.min_value pos)
    ∧ (bound_value mv pos tot).2.min_value pos
        = (if mv.min_value pos < 25 then mv.min_value pos + tot / 200 else mv.min_value pos)
    ∧ (bound_value mv pos tot).1 ≤ max (mv.max_value pos) (mv.min_value pos)
    ∧ (0 < (bound_value mv pos tot).2.min_value pos →
        min ((bound_value mv pos tot).2.min_value pos) ((bound_value mv pos tot).2.max_value pos)
          ≤ (bound_value mv pos tot).1) := by
  have hmax : (bound_value mv pos tot).2.max_value pos
      = max (mv.max_value pos) (mv.min_value pos) := by
    simp only [bound_value, Function.update_same]
    by_cases h : mv.min_value pos > mv.max_value pos
    · rw [if_pos h, max_eq_right (le_of_lt h)]
    · rw [if_neg h, max_eq_left (not_lt.1 h)]
  have hmin : (bound_value mv pos tot).2.min_value pos
      = (if mv.min_value pos < 25 then mv.min_value pos + tot / 200 else mv.min_value pos) := by
    simp only [bound_value, Function.update_same]
  have hv : (bound_value mv pos tot).1
      = (if (if tot < (bound_value mv pos tot).2.min_value pos
              ∧ (bound_value mv pos tot).2.min_value pos > 0
            then (bound_value mv pos tot).2.min_value pos else tot)
            > (bound_value mv pos tot).2.max_value pos
          then (bound_value mv pos tot).2.max_value pos
          else (if tot < (bound_value mv pos tot).2.min_value pos
              ∧ (bound_value mv pos tot).2.min_value pos > 0
            then (bound_value mv pos tot).2.min_value pos else tot)) := by
    simp only [bound_value, Function.update_same]
  refine ⟨hmax, hmin, ?_, ?_⟩
  · rw [hv, ← hmax]
    exact (clamp_bounds _ _ _).1
  · intro hpos
    rw [hv]
    by_cases hc : (bound_value mv pos tot).2.min_value pos
        ≤ (bound_value mv pos tot).2.max_value pos
    · rw [min_eq_left hc]
      exact (clamp_bounds _ _ _).2 hpos hc
    · rw [min_eq_right (le_of_lt (not_le.1 hc))]
      have hlt := not_le.1 hc
      by_cases h1 : tot < (bound_value mv pos tot).2.min_value pos
          ∧ (bound_value mv pos tot).2.min_value pos > 0
      · rw [if_pos h1, if_pos hlt]
      · rw [if_neg h1]
        have hx : (bound_value mv pos tot).2.min_value pos ≤ tot := by
          rcases not_and_or.1 h1 with a | a
          · exact not_lt.1 a
          · exact absurd hpos a
        rw [if_pos (lt_of_lt_of_le hlt hx)]

theorem followup_adjustment_bounds (cfg : Config) (e : Engine) (b : Board) (mv : Moves)
    (pos color : Int) (shape_factor tot : ℚ) :
    (followup_adjustment cfg e b mv pos color shape_factor tot).2.min_value = mv.min_value
    ∧ (followup_adjustment cfg e b mv pos color shape_factor tot).2.max_value = mv.max_value := by
  unfold followup_adjustment
  split <;> exact ⟨rfl, rfl⟩

/-- The end of a call of `value_move_reasons` for a point without an antisuji
reason: the value returned and the array `move[]` are those of the last lines
of the function, applied to some total and to the bounds of the state on
entry. -/
theorem value_move_reasons_tail (cfg : Config) (k : Constants) (e : Engine) (c : Referee)
    (b : Board) (s s1 : Valuation) (pos color : Int) (pure_threat_value score v : ℚ)
    (ha : ¬ has_antisuji cfg k s.reasons pos)
    (h : value_move_reasons cfg k e c b s pos color pure_threat_value score = some (s1, v)) :
    ∃ mv tot, mv.min_value = s.moves.min_value ∧ mv.max_value = s.moves.max_value
      ∧ s1.moves = (bound_value mv pos tot).2 ∧ v = (bound_value mv pos tot).1 := by
  have h0 : is_antisuji_move cfg k s.reasons pos = 0 := by
    rcases is_antisuji_move_spec cfg k s.reasons pos with ⟨_, h2⟩ | ⟨h1, _⟩
    · exact absurd h2 ha
    · exact h1
  unfold value_move_reasons at h
  split_ifs at h with h1 h2 h3
  · exact absurd h0 h2
  · dsimp only at h
    split at h
    · exact absurd h (by simp)
    · rename_i s2 hs2
      split at h
      · exact absurd h (by simp)
      · simp only [Option.some.injEq, Prod.mk.injEq] at h
        have hf := estimate_values_fields cfg k e b s s2 pos color score hs2
        refine ⟨_, _, ?_, ?_, by rw [← h.1], h.2.symm⟩
        · rw [(followup_adjustment_bounds _ _ _ _ _ _ _ _).1, hf]
        · rw [(followup_adjustment_bounds _ _ _ _ _ _ _ _).2, hf]
  · dsimp only at h
    split at h
    · exact absurd h (by simp)
    · simp only [Option.some.injEq, Prod.mk.injEq] at h
      refine ⟨_, _, ?_, ?_, by rw [← h.1], h.2.symm⟩
      · rw [(followup_adjustment_bounds _ _ _ _ _ _ _ _).1]
      · rw [(followup_adjustment_bounds _ _ _ _ _ _ _ _).2]

/-- C23, as amended: for a point without an `ANTISUJI_MOVE` reason, a call
of `value_move_reasons` that returns `v` has `v` at most the larger of the
bounds `max_value` and `min_value` configured on entry, and leaves that larger
bound in `max_value`. The minimum is first moved by one 200th of the total
when it is below 25; `v` is at least the minimum so adjusted when this is
positive and not above the upper bound. It follows that `v` is at least the
configured positive minimum when that is 25 or more, and whenever the
adjustment has not lowered it. -/
theorem value_within_bounds (cfg : Config) (k : Constants) (e : Engine) (c : Referee)
    (b : Board) (s s1 : Valuation) (pos color : Int) (pure_threat_value score v : ℚ)
    (ha : ¬ has_antisuji cfg k s.reasons pos)
    (h : value_move_reasons cfg k e c b s pos color pure_threat_value score = some (s1, v)) :
    v ≤ max (s.moves.max_value pos) (s.moves.min_value pos)
    ∧ s1.moves.max_value pos = max (s.moves.max_value pos) (s.moves.min_value pos)
    ∧ (25 ≤ s.moves.min_value pos → s1.moves.min_value pos = s.moves.min_value pos)
    ∧ (0 < s1.moves.min_value pos →
        min (s1.moves.min_value pos) (s1.moves.max_value pos) ≤ v)
    ∧ (0 < s.moves.min_value pos → s.moves.min_value pos ≤ s1.moves.min_value pos →
        s.moves.min_value pos ≤ v) := by
  obtain ⟨mv, tot, hmin, hmax, hs1, hv⟩ :=
    value_move_reasons_tail cfg k e c b s s1 pos color pure_threat_value score v ha h
  obtain ⟨b1, b2, b3, b4⟩ := bound_value_spec mv pos tot
  rw [← hs1, ← hv, hmin, hmax] at *
  refine ⟨b3, b1, ?_, b4, ?_⟩
  · intro h25
    rw [b2, if_neg (not_lt.2 h25)]
  · intro hpos hle
    have h4 := b4 (lt_of_lt_of_le hpos hle)
    rw [b1] at h4
    exact le_trans (le_min hle (le_max_right _ _)) h4

theorem value_within_bounds_witness :
    ∃ s s1 v, minimum_valuation = some s
      ∧ value_move_reasons small sample_constants sample_engine ko_referee sample_board
          s 7 2 0 0 = some (s1, v)
      ∧ v ≤ max (s.moves.max_value 7) (s.moves.min_value 7)
      ∧ 0 < s1.moves.min_value 7
      ∧ min (s1.moves.min_value 7) (s1.moves.max_value 7) ≤ v := by
  obtain ⟨s, hs⟩ := Option.isSome_iff_exists.1
    (show minimum_valuation.isSome = true by decide!)
  have hreasons : s.reasons = ko_attack_reasons := by
    unfold minimum_valuation at hs
    rcases hm : minimum_fields with _ | mv
    · rw [hm] at hs; exact absurd hs (by simp)
    · rw [hm] at hs
      simp only [Option.map_some', Option.some.injEq] at hs
      rw [← hs]
  have hrun : (value_move_reasons small sample_constants sample_engine ko_referee sample_board
      s 7 2 0 0).isSome = true := by
    have : (minimum_valuation.bind fun s =>
        value_move_reasons small sample_constants sample_engine ko_referee sample_board
          s 7 2 0 0).isSome = true := by decide!
    rw [hs] at this
    exact this
  obtain ⟨r, hr⟩ := Option.isSome_iff_exists.1 hrun
  have h := value_within_bounds small sample_constants sample_engine ko_referee sample_board
    s r.1 7 2 0 0 r.2 (by rw [hreasons]; decide) hr
  have hmin : r.1.moves.min_value 7 = 991 / 1000 := by
    have : (minimum_valuation.bind fun s =>
        (value_move_reasons small sample_constants sample_engine ko_referee sample_board
          s 7 2 0 0).map fun r => r.1.moves.min_value 7) = some (991 / 1000) := by decide!
    rw [hs, Option.some_bind, hr] at this
    simpa using this
  have hpos : 0 < r.1.moves.min_value 7 := by rw [hmin]; norm_num
  exact ⟨s, r.1, r.2, hs, hr, h.1, hpos, h.2.2.2.1 hpos⟩

/-- C23, counterexample: the point 7 has no antisuji reason and the
configured minimum value 1 (maximum 1000); its only reason, an attack with a
good ko on a worm of effective size 3, gives the total -9/5, the minimum is
lowered to 1 - 9/1000, and `value_move_reasons` returns 991/1000, which is
below the configured minimum. -/
theorem minimum_counterexample :
    (minimum_valuation.bind fun s =>
        (value_move_reasons small sample_constants sample_engine ko_referee sample_board
            s 7 2 0 0).map fun r =>
          (decide (has_antisuji small sample_constants s.reasons 7),
            s.moves.min_value 7, s.moves.max_value 7, r.2, r.1.moves.min_value 7))
      = some (false, 1, 1000, 991 / 1000, 991 / 1000)
    ∧ (991 / 1000 : ℚ) < 1 := by
  constructor
  · decide!
  · norm_num

/-- Two case labels at different places of the list of kinds are different
numbers. -/
theorem kinds_ne (k : Constants) (hk : k.DistinctKinds) (i j : Nat) (hi : i < 33)
    (hj : j < 33) (hij : i ≠ j) :
    k.kinds.get ⟨i, hi⟩ ≠ k.kinds.get ⟨j, hj⟩ := by
  intro h
  have := (List.Nodup.get_inj_iff hk).1 h
  exact hij (Fin.mk.inj_iff.1 this)

/-- The `switch` of `estimate_territorial_value` sends the three kinds of
tactical attacks to their common block. -/
theorem territorial_case_attack (cfg : Config) (k : Constants) (e : Engine) (b : Board) (t : Reasons)
    (pos color : Int) (score : ℚ) (acc : Territory) (ty what : Int)
    (h : ty = k.ATTACK_MOVE ∨ ty = k.ATTACK_MOVE_GOOD_KO ∨ ty = k.ATTACK_MOVE_BAD_KO) :
    territorial_case cfg k e b t pos color score acc ty what
      = territorial_attack k e b pos color acc ty what := by
  unfold territorial_case
  rw [if_pos h]

/-- The `switch` of `estimate_territorial_value` sends the three kinds of
tactical defenses to their common block. -/
theorem territorial_case_defend (cfg : Config) (k : Constants) (e : Engine) (b : Board) (t : Reasons)
    (pos color : Int) (score : ℚ) (acc : Territory) (ty what : Int)
    (hk : k.DistinctKinds)
    (h : ty = k.DEFEND_MOVE ∨ ty = k.DEFEND_MOVE_GOOD_KO ∨ ty = k.DEFEND_MOVE_BAD_KO) :
    territorial_case cfg k e b t pos color score acc ty what
      = territorial_defend k e b pos color acc ty what := by
  rcases h with h | h | h
  · subst h
    have n0 : k.DEFEND_MOVE ≠ k.ATTACK_MOVE :=
      kinds_ne k hk 4 0 (by decide) (by decide) (by decide)
    have n1 : k.DEFEND_MOVE ≠ k.ATTACK_MOVE_GOOD_KO :=
      kinds_ne k hk 4 1 (by decide) (by decide) (by decide)
    have n2 : k.DEFEND_MOVE ≠ k.ATTACK_MOVE_BAD_KO :=
      kinds_ne k hk 4 2 (by decide) (by decide) (by decide)
    simp only [territorial_case, n0, n1, n2, false_or, or_false, or_self, if_false,
      true_or, or_true, if_true]
  · subst h
    have n0 : k.DEFEND_MOVE_GOOD_KO ≠ k.ATTACK_MOVE :=
      kinds_ne k hk 5 0 (by decide) (by decide) (by decide)
    have n1 : k.DEFEND_MOVE_GOOD_KO ≠ k.ATTACK_MOVE_GOOD_KO :=
      kinds_ne k hk 5 1 (by decide) (by decide) (by decide)
    have n2 : k.DEFEND_MOVE_GOOD_KO ≠ k.ATTACK_MOVE_BAD_KO :=
      kinds_ne k hk 5 2 (by decide) (by decide) (by decide)
    simp only [territorial_case, n0, n1, n2, false_or, or_false, or_self, if_false,
      true_or, or_true, if_true]
  · subst h
    have n0 : k.DEFEND_MOVE_BAD_KO ≠ k.ATTACK_MOVE :=
      kinds_ne k hk 6 0 (by decide) (by decide) (by decide)
    have n1 : k.DEFEND_MOVE_BAD_KO ≠ k.ATTACK_MOVE_GOOD_KO :=
      kinds_ne k hk 6 1 (by decide) (by decide) (by decide)
    have n2 : k.DEFEND_MOVE_BAD_KO ≠ k.ATTACK_MOVE_BAD_KO :=
      kinds_ne k hk 6 2 (by decide) (by decide) (by decide)
    simp only [territorial_case, n0, n1, n2, false_or, or_false, or_self, if_false,
      true_or, or_true, if_true]

/-- The `switch` of `estimate_territorial_value` sends the six kinds of owl
attacks and owl defenses to their common block. -/
theorem territorial_case_owl (cfg : Config) (k : Constants) (e : Engine) (b : Board) (t : Reasons)
    (pos color : Int) (score : ℚ) (acc : Territory) (ty what : Int)
    (hk : k.DistinctKinds)
    (h : ty = k.OWL_ATTACK_MOVE ∨ ty = k.OWL_ATTACK_MOVE_GOOD_KO
      ∨ ty = k.OWL_ATTACK_MOVE_BAD_KO ∨ ty = k.OWL_DEFEND_MOVE
      ∨ ty = k.OWL_DEFEND_MOVE_GOOD_KO ∨ ty = k.OWL_DEFEND_MOVE_BAD_KO) :
    territorial_case cfg k e b t pos color score acc ty what
      = territorial_owl k e b acc ty what := by
  rcases h with h | h | h | h | h | h
  · subst h
    have n0 : k.OWL_ATTACK_MOVE ≠ k.ATTACK_MOVE :=
      kinds_ne k hk 21 0 (by decide) (by decide) (by decide)
    have n1 : k.OWL_ATTACK_MOVE ≠ k.ATTACK_MOVE_GOOD_KO :=
      kinds_ne k hk 21 1 (by decide) (by decide) (by decide)
    have n2 : k.OWL_ATTACK_MOVE ≠ k.ATTACK_MOVE_BAD_KO :=
      kinds_ne k hk 21 2 (by decide) (by decide) (by decide)
    have n4 : k.OWL_ATTACK_MOVE ≠ k.DEFEND_MOVE :=
      kinds_ne k hk 21 4 (by decide) (by decide) (by decide)
    have n5 : k.OWL_ATTACK_MOVE ≠ k.DEFEND_MOVE_GOOD_KO :=
      kinds_ne k hk 21 5 (by decide) (by decide) (by decide)
    have n6 : k.OWL_ATTACK_MOVE ≠ k.DEFEND_MOVE_BAD_KO :=
      kinds_ne k hk 21 6 (by decide) (by decide) (by decide)
    have n3 : k.OWL_ATTACK_MOVE ≠ k.ATTACK_THREAT_MOVE :=
      kinds_ne k hk 21 3 (by decide) (by decide) (by decide)
    have n7 : k.OWL_ATTACK_MOVE ≠ k.DEFEND_THREAT_MOVE :=
      kinds_ne k hk 21 7 (by decide) (by decide) (by decide)
    have n29 : k.OWL_ATTACK_MOVE ≠ k.UNCERTAIN_OWL_DEFENSE :=
      kinds_ne k hk 21 29 (by decide) (by decide) (by decide)
    have n8 : k.OWL_ATTACK_MOVE ≠ k.CONNECT_MOVE :=
      kinds_ne k hk 21 8 (by decide) (by decide) (by decide)
    have n9 : k.OWL_ATTACK_MOVE ≠ k.CUT_MOVE :=
      kinds_ne k hk 21 9 (by decide) (by decide) (by decide)
    have n19 : k.OWL_ATTACK_MOVE ≠ k.STRATEGIC_ATTACK_MOVE :=
      kinds_ne k hk 21 19 (by decide) (by decide) (by decide)
    have n20 : k.OWL_ATTACK_MOVE ≠ k.STRATEGIC_DEFEND_MOVE :=
      kinds_ne k hk 21 20 (by decide) (by decide) (by decide)
    have n16 : k.OWL_ATTACK_MOVE ≠ k.BLOCK_TERRITORY_MOVE :=
      kinds_ne k hk 21 16 (by decide) (by decide) (by decide)
    have n18 : k.OWL_ATTACK_MOVE ≠ k.EXPAND_MOYO_MOVE :=
      kinds_ne k hk 21 18 (by decide) (by decide) (by decide)
    have n17 : k.OWL_ATTACK_MOVE ≠ k.EXPAND_TERRITORY_MOVE :=
      kinds_ne k hk 21 17 (by decide) (by decide) (by decide)
    have n11 : k.OWL_ATTACK_MOVE ≠ k.SEMEAI_MOVE :=
      kinds_ne k hk 21 11 (by decide) (by decide) (by decide)
    have n12 : k.OWL_ATTACK_MOVE ≠ k.SEMEAI_THREAT :=
      kinds_ne k hk 21 12 (by decide) (by decide) (by decide)
    have n13 : k.OWL_ATTACK_MOVE ≠ k.VITAL_EYE_MOVE :=
      kinds_ne k hk 21 13 (by decide) (by decide) (by decide)
    simp only [territorial_case, n0, n1, n2, n4, n5, n6, n3, n7, n29, n8, n9, n19, n20, n16, n18, n17, n11, n12, n13, false_or, or_false, or_self, if_false,
      true_or, or_true, if_true]
  · subst h
    have n0 : k.OWL_ATTACK_MOVE_GOOD_KO ≠ k.ATTACK_MOVE :=
      kinds_ne k hk 22 0 (by decide) (by decide) (by decide)
    have n1 : k.OWL_ATTACK_MOVE_GOOD_KO ≠ k.ATTACK_MOVE_GOOD_KO :=
      kinds_ne k hk 22 1 (by decide) (by decide) (by decide)
    have n2 : k.OWL_ATTACK_MOVE_GOOD_KO ≠ k.ATTACK_MOVE_BAD_KO :=
      kinds_ne k hk 22 2 (by decide) (by decide) (by decide)
    have n4 : k.OWL_ATTACK_MOVE_GOOD_KO ≠ k.DEFEND_MOVE :=
      kinds_ne k hk 22 4 (by decide) (by decide) (by decide)
    have n5 : k.OWL_ATTACK_MOVE_GOOD_KO ≠ k.DEFEND_MOVE_GOOD_KO :=
      kinds_ne k hk 22 5 (by decide) (by decide) (by decide)
    have n6 : k.OWL_ATTACK_MOVE_GOOD_KO ≠ k.DEFEND_MOVE_BAD_KO :=
      kinds_ne k hk 22 6 (by decide) (by decide) (by decide)
    have n3 : k.OWL_ATTACK_MOVE_GOOD_KO ≠ k.ATTACK_THREAT_MOVE :=
      kinds_ne k hk 22 3 (by decide) (by decide) (by decide)
    have n7 : k.OWL_ATTACK_MOVE_GOOD_KO ≠ k.DEFEND_THREAT_MOVE :=
      kinds_ne k hk 22 7 (by decide) (by decide) (by decide)
    have n29 : k.OWL_ATTACK_MOVE_GOOD_KO ≠ k.UNCERTAIN_OWL_DEFENSE :=
      kinds_ne k hk 22 29 (by decide) (by decide) (by decide)
    have n8 : k.OWL_ATTACK_MOVE_GOOD_KO ≠ k.CONNECT_MOVE :=
      kinds_ne k hk 22 8 (by decide) (by decide) (by decide)
    have n9 : k.OWL_ATTACK_MOVE_GOOD_KO ≠ k.CUT_MOVE :=
      kinds_ne k hk 22 9 (by decide) (by decide) (by decide)
    have n19 : k.OWL_ATTACK_MOVE_GOOD_KO ≠ k.STRATEGIC_ATTACK_MOVE :=
      kinds_ne k hk 22 19 (by decide) (by decide) (by decide)
    have n20 : k.OWL_ATTACK_MOVE_GOOD_KO ≠ k.STRATEGIC_DEFEND_MOVE :=
      kinds_ne k hk 22 20 (by decide) (by decide) (by decide)
    have n16 : k.OWL_ATTACK_MOVE_GOOD_KO ≠ k.BLOCK_TERRITORY_MOVE :=
      kinds_ne k hk 22 16 (by decide) (by decide) (by decide)
    have n18 : k.OWL_ATTACK_MOVE_GOOD_KO ≠ k.EXPAND_MOYO_MOVE :=
      kinds_ne k hk 22 18 (by decide) (by decide) (by decide)
    have n17 : k.OWL_ATTACK_MOVE_GOOD_KO ≠ k.EXPAND_TERRITORY_MOVE :=
      kinds_ne k hk 22 17 (by decide) (by decide) (by decide)
    have n11 : k.OWL_ATTACK_MOVE_GOOD_KO ≠ k.SEMEAI_MOVE :=
      kinds_ne k hk 22 11 (by decide) (by decide) (by decide)
    have n12 : k.OWL_ATTACK_MOVE_GOOD_KO ≠ k.SEMEAI_THREAT :=
      kinds_ne k hk 22 12 (by decide) (by decide) (by decide)
    have n13 : k.OWL_ATTACK_MOVE_GOOD_KO ≠ k.VITAL_EYE_MOVE :=
      kinds_ne k hk 22 13 (by decide) (by decide) (by decide)
    simp only [territorial_case, n0, n1, n2, n4, n5, n6, n3, n7, n29, n8, n9, n19, n20, n16, n18, n17, n11, n12, n13, false_or, or_false, or_self, if_false,
      true_or, or_true, if_true]
  · subst h
    have n0 : k.OWL_ATTACK_MOVE_BAD_KO ≠ k.ATTACK_MOVE :=
      kinds_ne k hk 23 0 (by decide) (by decide) (by decide)
    have n1 : k.OWL_ATTACK_MOVE_BAD_KO ≠ k.ATTACK_MOVE_GOOD_KO :=
      kinds_ne k hk 23 1 (by decide) (by decide) (by decide)
    have n2 : k.OWL_ATTACK_MOVE_BAD_KO ≠ k.ATTACK_MOVE_BAD_KO :=
      kinds_ne k hk 23 2 (by decide) (by decide) (by decide)
    have n4 : k.OWL_ATTACK_MOVE_BAD_KO ≠ k.DEFEND_MOVE :=
      kinds_ne k hk 23 4 (by decide) (by decide) (by decide)
    have n5 : k.OWL_ATTACK_MOVE_BAD_KO ≠ k.DEFEND_MOVE_GOOD_KO :=
      kinds_ne k hk 23 5 (by decide) (by decide) (by decide)
    have n6 : k.OWL_ATTACK_MOVE_BAD_KO ≠ k.DEFEND_MOVE_BAD_KO :=
      kinds_ne k hk 23 6 (by decide) (by decide) (by decide)
    have n3 : k.OWL_ATTACK_MOVE_BAD_KO ≠ k.ATTACK_THREAT_MOVE :=
      kinds_ne k hk 23 3 (by decide) (by decide) (by decide)
    have n7 : k.OWL_ATTACK_MOVE_BAD_KO ≠ k.DEFEND_THREAT_MOVE :=
      kinds_ne k hk 23 7 (by decide) (by decide) (by decide)
    have n29 : k.OWL_ATTACK_MOVE_BAD_KO ≠ k.UNCERTAIN_OWL_DEFENSE :=
      kinds_ne k hk 23 29 (by decide) (by decide) (by decide)
    have n8 : k.OWL_ATTACK_MOVE_BAD_KO ≠ k.CONNECT_MOVE :=
      kinds_ne k hk 23 8 (by decide) (by decide) (by decide)
    have n9 : k.OWL_ATTACK_MOVE_BAD_KO ≠ k.CUT_MOVE :=
      kinds_ne k hk 23 9 (by decide) (by decide) (by decide)
    have n19 : k.OWL_ATTACK_MOVE_BAD_KO ≠ k.STRATEGIC_ATTACK_MOVE :=
      kinds_ne k hk 23 19 (by decide) (by decide) (by decide)
    have n20 : k.OWL_ATTACK_MOVE_BAD_KO ≠ k.STRATEGIC_DEFEND_MOVE :=
      kinds_ne k hk 23 20 (by decide) (by decide) (by decide)
    have n16 : k.OWL_ATTACK_MOVE_BAD_KO ≠ k.BLOCK_TERRITORY_MOVE :=
      kinds_ne k hk 23 16 (by decide) (by decide) (by decide)
    have n18 : k.OWL_ATTACK_MOVE_BAD_KO ≠ k.EXPAND_MOYO_MOVE :=
      kinds_ne k hk 23 18 (by decide) (by decide) (by decide)
    have n17 : k.OWL_ATTACK_MOVE_BAD_KO ≠ k.EXPAND_TERRITORY_MOVE :=
      kinds_ne k hk 23 17 (by decide) (by decide) (by decide)
    have n11 : k.OWL_ATTACK_MOVE_BAD_KO ≠ k.SEMEAI_MOVE :=
      kinds_ne k hk 23 11 (by decide) (by decide) (by decide)
    have n12 : k.OWL_ATTACK_MOVE_BAD_KO ≠ k.SEMEAI_THREAT :=
      kinds_ne k hk 23 12 (by decide) (by decide) (by decide)
    have n13 : k.OWL_ATTACK_MOVE_BAD_KO ≠ k.VITAL_EYE_MOVE :=
      kinds_ne k hk 23 13 (by decide) (by decide) (by decide)
    simp only [territorial_case, n0, n1, n2, n4, n5, n6, n3, n7, n29, n8, n9, n19, n20, n16, n18, n17, n11, n12, n13, false_or, or_false, or_self, if_false,
      true_or, or_true, if_true]
  · subst h
    have n0 : k.OWL_DEFEND_MOVE ≠ k.ATTACK_MOVE :=
      kinds_ne k hk 25 0 (by decide) (by decide) (by decide)
    have n1 : k.OWL_DEFEND_MOVE ≠ k.ATTACK_MOVE_GOOD_KO :=
      kinds_ne k hk 25 1 (by decide) (by decide) (by decide)
    have n2 : k.OWL_DEFEND_MOVE ≠ k.ATTACK_MOVE_BAD_KO :=
      kinds_ne k hk 25 2 (by decide) (by decide) (by decide)
    have n4 : k.OWL_DEFEND_MOVE ≠ k.DEFEND_MOVE :=
      kinds_ne k hk 25 4 (by decide) (by decide) (by decide)
    have n5 : k.OWL_DEFEND_MOVE ≠ k.DEFEND_MOVE_GOOD_KO :=
      kinds_ne k hk 25 5 (by decide) (by decide) (by decide)
    have n6 : k.OWL_DEFEND_MOVE ≠ k.DEFEND_MOVE_BAD_KO :=
      kinds_ne k hk 25 6 (by decide) (by decide) (by decide)
    have n3 : k.OWL_DEFEND_MOVE ≠ k.ATTACK_THREAT_MOVE :=
      kinds_ne k hk 25 3 (by decide) (by decide) (by decide)
    have n7 : k.OWL_DEFEND_MOVE ≠ k.DEFEND_THREAT_MOVE :=
      kinds_ne k hk 25 7 (by decide) (by decide) (by decide)
    have n29 : k.OWL_DEFEND_MOVE ≠ k.UNCERTAIN_OWL_DEFENSE :=
      kinds_ne k hk 25 29 (by decide) (by decide) (by decide)
    have n8 : k.OWL_DEFEND_MOVE ≠ k.CONNECT_MOVE :=
      kinds_ne k hk 25 8 (by decide) (by decide) (by decide)
    have n9 : k.OWL_DEFEND_MOVE ≠ k.CUT_MOVE :=
      kinds_ne k hk 25 9 (by decide) (by decide) (by decide)
    have n19 : k.OWL_DEFEND_MOVE ≠ k.STRATEGIC_ATTACK_MOVE :=
      kinds_ne k hk 25 19 (by decide) (by decide) (by decide)
    have n20 : k.OWL_DEFEND_MOVE ≠ k.STRATEGIC_DEFEND_MOVE :=
      kinds_ne k hk 25 20 (by decide) (by decide) (by decide)
    have n16 : k.OWL_DEFEND_MOVE ≠ k.BLOCK_TERRITORY_MOVE :=
      kinds_ne k hk 25 16 (by decide) (by decide) (by decide)
    have n18 : k.OWL_DEFEND_MOVE ≠ k.EXPAND_MOYO_MOVE :=
      kinds_ne k hk 25 18 (by decide) (by decide) (by decide)
    have n17 : k.OWL_DEFEND_MOVE ≠ k.EXPAND_TERRITORY_MOVE :=
      kinds_ne k hk 25 17 (by decide) (by decide) (by decide)
    have n11 : k.OWL_DEFEND_MOVE ≠ k.SEMEAI_MOVE :=
      kinds_ne k hk 25 11 (by decide) (by decide) (by decide)
    have n12 : k.OWL_DEFEND_MOVE ≠ k.SEMEAI_THREAT :=
      kinds_ne k hk 25 12 (by decide) (by decide) (by decide)
    have n13 : k.OWL_DEFEND_MOVE ≠ k.VITAL_EYE_MOVE :=
      kinds_ne k hk 25 13 (by decide) (by decide) (by decide)
    simp only [territorial_case, n0, n1, n2, n4, n5, n6, n3, n7, n29, n8, n9, n19, n20, n16, n18, n17, n11, n12, n13, false_or, or_false, or_self, if_false,
      true_or, or_true, if_true]
  · subst h
    have n0 : k.OWL_DEFEND_MOVE_GOOD_KO ≠ k.ATTACK_MOVE :=
      kinds_ne k hk 26 0 (by decide) (by decide) (by decide)
    have n1 : k.OWL_DEFEND_MOVE_GOOD_KO ≠ k.ATTACK_MOVE_GOOD_KO :=
      kinds_ne k hk 26 1 (by decide) (by decide) (by decide)
    have n2 : k.OWL_DEFEND_MOVE_GOOD_KO ≠ k.ATTACK_MOVE_BAD_KO :=
      kinds_ne k hk 26 2 (by decide) (by decide) (by decide)
    have n4 : k.OWL_DEFEND_MOVE_GOOD_KO ≠ k.DEFEND_MOVE :=
      kinds_ne k hk 26 4 (by decide) (by decide) (by decide)
    have n5 : k.OWL_DEFEND_MOVE_GOOD_KO ≠ k.DEFEND_MOVE_GOOD_KO :=
      kinds_ne k hk 26 5 (by decide) (by decide) (by decide)
    have n6 : k.OWL_DEFEND_MOVE_GOOD_KO ≠ k.DEFEND_MOVE_BAD_KO :=
      kinds_ne k hk 26 6 (by decide) (by decide) (by decide)
    have n3 : k.OWL_DEFEND_MOVE_GOOD_KO ≠ k.ATTACK_THREAT_MOVE :=
      kinds_ne k hk 26 3 (by decide) (by decide) (by decide)
    have n7 : k.OWL_DEFEND_MOVE_GOOD_KO ≠ k.DEFEND_THREAT_MOVE :=
      kinds_ne k hk 26 7 (by decide) (by decide) (by decide)
    have n29 : k.OWL_DEFEND_MOVE_GOOD_KO ≠ k.UNCERTAIN_OWL_DEFENSE :=
      kinds_ne k hk 26 29 (by decide) (by decide) (by decide)
    have n8 : k.OWL_DEFEND_MOVE_GOOD_KO ≠ k.CONNECT_MOVE :=
      kinds_ne k hk 26 8 (by decide) (by decide) (by decide)
    have n9 : k.OWL_DEFEND_MOVE_GOOD_KO ≠ k.CUT_MOVE :=
      kinds_ne k hk 26 9 (by decide) (by decide) (by decide)
    have n19 : k.OWL_DEFEND_MOVE_GOOD_KO ≠ k.STRATEGIC_ATTACK_MOVE :=
      kinds_ne k hk 26 19 (by decide) (by decide) (by decide)
    have n20 : k.OWL_DEFEND_MOVE_GOOD_KO ≠ k.STRATEGIC_DEFEND_MOVE :=
      kinds_ne k hk 26 20 (by decide) (by decide) (by decide)
    have n16 : k.OWL_DEFEND_MOVE_GOOD_KO ≠ k.BLOCK_TERRITORY_MOVE :=
      kinds_ne k hk 26 16 (by decide) (by decide) (by decide)
    have n18 : k.OWL_DEFEND_MOVE_GOOD_KO ≠ k.EXPAND_MOYO_MOVE :=
      kinds_ne k hk 26 18 (by decide) (by decide) (by decide)
    have n17 : k.OWL_DEFEND_MOVE_GOOD_KO ≠ k.EXPAND_TERRITORY_MOVE :=
      kinds_ne k hk 26 17 (by decide) (by decide) (by decide)
    have n11 : k.OWL_DEFEND_MOVE_GOOD_KO ≠ k.SEMEAI_MOVE :=
      kinds_ne k hk 26 11 (by decide) (by decide) (by decide)
    have n12 : k.OWL_DEFEND_MOVE_GOOD_KO ≠ k.SEMEAI_THREAT :=
      kinds_ne k hk 26 12 (by decide) (by decide) (by decide)
    have n13 : k.OWL_DEFEND_MOVE_GOOD_KO ≠ k.VITAL_EYE_MOVE :=
      kinds_ne k hk 26 13 (by decide) (by decide) (by decide)
    simp only [territorial_case, n0, n1, n2, n4, n5, n6, n3, n7, n29, n8, n9, n19, n20, n16, n18, n17, n11, n12, n13, false_or, or_false, or_self, if_false,
      true_or, or_true, if_true]
  · subst h
    have n0 : k.OWL_DEFEND_MOVE_BAD_KO ≠ k.ATTACK_MOVE :=
      kinds_ne k hk 27 0 (by decide) (by decide) (by decide)
    have n1 : k.OWL_DEFEND_MOVE_BAD_KO ≠ k.ATTACK_MOVE_GOOD_KO :=
      kinds_ne k hk 27 1 (by decide) (by decide) (by decide)
    have n2 : k.OWL_DEFEND_MOVE_BAD_KO ≠ k.ATTACK_MOVE_BAD_KO :=
      kinds_ne k hk 27 2 (by decide) (by decide) (by decide)
    have n4 : k.OWL_DEFEND_MOVE_BAD_KO ≠ k.DEFEND_MOVE :=
      kinds_ne k hk 27 4 (by decide) (by decide) (by decide)
    have n5 : k.OWL_DEFEND_MOVE_BAD_KO ≠ k.DEFEND_MOVE_GOOD_KO :=
      kinds_ne k hk 27 5 (by decide) (by decide) (by decide)
    have n6 : k.OWL_DEFEND_MOVE_BAD_KO ≠ k.DEFEND_MOVE_BAD_KO :=
      kinds_ne k hk 27 6 (by decide) (by decide) (by decide)
    have n3 : k.OWL_DEFEND_MOVE_BAD_KO ≠ k.ATTACK_THREAT_MOVE :=
      kinds_ne k hk 27 3 (by decide) (by decide) (by decide)
    have n7 : k.OWL_DEFEND_MOVE_BAD_KO ≠ k.DEFEND_THREAT_MOVE :=
      kinds_ne k hk 27 7 (by decide) (by decide) (by decide)
    have n29 : k.OWL_DEFEND_MOVE_BAD_KO ≠ k.UNCERTAIN_OWL_DEFENSE :=
      kinds_ne k hk 27 29 (by decide) (by decide) (by decide)
    have n8 : k.OWL_DEFEND_MOVE_BAD_KO ≠ k.CONNECT_MOVE :=
      kinds_ne k hk 27 8 (by decide) (by decide) (by decide)
    have n9 : k.OWL_DEFEND_MOVE_BAD_KO ≠ k.CUT_MOVE :=
      kinds_ne k hk 27 9 (by decide) (by decide) (by decide)
    have n19 : k.OWL_DEFEND_MOVE_BAD_KO ≠ k.STRATEGIC_ATTACK_MOVE :=
      kinds_ne k hk 27 19 (by decide) (by decide) (by decide)
    have n20 : k.OWL_DEFEND_MOVE_BAD_KO ≠ k.STRATEGIC_DEFEND_MOVE :=
      kinds_ne k hk 27 20 (by decide) (by decide) (by decide)
    have n16 : k.OWL_DEFEND_MOVE_BAD_KO ≠ k.BLOCK_TERRITORY_MOVE :=
      kinds_ne k hk 27 16 (by decide) (by decide) (by decide)
    have n18 : k.OWL_DEFEND_MOVE_BAD_KO ≠ k.EXPAND_MOYO_MOVE :=
      kinds_ne k hk 27 18 (by decide) (by decide) (by decide)
    have n17 : k.OWL_DEFEND_MOVE_BAD_KO ≠ k.EXPAND_TERRITORY_MOVE :=
      kinds_ne k hk 27 17 (by decide) (by decide) (by decide)
    have n11 : k.OWL_DEFEND_MOVE_BAD_KO ≠ k.SEMEAI_MOVE :=
      kinds_ne k hk 27 11 (by decide) (by decide) (by decide)
    have n12 : k.OWL_DEFEND_MOVE_BAD_KO ≠ k.SEMEAI_THREAT :=
      kinds_ne k hk 27 12 (by decide) (by decide) (by decide)
    have n13 : k.OWL_DEFEND_MOVE_BAD_KO ≠ k.VITAL_EYE_MOVE :=
      kinds_ne k hk 27 13 (by decide) (by decide) (by decide)
    simp only [territorial_case, n0, n1, n2, n4, n5, n6, n3, n7, n29, n8, n9, n19, n20, n16, n18, n17, n11, n12, n13, false_or, or_false, or_self, if_false,
      true_or, or_true, if_true]

/-- C24, as amended: in the `switch` of `estimate_territorial_value`, with
pairwise different case labels, a tactical attack or defense that passes the
assertion on the colour and the defenseless, safety and dead checks, on a
worm of effective size `s`, sets `does_block` and subtracts from `tot_value`
nothing for the clean kind, `0.3 * 2s` for the kind `GOOD_KO` and `0.5 * 2s`
for the kind `BAD_KO`; so does an owl attack or defense on a dragon of
effective size `s` that is not a single stone in a ko. For a dragon that is a
single stone in a ko, each of the six owl kinds subtracts 0.5 and leaves
`does_block` alone. For `s >= 0` the total after the bad ko is at most the
total after the good ko, which is at most the total after the clean win. -/
theorem ko_discount_spec (cfg : Config) (k : Constants) (e : Engine) (b : Board) (t : Reasons)
    (pos color : Int) (score : ℚ) (acc : Territory) (what : Int) (hk : k.DistinctKinds) :
    (b.board (acc.registry.worms what.toNat) ≠ color →
      e.worm_defend_code (acc.registry.worms what.toNat) ≠ 0 →
      acc.moves.move_safety pos ≠ 0 →
      e.dragon_matcher_status (acc.registry.worms what.toNat) ≠ k.DEAD →
        case_total cfg k e b t pos color score acc k.ATTACK_MOVE what
          = some (acc.tot_value, 1)
        ∧ case_total cfg k e b t pos color score acc k.ATTACK_MOVE_GOOD_KO what
          = some (acc.tot_value
              - 0.3 * (2 * e.worm_effective_size (acc.registry.worms what.toNat)), 1)
        ∧ case_total cfg k e b t pos color score acc k.ATTACK_MOVE_BAD_KO what
          = some (acc.tot_value
              - 0.5 * (2 * e.worm_effective_size (acc.registry.worms what.toNat)), 1))
    ∧ (b.board (acc.registry.worms what.toNat) = color →
      strategically_sound_defense acc.moves (acc.registry.worms what.toNat) pos ≠ 0 →
      e.dragon_matcher_status (acc.registry.worms what.toNat) ≠ k.DEAD →
        case_total cfg k e b t pos color score acc k.DEFEND_MOVE what
          = some (acc.tot_value, 1)
        ∧ case_total cfg k e b t pos color score acc k.DEFEND_MOVE_GOOD_KO what
          = some (acc.tot_value
              - 0.3 * (2 * e.worm_effective_size (acc.registry.worms what.toNat)), 1)
        ∧ case_total cfg k e b t pos color score acc k.DEFEND_MOVE_BAD_KO what
          = some (acc.tot_value
              - 0.5 * (2 * e.worm_effective_size (acc.registry.worms what.toNat)), 1))
    ∧ (¬ (e.dragon_size (acc.registry.dragons what.toNat) = 1
          ∧ e.is_ko_point (acc.registry.dragons what.toNat) = true) →
        case_total cfg k e b t pos color score acc k.OWL_ATTACK_MOVE what
          = some (acc.tot_value, 1)
        ∧ case_total cfg k e b t pos color score acc k.OWL_ATTACK_MOVE_GOOD_KO what
          = some (acc.tot_value
              - 0.3 * (2 * e.dragon_effective_size (acc.registry.dragons what.toNat)), 1)
        ∧ case_total cfg k e b t pos color score acc k.OWL_ATTACK_MOVE_BAD_KO what
          = some (acc.tot_value
              - 0.5 * (2 * e.dragon_effective_size (acc.registry.dragons what.toNat)), 1)
        ∧ case_total cfg k e b t pos color score acc k.OWL_DEFEND_MOVE what
          = some (acc.tot_value, 1)
        ∧ case_total cfg k e b t pos color score acc k.OWL_DEFEND_MOVE_GOOD_KO what
          = some (acc.tot_value
              - 0.3 * (2 * e.dragon_effective_size (acc.registry.dragons what.toNat)), 1)
        ∧ case_total cfg k e b t pos color score acc k.OWL_DEFEND_MOVE_BAD_KO what
          = some (acc.tot_value
              - 0.5 * (2 * e.dragon_effective_size (acc.registry.dragons what.toNat)), 1))
    ∧ (e.dragon_size (acc.registry.dragons what.toNat) = 1
          ∧ e.is_ko_point (acc.registry.dragons what.toNat) = true →
        ∀ ty ∈ [k.OWL_ATTACK_MOVE, k.OWL_ATTACK_MOVE_GOOD_KO, k.OWL_ATTACK_MOVE_BAD_KO,
            k.OWL_DEFEND_MOVE, k.OWL_DEFEND_MOVE_GOOD_KO, k.OWL_DEFEND_MOVE_BAD_KO],
          case_total cfg k e b t pos color score acc ty what
            = some (acc.tot_value - 0.5, acc.does_block))
    ∧ ∀ s : ℚ, 0 ≤ s →
        acc.tot_value - 0.5 * (2 * s) ≤ acc.tot_value - 0.3 * (2 * s)
        ∧ acc.tot_value - 0.3 * (2 * s) ≤ acc.tot_value := by
  have a01 : k.ATTACK_MOVE_GOOD_KO ≠ k.ATTACK_MOVE :=
    kinds_ne k hk 1 0 (by decide) (by decide) (by decide)
  have a20 : k.ATTACK_MOVE_BAD_KO ≠ k.ATTACK_MOVE :=
    kinds_ne k hk 2 0 (by decide) (by decide) (by decide)
  have a21 : k.ATTACK_MOVE_BAD_KO ≠ k.ATTACK_MOVE_GOOD_KO :=
    kinds_ne k hk 2 1 (by decide) (by decide) (by decide)
  have d01 : k.DEFEND_MOVE_GOOD_KO ≠ k.DEFEND_MOVE :=
    kinds_ne k hk 5 4 (by decide) (by decide) (by decide)
  have d20 : k.DEFEND_MOVE_BAD_KO ≠ k.DEFEND_MOVE :=
    kinds_ne k hk 6 4 (by decide) (by decide) (by decide)
  have d21 : k.DEFEND_MOVE_BAD_KO ≠ k.DEFEND_MOVE_GOOD_KO :=
    kinds_ne k hk 6 5 (by decide) (by decide) (by decide)
  have o := fun (i j : Nat) (hi : i < 33) (hj : j < 33) (hij : i ≠ j) =>
    kinds_ne k hk i j hi hj hij
  have o_22_21 : k.OWL_ATTACK_MOVE_GOOD_KO ≠ k.OWL_ATTACK_MOVE := o 22 21 (by decide) (by decide) (by decide)
  have o_22_25 : k.OWL_ATTACK_MOVE_GOOD_KO ≠ k.OWL_DEFEND_MOVE := o 22 25 (by decide) (by decide) (by decide)
  have o_23_21 : k.OWL_ATTACK_MOVE_BAD_KO ≠ k.OWL_ATTACK_MOVE := o 23 21 (by decide) (by decide) (by decide)
  have o_23_25 : k.OWL_ATTACK_MOVE_BAD_KO ≠ k.OWL_DEFEND_MOVE := o 23 25 (by decide) (by decide) (by decide)
  have o_23_22 : k.OWL_ATTACK_MOVE_BAD_KO ≠ k.OWL_ATTACK_MOVE_GOOD_KO := o 23 22 (by decide) (by decide) (by decide)
  have o_23_26 : k.OWL_ATTACK_MOVE_BAD_KO ≠ k.OWL_DEFEND_MOVE_GOOD_KO := o 23 26 (by decide) (by decide) (by decide)
  have o_25_21 : k.OWL_DEFEND_MOVE ≠ k.OWL_ATTACK_MOVE := o 25 21 (by decide) (by decide) (by decide)
  have o_26_21 : k.OWL_DEFEND_MOVE_GOOD_KO ≠ k.OWL_ATTACK_MOVE := o 26 21 (by decide) (by decide) (by decide)
  have o_26_25 : k.OWL_DEFEND_MOVE_GOOD_KO ≠ k.OWL_DEFEND_MOVE := o 26 25 (by decide) (by decide) (by decide)
  have o_26_22 : k.OWL_DEFEND_MOVE_GOOD_KO ≠ k.OWL_ATTACK_MOVE_GOOD_KO := o 26 22 (by decide) (by decide) (by decide)
  have o_27_21 : k.OWL_DEFEND_MOVE_BAD_KO ≠ k.OWL_ATTACK_MOVE := o 27 21 (by decide) (by decide) (by decide)
  have o_27_25 : k.OWL_DEFEND_MOVE_BAD_KO ≠ k.OWL_DEFEND_MOVE := o 27 25 (by decide) (by decide) (by decide)
  have o_27_22 : k.OWL_DEFEND_MOVE_BAD_KO ≠ k.OWL_ATTACK_MOVE_GOOD_KO := o 27 22 (by decide) (by decide) (by decide)
  have o_27_26 : k.OWL_DEFEND_MOVE_BAD_KO ≠ k.OWL_DEFEND_MOVE_GOOD_KO := o 27 26 (by decide) (by decide) (by decide)
  have o_27_23 : k.OWL_DEFEND_MOVE_BAD_KO ≠ k.OWL_ATTACK_MOVE_BAD_KO := o 27 23 (by decide) (by decide) (by decide)
  refine ⟨?_, ?_, ?_, ?_, ?_⟩
  · intro h1 h2 h3 h4
    refine ⟨?_, ?_, ?_⟩
    · rw [case_total, territorial_case_attack _ _ _ _ _ _ _ _ _ _ _ (Or.inl rfl)]
      simp only [territorial_attack, h1, h2, h3, h4, if_false, if_true, Option.map_some',
        sub_zero]
    · rw [case_total, territorial_case_attack _ _ _ _ _ _ _ _ _ _ _ (Or.inr (Or.inl rfl))]
      simp only [territorial_attack, h1, h2, h3, h4, a01, if_false, if_true, Option.map_some']
      congr 2; ring
    · rw [case_total, territorial_case_attack _ _ _ _ _ _ _ _ _ _ _ (Or.inr (Or.inr rfl))]
      simp only [territorial_attack, h1, h2, h3, h4, a20, a21, if_false, if_true,
        Option.map_some']
      congr 2; ring
  · intro h1 h2 h3
    have h1n : ¬ b.board (acc.registry.worms what.toNat) ≠ color := fun hh => hh h1
    refine ⟨?_, ?_, ?_⟩
    · rw [case_total, territorial_case_defend _ _ _ _ _ _ _ _ _ _ _ hk (Or.inl rfl)]
      simp only [territorial_defend, h1n, h2, h3, if_false, if_true, Option.map_some',
        sub_zero]
    · rw [case_total,
        territorial_case_defend _ _ _ _ _ _ _ _ _ _ _ hk (Or.inr (Or.inl rfl))]
      simp only [territorial_defend, h1n, h2, h3, d01, if_false, if_true, Option.map_some']
      congr 2; ring
    · rw [case_total,
        territorial_case_defend _ _ _ _ _ _ _ _ _ _ _ hk (Or.inr (Or.inr rfl))]
      simp only [territorial_defend, h1n, h2, h3, d20, d21, if_false, if_true,
        Option.map_some']
      congr 2; ring
  · intro h1
    refine ⟨?_, ?_, ?_, ?_, ?_, ?_⟩
    · rw [case_total, territorial_case_owl _ _ _ _ _ _ _ _ _ _ _ hk (Or.inl rfl)]
      simp only [territorial_owl, h1, if_false, if_true, true_or, Option.map_some', sub_zero]
    · rw [case_total, territorial_case_owl _ _ _ _ _ _ _ _ _ _ _ hk (Or.inr (Or.inl rfl))]
      simp only [territorial_owl, h1, o_22_21, o_22_25, if_false, if_true, true_or, or_self,
        Option.map_some']
      congr 2; ring
    · rw [case_total,
        territorial_case_owl _ _ _ _ _ _ _ _ _ _ _ hk (Or.inr (Or.inr (Or.inl rfl)))]
      simp only [territorial_owl, h1, o_23_21, o_23_25, o_23_22, o_23_26, if_false, if_true,
        true_or, or_self, Option.map_some']
      congr 2; ring
    · rw [case_total,
        territorial_case_owl _ _ _ _ _ _ _ _ _ _ _ hk (Or.inr (Or.inr (Or.inr (Or.inl rfl))))]
      simp only [territorial_owl, h1, if_false, if_true, or_true, Option.map_some', sub_zero]
    · rw [case_total, territorial_case_owl _ _ _ _ _ _ _ _ _ _ _ hk
        (Or.inr (Or.inr (Or.inr (Or.inr (Or.inl rfl)))))]
      simp only [territorial_owl, h1, o_26_21, o_26_25, if_false, if_true, or_true, or_self,
        Option.map_some']
      congr 2; ring
    · rw [case_total, territorial_case_owl _ _ _ _ _ _ _ _ _ _ _ hk
        (Or.inr (Or.inr (Or.inr (Or.inr (Or.inr rfl)))))]
      simp only [territorial_owl, h1, o_27_21, o_27_25, o_27_22, o_27_26, if_false, if_true,
        or_true, or_self, Option.map_some']
      congr 2; ring
  · intro h1 ty hty
    have hmem : ty = k.OWL_ATTACK_MOVE ∨ ty = k.OWL_ATTACK_MOVE_GOOD_KO
        ∨ ty = k.OWL_ATTACK_MOVE_BAD_KO ∨ ty = k.OWL_DEFEND_MOVE
        ∨ ty = k.OWL_DEFEND_MOVE_GOOD_KO ∨ ty = k.OWL_DEFEND_MOVE_BAD_KO := by
      simpa using hty
    rw [case_total, territorial_case_owl _ _ _ _ _ _ _ _ _ _ _ hk hmem]
    unfold territorial_owl
    dsimp only
    rw [if_pos h1]
    rfl
  · intro s hs
    constructor <;> linarith

/-- In the sample position the worm number 1, at 5, is a white worm of
effective size 3 that can be defended and is not dead, and the point 7 is
safe: an attack at 7 by Black subtracts 0, 9/5 and 3 for the three kinds. -/
theorem ko_discount_spec_witness :
    case_total small sample_constants sample_engine sample_board sample_reasons 7 2 0
        sample_territory sample_constants.ATTACK_MOVE 1 = some (0, 1)
    ∧ case_total small sample_constants sample_engine sample_board sample_reasons 7 2 0
        sample_territory sample_constants.ATTACK_MOVE_GOOD_KO 1 = some (-9 / 5, 1)
    ∧ case_total small sample_constants sample_engine sample_board sample_reasons 7 2 0
        sample_territory sample_constants.ATTACK_MOVE_BAD_KO 1 = some (-3, 1) := by
  have h := (ko_discount_spec small sample_constants sample_engine sample_board
    sample_reasons 7 2 0 sample_territory 1 (by decide)).1
    (by decide) (by decide) (by decide!) (by decide)
  refine ⟨h.1, ?_, ?_⟩
  · rw [h.2.1]; decide!
  · rw [h.2.2]; decide!

/-- C24, as stated, fails for owl reasons: with the dragon number 0 a single
stone in a ko, the clean kind `OWL_ATTACK_MOVE` subtracts 0.5 from the total,
not 0, and so do the two ko kinds, whatever the effective size 3 of the
dragon; `does_block` stays 0. -/
theorem ko_stone_counterexample :
    case_total small sample_constants ko_stone_engine sample_board small_fresh.reasons 7 2 0
        { sample_territory with registry := ko_stone_registry }
        sample_constants.OWL_ATTACK_MOVE 0 = some (-1 / 2, 0)
    ∧ case_total small sample_constants ko_stone_engine sample_board small_fresh.reasons 7 2 0
        { sample_territory with registry := ko_stone_registry }
        sample_constants.OWL_ATTACK_MOVE_GOOD_KO 0 = some (-1 / 2, 0)
    ∧ case_total small sample_constants ko_stone_engine sample_board small_fresh.reasons 7 2 0
        { sample_territory with registry := ko_stone_registry }
        sample_constants.OWL_ATTACK_MOVE_BAD_KO 0 = some (-1 / 2, 0)
    ∧ ko_stone_engine.dragon_effective_size (ko_stone_registry.dragons 0) = 3 := by
  refine ⟨by decide!, by decide!, by decide!, by decide!⟩

/-- The scalar fields of a point of the board after the loop of
`clear_move_reasons`, for the fields that the setters below work on. -/
theorem clear_fold_at (H : ℚ) (g : Int → ℚ) (l : List Int) (mv : Moves) (p : Int)
    (hp : p ∈ l) :
    (l.foldl (clear_move_data H g) mv).followup_value p = 0
    ∧ (l.foldl (clear_move_data H g) mv).reverse_followup_value p = 0
    ∧ (l.foldl (clear_move_data H g) mv).min_value p = 0
    ∧ (l.foldl (clear_move_data H g) mv).max_value p = H
    ∧ (l.foldl (clear_move_data H g) mv).maxpos_shape p = 0
    ∧ (l.foldl (clear_move_data H g) mv).numpos_shape p = 0
    ∧ (l.foldl (clear_move_data H g) mv).maxneg_shape p = 0
    ∧ (l.foldl (clear_move_data H g) mv).numneg_shape p = 0 := by
  induction l using List.reverseRecOn with
  | nil => exact absurd hp (List.not_mem_nil _)
  | append_singleton l a ih =>
    rw [List.foldl_append]
    simp only [List.foldl_cons, List.foldl_nil]
    by_cases h : p = a
    · subst h
      simp only [clear_move_data, Function.update_same]
      norm_num
    · have hl : p ∈ l := by
        rcases List.mem_append.1 hp with h1 | h1
        · exact h1
        · exact absurd (List.mem_singleton.1 h1) h
      simp only [clear_move_data, Function.update_noteq h]
      exact ih hl

/-- A run of calls of a setter that replaces one field of `move[pos]` by its
combination `op` with the value supplied leaves the fold of the values in
that field and nothing else changed. -/
theorem run_values_fold (f : Moves → Int → ℚ → Option Moves) (pos : Int)
    (get : Moves → Int → ℚ) (set : Moves → (Int → ℚ) → Moves) (op : ℚ → ℚ → ℚ)
    (hget : ∀ mv x, get (set mv x) = x) (hset : ∀ mv x y, set (set mv x) y = set mv y)
    (hid : ∀ mv, set mv (get mv) = mv)
    (hstep : ∀ mv v, f mv pos v
      = some (set mv (Function.update (get mv) pos (op (get mv pos) v)))) :
    ∀ (vs : List ℚ) (mv : Moves), run_values f pos mv vs
      = some (set mv (Function.update (get mv) pos (vs.foldl op (get mv pos)))) := by
  intro vs
  induction vs with
  | nil =>
    intro mv
    simp only [run_values, List.foldl_nil, Function.update_eq_self, hid]
  | cons v rest ih =>
    intro mv
    simp only [run_values, hstep, ih, hget, hset, Function.update_same, Function.update_idem,
      List.foldl_cons]

theorem add_followup_value_max (cfg : Config) (pos : Int) (hpos : cfg.ON_BOARD1 pos = true)
    (mv : Moves) (v : ℚ) :
    add_followup_value cfg mv pos v
      = some { mv with
          followup_value := Function.update mv.followup_value pos
            (max (mv.followup_value pos) v) } := by
  unfold add_followup_value
  rw [if_neg (by rw [hpos]; decide)]
  by_cases h : v > mv.followup_value pos
  · rw [if_pos h, max_eq_right (le_of_lt h)]
  · rw [if_neg h, max_eq_left (not_lt.1 h), Function.update_eq_self]

theorem add_reverse_followup_value_max (cfg : Config) (pos : Int)
    (hpos : cfg.ON_BOARD1 pos = true) (mv : Moves) (v : ℚ) :
    add_reverse_followup_value cfg mv pos v
      = some { mv with
          reverse_followup_value := Function.update mv.reverse_followup_value pos
            (max (mv.reverse_followup_value pos) v) } := by
  unfold add_reverse_followup_value
  rw [if_neg (by rw [hpos]; decide)]
  by_cases h : v > mv.reverse_followup_value pos
  · rw [if_pos h, max_eq_right (le_of_lt h)]
  · rw [if_neg h, max_eq_left (not_lt.1 h), Function.update_eq_self]

theorem set_minimum_move_value_max (cfg : Config) (pos : Int)
    (hpos : cfg.ON_BOARD1 pos = true) (mv : Moves) (v : ℚ) :
    set_minimum_move_value cfg mv pos v
      = some { mv with
          min_value := Function.update mv.min_value pos (max (mv.min_value pos) v) } := by
  unfold set_minimum_move_value
  rw [if_neg (by rw [hpos]; decide)]
  by_cases h : v > mv.min_value pos
  · rw [if_pos h, max_eq_right (le_of_lt h)]
  · rw [if_neg h, max_eq_left (not_lt.1 h), Function.update_eq_self]

theorem set_maximum_move_value_min (cfg : Config) (pos : Int)
    (hpos : cfg.ON_BOARD1 pos = true) (mv : Moves) (v : ℚ) :
    set_maximum_move_value cfg mv pos v
      = some { mv with
          max_value := Function.update mv.max_value pos (min (mv.max_value pos) v) } := by
  unfold set_maximum_move_value
  rw [if_neg (by rw [hpos]; decide)]
  by_cases h : v < mv.max_value pos
  · rw [if_pos h, min_eq_right (le_of_lt h)]
  · rw [if_neg h, min_eq_left (not_lt.1 h), Function.update_eq_self]

/-- The fold of `max` over a list: an upper bound of the start value and of
the list that is one of them. -/
theorem foldl_max_spec (vs : List ℚ) : ∀ a : ℚ,
    a ≤ vs.foldl max a ∧ (∀ v ∈ vs, v ≤ vs.foldl max a)
    ∧ (vs.foldl max a = a ∨ vs.foldl max a ∈ vs) := by
  induction vs with
  | nil => intro a; simp
  | cons v rest ih =>
    intro a
    obtain ⟨h1, h2, h3⟩ := ih (max a v)
    simp only [List.foldl_cons, List.mem_cons]
    refine ⟨le_trans (le_max_left _ _) h1, ?_, ?_⟩
    · intro w hw
      rcases hw with rfl | hw
      · exact le_trans (le_max_right _ _) h1
      · exact h2 w hw
    · rcases h3 with h3 | h3
      · rw [h3]
        rcases max_choice a v with h | h
        · exact Or.inl h
        · exact Or.inr (Or.inl h)
      · exact Or.inr (Or.inr h3)

/-- The fold of `min` over a list: a lower bound of the start value and of
the list that is one of them. -/
theorem foldl_min_spec (vs : List ℚ) : ∀ a : ℚ,
    vs.foldl min a ≤ a ∧ (∀ v ∈ vs, vs.foldl min a ≤ v)
    ∧ (vs.foldl min a = a ∨ vs.foldl min a ∈ vs) := by
  induction vs with
  | nil => intro a; simp
  | cons v rest ih =>
    intro a
    obtain ⟨h1, h2, h3⟩ := ih (min a v)
    simp only [List.foldl_cons, List.mem_cons]
    refine ⟨le_trans h1 (min_le_left _ _), ?_, ?_⟩
    · intro w hw
      rcases hw with rfl | hw
      · exact le_trans h1 (min_le_right _ _)
      · exact h2 w hw
    · rcases h3 with h3 | h3
      · rw [h3]
        rcases min_choice a v with h | h
        · exact Or.inl h
        · exact Or.inr (Or.inl h)
      · exact Or.inr (Or.inr h3)

/-- The folds of `max` and of `min` depend on the set of the values only,
not on their order or their repetitions. -/
theorem foldl_extreme_congr (vs ws : List ℚ) (a : ℚ) (h : ∀ v, v ∈ vs ↔ v ∈ ws) :
    vs.foldl max a = ws.foldl max a ∧ vs.foldl min a = ws.foldl min a := by
  obtain ⟨v1, v2, v3⟩ := foldl_max_spec vs a
  obtain ⟨w1, w2, w3⟩ := foldl_max_spec ws a
  obtain ⟨x1, x2, x3⟩ := foldl_min_spec vs a
  obtain ⟨y1, y2, y3⟩ := foldl_min_spec ws a
  constructor
  · apply le_antisymm
    · rcases v3 with v3 | v3
      · rw [v3]; exact w1
      · exact w2 _ ((h _).1 v3)
    · rcases w3 with w3 | w3
      · rw [w3]; exact v1
      · exact v2 _ ((h _).2 w3)
  · apply le_antisymm
    · rcases y3 with y3 | y3
      · rw [y3]; exact x1
      · exact x2 _ ((h _).2 y3)
    · rcases x3 with x3 | x3
      · rw [x3]; exact y1
      · exact y2 _ ((h _).1 x3)

/-- C25: after `clear_move_reasons`, calls `add_followup_value(pos, v_1)`,
..., `add_followup_value(pos, v_n)` for a point of the board all return and
leave `followup_value(pos)` = max(0, v_1, ..., v_n), every other field and
every other point as `clear_move_reasons` left them; the same holds of
`add_reverse_followup_value` with `reverse_followup_value` and of
`set_minimum_move_value` with `min_value`, and `set_maximum_move_value`
leaves the minimum of `HUGE_MOVE_VALUE` and the values in `max_value`. The
maximum is at least 0 and every `v_i` and is one of them, likewise the
minimum, and both are the same for two lists with the same set of values,
whatever the order and the repetitions. -/
theorem running_extremes (cfg : Config) (hc : cfg.Coherent) (H : ℚ) (g : Int → ℚ)
    (mv0 : Moves) (pos : Int) (hpos : cfg.ON_BOARD1 pos = true) (vs : List ℚ) :
    run_values (add_followup_value cfg) pos (clear_moves cfg H g mv0) vs
      = some { clear_moves cfg H g mv0 with
          followup_value := Function.update (clear_moves cfg H g mv0).followup_value pos
            (vs.foldl max 0) }
    ∧ run_values (add_reverse_followup_value cfg) pos (clear_moves cfg H g mv0) vs
      = some { clear_moves cfg H g mv0 with
          reverse_followup_value :=
            Function.update (clear_moves cfg H g mv0).reverse_followup_value pos
              (vs.foldl max 0) }
    ∧ run_values (set_minimum_move_value cfg) pos (clear_moves cfg H g mv0) vs
      = some { clear_moves cfg H g mv0 with
          min_value := Function.update (clear_moves cfg H g mv0).min_value pos
            (vs.foldl max 0) }
    ∧ run_values (set_maximum_move_value cfg) pos (clear_moves cfg H g mv0) vs
      = some { clear_moves cfg H g mv0 with
          max_value := Function.update (clear_moves cfg H g mv0).max_value pos
            (vs.foldl min H) }
    ∧ (0 ≤ vs.foldl max 0 ∧ (∀ v ∈ vs, v ≤ vs.foldl max 0)
        ∧ (vs.foldl max 0 = 0 ∨ vs.foldl max 0 ∈ vs))
    ∧ (vs.foldl min H ≤ H ∧ (∀ v ∈ vs, vs.foldl min H ≤ v)
        ∧ (vs.foldl min H = H ∨ vs.foldl min H ∈ vs))
    ∧ ∀ ws : List ℚ, (∀ v, v ∈ vs ↔ v ∈ ws) →
        vs.foldl max 0 = ws.foldl max 0 ∧ vs.foldl min H = ws.foldl min H := by
  obtain ⟨c1, c2, c3, c4, _⟩ :=
    clear_fold_at H g (board_points cfg) mv0 pos (hc.on_board_pos pos hpos)
  have r1 := run_values_fold (add_followup_value cfg) pos (fun m => m.followup_value)
    (fun m x => { m with followup_value := x }) max (fun _ _ => rfl) (fun _ _ _ => rfl)
    (fun _ => rfl) (add_followup_value_max cfg pos hpos) vs (clear_moves cfg H g mv0)
  have r2 := run_values_fold (add_reverse_followup_value cfg) pos
    (fun m => m.reverse_followup_value)
    (fun m x => { m with reverse_followup_value := x }) max (fun _ _ => rfl)
    (fun _ _ _ => rfl) (fun _ => rfl) (add_reverse_followup_value_max cfg pos hpos) vs
    (clear_moves cfg H g mv0)
  have r3 := run_values_fold (set_minimum_move_value cfg) pos (fun m => m.min_value)
    (fun m x => { m with min_value := x }) max (fun _ _ => rfl) (fun _ _ _ => rfl)
    (fun _ => rfl) (set_minimum_move_value_max cfg pos hpos) vs (clear_moves cfg H g mv0)
  have r4 := run_values_fold (set_maximum_move_value cfg) pos (fun m => m.max_value)
    (fun m x => { m with max_value := x }) min (fun _ _ => rfl) (fun _ _ _ => rfl)
    (fun _ => rfl) (set_maximum_move_value_min cfg pos hpos) vs (clear_moves cfg H g mv0)
  simp only at r1 r2 r3 r4
  have d1 : (clear_moves cfg H g mv0).followup_value pos = 0 := c1
  have d2 : (clear_moves cfg H g mv0).reverse_followup_value pos = 0 := c2
  have d3 : (clear_moves cfg H g mv0).min_value pos = 0 := c3
  have d4 : (clear_moves cfg H g mv0).max_value pos = H := c4
  rw [d1] at r1
  rw [d2] at r2
  rw [d3] at r3
  rw [d4] at r4
  exact ⟨r1, r2, r3, r4, foldl_max_spec vs 0, foldl_min_spec vs H,
    fun ws h => foldl_extreme_congr vs ws _ h |>.1 |> fun h1 =>
      ⟨h1, (foldl_extreme_congr vs ws H h).2⟩⟩

/-- On the 2 by 2 board, after `clear_move_reasons` with `HUGE_MOVE_VALUE` =
1000, the values 2, 5, 2 and -1 for the point 7 leave the followup value 5
and the maximum value -1; the values 5, -1 and 2 leave the same. -/
theorem running_extremes_witness :
    (run_values (add_followup_value small) 7 (clear_moves small 1000 (fun _ => 0) zero_moves)
        [2, 5, 2, -1]).map (fun m => m.followup_value 7) = some 5
    ∧ (run_values (set_maximum_move_value small) 7
        (clear_moves small 1000 (fun _ => 0) zero_moves)
        [2, 5, 2, -1]).map (fun m => m.max_value 7) = some (-1)
    ∧ ([2, 5, 2, -1] : List ℚ).foldl max 0 = ([5, -1, 2] : List ℚ).foldl max 0 := by
  have h := running_extremes small small_coherent 1000 (fun _ => 0) zero_moves 7
    (by decide) [2, 5, 2, -1]
  refine ⟨?_, ?_, ?_⟩
  · rw [h.1]; decide!
  · rw [h.2.2.2.1]; decide!
  · refine (h.2.2.2.2.2.2 [5, -1, 2] ?_).1
    intro v
    simp only [List.mem_cons, List.mem_singleton, List.not_mem_nil, or_false]
    tauto

/-- A run of calls of `add_shape_value` for a point of the board returns; the
four shape aggregates of the point are then the running maxima and the counts
of the positive and of the negative values. -/
theorem run_shape_values (cfg : Config) (pos : Int) (hpos : cfg.ON_BOARD1 pos = true) :
    ∀ (vs : List ℚ) (mv : Moves), ∃ mv1,
      run_values (add_shape_value cfg) pos mv vs = some mv1
      ∧ mv1.maxpos_shape pos = (vs.filter (fun v => 0 < v)).foldl max (mv.maxpos_shape pos)
      ∧ mv1.numpos_shape pos
          = mv.numpos_shape pos + ((vs.filter (fun v => 0 < v)).length : Int)
      ∧ mv1.maxneg_shape pos
          = ((vs.filter (fun v => v < 0)).map (fun v => -v)).foldl max (mv.maxneg_shape pos)
      ∧ mv1.numneg_shape pos
          = mv.numneg_shape pos + ((vs.filter (fun v => v < 0)).length : Int) := by
  intro vs
  induction vs with
  | nil => intro mv; exact ⟨mv, rfl, rfl, by simp, rfl, by simp⟩
  | cons v rest ih =>
    intro mv
    have hb : ¬ cfg.ON_BOARD1 pos = false := by rw [hpos]; decide
    rcases lt_trichotomy v 0 with hv | hv | hv
    · have hn : ¬ v > 0 := not_lt.2 (le_of_lt hv)
      obtain ⟨mv1, h0, h1, h2, h3, h4⟩ := ih
        { mv with
          maxneg_shape :=
            if -v > mv.maxneg_shape pos then Function.update mv.maxneg_shape pos (-v)
            else mv.maxneg_shape
          numneg_shape := Function.update mv.numneg_shape pos (mv.numneg_shape pos + 1) }
      refine ⟨mv1, ?_, ?_, ?_, ?_, ?_⟩
      · simp only [run_values, add_shape_value, if_neg hb, if_neg hn, if_pos hv]
        exact h0
      · rw [h1, List.filter_cons_of_neg (by simpa using hn)]
      · rw [h2, List.filter_cons_of_neg (by simpa using hn)]
      · rw [h3, List.filter_cons_of_pos (by simpa using hv), List.map_cons, List.foldl_cons]
        congr 1
        by_cases hm : -v > mv.maxneg_shape pos
        · simp only [if_pos hm, Function.update_same, max_eq_right (le_of_lt hm)]
        · simp only [if_neg hm, max_eq_left (not_lt.1 hm)]
      · rw [h4, List.filter_cons_of_pos (by simpa using hv)]
        simp only [Function.update_same, List.length_cons, Nat.cast_add, Nat.cast_one]
        ring
    · subst hv
      obtain ⟨mv1, h0, h1, h2, h3, h4⟩ := ih mv
      refine ⟨mv1, ?_, ?_, ?_, ?_, ?_⟩
      · simp only [run_values, add_shape_value, if_neg hb, lt_irrefl, gt_iff_lt, if_false]
        exact h0
      · rw [h1, List.filter_cons_of_neg (by simp)]
      · rw [h2, List.filter_cons_of_neg (by simp)]
      · rw [h3, List.filter_cons_of_neg (by simp)]
      · rw [h4, List.filter_cons_of_neg (by simp)]
    · have hp : v > 0 := hv
      have hn : ¬ v < 0 := not_lt.2 (le_of_lt hv)
      obtain ⟨mv1, h0, h1, h2, h3, h4⟩ := ih
        { mv with
          maxpos_shape :=
            if v > mv.maxpos_shape pos then Function.update mv.maxpos_shape pos v
            else mv.maxpos_shape
          numpos_shape := Function.update mv.numpos_shape pos (mv.numpos_shape pos + 1) }
      refine ⟨mv1, ?_, ?_, ?_, ?_, ?_⟩
      · simp only [run_values, add_shape_value, if_neg hb, if_pos hp]
        exact h0
      · rw [h1, List.filter_cons_of_pos (by simpa using hv), List.foldl_cons]
        congr 1
        by_cases hm : v > mv.maxpos_shape pos
        · simp only [if_pos hm, Function.update_same, max_eq_right (le_of_lt hm)]
        · simp only [if_neg hm, max_eq_left (not_lt.1 hm)]
      · rw [h2, List.filter_cons_of_pos (by simpa using hv)]
        simp only [Function.update_same, List.length_cons, Nat.cast_add, Nat.cast_one]
        ring
      · rw [h3, List.filter_cons_of_neg (by simpa using hn)]
      · rw [h4, List.filter_cons_of_neg (by simpa using hn)]

/-- The exponent of `compute_shape_factor` gets `n - 1` for a count `n > 1`
and nothing otherwise. -/
theorem extra_count (x : ℚ) (n : Nat) :
    (if ((n : Int)) > 1 then x + (((n : Int) - 1 : Int) : ℚ) else x)
      = x + max ((n : ℚ) - 1) 0
    ∧ (if ((n : Int)) > 1 then x - (((n : Int) - 1 : Int) : ℚ) else x)
      = x - max ((n : ℚ) - 1) 0 := by
  by_cases h : (n : Int) > 1
  · have h1 : (1 : ℚ) ≤ (n : ℚ) := by
      have : (1 : Int) ≤ (n : Int) := le_of_lt h
      exact_mod_cast this
    rw [if_pos h, if_pos h, max_eq_left (by linarith)]
    push_cast
    exact ⟨rfl, rfl⟩
  · have h1 : (n : ℚ) ≤ 1 := by
      have : (n : Int) ≤ 1 := not_lt.1 h
      exact_mod_cast this
    rw [if_neg h, if_neg h, max_eq_right (by linarith)]
    simp

/-- C26: after `clear_move_reasons`, calls `add_shape_value(pos, v_1)`, ...,
`add_shape_value(pos, v_n)` for a point of the board all return, and then
`compute_shape_factor(pos)` is `pow(1.05, e)` with
`e = P - N + max(np - 1, 0) - max(nn - 1, 0)`: `P` the largest positive value
(0 if none), `N` the largest absolute value of a negative value (0 if none),
`np` and `nn` the numbers of positive and of negative values. A call with the
value 0 changes nothing. -/
theorem shape_factor_spec (cfg : Config) (hc : cfg.Coherent) (e : Engine) (H : ℚ)
    (g : Int → ℚ) (mv0 : Moves) (pos : Int) (hpos : cfg.ON_BOARD1 pos = true)
    (vs : List ℚ) :
    (∃ mv1, run_values (add_shape_value cfg) pos (clear_moves cfg H g mv0) vs = some mv1
      ∧ compute_shape_factor cfg e mv1 pos
        = some (e.pow 1.05
            ((vs.filter (fun v => 0 < v)).foldl max 0
              - ((vs.filter (fun v => v < 0)).map (fun v => -v)).foldl max 0
              + max (((vs.filter (fun v => 0 < v)).length : ℚ) - 1) 0
              - max (((vs.filter (fun v => v < 0)).length : ℚ) - 1) 0)))
    ∧ ∀ mv : Moves, add_shape_value cfg mv pos 0 = some mv := by
  constructor
  · obtain ⟨_, _, _, _, c5, c6, c7, c8⟩ :=
      clear_fold_at H g (board_points cfg) mv0 pos (hc.on_board_pos pos hpos)
    have d5 : (clear_moves cfg H g mv0).maxpos_shape pos = 0 := c5
    have d6 : (clear_moves cfg H g mv0).numpos_shape pos = 0 := c6
    have d7 : (clear_moves cfg H g mv0).maxneg_shape pos = 0 := c7
    have d8 : (clear_moves cfg H g mv0).numneg_shape pos = 0 := c8
    obtain ⟨mv1, h0, h1, h2, h3, h4⟩ :=
      run_shape_values cfg pos hpos vs (clear_moves cfg H g mv0)
    rw [d5] at h1
    rw [d6, zero_add] at h2
    rw [d7] at h3
    rw [d8, zero_add] at h4
    refine ⟨mv1, h0, ?_⟩
    unfold compute_shape_factor
    rw [if_neg (by rw [hpos]; decide)]
    dsimp only
    rw [h1, h2, h3, h4, (extra_count _ _).1, (extra_count _ _).2]
  · intro mv
    unfold add_shape_value
    rw [if_neg (by rw [hpos]; decide), if_neg (lt_irrefl _), if_neg (lt_irrefl _)]

/-- On the 2 by 2 board the shape values 3, -1, 2, 0 and -1/2 of the point 7
give the exponent 3 - 1 + 1 - 1 = 2 and the shape factor 1.05 * 1.05. -/
theorem shape_factor_spec_witness :
    ∃ mv1, run_values (add_shape_value small) 7
        (clear_moves small 1000 (fun _ => 0) zero_moves) [3, -1, 2, 0, -1 / 2] = some mv1
      ∧ compute_shape_factor small power_engine mv1 7 = some (441 / 400) := by
  obtain ⟨mv1, h0, h1⟩ := (shape_factor_spec small small_coherent power_engine 1000
    (fun _ => 0) zero_moves 7 (by decide) [3, -1, 2, 0, -1 / 2]).1
  refine ⟨mv1, h0, ?_⟩
  rw [h1]
  decide!

theorem add_followup_value_shape (cfg : Config) (mv sh : Moves) (pos : Int) (v : ℚ) :
    add_followup_value cfg (with_shape mv sh) pos v
      = (add_followup_value cfg mv pos v).map fun m => with_shape m sh := by
  unfold add_followup_value
  dsimp only [with_shape]
  split_ifs <;> rfl

theorem add_reverse_followup_value_shape (cfg : Config) (mv sh : Moves) (pos : Int) (v : ℚ) :
    add_reverse_followup_value cfg (with_shape mv sh) pos v
      = (add_reverse_followup_value cfg mv pos v).map fun m => with_shape m sh := by
  unfold add_reverse_followup_value
  dsimp only [with_shape]
  split_ifs <;> rfl

theorem map_followup_shape (cfg : Config) (sh : Moves) (acc : Territory) (pos : Int) (v : ℚ) :
    (add_followup_value cfg (reshape sh acc).moves pos v).map
        (fun mv => { reshape sh acc with moves := mv })
      = ((add_followup_value cfg acc.moves pos v).map
          fun mv => { acc with moves := mv }).map (reshape sh) := by
  show (add_followup_value cfg (with_shape acc.moves sh) pos v).map _ = _
  rw [add_followup_value_shape, Option.map_map, Option.map_map]
  rfl

theorem territorial_attack_shape (k : Constants) (e : Engine) (b : Board) (pos color : Int)
    (sh : Moves) (acc : Territory) (ty what : Int) :
    territorial_attack k e b pos color (reshape sh acc) ty what
      = (territorial_attack k e b pos color acc ty what).map (reshape sh) := by
  unfold territorial_attack
  dsimp only [reshape, with_shape]
  split_ifs <;> rfl

theorem territorial_defend_shape (k : Constants) (e : Engine) (b : Board) (pos color : Int)
    (sh : Moves) (acc : Territory) (ty what : Int) :
    territorial_defend k e b pos color (reshape sh acc) ty what
      = (territorial_defend k e b pos color acc ty what).map (reshape sh) := by
  unfold territorial_defend strategically_sound_defense
  dsimp only [reshape, with_shape]
  split_ifs <;> rfl

theorem territorial_owl_shape (k : Constants) (e : Engine) (b : Board)
    (sh : Moves) (acc : Territory) (ty what : Int) :
    territorial_owl k e b (reshape sh acc) ty what
      = (territorial_owl k e b acc ty what).map (reshape sh) := by
  unfold territorial_owl
  dsimp only [reshape, with_shape]
  by_cases h : e.dragon_size (acc.registry.dragons what.toNat) = 1
      ∧ e.is_ko_point (acc.registry.dragons what.toNat) = true
  · simp only [if_pos h]; rfl
  · simp only [if_neg h]; rfl

theorem territorial_attack_threat_shape (cfg : Config) (k : Constants) (e : Engine)
    (b : Board) (pos color : Int) (sh : Moves) (acc : Territory) (what : Int) :
    territorial_attack_threat cfg k e b pos color (reshape sh acc) what
      = (territorial_attack_threat cfg k e b pos color acc what).map (reshape sh) := by
  unfold territorial_attack_threat
  dsimp only
  have hr : (reshape sh acc).registry = acc.registry := rfl
  rw [hr]
  by_cases c0 : b.board (acc.registry.worms what.toNat) = color
  · simp only [if_pos c0]; rfl
  simp only [if_neg c0]
  by_cases c1 : e.dragon_matcher_status (acc.registry.worms what.toNat) = k.DEAD
  · simp only [if_pos c1]; rfl
  simp only [if_neg c1]
  rcases e.trymove pos color with _ | tr
  · rfl
  · dsimp only
    split_ifs <;> first | rfl | exact map_followup_shape cfg sh acc pos _

theorem territorial_defend_threat_shape (cfg : Config) (k : Constants) (e : Engine)
    (b : Board) (pos color : Int) (sh : Moves) (acc : Territory) (what : Int) :
    territorial_defend_threat cfg k e b pos color (reshape sh acc) what
      = (territorial_defend_threat cfg k e b pos color acc what).map (reshape sh) := by
  unfold territorial_defend_threat
  dsimp only
  have hr : (reshape sh acc).registry = acc.registry := rfl
  rw [hr]
  by_cases c0 : b.board (acc.registry.worms what.toNat) = color
  · simp only [if_pos c0]; rfl
  simp only [if_neg c0]
  by_cases c1 : e.dragon_matcher_status (acc.registry.worms what.toNat) = k.DEAD
  · simp only [if_pos c1]; rfl
  simp only [if_neg c1]
  exact map_followup_shape cfg sh acc pos _

theorem territorial_owl_attack_threat_shape (cfg : Config) (k : Constants) (e : Engine)
    (t : Reasons) (pos color : Int) (sh : Moves) (acc : Territory) (what : Int) :
    territorial_owl_attack_threat cfg k e t pos color (reshape sh acc) what
      = (territorial_owl_attack_threat cfg k e t pos color acc what).map (reshape sh) := by
  unfold territorial_owl_attack_threat
  dsimp only
  have hr : (reshape sh acc).registry = acc.registry := rfl
  rw [hr]
  by_cases c1 : e.dragon_matcher_status (acc.registry.dragons what.toNat) = k.DEAD
  · simp only [if_pos c1]; rfl
  simp only [if_neg c1]
  rcases (List.range (e.DRAGON2_neighbors (acc.registry.dragons what.toNat)).toNat).foldl
      (critical_neighbor cfg k e t pos color (acc.registry.dragons what.toNat))
      (some (2 * e.dragon_effective_size (acc.registry.dragons what.toNat), acc.registry))
    with _ | ⟨value, g⟩
  · rfl
  · dsimp only
    split_ifs
    · show (add_followup_value cfg (with_shape acc.moves sh) pos value).map _ = _
      rw [add_followup_value_shape, Option.map_map, Option.map_map]
      rfl
    · rfl

theorem territorial_owl_prevent_threat_shape (cfg : Config) (k : Constants) (e : Engine)
    (pos color : Int) (score : ℚ) (sh : Moves) (acc : Territory) (what : Int) :
    territorial_owl_prevent_threat cfg k e pos color score (reshape sh acc) what
      = (territorial_owl_prevent_threat cfg k e pos color score acc what).map
          (reshape sh) := by
  unfold territorial_owl_prevent_threat
  dsimp only
  have hr : (reshape sh acc).registry = acc.registry := rfl
  rw [hr]
  split_ifs
  · rfl
  · rfl
  · show (add_reverse_followup_value cfg (with_shape acc.moves sh) pos _).map _ = _
    rw [add_reverse_followup_value_shape, Option.map_map, Option.map_map]
    rfl

/-- A round of the loop of `estimate_territorial_value` neither reads nor
writes the shape aggregates. -/
theorem territorial_case_shape (cfg : Config) (k : Constants) (e : Engine) (b : Board)
    (t : Reasons) (pos color : Int) (score : ℚ) (sh : Moves) (acc : Territory)
    (ty what : Int) :
    territorial_case cfg k e b t pos color score (reshape sh acc) ty what
      = (territorial_case cfg k e b t pos color score acc ty what).map (reshape sh) := by
  unfold territorial_case
  by_cases c0 : ty = k.ATTACK_MOVE ∨ ty = k.ATTACK_MOVE_GOOD_KO ∨ ty = k.ATTACK_MOVE_BAD_KO
  · simp only [if_pos c0]
    exact territorial_attack_shape k e b pos color sh acc ty what
  simp only [if_neg c0]
  by_cases c1 : ty = k.DEFEND_MOVE ∨ ty = k.DEFEND_MOVE_GOOD_KO ∨ ty = k.DEFEND_MOVE_BAD_KO
  · simp only [if_pos c1]
    exact territorial_defend_shape k e b pos color sh acc ty what
  simp only [if_neg c1]
  by_cases c2 : ty = k.ATTACK_THREAT_MOVE
  · simp only [if_pos c2]
    exact territorial_attack_threat_shape cfg k e b pos color sh acc what
  simp only [if_neg c2]
  by_cases c3 : ty = k.DEFEND_THREAT_MOVE
  · simp only [if_pos c3]
    exact territorial_defend_threat_shape cfg k e b pos color sh acc what
  simp only [if_neg c3]
  by_cases c4 : ty = k.UNCERTAIN_OWL_DEFENSE
  · simp only [if_pos c4]
    rfl
  simp only [if_neg c4]
  by_cases c5 : ty = k.CONNECT_MOVE ∨ ty = k.CUT_MOVE ∨ ty = k.STRATEGIC_ATTACK_MOVE
      ∨ ty = k.STRATEGIC_DEFEND_MOVE ∨ ty = k.BLOCK_TERRITORY_MOVE
  · simp only [if_pos c5]
    rfl
  simp only [if_neg c5]
  by_cases c6 : ty = k.EXPAND_MOYO_MOVE ∨ ty = k.EXPAND_TERRITORY_MOVE
  · simp only [if_pos c6]
    rfl
  simp only [if_neg c6]
  by_cases c7 : ty = k.SEMEAI_MOVE
  · simp only [if_pos c7]
    rfl
  simp only [if_neg c7]
  by_cases c8 : ty = k.SEMEAI_THREAT
  · simp only [if_pos c8]
    exact map_followup_shape cfg sh acc pos _
  simp only [if_neg c8]
  by_cases c9 : ty = k.VITAL_EYE_MOVE
  · simp only [if_pos c9]
    rfl
  simp only [if_neg c9]
  by_cases c10 : ty = k.OWL_ATTACK_MOVE ∨ ty = k.OWL_ATTACK_MOVE_GOOD_KO
      ∨ ty = k.OWL_ATTACK_MOVE_BAD_KO ∨ ty = k.OWL_DEFEND_MOVE
      ∨ ty = k.OWL_DEFEND_MOVE_GOOD_KO ∨ ty = k.OWL_DEFEND_MOVE_BAD_KO
  · simp only [if_pos c10]
    exact territorial_owl_shape k e b sh acc ty what
  simp only [if_neg c10]
  by_cases c11 : ty = k.OWL_ATTACK_THREAT
  · simp only [if_pos c11]
    exact territorial_owl_attack_threat_shape cfg k e t pos color sh acc what
  simp only [if_neg c11]
  by_cases c12 : ty = k.OWL_DEFENSE_THREAT
  · simp only [if_pos c12]
    exact map_followup_shape cfg sh acc pos _
  simp only [if_neg c12]
  by_cases c13 : ty = k.OWL_PREVENT_THREAT
  · simp only [if_pos c13]
    exact territorial_owl_prevent_threat_shape cfg k e pos color score sh acc what
  simp only [if_neg c13]
  by_cases c14 : ty = k.MY_ATARI_ATARI_MOVE
  · simp only [if_pos c14]
    rfl
  simp only [if_neg c14]
  by_cases c15 : ty = k.YOUR_ATARI_ATARI_MOVE
  · simp only [if_pos c15]
    rfl
  simp only [if_neg c15]
  rfl

theorem territorial_loop_shape (cfg : Config) (k : Constants) (e : Engine) (b : Board)
    (t : Reasons) (pos color : Int) (score : ℚ) (sh : Moves) :
    ∀ fuel i (acc : Territory),
      territorial_loop cfg k e b t pos color score fuel i (reshape sh acc)
        = (territorial_loop cfg k e b t pos color score fuel i acc).map (reshape sh) := by
  intro fuel
  induction fuel with
  | zero => intro i acc; rfl
  | succ n ih =>
    intro i acc
    simp only [territorial_loop]
    by_cases c0 : t.reason pos i < 0
    · simp only [if_pos c0]; rfl
    simp only [if_neg c0]
    by_cases c1 : Int.land (t.move_reasons (t.reason pos i).toNat).status
        k.TERRITORY_REDUNDANT ≠ 0
    · simp only [if_pos c1]; exact ih _ _
    simp only [if_neg c1]
    rw [territorial_case_shape]
    rcases territorial_case cfg k e b t pos color score acc
        (t.move_reasons (t.reason pos i).toNat).type
        (t.move_reasons (t.reason pos i).toNat).what with _ | acc1
    · rfl
    · exact ih _ _

/-- The function `estimate_territorial_value` neither reads nor writes the
shape aggregates. -/
theorem estimate_territorial_value_shape (cfg : Config) (k : Constants) (e : Engine)
    (b : Board) (t : Reasons) (g : Registry) (mv sh : Moves) (pos color : Int) (score : ℚ) :
    estimate_territorial_value cfg k e b t g (with_shape mv sh) pos color score
      = (estimate_territorial_value cfg k e b t g mv pos color score).map
          fun r => (with_shape r.1 sh, r.2) := by
  unfold estimate_territorial_value
  have h := territorial_loop_shape cfg k e b t pos color score sh cfg.MAX_REASONS 0
    { tot_value := 0, secondary_value := 0, does_block := 0, saved_stones := fun _ => 0,
      moves := mv, registry := g }
  have h0 :
      reshape sh
        { tot_value := 0, secondary_value := 0, does_block := 0, saved_stones := fun _ => 0,
          moves := mv, registry := g }
      = { tot_value := 0, secondary_value := 0, does_block := 0, saved_stones := fun _ => 0,
          moves := with_shape mv sh, registry := g } := rfl
  rw [h0] at h
  rw [h]
  rcases territorial_loop cfg k e b t pos color score cfg.MAX_REASONS 0
      { tot_value := 0, secondary_value := 0, does_block := 0, saved_stones := fun _ => 0,
        moves := mv, registry := g } with _ | acc
  · rfl
  · rfl

theorem strategical_case_shape (cfg : Config) (k : Constants) (e : Engine) (b : Board)
    (t : Reasons) (mv sh : Moves) (pos color : Int) (score : ℚ) (acc : Strategy)
    (ty what : Int) :
    strategical_case cfg k e b t (with_shape mv sh) pos color score acc ty what
      = strategical_case cfg k e b t mv pos color score acc ty what := rfl

theorem strategical_loop_shape (cfg : Config) (k : Constants) (e : Engine) (b : Board)
    (t : Reasons) (mv sh : Moves) (pos color : Int) (score : ℚ) :
    ∀ fuel i (acc : Strategy),
      strategical_loop cfg k e b t (with_shape mv sh) pos color score fuel i acc
        = strategical_loop cfg k e b t mv pos color score fuel i acc := by
  intro fuel
  induction fuel with
  | zero => intro i acc; rfl
  | succ n ih =>
    intro i acc
    simp only [strategical_loop, strategical_case_shape, ih]

/-- The function `estimate_strategical_value` neither reads nor writes the
shape aggregates. -/
theorem estimate_strategical_value_shape (cfg : Config) (k : Constants) (e : Engine)
    (b : Board) (t : Reasons) (g : Registry) (dv : Nat → ℚ) (mv sh : Moves)
    (pos color : Int) (score : ℚ) :
    estimate_strategical_value cfg k e b t g dv (with_shape mv sh) pos color score
      = (estimate_strategical_value cfg k e b t g dv mv pos color score).map
          fun r => (with_shape r.1 sh, r.2.1, r.2.2) := by
  unfold estimate_strategical_value
  rw [strategical_loop_shape]
  rcases strategical_loop cfg k e b t mv pos color score cfg.MAX_REASONS 0
      { tot_value := 0
        dragon_value := fun d => if d < g.next_dragon then 0 else dv d
        registry := g } with _ | acc
  · rfl
  · dsimp only
    rcases (List.range acc.registry.next_dragon).foldl (strategical_dragon cfg k e t pos)
        (some acc) with _ | acc1
    · rfl
    · rfl

/-- The estimates of `value_move_reasons` neither read nor write the shape
aggregates: they commute with a change of these. -/
theorem estimate_values_shape (cfg : Config) (k : Constants) (e : Engine) (b : Board)
    (s : Valuation) (sh : Moves) (pos color : Int) (score : ℚ) :
    estimate_values cfg k e b { s with moves := with_shape s.moves sh } pos color score
      = (estimate_values cfg k e b s pos color score).map
          fun s1 => { s1 with moves := with_shape s1.moves sh } := by
  unfold estimate_values
  dsimp only
  rcases count_reasons (s.reasons.reason pos) cfg.MAX_REASONS 0 with _ | n
  · rfl
  dsimp only
  rcases discard_redundant_move_reasons cfg k e b (sort_reasons s.reasons pos n)
      s.registry pos with _ | ⟨t1, g1⟩
  · rfl
  dsimp only
  rw [estimate_territorial_value_shape]
  rcases estimate_territorial_value cfg k e b t1 g1 s.moves pos color score with _ | ⟨mv2, g2⟩
  · rfl
  dsimp only [Option.map_some']
  rw [estimate_strategical_value_shape]
  rcases estimate_strategical_value cfg k e b t1 g2 s.dragon_value mv2 pos color score
    with _ | ⟨mv3, g3, dv3⟩
  · rfl
  · rfl

/-- The end of `value_move_reasons` for a total that is not positive, when
the pure threat adjustment does not apply: the value returned is the total
between the bounds, whatever the shape factor. -/
theorem tail_without_shape (cfg : Config) (e : Engine) (c : Referee) (b : Board) (mv : Moves)
    (pos color : Int) (pure_threat_value shape_factor tot : ℚ) (htot : tot ≤ 0)
    (hthreat : pure_threat_value ≤ 0 ∨ mv.worthwhile_threat pos = 0
      ∨ b.board pos ≠ cfg.EMPTY ∨ c.is_legal pos color = false
      ∨ c.move_reasons_confirm_safety pos color 0 = false) :
    (bound_value (followup_adjustment cfg e b mv pos color shape_factor tot).2 pos
      (threat_adjusted cfg c b (followup_adjustment cfg e b mv pos color shape_factor tot).2
        pos color pure_threat_value
        (followup_adjustment cfg e b mv pos color shape_factor tot).1)).1
      = (bound_value mv pos tot).1 := by
  have hf : followup_adjustment cfg e b mv pos color shape_factor tot
      = (tot,
        { mv with
          additional_ko_value := Function.update mv.additional_ko_value pos
            (shape_factor * (mv.followup_value pos
              + gg_min (mv.followup_value pos) (mv.reverse_followup_value pos))) }) := by
    unfold followup_adjustment
    rw [if_neg (not_lt.2 htot)]
  rw [hf]
  have ht : threat_adjusted cfg c b
      { mv with
        additional_ko_value := Function.update mv.additional_ko_value pos
          (shape_factor * (mv.followup_value pos
            + gg_min (mv.followup_value pos) (mv.reverse_followup_value pos))) }
      pos color pure_threat_value tot = tot := by
    unfold threat_adjusted
    rw [if_neg]
    rintro ⟨a1, a2, _, a4, _, a6, a7⟩
    rcases hthreat with h | h | h | h | h
    · exact absurd a1 (not_lt.2 h)
    · exact a2 h
    · exact h a4
    · rw [h] at a6; exact absurd a6 (by decide)
    · rw [h] at a7; exact absurd a7 (by decide)
  dsimp only
  rw [ht]
  rfl

theorem followup_adjustment_estimates (cfg : Config) (e : Engine) (b : Board) (mv : Moves)
    (pos color : Int) (shape_factor tot : ℚ) :
    (followup_adjustment cfg e b mv pos color shape_factor tot).2.territorial_value
        = mv.territorial_value
    ∧ (followup_adjustment cfg e b mv pos color shape_factor tot).2.strategical_value
        = mv.strategical_value := by
  unfold followup_adjustment
  split <;> exact ⟨rfl, rfl⟩

theorem compute_shape_factor_returns (cfg : Config) (e : Engine) (mv mv1 : Moves) (pos : Int)
    (sf : ℚ) (h : compute_shape_factor cfg e mv pos = some sf) :
    ∃ sf1, compute_shape_factor cfg e mv1 pos = some sf1 := by
  unfold compute_shape_factor at h ⊢
  by_cases hb : cfg.ON_BOARD1 pos = false
  · rw [if_pos hb] at h; exact absurd h (by simp)
  · rw [if_neg hb]; exact ⟨_, rfl⟩

/-- C27, as amended: take a call of `value_move_reasons` that returns the
value `v` with a total `territorial_value + strategical_value <= 0`, and
suppose that the pure threat adjustment does not apply (`pure_threat_value`
is not positive, or the point is not flagged as a worthwhile threat, or is
not empty, or the move is not legal, or its safety is not confirmed). Then
the call with other shape aggregates, everything else the same, returns `v`
as well. -/
theorem shape_independent_value (cfg : Config) (k : Constants) (e : Engine) (c : Referee)
    (b : Board) (s s1 : Valuation) (sh : Moves) (pos color : Int)
    (pure_threat_value score v : ℚ)
    (h : value_move_reasons cfg k e c b s pos color pure_threat_value score = some (s1, v))
    (htot : s1.moves.territorial_value pos + s1.moves.strategical_value pos ≤ 0)
    (hthreat : pure_threat_value ≤ 0 ∨ s.moves.worthwhile_threat pos = 0
      ∨ b.board pos ≠ cfg.EMPTY ∨ c.is_legal pos color = false
      ∨ c.move_reasons_confirm_safety pos color 0 = false) :
    (value_move_reasons cfg k e c b { s with moves := with_shape s.moves sh } pos color
      pure_threat_value score).map Prod.snd = some v := by
  unfold value_move_reasons at h ⊢
  dsimp only at h ⊢
  by_cases h1 : b.stackp ≠ 0
  · rw [if_pos h1] at h; exact absurd h (by simp)
  rw [if_neg h1] at h ⊢
  by_cases h2 : is_antisuji_move cfg k s.reasons pos ≠ 0
  · rw [if_pos h2] at h ⊢
    simp only [Option.some.injEq, Prod.mk.injEq] at h
    rw [← h.2]
    rfl
  rw [if_neg h2] at h ⊢
  have key : ∀ s2 : Valuation, s2.moves.worthwhile_threat = s.moves.worthwhile_threat →
      (match compute_shape_factor cfg e s2.moves pos with
        | none => none
        | some shape_factor =>
          some ({ s2 with
                  moves := (bound_value
                    (followup_adjustment cfg e b s2.moves pos color shape_factor
                      (s2.moves.territorial_value pos + s2.moves.strategical_value pos)).2 pos
                    (threat_adjusted cfg c b
                      (followup_adjustment cfg e b s2.moves pos color shape_factor
                        (s2.moves.territorial_value pos + s2.moves.strategical_value pos)).2
                      pos color pure_threat_value
                      (followup_adjustment cfg e b s2.moves pos color shape_factor
                        (s2.moves.territorial_value pos
                          + s2.moves.strategical_value pos)).1)).2 },
                (bound_value
                    (followup_adjustment cfg e b s2.moves pos color shape_factor
                      (s2.moves.territorial_value pos + s2.moves.strategical_value pos)).2 pos
                    (threat_adjusted cfg c b
                      (followup_adjustment cfg e b s2.moves pos color shape_factor
                        (s2.moves.territorial_value pos + s2.moves.strategical_value pos)).2
                      pos color pure_threat_value
                      (followup_adjustment cfg e b s2.moves pos color shape_factor
                        (s2.moves.territorial_value pos
                          + s2.moves.strategical_value pos)).1)).1)) = some (s1, v) →
      ∀ F : ℚ → Valuation,
      (match compute_shape_factor cfg e (with_shape s2.moves sh) pos with
        | none => none
        | some shape_factor =>
          some (F shape_factor,
                (bound_value
                    (followup_adjustment cfg e b (with_shape s2.moves sh) pos color
                      shape_factor
                      (s2.moves.territorial_value pos + s2.moves.strategical_value pos)).2 pos
                    (threat_adjusted cfg c b
                      (followup_adjustment cfg e b (with_shape s2.moves sh) pos color
                        shape_factor
                        (s2.moves.territorial_value pos + s2.moves.strategical_value pos)).2
                      pos color pure_threat_value
                      (followup_adjustment cfg e b (with_shape s2.moves sh) pos color
                        shape_factor
                        (s2.moves.territorial_value pos
                          + s2.moves.strategical_value pos)).1)).1)).map Prod.snd
        = some v := by
    intro s2 hw hrun F
    rcases hsf : compute_shape_factor cfg e s2.moves pos with _ | sf
    · rw [hsf] at hrun; exact absurd hrun (by simp)
    rw [hsf] at hrun
    obtain ⟨sf1, hsf1⟩ := compute_shape_factor_returns cfg e _ (with_shape s2.moves sh) pos sf hsf
    rw [hsf1]
    simp only [Option.some.injEq, Prod.mk.injEq] at hrun
    have ht2 : s2.moves.territorial_value pos + s2.moves.strategical_value pos ≤ 0 := by
      have e1 : s1.moves.territorial_value = s2.moves.territorial_value := by
        rw [← hrun.1]
        exact (followup_adjustment_estimates cfg e b s2.moves pos color sf _).1
      have e2 : s1.moves.strategical_value = s2.moves.strategical_value := by
        rw [← hrun.1]
        exact (followup_adjustment_estimates cfg e b s2.moves pos color sf _).2
      rw [e1, e2] at htot
      exact htot
    have hth2 : pure_threat_value ≤ 0 ∨ s2.moves.worthwhile_threat pos = 0
        ∨ b.board pos ≠ cfg.EMPTY ∨ c.is_legal pos color = false
        ∨ c.move_reasons_confirm_safety pos color 0 = false := by
      rw [hw]; exact hthreat
    have a1 := tail_without_shape cfg e c b s2.moves pos color pure_threat_value sf _ ht2 hth2
    have a2 := tail_without_shape cfg e c b (with_shape s2.moves sh) pos color
      pure_threat_value sf1 _ ht2 hth2
    simp only [Option.map_some', Option.some.injEq]
    rw [a2, ← hrun.2, a1]
    rfl
  by_cases h3 : (e.urgent = 0 ∨ e.allpats ≠ 0)
      ∧ (s.reasons.reason pos 0 ≥ 0 ∨ s.moves.min_territory pos > 0)
  · have h3' : (e.urgent = 0 ∨ e.allpats ≠ 0)
        ∧ (s.reasons.reason pos 0 ≥ 0 ∨ (with_shape s.moves sh).min_territory pos > 0) := h3
    rw [if_pos h3] at h
    rw [if_pos h3', estimate_values_shape]
    rcases hs2 : estimate_values cfg k e b s pos color score with _ | s2
    · rw [hs2] at h; exact absurd h (by simp)
    rw [hs2] at h
    have hw : s2.moves.worthwhile_threat = s.moves.worthwhile_threat := by
      rw [estimate_values_fields cfg k e b s s2 pos color score hs2]
    exact key s2 hw h _
  · have h3' : ¬ ((e.urgent = 0 ∨ e.allpats ≠ 0)
        ∧ (s.reasons.reason pos 0 ≥ 0 ∨ (with_shape s.moves sh).min_territory pos > 0)) := h3
    rw [if_neg h3] at h
    rw [if_neg h3']
    exact key s rfl h _

/-- With the pure threat value 0 the attack with a good ko at the point 7,
of total -9/5, is valued the same with and without a shape value. -/
theorem shape_independent_value_witness :
    ∃ s1 v, value_move_reasons small sample_constants power_engine ko_referee sample_board
        threat_valuation 7 2 0 0 = some (s1, v)
      ∧ s1.moves.territorial_value 7 + s1.moves.strategical_value 7 = -9 / 5
      ∧ (value_move_reasons small sample_constants power_engine ko_referee sample_board
          { threat_valuation with moves := with_shape threat_valuation.moves one_shape }
          7 2 0 0).map Prod.snd = some v := by
  obtain ⟨r, hr⟩ := Option.isSome_iff_exists.1
    (show (value_move_reasons small sample_constants power_engine ko_referee sample_board
        threat_valuation 7 2 0 0).isSome = true by decide!)
  have htot : r.1.moves.territorial_value 7 + r.1.moves.strategical_value 7 = -9 / 5 := by
    have : (value_move_reasons small sample_constants power_engine ko_referee sample_board
        threat_valuation 7 2 0 0).map
        (fun r => r.1.moves.territorial_value 7 + r.1.moves.strategical_value 7)
        = some (-9 / 5) := by decide!
    rw [hr] at this
    simpa using this
  exact ⟨r.1, r.2, hr, htot,
    shape_independent_value small sample_constants power_engine ko_referee sample_board
      threat_valuation r.1 one_shape 7 2 0 0 r.2 hr (by rw [htot]; norm_num)
      (Or.inl (le_refl 0))⟩

/-- C27, as stated, fails: the point 7 has no reason, so its total is 0, the
followup value 1 and the flag of a worthwhile threat. With the pure threat
value 10 `value_move_reasons` returns 9/40 without shape values and 189/800
after `add_shape_value(7, 1)`: for a total that is not positive the shape
factor goes into `additional_ko_value`, which the pure threat adjustment
reads. -/
theorem shape_counterexample :
    (value_move_reasons small sample_constants power_engine ko_referee sample_board
        quiet_valuation 7 2 10 0).map
      (fun r => (r.2, r.1.moves.territorial_value 7 + r.1.moves.strategical_value 7,
        r.1.moves.additional_ko_value 7)) = some (9 / 40, 0, 1)
    ∧ (value_move_reasons small sample_constants power_engine ko_referee sample_board
        { quiet_valuation with moves := with_shape quiet_valuation.moves one_shape }
        7 2 10 0).map
      (fun r => (r.2, r.1.moves.territorial_value 7 + r.1.moves.strategical_value 7,
        r.1.moves.additional_ko_value 7)) = some (189 / 800, 0, 21 / 20) := by
  refine ⟨by decide!, by decide!⟩

/-- After `examine_move_safety` the field `move_safety` of a point of the
board holds what the body of the loops computes for that point. -/
theorem examine_move_safety_at (cfg : Config) (k : Constants) (e : Engine) (w : Watch)
    (b : Board) (t : Reasons) (g : Registry) (mv : Moves) (color pos : Int)
    (hpos : pos ∈ board_points cfg) :
    (examine_move_safety cfg k e w b t g mv color).move_safety pos
      = examine_point cfg k e w b t g color pos := by
  unfold examine_move_safety
  generalize board_points cfg = l at hpos
  induction l using List.reverseRecOn with
  | nil => exact absurd hpos (List.not_mem_nil _)
  | append_singleton l a ih =>
    rw [List.foldl_append]
    simp only [List.foldl_cons, List.foldl_nil]
    by_cases h : pos = a
    · subst h
      simp only [Function.update_same]
    · have hl : pos ∈ l := by
        rcases List.mem_append.1 hpos with h1 | h1
        · exact h1
        · exact absurd (List.mem_singleton.1 h1) h
      simp only [Function.update_noteq h]
      exact ih hl

/-- Without a string of the mover among the neighbours of the worm, the loop
over these neighbours counts nothing and leaves `bb` alone. -/
theorem friendly_string_none (w : Watch) (b : Board) (color : Int) (adjs : List Int)
    (h : ∀ adj ∈ adjs, b.board adj ≠ color) (s : Int × Int) :
    ∀ n, n ≤ adjs.length →
      (List.range n).foldl (friendly_string w b color adjs) s = s := by
  intro n
  induction n with
  | zero => intro _; rfl
  | succ n ih =>
    intro hn
    rw [List.range_succ, List.foldl_append, ih (Nat.le_of_succ_le hn)]
    simp only [List.foldl_cons, List.foldl_nil, friendly_string]
    have hlt : n < adjs.length := hn
    have hmem : adjs.getD n 0 ∈ adjs := by
      rw [List.getD_eq_getElem _ _ hlt]
      exact List.getElem_mem _
    rw [if_neg (fun hh => h _ hmem hh.1)]

/-- Without a dragon of the mover among the neighbours of the dragon, the
loop over these neighbours changes nothing. -/
theorem friendly_dragon_none (k : Constants) (e : Engine) (w : Watch) (color aa : Int)
    (s : Int × Int × Int × Int) :
    ∀ n, (∀ kk, kk < n → w.DRAGON_color (e.DRAGON2_adjacent aa kk) ≠ color) →
      (List.range n).foldl (friendly_dragon k e w color aa) s = s := by
  intro n
  induction n with
  | zero => intro _; rfl
  | succ n ih =>
    intro h
    rw [List.range_succ, List.foldl_append, ih (fun kk hkk => h kk (Nat.lt_succ_of_lt hkk))]
    simp only [List.foldl_cons, List.foldl_nil, friendly_dragon]
    rw [if_neg (h n (Nat.lt_succ_self n))]

/-- Without a stone of the mover on the four neighbours of `pos`, the loop
over these neighbours leaves `bb` alone. -/
theorem friendly_neighbor_none (e : Engine) (b : Board) (pos color bb : Int)
    (h : ∀ kk, kk < 4 → b.board (pos + e.delta kk) ≠ color) :
    friendly_neighbor e b pos color bb = bb := by
  unfold friendly_neighbor
  have : (List.range 4).find? (fun kk => decide (b.board (pos + e.delta kk) = color))
      = none := by
    rw [List.find?_eq_none]
    intro kk hkk
    simpa using h kk (List.mem_range.1 hkk)
  rw [this]

/-- The `switch` of `examine_move_safety` sends the six kinds of tactical and
owl attacks to their common block. -/
theorem safety_case_attack (cfg : Config) (k : Constants) (e : Engine) (w : Watch)
    (b : Board) (g : Registry) (pos color : Int) (st : Int × Int) (ty what : Int)
    (hk : k.DistinctKinds)
    (h : ty = k.ATTACK_MOVE ∨ ty = k.ATTACK_MOVE_GOOD_KO ∨ ty = k.ATTACK_MOVE_BAD_KO
      ∨ ty = k.OWL_ATTACK_MOVE ∨ ty = k.OWL_ATTACK_MOVE_GOOD_KO
      ∨ ty = k.OWL_ATTACK_MOVE_BAD_KO) :
    safety_case cfg k e w b g pos color st ty what
      = safety_attack cfg k e w b g pos color st ty what := by
  rcases h with h | h | h | h | h | h
  · subst h
    have n9 : k.ATTACK_MOVE ≠ k.CUT_MOVE :=
      kinds_ne k hk 0 9 (by decide) (by decide) (by decide)
    have n11 : k.ATTACK_MOVE ≠ k.SEMEAI_MOVE :=
      kinds_ne k hk 0 11 (by decide) (by decide) (by decide)
    have n14 : k.ATTACK_MOVE ≠ k.ATTACK_EITHER_MOVE :=
      kinds_ne k hk 0 14 (by decide) (by decide) (by decide)
    have n15 : k.ATTACK_MOVE ≠ k.DEFEND_BOTH_MOVE :=
      kinds_ne k hk 0 15 (by decide) (by decide) (by decide)
    have n25 : k.ATTACK_MOVE ≠ k.OWL_DEFEND_MOVE :=
      kinds_ne k hk 0 25 (by decide) (by decide) (by decide)
    have n26 : k.ATTACK_MOVE ≠ k.OWL_DEFEND_MOVE_GOOD_KO :=
      kinds_ne k hk 0 26 (by decide) (by decide) (by decide)
    have n27 : k.ATTACK_MOVE ≠ k.OWL_DEFEND_MOVE_BAD_KO :=
      kinds_ne k hk 0 27 (by decide) (by decide) (by decide)
    have n31 : k.ATTACK_MOVE ≠ k.MY_ATARI_ATARI_MOVE :=
      kinds_ne k hk 0 31 (by decide) (by decide) (by decide)
    have n16 : k.ATTACK_MOVE ≠ k.BLOCK_TERRITORY_MOVE :=
      kinds_ne k hk 0 16 (by decide) (by decide) (by decide)
    have n17 : k.ATTACK_MOVE ≠ k.EXPAND_TERRITORY_MOVE :=
      kinds_ne k hk 0 17 (by decide) (by decide) (by decide)
    have n18 : k.ATTACK_MOVE ≠ k.EXPAND_MOYO_MOVE :=
      kinds_ne k hk 0 18 (by decide) (by decide) (by decide)
    simp only [safety_case, n9, n11, n14, n15, n25, n26, n27, n31, n16, n17, n18, false_or, or_false, or_self, if_false,
      true_or, or_true, if_true]
  · subst h
    have n9 : k.ATTACK_MOVE_GOOD_KO ≠ k.CUT_MOVE :=
      kinds_ne k hk 1 9 (by decide) (by decide) (by decide)
    have n11 : k.ATTACK_MOVE_GOOD_KO ≠ k.SEMEAI_MOVE :=
      kinds_ne k hk 1 11 (by decide) (by decide) (by decide)
    have n14 : k.ATTACK_MOVE_GOOD_KO ≠ k.ATTACK_EITHER_MOVE :=
      kinds_ne k hk 1 14 (by decide) (by decide) (by decide)
    have n15 : k.ATTACK_MOVE_GOOD_KO ≠ k.DEFEND_BOTH_MOVE :=
      kinds_ne k hk 1 15 (by decide) (by decide) (by decide)
    have n25 : k.ATTACK_MOVE_GOOD_KO ≠ k.OWL_DEFEND_MOVE :=
      kinds_ne k hk 1 25 (by decide) (by decide) (by decide)
    have n26 : k.ATTACK_MOVE_GOOD_KO ≠ k.OWL_DEFEND_MOVE_GOOD_KO :=
      kinds_ne k hk 1 26 (by decide) (by decide) (by decide)
    have n27 : k.ATTACK_MOVE_GOOD_KO ≠ k.OWL_DEFEND_MOVE_BAD_KO :=
      kinds_ne k hk 1 27 (by decide) (by decide) (by decide)
    have n31 : k.ATTACK_MOVE_GOOD_KO ≠ k.MY_ATARI_ATARI_MOVE :=
      kinds_ne k hk 1 31 (by decide) (by decide) (by decide)
    have n16 : k.ATTACK_MOVE_GOOD_KO ≠ k.BLOCK_TERRITORY_MOVE :=
      kinds_ne k hk 1 16 (by decide) (by decide) (by decide)
    have n17 : k.ATTACK_MOVE_GOOD_KO ≠ k.EXPAND_TERRITORY_MOVE :=
      kinds_ne k hk 1 17 (by decide) (by decide) (by decide)
    have n18 : k.ATTACK_MOVE_GOOD_KO ≠ k.EXPAND_MOYO_MOVE :=
      kinds_ne k hk 1 18 (by decide) (by decide) (by decide)
    simp only [safety_case, n9, n11, n14, n15, n25, n26, n27, n31, n16, n17, n18, false_or, or_false, or_self, if_false,
      true_or, or_true, if_true]
  · subst h
    have n9 : k.ATTACK_MOVE_BAD_KO ≠ k.CUT_MOVE :=
      kinds_ne k hk 2 9 (by decide) (by decide) (by decide)
    have n11 : k.ATTACK_MOVE_BAD_KO ≠ k.SEMEAI_MOVE :=
      kinds_ne k hk 2 11 (by decide) (by decide) (by decide)
    have n14 : k.ATTACK_MOVE_BAD_KO ≠ k.ATTACK_EITHER_MOVE :=
      kinds_ne k hk 2 14 (by decide) (by decide) (by decide)
    have n15 : k.ATTACK_MOVE_BAD_KO ≠ k.DEFEND_BOTH_MOVE :=
      kinds_ne k hk 2 15 (by decide) (by decide) (by decide)
    have n25 : k.ATTACK_MOVE_BAD_KO ≠ k.OWL_DEFEND_MOVE :=
      kinds_ne k hk 2 25 (by decide) (by decide) (by decide)
    have n26 : k.ATTACK_MOVE_BAD_KO ≠ k.OWL_DEFEND_MOVE_GOOD_KO :=
      kinds_ne k hk 2 26 (by decide) (by decide) (by decide)
    have n27 : k.ATTACK_MOVE_BAD_KO ≠ k.OWL_DEFEND_MOVE_BAD_KO :=
      kinds_ne k hk 2 27 (by decide) (by decide) (by decide)
    have n31 : k.ATTACK_MOVE_BAD_KO ≠ k.MY_ATARI_ATARI_MOVE :=
      kinds_ne k hk 2 31 (by decide) (by decide) (by decide)
    have n16 : k.ATTACK_MOVE_BAD_KO ≠ k.BLOCK_TERRITORY_MOVE :=
      kinds_ne k hk 2 16 (by decide) (by decide) (by decide)
    have n17 : k.ATTACK_MOVE_BAD_KO ≠ k.EXPAND_TERRITORY_MOVE :=
      kinds_ne k hk 2 17 (by decide) (by decide) (by decide)
    have n18 : k.ATTACK_MOVE_BAD_KO ≠ k.EXPAND_MOYO_MOVE :=
      kinds_ne k hk 2 18 (by decide) (by decide) (by decide)
    simp only [safety_case, n9, n11, n14, n15, n25, n26, n27, n31, n16, n17, n18, false_or, or_false, or_self, if_false,
      true_or, or_true, if_true]
  · subst h
    have n9 : k.OWL_ATTACK_MOVE ≠ k.CUT_MOVE :=
      kinds_ne k hk 21 9 (by decide) (by decide) (by decide)
    have n11 : k.OWL_ATTACK_MOVE ≠ k.SEMEAI_MOVE :=
      kinds_ne k hk 21 11 (by decide) (by decide) (by decide)
    have n14 : k.OWL_ATTACK_MOVE ≠ k.ATTACK_EITHER_MOVE :=
      kinds_ne k hk 21 14 (by decide) (by decide) (by decide)
    have n15 : k.OWL_ATTACK_MOVE ≠ k.DEFEND_BOTH_MOVE :=
      kinds_ne k hk 21 15 (by decide) (by decide) (by decide)
    have n25 : k.OWL_ATTACK_MOVE ≠ k.OWL_DEFEND_MOVE :=
      kinds_ne k hk 21 25 (by decide) (by decide) (by decide)
    have n26 : k.OWL_ATTACK_MOVE ≠ k.OWL_DEFEND_MOVE_GOOD_KO :=
      kinds_ne k hk 21 26 (by decide) (by decide) (by decide)
    have n27 : k.OWL_ATTACK_MOVE ≠ k.OWL_DEFEND_MOVE_BAD_KO :=
      kinds_ne k hk 21 27 (by decide) (by decide) (by decide)
    have n31 : k.OWL_ATTACK_MOVE ≠ k.MY_ATARI_ATARI_MOVE :=
      kinds_ne k hk 21 31 (by decide) (by decide) (by decide)
    have n16 : k.OWL_ATTACK_MOVE ≠ k.BLOCK_TERRITORY_MOVE :=
      kinds_ne k hk 21 16 (by decide) (by decide) (by decide)
    have n17 : k.OWL_ATTACK_MOVE ≠ k.EXPAND_TERRITORY_MOVE :=
      kinds_ne k hk 21 17 (by decide) (by decide) (by decide)
    have n18 : k.OWL_ATTACK_MOVE ≠ k.EXPAND_MOYO_MOVE :=
      kinds_ne k hk 21 18 (by decide) (by decide) (by decide)
    simp only [safety_case, n9, n11, n14, n15, n25, n26, n27, n31, n16, n17, n18, false_or, or_false, or_self, if_false,
      true_or, or_true, if_true]
  · subst h
    have n9 : k.OWL_ATTACK_MOVE_GOOD_KO ≠ k.CUT_MOVE :=
      kinds_ne k hk 22 9 (by decide) (by decide) (by decide)
    have n11 : k.OWL_ATTACK_MOVE_GOOD_KO ≠ k.SEMEAI_MOVE :=
      kinds_ne k hk 22 11 (by decide) (by decide) (by decide)
    have n14 : k.OWL_ATTACK_MOVE_GOOD_KO ≠ k.ATTACK_EITHER_MOVE :=
      kinds_ne k hk 22 14 (by decide) (by decide) (by decide)
    have n15 : k.OWL_ATTACK_MOVE_GOOD_KO ≠ k.DEFEND_BOTH_MOVE :=
      kinds_ne k hk 22 15 (by decide) (by decide) (by decide)
    have n25 : k.OWL_ATTACK_MOVE_GOOD_KO ≠ k.OWL_DEFEND_MOVE :=
      kinds_ne k hk 22 25 (by decide) (by decide) (by decide)
    have n26 : k.OWL_ATTACK_MOVE_GOOD_KO ≠ k.OWL_DEFEND_MOVE_GOOD_KO :=
      kinds_ne k hk 22 26 (by decide) (by decide) (by decide)
    have n27 : k.OWL_ATTACK_MOVE_GOOD_KO ≠ k.OWL_DEFEND_MOVE_BAD_KO :=
      kinds_ne k hk 22 27 (by decide) (by decide) (by decide)
    have n31 : k.OWL_ATTACK_MOVE_GOOD_KO ≠ k.MY_ATARI_ATARI_MOVE :=
      kinds_ne k hk 22 31 (by decide) (by decide) (by decide)
    have n16 : k.OWL_ATTACK_MOVE_GOOD_KO ≠ k.BLOCK_TERRITORY_MOVE :=
      kinds_ne k hk 22 16 (by decide) (by decide) (by decide)
    have n17 : k.OWL_ATTACK_MOVE_GOOD_KO ≠ k.EXPAND_TERRITORY_MOVE :=
      kinds_ne k hk 22 17 (by decide) (by decide) (by decide)
    have n18 : k.OWL_ATTACK_MOVE_GOOD_KO ≠ k.EXPAND_MOYO_MOVE :=
      kinds_ne k hk 22 18 (by decide) (by decide) (by decide)
    simp only [safety_case, n9, n11, n14, n15, n25, n26, n27, n31, n16, n17, n18, false_or, or_false, or_self, if_false,
      true_or, or_true, if_true]
  · subst h
    have n9 : k.OWL_ATTACK_MOVE_BAD_KO ≠ k.CUT_MOVE :=
      kinds_ne k hk 23 9 (by decide) (by decide) (by decide)
    have n11 : k.OWL_ATTACK_MOVE_BAD_KO ≠ k.SEMEAI_MOVE :=
      kinds_ne k hk 23 11 (by decide) (by decide) (by decide)
    have n14 : k.OWL_ATTACK_MOVE_BAD_KO ≠ k.ATTACK_EITHER_MOVE :=
      kinds_ne k hk 23 14 (by decide) (by decide) (by decide)
    have n15 : k.OWL_ATTACK_MOVE_BAD_KO ≠ k.DEFEND_BOTH_MOVE :=
      kinds_ne k hk 23 15 (by decide) (by decide) (by decide)
    have n25 : k.OWL_ATTACK_MOVE_BAD_KO ≠ k.OWL_DEFEND_MOVE :=
      kinds_ne k hk 23 25 (by decide) (by decide) (by decide)
    have n26 : k.OWL_ATTACK_MOVE_BAD_KO ≠ k.OWL_DEFEND_MOVE_GOOD_KO :=
      kinds_ne k hk 23 26 (by decide) (by decide) (by decide)
    have n27 : k.OWL_ATTACK_MOVE_BAD_KO ≠ k.OWL_DEFEND_MOVE_BAD_KO :=
      kinds_ne k hk 23 27 (by decide) (by decide) (by decide)
    have n31 : k.OWL_ATTACK_MOVE_BAD_KO ≠ k.MY_ATARI_ATARI_MOVE :=
      kinds_ne k hk 23 31 (by decide) (by decide) (by decide)
    have n16 : k.OWL_ATTACK_MOVE_BAD_KO ≠ k.BLOCK_TERRITORY_MOVE :=
      kinds_ne k hk 23 16 (by decide) (by decide) (by decide)
    have n17 : k.OWL_ATTACK_MOVE_BAD_KO ≠ k.EXPAND_TERRITORY_MOVE :=
      kinds_ne k hk 23 17 (by decide) (by decide) (by decide)
    have n18 : k.OWL_ATTACK_MOVE_BAD_KO ≠ k.EXPAND_MOYO_MOVE :=
      kinds_ne k hk 23 18 (by decide) (by decide) (by decide)
    simp only [safety_case, n9, n11, n14, n15, n25, n26, n27, n31, n16, n17, n18, false_or, or_false, or_self, if_false,
      true_or, or_true, if_true]

/-- An owl attack is none of the three kinds of tactical attacks. -/
theorem owl_attack_not_tactical (k : Constants) (hk : k.DistinctKinds) (ty : Int)
    (h : ty = k.OWL_ATTACK_MOVE ∨ ty = k.OWL_ATTACK_MOVE_GOOD_KO
      ∨ ty = k.OWL_ATTACK_MOVE_BAD_KO) :
    ¬ (ty = k.ATTACK_MOVE ∨ ty = k.ATTACK_MOVE_GOOD_KO ∨ ty = k.ATTACK_MOVE_BAD_KO) := by
  rcases h with h | h | h
  · subst h
    have n0 : k.OWL_ATTACK_MOVE ≠ k.ATTACK_MOVE :=
      kinds_ne k hk 21 0 (by decide) (by decide) (by decide)
    have n1 : k.OWL_ATTACK_MOVE ≠ k.ATTACK_MOVE_GOOD_KO :=
      kinds_ne k hk 21 1 (by decide) (by decide) (by decide)
    have n2 : k.OWL_ATTACK_MOVE ≠ k.ATTACK_MOVE_BAD_KO :=
      kinds_ne k hk 21 2 (by decide) (by decide) (by decide)
    simp only [n0, n1, n2, or_self, not_false_eq_true]
  · subst h
    have n0 : k.OWL_ATTACK_MOVE_GOOD_KO ≠ k.ATTACK_MOVE :=
      kinds_ne k hk 22 0 (by decide) (by decide) (by decide)
    have n1 : k.OWL_ATTACK_MOVE_GOOD_KO ≠ k.ATTACK_MOVE_GOOD_KO :=
      kinds_ne k hk 22 1 (by decide) (by decide) (by decide)
    have n2 : k.OWL_ATTACK_MOVE_GOOD_KO ≠ k.ATTACK_MOVE_BAD_KO :=
      kinds_ne k hk 22 2 (by decide) (by decide) (by decide)
    simp only [n0, n1, n2, or_self, not_false_eq_true]
  · subst h
    have n0 : k.OWL_ATTACK_MOVE_BAD_KO ≠ k.ATTACK_MOVE :=
      kinds_ne k hk 23 0 (by decide) (by decide) (by decide)
    have n1 : k.OWL_ATTACK_MOVE_BAD_KO ≠ k.ATTACK_MOVE_GOOD_KO :=
      kinds_ne k hk 23 1 (by decide) (by decide) (by decide)
    have n2 : k.OWL_ATTACK_MOVE_BAD_KO ≠ k.ATTACK_MOVE_BAD_KO :=
      kinds_ne k hk 23 2 (by decide) (by decide) (by decide)
    simp only [n0, n1, n2, or_self, not_false_eq_true]

/-- The end of the block of the attacks in `examine_move_safety`, reached
with no neighbour of the mover counted: both flags are set when `pos` has no
stone of the mover next to it, or the dragon of the first such stone is alive
or defended by the move according to the owl code. -/
theorem safety_attack_end (cfg : Config) (k : Constants) (e : Engine) (w : Watch) (b : Board)
    (pos color : Int) (x y : Int)
    (hbb : (∀ kk, kk < 4 → b.board (pos + e.delta kk) ≠ color)
      ∨ e.dragon_matcher_status (friendly_neighbor e b pos color cfg.NO_MOVE) = k.ALIVE
      ∨ w.owl_does_defend pos (friendly_neighbor e b pos color cfg.NO_MOVE) = true) :
    (if friendly_neighbor e b pos color cfg.NO_MOVE = cfg.NO_MOVE then ((1 : Int), (1 : Int))
      else if e.dragon_matcher_status (friendly_neighbor e b pos color cfg.NO_MOVE) = k.ALIVE
        then (1, 1)
      else if w.owl_does_defend pos (friendly_neighbor e b pos color cfg.NO_MOVE) = true
        then (1, 1)
      else (x, y)) = (1, 1) := by
  rcases hbb with h | h | h
  · rw [if_pos (friendly_neighbor_none e b pos color _ h)]
  · split_ifs <;> rfl
  · split_ifs <;> rfl

/-- The block of the attacks in `examine_move_safety` sets both flags for a
victim of size below 8 without a neighbour of the mover, under the condition
on the neighbours of `pos` of `safety_attack_end`. -/
theorem safety_attack_granted (cfg : Config) (k : Constants) (e : Engine) (w : Watch)
    (b : Board) (g : Registry) (pos color : Int) (st : Int × Int) (ty what : Int)
    (hk : k.DistinctKinds)
    (hcase : ((ty = k.ATTACK_MOVE ∨ ty = k.ATTACK_MOVE_GOOD_KO ∨ ty = k.ATTACK_MOVE_BAD_KO)
        ∧ to_int (e.worm_effective_size (g.worms what.toNat)) < 8
        ∧ ∀ adj ∈ e.chainlinks (g.worms what.toNat), b.board adj ≠ color)
      ∨ ((ty = k.OWL_ATTACK_MOVE ∨ ty = k.OWL_ATTACK_MOVE_GOOD_KO
          ∨ ty = k.OWL_ATTACK_MOVE_BAD_KO)
        ∧ to_int (e.dragon_effective_size (g.dragons what.toNat)) < 8
        ∧ ∀ kk, kk < (e.DRAGON2_neighbors (g.dragons what.toNat)).toNat →
            w.DRAGON_color (e.DRAGON2_adjacent (g.dragons what.toNat) kk) ≠ color))
    (hbb : (∀ kk, kk < 4 → b.board (pos + e.delta kk) ≠ color)
      ∨ e.dragon_matcher_status (friendly_neighbor e b pos color cfg.NO_MOVE) = k.ALIVE
      ∨ w.owl_does_defend pos (friendly_neighbor e b pos color cfg.NO_MOVE) = true) :
    safety_attack cfg k e w b g pos color st ty what = (1, 1) := by
  unfold safety_attack
  dsimp only
  rcases hcase with ⟨ht, hsize, hzero⟩ | ⟨ho, hsize, hzero⟩
  · simp only [if_pos ht]
    rw [if_neg (not_le.2 hsize), friendly_string_none w b color _ hzero _ _ le_rfl]
    dsimp only
    rw [if_neg (by decide)]
    exact safety_attack_end cfg k e w b pos color _ _ hbb
  · have ht := owl_attack_not_tactical k hk ty ho
    simp only [if_neg ht]
    rw [if_neg (not_le.2 hsize), friendly_dragon_none k e w color _ _ _ hzero]
    dsimp only
    rw [if_neg (by decide)]
    exact safety_attack_end cfg k e w b pos color _ _ hbb

/-- The loop of `examine_move_safety` over the reasons of a point, entered at
an index `j` at or before a reason number `i` that sets both flags, with the
list in use up to `i` and enough rounds left: it ends with `safety` set and
with `tactical_safety` set or `safe_move` answering yes. -/
theorem safety_loop_granted (cfg : Config) (k : Constants) (e : Engine) (w : Watch)
    (b : Board) (t : Reasons) (g : Registry) (pos color : Int) (i : Nat)
    (hlist : ∀ l, l ≤ i → t.reason pos l ≠ -1)
    (hcase : ∀ st, safety_case cfg k e w b g pos color st
      (t.move_reasons (t.reason pos i).toNat).type
      (t.move_reasons (t.reason pos i).toNat).what = (1, 1)) :
    ∀ n fuel j (st : Int × Int), j + n = i → n < fuel →
      (safety_loop cfg k e w b t g pos color fuel j st).1 = 1
      ∧ ((safety_loop cfg k e w b t g pos color fuel j st).2 = 1
        ∨ e.safe_move pos color ≠ 0) := by
  intro n
  induction n with
  | zero =>
    intro fuel j st hj hf
    obtain ⟨f, rfl⟩ : ∃ f, fuel = f + 1 := ⟨fuel - 1, by omega⟩
    have hji : j = i := by omega
    subst hji
    simp only [safety_loop]
    rw [if_neg (hlist j le_rfl), hcase st]
    simp
  | succ n ih =>
    intro fuel j st hj hf
    obtain ⟨f, rfl⟩ : ∃ f, fuel = f + 1 := ⟨fuel - 1, by omega⟩
    simp only [safety_loop]
    rw [if_neg (hlist j (by omega))]
    split_ifs with hb
    · exact hb
    · exact ih f (j + 1) _ (by omega) (by omega)

/-- C30, as amended: in `examine_move_safety`, take a point `pos` of the
board whose reason number `i` is a tactical attack on a worm, or an owl attack
on a dragon, of effective size below 8 (as an integer) that has no neighbour
of the colour of the mover. If no stone of the mover stands on one of the
four neighbours of `pos`, or the dragon of the first such stone is alive for
the matcher, or the owl code says that the move defends it, then
`move_safety(pos)` is set to 1, whatever the other reasons of the point and
the other collaborators. -/
theorem attack_grants_safety (cfg : Config) (k : Constants) (e : Engine) (w : Watch)
    (b : Board) (t : Reasons) (g : Registry) (mv : Moves) (pos color : Int) (i : Nat)
    (hk : k.DistinctKinds) (hpos : pos ∈ board_points cfg) (hi : i < cfg.MAX_REASONS)
    (hlist : ∀ l, l ≤ i → t.reason pos l ≠ -1)
    (hcase :
      (((t.move_reasons (t.reason pos i).toNat).type = k.ATTACK_MOVE
          ∨ (t.move_reasons (t.reason pos i).toNat).type = k.ATTACK_MOVE_GOOD_KO
          ∨ (t.move_reasons (t.reason pos i).toNat).type = k.ATTACK_MOVE_BAD_KO)
        ∧ to_int (e.worm_effective_size
            (g.worms (t.move_reasons (t.reason pos i).toNat).what.toNat)) < 8
        ∧ ∀ adj ∈ e.chainlinks (g.worms (t.move_reasons (t.reason pos i).toNat).what.toNat),
            b.board adj ≠ color)
      ∨ (((t.move_reasons (t.reason pos i).toNat).type = k.OWL_ATTACK_MOVE
          ∨ (t.move_reasons (t.reason pos i).toNat).type = k.OWL_ATTACK_MOVE_GOOD_KO
          ∨ (t.move_reasons (t.reason pos i).toNat).type = k.OWL_ATTACK_MOVE_BAD_KO)
        ∧ to_int (e.dragon_effective_size
            (g.dragons (t.move_reasons (t.reason pos i).toNat).what.toNat)) < 8
        ∧ ∀ kk, kk < (e.DRAGON2_neighbors
              (g.dragons (t.move_reasons (t.reason pos i).toNat).what.toNat)).toNat →
            w.DRAGON_color (e.DRAGON2_adjacent
              (g.dragons (t.move_reasons (t.reason pos i).toNat).what.toNat) kk) ≠ color))
    (hbb : (∀ kk, kk < 4 → b.board (pos + e.delta kk) ≠ color)
      ∨ e.dragon_matcher_status (friendly_neighbor e b pos color cfg.NO_MOVE) = k.ALIVE
      ∨ w.owl_does_defend pos (friendly_neighbor e b pos color cfg.NO_MOVE) = true) :
    (examine_move_safety cfg k e w b t g mv color).move_safety pos = 1 := by
  rw [examine_move_safety_at cfg k e w b t g mv color pos hpos]
  have hty : (t.move_reasons (t.reason pos i).toNat).type = k.ATTACK_MOVE
      ∨ (t.move_reasons (t.reason pos i).toNat).type = k.ATTACK_MOVE_GOOD_KO
      ∨ (t.move_reasons (t.reason pos i).toNat).type = k.ATTACK_MOVE_BAD_KO
      ∨ (t.move_reasons (t.reason pos i).toNat).type = k.OWL_ATTACK_MOVE
      ∨ (t.move_reasons (t.reason pos i).toNat).type = k.OWL_ATTACK_MOVE_GOOD_KO
      ∨ (t.move_reasons (t.reason pos i).toNat).type = k.OWL_ATTACK_MOVE_BAD_KO := by
    rcases hcase with ⟨h, _⟩ | ⟨h, _⟩ <;> tauto
  have h := safety_loop_granted cfg k e w b t g pos color i hlist
    (fun st => by
      rw [safety_case_attack cfg k e w b g pos color st _ _ hk hty]
      exact safety_attack_granted cfg k e w b g pos color st _ _ hk hcase hbb)
    i cfg.MAX_REASONS 0 (0, 0) (by omega) hi
  unfold examine_point
  dsimp only
  rw [if_pos]
  refine ⟨h.1, ?_⟩
  rcases h.2 with h2 | h2
  · left; rw [h2]; decide
  · right; exact h2

/-- On the 3 by 3 board Black attacks at 6 the white worm at 7, which has no
neighbouring string; the black stone at 5 stands next to 6, its dragon is
critical, and the owl code says that the move defends it: `move_safety(6)`
is 1. -/
theorem attack_grants_safety_witness :
    (examine_move_safety three sample_constants corner_engine trusting_watch corner_board
      corner_reasons corner_registry zero_moves 2).move_safety 6 = 1 := by
  refine attack_grants_safety three sample_constants corner_engine trusting_watch corner_board
    corner_reasons corner_registry zero_moves 6 2 0 (by decide) (by decide) (by decide)
    ?_ (Or.inl ⟨Or.inl (by decide), by decide!, ?_⟩) (Or.inr (Or.inr rfl))
  · intro l hl
    have : l = 0 := by omega
    subst this
    decide
  · intro adj hadj
    exact absurd hadj (List.not_mem_nil _)

/-- C30, as stated, fails: in the same position with an owl code that finds
no defense, the victim, of effective size 3, still has no neighbour of the
colour of the mover, the attack is the only reason of the point 6 and
`safe_move` answers `WIN`, but `move_safety(6)` is set to 0: the code finds the
black stone at 5 next to the move, whose dragon is not alive. With the
trusting owl code of the witness the value is 1, so the answer of that
collaborator decides. -/
theorem friendly_neighbor_counterexample :
    (examine_move_safety three sample_constants corner_engine sample_watch corner_board
      corner_reasons corner_registry zero_moves 2).move_safety 6 = 0
    ∧ (corner_reasons.move_reasons (corner_reasons.reason 6 0).toNat).type
        = sample_constants.ATTACK_MOVE
    ∧ corner_reasons.reason 6 1 = -1
    ∧ to_int (corner_engine.worm_effective_size (corner_registry.worms 0)) = 3
    ∧ corner_engine.chainlinks (corner_registry.worms 0) = []
    ∧ friendly_neighbor corner_engine corner_board 6 2 three.NO_MOVE = 5
    ∧ corner_engine.safe_move 6 2 = sample_constants.WIN := by
  refine ⟨by decide!, by decide, by decide, by decide!, by decide, by decide, by decide⟩

/-! ## discard_redundant_move_reasons: the flags set -/

/-- Two integers with the same bits are equal. -/
theorem int_eq_of_testBit (x y : Int) (h : ∀ i, x.testBit i = y.testBit i) : x = y := by
  have big : ∀ m : Nat, m.testBit m = false := fun m =>
    Nat.testBit_lt_two_pow (Nat.lt_two_pow m)
  have bigger : ∀ m n : Nat, m.testBit (m + n) = false := fun m n =>
    Nat.testBit_lt_two_pow (lt_of_lt_of_le (Nat.lt_two_pow m)
      (Nat.pow_le_pow_right (by decide) (Nat.le_add_right m n)))
  rcases x with m | m <;> rcases y with n | n
  · have : m = n := Nat.eq_of_testBit_eq fun i => by simpa [Int.testBit] using h i
    rw [this]
  · exfalso
    have h1 := h (m + n)
    have e1 : (Int.ofNat m).testBit (m + n) = m.testBit (m + n) := rfl
    have e2 : (Int.negSucc n).testBit (m + n) = !(n.testBit (m + n)) := rfl
    rw [e1, e2, bigger m n, Nat.add_comm, bigger n m] at h1
    exact absurd h1 (by decide)
  · exfalso
    have h1 := h (m + n)
    have e1 : (Int.ofNat n).testBit (m + n) = n.testBit (m + n) := rfl
    have e2 : (Int.negSucc m).testBit (m + n) = !(m.testBit (m + n)) := rfl
    rw [e1, e2, bigger m n, Nat.add_comm, bigger n m] at h1
    exact absurd h1 (by decide)
  · have : m = n := Nat.eq_of_testBit_eq fun i => by
      have h1 := h i
      have e1 : (Int.negSucc m).testBit i = !(m.testBit i) := rfl
      have e2 : (Int.negSucc n).testBit i = !(n.testBit i) := rfl
      rw [e1, e2] at h1
      cases hm : m.testBit i <;> cases hn : n.testBit i <;> simp [hm, hn] at h1 ⊢
    rw [this]

theorem known_loop_same (t ta : Reasons) (h : SameReasons t ta) (pos ty what : Int) :
    ∀ fuel l, move_reason_known_loop ta pos ty what fuel l
      = move_reason_known_loop t pos ty what fuel l := by
  intro fuel
  induction fuel with
  | zero => intro l; rfl
  | succ n ih =>
    intro l
    simp only [move_reason_known_loop, h.1, (h.2.2 _).1, (h.2.2 _).2, ih]

theorem move_reason_known_same (cfg : Config) (t ta : Reasons) (h : SameReasons t ta)
    (pos ty what : Int) :
    move_reason_known cfg ta pos ty what = move_reason_known cfg t pos ty what := by
  unfold move_reason_known
  rw [known_loop_same t ta h]

/-- The conditions of the rules do not read the status flags. -/
theorem run_condition_same (cfg : Config) (k : Constants) (e : Engine) (b : Board)
    (t ta : Reasons) (h : SameReasons t ta) (g : Registry) (pos what : Int)
    (cnd : Option Condition) :
    run_condition cfg k e b ta g pos what cnd = run_condition cfg k e b t g pos what cnd := by
  rcases cnd with _ | c
  · rfl
  · cases c <;>
      simp only [run_condition, owl_move_vs_worm_known, owl_move_reason_known,
        owl_attack_move_reason_known, owl_defense_move_reason_known,
        tactical_move_vs_whole_dragon_known, tactical_move_known,
        tactical_move_vs_either_worm_known, attack_move_reason_known,
        defense_move_reason_known, move_reason_known_same cfg t ta h]

theorem reason_count_same (cfg : Config) (t ta : Reasons) (h : SameReasons t ta) (pos : Int) :
    reason_count cfg ta pos = reason_count cfg t pos := by
  unfold reason_count
  rw [h.1]

/-- A returning call of `find_worm` gives the first index at which the table
holds the string, an index at most the old counter. -/
theorem find_worm_first (cfg : Config) (g g1 : Registry) (str : Int) (w : Nat)
    (h : find_worm cfg g str = some (w, g1)) :
    g1.worms w = str ∧ TablesKept g g1 ∧ (∀ j, j < w → g.worms j ≠ str)
    ∧ w ≤ g.next_worm := by
  have hs := find_worm_some cfg g g1 str w h
  have hp := find_worm_on_board cfg g str _ h
  refine ⟨hs.2.1, hs.2.2.1, ?_⟩
  unfold find_worm at h
  rw [if_neg (by simp [hp])] at h
  rcases first_index_cases (fun k => g.worms k == str) g.next_worm with
    ⟨k, h1, h2, h3, h4⟩ | ⟨h1, h2⟩
  · rw [h1] at h
    simp only [Option.some.injEq, Prod.mk.injEq] at h
    refine ⟨fun j hj => ?_, by omega⟩
    have := h4 j (by omega)
    simpa using this
  · rw [h1] at h
    dsimp only at h
    by_cases hc : g.next_worm < MAX_WORMS cfg
    · rw [if_pos hc] at h
      simp only [Option.some.injEq, Prod.mk.injEq] at h
      refine ⟨fun j hj => ?_, by omega⟩
      have := h2 j (by omega)
      simpa using this
    · rw [if_neg hc] at h
      exact absurd h (by simp)

/-- Two lookups of the same string with `find_worm`, in two states of the
tables that keep the entries of `g`, give the same index, or two indices that
are not entries of `g`. -/
theorem find_worm_agree (cfg : Config) (g g1 g2 g3 g4 : Registry) (str : Int) (w1 w2 : Nat)
    (k1 : TablesKept g g1) (k2 : TablesKept g g2)
    (h1 : find_worm cfg g1 str = some (w1, g3)) (h2 : find_worm cfg g2 str = some (w2, g4)) :
    w1 = w2 ∨ (g.next_worm ≤ w1 ∧ g.next_worm ≤ w2) := by
  obtain ⟨a1, a2, a3, a4⟩ := find_worm_first cfg g1 g3 str w1 h1
  obtain ⟨b1, b2, b3, b4⟩ := find_worm_first cfg g2 g4 str w2 h2
  have low : ∀ (ga gb gc : Registry) (wa wb : Nat), TablesKept g ga → TablesKept g gb →
      TablesKept ga gc → gc.worms wa = str → wa < g.next_worm →
      (∀ j, j < wb → gb.worms j ≠ str) → wb ≤ wa := by
    intro ga gb gc wa wb ka kb kc e1 hlt hfirst
    by_contra hcon
    have e2 : gc.worms wa = ga.worms wa := kc.worms.2 wa (lt_of_lt_of_le hlt ka.worms.1)
    have e3 : ga.worms wa = g.worms wa := ka.worms.2 wa hlt
    have e4 : gb.worms wa = g.worms wa := kb.worms.2 wa hlt
    exact hfirst wa (by omega) (by rw [e4, ← e3, ← e2, e1])
  by_cases c1 : w1 < g.next_worm
  · have l1 := low g1 g2 g3 w1 w2 k1 k2 a2 a1 c1 b3
    have l2 := low g2 g1 g4 w2 w1 k2 k1 b2 b1 (by omega) a3
    left; omega
  · by_cases c2 : w2 < g.next_worm
    · have l2 := low g2 g1 g4 w2 w1 k2 k1 b2 b1 c2 a3
      omega
    · right; omega

/-- A returning call of `find_dragon` gives the first index at which the table
holds the string, an index at most the old counter. -/
theorem find_dragon_first (cfg : Config) (g g1 : Registry) (str : Int) (w : Nat)
    (h : find_dragon cfg g str = some (w, g1)) :
    g1.dragons w = str ∧ TablesKept g g1 ∧ (∀ j, j < w → g.dragons j ≠ str)
    ∧ w ≤ g.next_dragon := by
  have hs := find_dragon_some cfg g g1 str w h
  have hp := find_dragon_on_board cfg g str _ h
  refine ⟨hs.2.1, hs.2.2.1, ?_⟩
  unfold find_dragon at h
  rw [if_neg (by simp [hp])] at h
  rcases first_index_cases (fun k => g.dragons k == str) g.next_dragon with
    ⟨k, h1, h2, h3, h4⟩ | ⟨h1, h2⟩
  · rw [h1] at h
    simp only [Option.some.injEq, Prod.mk.injEq] at h
    refine ⟨fun j hj => ?_, by omega⟩
    have := h4 j (by omega)
    simpa using this
  · rw [h1] at h
    dsimp only at h
    by_cases hc : g.next_dragon < MAX_DRAGONS cfg
    · rw [if_pos hc] at h
      simp only [Option.some.injEq, Prod.mk.injEq] at h
      refine ⟨fun j hj => ?_, by omega⟩
      have := h2 j (by omega)
      simpa using this
    · rw [if_neg hc] at h
      exact absurd h (by simp)

/-- Two lookups of the same string with `find_dragon`, in two states of the
tables that keep the entries of `g`, give the same index, or two indices that
are not entries of `g`. -/
theorem find_dragon_agree (cfg : Config) (g g1 g2 g3 g4 : Registry) (str : Int) (w1 w2 : Nat)
    (k1 : TablesKept g g1) (k2 : TablesKept g g2)
    (h1 : find_dragon cfg g1 str = some (w1, g3)) (h2 : find_dragon cfg g2 str = some (w2, g4)) :
    w1 = w2 ∨ (g.next_dragon ≤ w1 ∧ g.next_dragon ≤ w2) := by
  obtain ⟨a1, a2, a3, a4⟩ := find_dragon_first cfg g1 g3 str w1 h1
  obtain ⟨b1, b2, b3, b4⟩ := find_dragon_first cfg g2 g4 str w2 h2
  have low : ∀ (ga gb gc : Registry) (wa wb : Nat), TablesKept g ga → TablesKept g gb →
      TablesKept ga gc → gc.dragons wa = str → wa < g.next_dragon →
      (∀ j, j < wb → gb.dragons j ≠ str) → wb ≤ wa := by
    intro ga gb gc wa wb ka kb kc e1 hlt hfirst
    by_contra hcon
    have e2 : gc.dragons wa = ga.dragons wa := kc.dragons.2 wa (lt_of_lt_of_le hlt ka.dragons.1)
    have e3 : ga.dragons wa = g.dragons wa := ka.dragons.2 wa hlt
    have e4 : gb.dragons wa = g.dragons wa := kb.dragons.2 wa hlt
    exact hfirst wa (by omega) (by rw [e4, ← e3, ← e2, e1])
  by_cases c1 : w1 < g.next_dragon
  · have l1 := low g1 g2 g3 w1 w2 k1 k2 a2 a1 c1 b3
    have l2 := low g2 g1 g4 w2 w1 k2 k1 b2 b1 (by omega) a3
    left; omega
  · by_cases c2 : w2 < g.next_dragon
    · have l2 := low g2 g1 g4 w2 w1 k2 k1 b2 b1 c2 a3
      omega
    · right; omega

theorem c_or_zero (a b : Option Int) (ha : ∀ x, a = some x → x = 0)
    (hb : ∀ x, b = some x → x = 0) : ∀ x, c_or a b = some x → x = 0 := by
  intro x hx
  rcases a with _ | a
  · exact absurd hx (by simp [c_or])
  · have h0 := ha a rfl
    subst h0
    rcases b with _ | b
    · exact absurd hx (by simp [c_or])
    · have h1 := hb b rfl
      subst h1
      simp [c_or] at hx
      exact hx.symm

/-- The function `move_reason_known` answers 0 for an object that no reason
of that kind in the list has. -/
theorem move_reason_known_zero (cfg : Config) (t : Reasons) (pos ty : Int) (w : Nat)
    (h : ∀ l, l < reason_count cfg t pos →
      (t.move_reasons (t.reason pos l).toNat).type = ty →
      (t.move_reasons (t.reason pos l).toNat).what.toNat ≠ w) :
    ∀ x, move_reason_known cfg t pos ty (w : Int) = some x → x = 0 := by
  intro x hx
  have hpos : cfg.ON_BOARD1 pos = true := by
    by_contra hp
    unfold move_reason_known at hx
    rw [if_pos (by simpa using hp)] at hx
    exact absurd hx (by simp)
  rcases move_reason_known_cases cfg t pos ty (w : Int) hpos with ⟨_, j, hj, ha⟩ | ⟨h1, _⟩
  · exfalso
    obtain ⟨a1, a2⟩ := ha
    rcases a2 with a2 | a2
    · omega
    · exact h j hj a1 (by rw [a2]; simp)
  · rw [h1] at hx
    simp only [Option.some.injEq] at hx
    exact hx.symm

/-- A worm that is not an entry of the table when the reasons are well formed
has no attack or defense among the reasons of the point. -/
theorem tactical_known_zero (cfg : Config) (k : Constants) (t : Reasons) (g : Registry)
    (pos : Int) (hwf : HandlesKnown cfg k t g pos) (w : Nat) (hw : g.next_worm ≤ w) :
    (∀ x, attack_move_reason_known cfg k t pos (w : Int) = some x → x = 0)
    ∧ (∀ x, defense_move_reason_known cfg k t pos (w : Int) = some x → x = 0) := by
  have one : ∀ ty, ty ∈ worm_kinds k →
      ∀ x, move_reason_known cfg t pos ty (w : Int) = some x → x = 0 := by
    intro ty hty
    apply move_reason_known_zero
    intro l hl h1
    have := (hwf l hl).1 (by rw [h1]; exact hty)
    omega
  constructor
  · unfold attack_move_reason_known
    exact c_or_zero _ _ (c_or_zero _ _ (one _ (by simp [worm_kinds]))
      (one _ (by simp [worm_kinds]))) (one _ (by simp [worm_kinds]))
  · unfold defense_move_reason_known
    exact c_or_zero _ _ (c_or_zero _ _ (one _ (by simp [worm_kinds]))
      (one _ (by simp [worm_kinds]))) (one _ (by simp [worm_kinds]))

/-- A dragon that is not an entry of the table when the reasons are well
formed has no owl attack or owl defense among the reasons of the point. -/
theorem owl_known_zero (cfg : Config) (k : Constants) (t : Reasons) (g : Registry)
    (pos : Int) (hwf : HandlesKnown cfg k t g pos) (d : Nat) (hd : g.next_dragon ≤ d) :
    ∀ x, owl_move_reason_known cfg k t pos (d : Int) = some x → x = 0 := by
  have one : ∀ ty, ty ∈ dragon_kinds k →
      ∀ x, move_reason_known cfg t pos ty (d : Int) = some x → x = 0 := by
    intro ty hty
    apply move_reason_known_zero
    intro l hl h1
    have := (hwf l hl).2.1 (by rw [h1]; exact hty)
    omega
  unfold owl_move_reason_known owl_attack_move_reason_known owl_defense_move_reason_known
  exact c_or_zero _ _
    (c_or_zero _ _ (c_or_zero _ _ (one _ (by simp [dragon_kinds]))
      (one _ (by simp [dragon_kinds]))) (one _ (by simp [dragon_kinds])))
    (c_or_zero _ _ (c_or_zero _ _ (one _ (by simp [dragon_kinds]))
      (one _ (by simp [dragon_kinds]))) (one _ (by simp [dragon_kinds])))

/-- What a returning call of the expression `attack_move_reason_known(pos,
find_worm(aa)) || defense_move_reason_known(pos, find_worm(aa))` has done. -/
theorem tactical_move_known_some (cfg : Config) (k : Constants) (t : Reasons) (g g3 : Registry)
    (pos aa c : Int) (h : tactical_move_known cfg k t g pos aa = some (c, g3)) :
    ∃ w1 g1 a, find_worm cfg g aa = some (w1, g1)
      ∧ attack_move_reason_known cfg k t pos (w1 : Int) = some a
      ∧ ((a ≠ 0 ∧ c = 1 ∧ g3 = g1)
        ∨ (a = 0 ∧ ∃ w2 g2 d, find_worm cfg g1 aa = some (w2, g2)
            ∧ defense_move_reason_known cfg k t pos (w2 : Int) = some d
            ∧ c = (if d ≠ 0 then 1 else 0) ∧ g3 = g2)) := by
  unfold tactical_move_known at h
  rcases h1 : find_worm cfg g aa with _ | ⟨w1, g1⟩
  · rw [h1] at h; exact absurd h (by simp)
  rw [h1] at h
  dsimp only at h
  rcases h2 : attack_move_reason_known cfg k t pos (w1 : Int) with _ | a
  · rw [h2] at h; exact absurd h (by simp)
  rw [h2] at h
  dsimp only at h
  refine ⟨w1, g1, a, rfl, h2, ?_⟩
  by_cases ha : a ≠ 0
  · rw [if_pos ha] at h
    simp only [Option.some.injEq, Prod.mk.injEq] at h
    exact Or.inl ⟨ha, h.1.symm, h.2.symm⟩
  · rw [if_neg ha] at h
    rcases h3 : find_worm cfg g1 aa with _ | ⟨w2, g2⟩
    · rw [h3] at h; exact absurd h (by simp)
    rw [h3] at h
    dsimp only at h
    rcases h4 : defense_move_reason_known cfg k t pos (w2 : Int) with _ | d
    · rw [h4] at h; exact absurd h (by simp)
    rw [h4] at h
    simp only [Option.some.injEq, Prod.mk.injEq] at h
    exact Or.inr ⟨not_not.1 ha, w2, g2, d, rfl, h4, h.1.symm, h.2.symm⟩

theorem tactical_move_known_kept (cfg : Config) (k : Constants) (t : Reasons)
    (g g3 : Registry) (pos aa c : Int)
    (h : tactical_move_known cfg k t g pos aa = some (c, g3)) : TablesKept g g3 := by
  obtain ⟨w1, g1, a, h1, _, h3⟩ := tactical_move_known_some cfg k t g g3 pos aa c h
  have k1 := (find_worm_first cfg g g1 aa w1 h1).2.1
  rcases h3 with ⟨_, _, rfl⟩ | ⟨_, w2, g2, d, h4, _, _, rfl⟩
  · exact k1
  · exact TablesKept.trans _ _ _ k1 (find_worm_first cfg g1 _ aa w2 h4).2.1

/-- The answer of that expression is the same in two states of the tables
that keep the entries of `g`, when the reasons are well formed for `g`. -/
theorem tactical_move_known_stable (cfg : Config) (k : Constants) (t : Reasons)
    (g ga gb ga3 gb3 : Registry) (pos aa ca cb : Int) (hwf : HandlesKnown cfg k t g pos)
    (ka : TablesKept g ga) (kb : TablesKept g gb)
    (ra : tactical_move_known cfg k t ga pos aa = some (ca, ga3))
    (rb : tactical_move_known cfg k t gb pos aa = some (cb, gb3)) : ca = cb := by
  obtain ⟨wa, ga1, a, ha1, ha2, ha3⟩ := tactical_move_known_some cfg k t ga ga3 pos aa ca ra
  obtain ⟨wb, gb1, a', hb1, hb2, hb3⟩ := tactical_move_known_some cfg k t gb gb3 pos aa cb rb
  have ka1 := TablesKept.trans _ _ _ ka (find_worm_first cfg ga ga1 aa wa ha1).2.1
  have kb1 := TablesKept.trans _ _ _ kb (find_worm_first cfg gb gb1 aa wb hb1).2.1
  have zero_a : ∀ w, g.next_worm ≤ w → ∀ x, attack_move_reason_known cfg k t pos (w : Int)
      = some x → x = 0 := fun w hw => (tactical_known_zero cfg k t g pos hwf w hw).1
  have zero_d : ∀ w, g.next_worm ≤ w → ∀ x, defense_move_reason_known cfg k t pos (w : Int)
      = some x → x = 0 := fun w hw => (tactical_known_zero cfg k t g pos hwf w hw).2
  -- the second halves agree once the first answers are 0
  have second : ∀ (w2a w2b : Nat) (g2a g2b : Registry) (da db : Int),
      find_worm cfg ga1 aa = some (w2a, g2a) →
      defense_move_reason_known cfg k t pos (w2a : Int) = some da →
      find_worm cfg gb1 aa = some (w2b, g2b) →
      defense_move_reason_known cfg k t pos (w2b : Int) = some db →
      (if da ≠ 0 then (1 : Int) else 0) = (if db ≠ 0 then (1 : Int) else 0) := by
    intro w2a w2b g2a g2b da db f1 d1 f2 d2
    rcases find_worm_agree cfg g ga1 gb1 g2a g2b aa w2a w2b ka1 kb1 f1 f2 with e | ⟨e1, e2⟩
    · subst e
      rw [d1] at d2
      simp only [Option.some.injEq] at d2
      rw [d2]
    · rw [zero_d w2a e1 da d1, zero_d w2b e2 db d2]
  rcases find_worm_agree cfg g ga gb ga1 gb1 aa wa wb ka kb ha1 hb1 with e | ⟨e1, e2⟩
  · subst e
    rw [ha2] at hb2
    simp only [Option.some.injEq] at hb2
    subst hb2
    rcases ha3 with ⟨n1, c1, _⟩ | ⟨z1, w2a, g2a, da, f1, d1, c1, _⟩
    · rcases hb3 with ⟨_, c2, _⟩ | ⟨z2, _⟩
      · rw [c1, c2]
      · exact absurd z2 n1
    · rcases hb3 with ⟨n2, _, _⟩ | ⟨_, w2b, g2b, db, f2, d2, c2, _⟩
      · exact absurd z1 n2
      · rw [c1, c2]
        exact second w2a w2b g2a g2b da db f1 d1 f2 d2
  · have za := zero_a wa e1 a ha2
    have zb := zero_a wb e2 a' hb2
    rcases ha3 with ⟨n1, _, _⟩ | ⟨_, w2a, g2a, da, f1, d1, c1, _⟩
    · exact absurd za n1
    · rcases hb3 with ⟨n2, _, _⟩ | ⟨_, w2b, g2b, db, f2, d2, c2, _⟩
      · exact absurd zb n2
      · rw [c1, c2]
        exact second w2a w2b g2a g2b da db f1 d1 f2 d2

/-- A returning call of a condition keeps the entries of the object tables. -/
theorem run_condition_kept (cfg : Config) (k : Constants) (e : Engine) (b : Board)
    (t : Reasons) (g g1 : Registry) (pos what c : Int) (cnd : Option Condition)
    (h : run_condition cfg k e b t g pos what cnd = some (c, g1)) : TablesKept g g1 := by
  rcases cnd with _ | cn
  · exact absurd h (by simp [run_condition])
  cases cn
  · simp only [run_condition, owl_move_vs_worm_known] at h
    rcases h1 : find_dragon cfg g (b.dragon_origin (g.worms what.toNat)) with _ | ⟨d, g2⟩
    · rw [h1] at h; exact absurd h (by simp)
    rw [h1] at h
    dsimp only at h
    rcases h2 : owl_move_reason_known cfg k t pos (d : Int) with _ | a
    · rw [h2] at h; exact absurd h (by simp)
    rw [h2] at h
    simp only [Option.some.injEq, Prod.mk.injEq] at h
    rw [← h.2]
    exact (find_dragon_first cfg g g2 _ d h1).2.1
  · simp only [run_condition, Option.map_eq_some'] at h
    obtain ⟨a, _, h2⟩ := h
    simp only [Prod.mk.injEq] at h2
    rw [← h2.2]; exact TablesKept.refl g
  · simp only [run_condition, tactical_move_vs_whole_dragon_known] at h
    split_ifs at h
    · exact tactical_move_known_kept cfg k t g g1 pos _ c h
    · simp only [Option.some.injEq, Prod.mk.injEq] at h
      rw [← h.2]; exact TablesKept.refl g
  · simp only [run_condition, Option.map_eq_some'] at h
    obtain ⟨a, _, h2⟩ := h
    simp only [Prod.mk.injEq] at h2
    rw [← h2.2]; exact TablesKept.refl g
  · simp only [run_condition, Option.some.injEq, Prod.mk.injEq] at h
    rw [← h.2]; exact TablesKept.refl g
  · simp only [run_condition, Option.some.injEq, Prod.mk.injEq] at h
    rw [← h.2]; exact TablesKept.refl g

/-- The answer of a condition for an object that fits it is the same in two
states of the tables that keep the entries of `g`, when the reasons are well
formed for `g`. -/
theorem condition_stable (cfg : Config) (k : Constants) (e : Engine) (b : Board)
    (t : Reasons) (g ga gb ga1 gb1 : Registry) (pos what ca cb : Int)
    (cnd : Option Condition) (hwf : HandlesKnown cfg k t g pos) (hfit : Fits g cnd what)
    (ka : TablesKept g ga) (kb : TablesKept g gb)
    (ra : run_condition cfg k e b t ga pos what cnd = some (ca, ga1))
    (rb : run_condition cfg k e b t gb pos what cnd = some (cb, gb1)) : ca = cb := by
  rcases cnd with _ | cn
  · exact absurd ra (by simp [run_condition])
  cases cn
  · -- owl_move_vs_worm_known
    have hw : what.toNat < g.next_worm := hfit
    simp only [run_condition, owl_move_vs_worm_known] at ra rb
    rw [ka.worms.2 _ hw] at ra
    rw [kb.worms.2 _ hw] at rb
    rcases h1 : find_dragon cfg ga (b.dragon_origin (g.worms what.toNat)) with _ | ⟨da, ga2⟩
    · rw [h1] at ra; exact absurd ra (by simp)
    rcases h2 : find_dragon cfg gb (b.dragon_origin (g.worms what.toNat)) with _ | ⟨db, gb2⟩
    · rw [h2] at rb; exact absurd rb (by simp)
    rw [h1] at ra
    rw [h2] at rb
    dsimp only at ra rb
    rcases h3 : owl_move_reason_known cfg k t pos (da : Int) with _ | xa
    · rw [h3] at ra; exact absurd ra (by simp)
    rcases h4 : owl_move_reason_known cfg k t pos (db : Int) with _ | xb
    · rw [h4] at rb; exact absurd rb (by simp)
    rw [h3] at ra
    rw [h4] at rb
    simp only [Option.some.injEq, Prod.mk.injEq] at ra rb
    rw [← ra.1, ← rb.1]
    rcases find_dragon_agree cfg g ga gb ga2 gb2 _ da db ka kb h1 h2 with e1 | ⟨e1, e2⟩
    · subst e1
      rw [h3] at h4
      simpa using h4
    · rw [owl_known_zero cfg k t g pos hwf da e1 xa h3,
        owl_known_zero cfg k t g pos hwf db e2 xb h4]
  · -- owl_move_reason_known
    simp only [run_condition, Option.map_eq_some'] at ra rb
    obtain ⟨a1, h1, h2⟩ := ra
    obtain ⟨a2, h3, h4⟩ := rb
    simp only [Prod.mk.injEq] at h2 h4
    rw [← h2.1, ← h4.1]
    rw [h1] at h3
    simpa using h3
  · -- tactical_move_vs_whole_dragon_known
    have hd : what.toNat < g.next_dragon := hfit
    simp only [run_condition, tactical_move_vs_whole_dragon_known] at ra rb
    rw [ka.dragons.2 _ hd] at ra
    rw [kb.dragons.2 _ hd] at rb
    by_cases hs : e.worm_size (g.dragons what.toNat) = e.dragon_size (g.dragons what.toNat)
    · rw [if_pos hs] at ra rb
      exact tactical_move_known_stable cfg k t g ga gb ga1 gb1 pos _ ca cb hwf ka kb ra rb
    · rw [if_neg hs] at ra rb
      simp only [Option.some.injEq, Prod.mk.injEq] at ra rb
      rw [← ra.1, ← rb.1]
  · -- tactical_move_vs_either_worm_known
    have hp : what.toNat < g.next_worm_pair := hfit
    simp only [run_condition, tactical_move_vs_either_worm_known, Option.map_eq_some'] at ra rb
    have ea := ka.worm_pairs.2 _ hp
    have eb := kb.worm_pairs.2 _ hp
    simp only [Prod.mk.injEq] at ea eb
    rw [ea.1, ea.2] at ra
    rw [eb.1, eb.2] at rb
    obtain ⟨a1, h1, h2⟩ := ra
    obtain ⟨a2, h3, h4⟩ := rb
    simp only [Prod.mk.injEq] at h2 h4
    rw [← h2.1, ← h4.1]
    rw [h1] at h3
    simpa using h3
  · -- concerns_inessential_worm
    have hw : what.toNat < g.next_worm := hfit
    simp only [run_condition, concerns_inessential_worm, Option.some.injEq,
      Prod.mk.injEq] at ra rb
    rw [ka.worms.2 _ hw] at ra
    rw [kb.worms.2 _ hw] at rb
    rw [← ra.1, ← rb.1]
  · -- concerns_inessential_dragon
    have hd : what.toNat < g.next_dragon := hfit
    simp only [run_condition, concerns_inessential_dragon, Option.some.injEq,
      Prod.mk.injEq] at ra rb
    rw [ka.dragons.2 _ hd] at ra
    rw [kb.dragons.2 _ hd] at rb
    rw [← ra.1, ← rb.1]

theorem set_flags_bit (t0 : Reasons) (r : Nat) (flags : Int) (n i : Nat) :
    (({ t0 with
        move_reasons := Function.update t0.move_reasons r
          { t0.move_reasons r with
            status := Int.lor (t0.move_reasons r).status flags } } : Reasons).move_reasons
        n).status.testBit i = true
      ↔ (t0.move_reasons n).status.testBit i = true ∨ (n = r ∧ flags.testBit i = true) := by
  by_cases h : n = r
  · subst h
    simp only [Function.update_same, Int.testBit_lor, Bool.or_eq_true, true_and]
  · simp only [Function.update_noteq h, h, false_and, or_false]

/-- The loop over the list of `pos` for one rule and one of its kinds, in a
run that returns: the object tables keep their entries, and a bit of a status
is set afterwards if and only if it was set before or the record is one of
the reasons visited, has the kind, the condition holds of its object, and the
bit is one of the flags of the rule. -/
theorem discard_scan_bits (cfg : Config) (k : Constants) (e : Engine) (b : Board)
    (t : Reasons) (g : Registry) (pos : Int) (rule : discard_rule) (ty : Int)
    (hwf : HandlesKnown cfg k t g pos)
    (hfit : ∀ l, l < reason_count cfg t pos →
      (t.move_reasons (t.reason pos l).toNat).type = ty →
      Fits g rule.condition (t.move_reasons (t.reason pos l).toNat).what) :
    ∀ fuel l (t0 : Reasons) (g0 : Registry) (t1 : Reasons) (g1 : Registry),
      SameReasons t t0 → TablesKept g g0 →
      discard_scan cfg k e b rule ty pos fuel l (t0, g0) = some (t1, g1) →
      (∀ l', l ≤ l' → l' < count_from (t.reason pos) fuel l → l' < reason_count cfg t pos) →
      TablesKept g g1
      ∧ ∀ n i, ((t1.move_reasons n).status.testBit i = true
          ↔ (t0.move_reasons n).status.testBit i = true
            ∨ ∃ l', l ≤ l' ∧ l' < count_from (t.reason pos) fuel l
                ∧ (t.reason pos l').toNat = n ∧ (t.move_reasons n).type = ty
                ∧ Holds cfg k e b t g pos rule.condition (t.move_reasons n).what
                ∧ rule.flags.testBit i = true) := by
  intro fuel
  induction fuel with
  | zero =>
    intro l t0 g0 t1 g1 hs hk h hr
    simp only [discard_scan, Option.some.injEq, Prod.mk.injEq] at h
    obtain ⟨rfl, rfl⟩ := h
    refine ⟨hk, fun n i => ⟨Or.inl, ?_⟩⟩
    rintro (h | ⟨l', h1, h2, _⟩)
    · exact h
    · simp only [count_from] at h2; omega
  | succ f ih =>
    intro l t0 g0 t1 g1 hs hk h hr
    simp only [discard_scan] at h
    have e1 : t0.reason pos l = t.reason pos l := by rw [hs.1]
    have e2 : (t0.move_reasons (t0.reason pos l).toNat).type
        = (t.move_reasons (t.reason pos l).toNat).type := by rw [e1]; exact (hs.2.2 _).1
    have e3 : (t0.move_reasons (t0.reason pos l).toNat).what
        = (t.move_reasons (t.reason pos l).toNat).what := by rw [e1]; exact (hs.2.2 _).2
    by_cases hneg : t.reason pos l < 0
    · rw [if_pos (by rw [e1]; exact hneg)] at h
      simp only [Option.some.injEq, Prod.mk.injEq] at h
      obtain ⟨rfl, rfl⟩ := h
      refine ⟨hk, fun n i => ⟨Or.inl, ?_⟩⟩
      rintro (h | ⟨l', h1, h2, _⟩)
      · exact h
      · simp only [count_from, if_pos hneg] at h2; omega
    · rw [if_neg (by rw [e1]; exact hneg)] at h
      have hcount : count_from (t.reason pos) (f + 1) l
          = count_from (t.reason pos) f (l + 1) := by
        simp only [count_from, if_neg hneg]
      have hlt : l < count_from (t.reason pos) (f + 1) l := by
        rw [hcount]
        exact lt_of_lt_of_le (Nat.lt_succ_self l) (count_from_ge _ _ _)
      have hl : l < reason_count cfg t pos := hr l le_rfl hlt
      have hr' : ∀ l', l + 1 ≤ l' → l' < count_from (t.reason pos) f (l + 1) →
          l' < reason_count cfg t pos :=
        fun l' a c => hr l' (by omega) (by rw [hcount]; exact c)
      by_cases hty : (t.move_reasons (t.reason pos l).toNat).type = ty
      · rw [if_pos (by rw [e2]; exact hty)] at h
        have hrun : run_condition cfg k e b t0 g0 pos
            (t0.move_reasons (t0.reason pos l).toNat).what rule.condition
            = run_condition cfg k e b t g0 pos
              (t.move_reasons (t.reason pos l).toNat).what rule.condition := by
          rw [run_condition_same cfg k e b t t0 hs, e3]
        rcases hc : run_condition cfg k e b t g0 pos
            (t.move_reasons (t.reason pos l).toNat).what rule.condition with _ | ⟨c, g2⟩
        · rw [hrun, hc] at h; exact absurd h (by simp)
        rw [hrun, hc] at h
        dsimp only at h
        have kk := TablesKept.trans _ _ _ hk (run_condition_kept cfg k e b t g0 g2 pos _ c _ hc)
        by_cases hc0 : c ≠ 0
        · rw [if_pos hc0] at h
          obtain ⟨a1, a2⟩ := ih (l + 1) _ g2 t1 g1
            (same_reasons_trans hs
              (same_reasons_set_flags t0 (t0.reason pos l).toNat rule.flags)) kk h hr'
          refine ⟨a1, fun n i => ?_⟩
          have b3 := (a2 n i).trans
            (or_congr_left (set_flags_bit t0 (t0.reason pos l).toNat rule.flags n i))
          rw [b3, e1]
          constructor
          · rintro ((h1 | ⟨h1, h2⟩) | ⟨l', h1, h2, h3⟩)
            · exact Or.inl h1
            · refine Or.inr ⟨l, le_rfl, hlt, h1.symm, by rw [h1]; exact hty, ?_, h2⟩
              rw [h1]
              exact ⟨g0, c, g2, hk, hc, hc0⟩
            · exact Or.inr ⟨l', by omega, by rw [hcount]; exact h2, h3⟩
          · rintro (h1 | ⟨l', h1, h2, h3, h4, h5, h6⟩)
            · exact Or.inl (Or.inl h1)
            · by_cases hl' : l' = l
              · subst hl'
                exact Or.inl (Or.inr ⟨h3.symm, h6⟩)
              · exact Or.inr ⟨l', by omega, by rw [← hcount]; exact h2, h3, h4, h5, h6⟩
        · rw [if_neg hc0] at h
          obtain ⟨a1, a2⟩ := ih (l + 1) t0 g2 t1 g1 hs kk h hr'
          refine ⟨a1, fun n i => ?_⟩
          rw [a2 n i]
          constructor
          · rintro (h1 | ⟨l', h1, h2, h3⟩)
            · exact Or.inl h1
            · exact Or.inr ⟨l', by omega, by rw [hcount]; exact h2, h3⟩
          · rintro (h1 | ⟨l', h1, h2, h3, h4, h5, h6⟩)
            · exact Or.inl h1
            · by_cases hl' : l' = l
              · exfalso
                subst hl'
                subst h3
                obtain ⟨gb, cb, gb1, kb, rb, hcb⟩ := h5
                have := condition_stable cfg k e b t g g0 gb g2 gb1 pos _ c cb _ hwf
                  (hfit l' hl hty) hk kb hc rb
                exact hcb (by rw [← this]; exact not_not.1 hc0)
              · exact Or.inr ⟨l', by omega, by rw [← hcount]; exact h2, h3, h4, h5, h6⟩
      · rw [if_neg (by rw [e2]; exact hty)] at h
        obtain ⟨a1, a2⟩ := ih (l + 1) t0 g0 t1 g1 hs hk h hr'
        refine ⟨a1, fun n i => ?_⟩
        rw [a2 n i]
        constructor
        · rintro (h1 | ⟨l', h1, h2, h3⟩)
          · exact Or.inl h1
          · exact Or.inr ⟨l', by omega, by rw [hcount]; exact h2, h3⟩
        · rintro (h1 | ⟨l', h1, h2, h3, h4, h5, h6⟩)
          · exact Or.inl h1
          · by_cases hl' : l' = l
            · exfalso
              subst hl'
              subst h3
              exact hty h4
            · exact Or.inr ⟨l', by omega, by rw [← hcount]; exact h2, h3, h4, h5, h6⟩

/-- For a rule whose kinds go with its condition, the object of a well formed
reason of one of these kinds fits the condition. -/
theorem fits_of_rule (cfg : Config) (k : Constants) (t : Reasons) (g : Registry) (pos : Int)
    (rule : discard_rule) (hwf : HandlesKnown cfg k t g pos) (hrule : RuleFits k rule)
    (ty : Int) (hty : ty ∈ rule.reason_type) (hne : ty ≠ -1) (l : Nat)
    (hl : l < reason_count cfg t pos)
    (h : (t.move_reasons (t.reason pos l).toNat).type = ty) :
    Fits g rule.condition (t.move_reasons (t.reason pos l).toNat).what := by
  obtain ⟨w1, w2, w3⟩ := hwf l hl
  rw [h] at w1 w2 w3
  unfold RuleFits at hrule
  unfold Fits
  rcases hc : rule.condition with _ | cn
  · trivial
  · rw [hc] at hrule
    cases cn
    · exact w1 ((hrule ty hty).resolve_right hne)
    · trivial
    · exact w2 ((hrule ty hty).resolve_right hne)
    · exact w3 ((hrule ty hty).resolve_right hne)
    · exact w1 ((hrule ty hty).resolve_right hne)
    · exact w2 ((hrule ty hty).resolve_right hne)

/-- The loop over the kinds of one rule, in a run that returns. -/
theorem discard_kinds_bits (cfg : Config) (k : Constants) (e : Engine) (b : Board)
    (t : Reasons) (g : Registry) (pos : Int) (rule : discard_rule)
    (hwf : HandlesKnown cfg k t g pos) (hrule : RuleFits k rule) :
    ∀ (kinds : List Int), (∀ ty ∈ kinds, ty ∈ rule.reason_type) →
      ∀ (t0 : Reasons) (g0 : Registry) (t1 : Reasons) (g1 : Registry),
      SameReasons t t0 → TablesKept g g0 →
      discard_kinds cfg k e b rule pos kinds (t0, g0) = some (t1, g1) →
      SameReasons t t1 ∧ TablesKept g g1
      ∧ ∀ n i, ((t1.move_reasons n).status.testBit i = true
          ↔ (t0.move_reasons n).status.testBit i = true
            ∨ ∃ l, l < reason_count cfg t pos ∧ (t.reason pos l).toNat = n
                ∧ (t.move_reasons n).type ∈ kinds.takeWhile (fun ty => decide (ty ≠ -1))
                ∧ Holds cfg k e b t g pos rule.condition (t.move_reasons n).what
                ∧ rule.flags.testBit i = true) := by
  intro kinds
  induction kinds with
  | nil =>
    intro _ t0 g0 t1 g1 hs hk h
    simp only [discard_kinds, Option.some.injEq, Prod.mk.injEq] at h
    obtain ⟨rfl, rfl⟩ := h
    refine ⟨hs, hk, fun n i => ⟨Or.inl, ?_⟩⟩
    rintro (h | ⟨l, _, _, h3, _⟩)
    · exact h
    · simp at h3
  | cons ty rest ih =>
    intro hsub t0 g0 t1 g1 hs hk h
    simp only [discard_kinds] at h
    by_cases hty : ty = -1
    · rw [if_pos hty] at h
      simp only [Option.some.injEq, Prod.mk.injEq] at h
      obtain ⟨rfl, rfl⟩ := h
      refine ⟨hs, hk, fun n i => ⟨Or.inl, ?_⟩⟩
      rintro (h | ⟨l, _, _, h3, _⟩)
      · exact h
      · rw [List.takeWhile_cons_of_neg (by simpa using hty)] at h3
        simp at h3
    · rw [if_neg hty] at h
      rcases hscan : discard_scan cfg k e b rule ty pos cfg.MAX_REASONS 0 (t0, g0)
        with _ | ⟨t2, g2⟩
      · rw [hscan] at h; exact absurd h (by simp)
      rw [hscan] at h
      dsimp only at h
      have hs2 : SameReasons t t2 :=
        same_reasons_trans hs (discard_scan_same cfg k e b rule ty pos _ _ _ _ hscan)
      obtain ⟨a1, a2⟩ := discard_scan_bits cfg k e b t g pos rule ty hwf
        (fun l hl hh => fits_of_rule cfg k t g pos rule hwf hrule ty
          (hsub ty (List.mem_cons_self _ _)) hty l hl hh)
        cfg.MAX_REASONS 0 t0 g0 t2 g2 hs hk hscan (fun l' _ hl' => hl')
      obtain ⟨c1, c2, c3⟩ := ih (fun x hx => hsub x (List.mem_cons_of_mem _ hx)) t2 g2 t1 g1
        hs2 a1 h
      refine ⟨c1, c2, fun n i => ?_⟩
      rw [c3 n i, a2 n i, List.takeWhile_cons_of_pos (by simpa using hty)]
      constructor
      · rintro ((h1 | ⟨l, _, h2, h3, h4, h5, h6⟩) | ⟨l, h2, h3, h4, h5, h6⟩)
        · exact Or.inl h1
        · exact Or.inr ⟨l, h2, h3, by rw [h4]; exact List.mem_cons_self _ _, h5, h6⟩
        · exact Or.inr ⟨l, h2, h3, List.mem_cons_of_mem _ h4, h5, h6⟩
      · rintro (h1 | ⟨l, h2, h3, h4, h5, h6⟩)
        · exact Or.inl (Or.inl h1)
        · rcases List.mem_cons.1 h4 with h4 | h4
          · exact Or.inl (Or.inr ⟨l, Nat.zero_le _, h2, h3, h4, h5, h6⟩)
          · exact Or.inr ⟨l, h2, h3, h4, h5, h6⟩

/-- The loop over the rules of a table, in a run that returns: the reasons
keep their lists, kinds and objects, the object tables keep their entries,
and a bit of a status is set afterwards if and only if it was set before or
one of the rules before the closing entry sets it. -/
theorem discard_with_bits (cfg : Config) (k : Constants) (e : Engine) (b : Board)
    (t : Reasons) (g : Registry) (pos : Int) (hwf : HandlesKnown cfg k t g pos) :
    ∀ (rules : List discard_rule), (∀ rule ∈ rules, RuleFits k rule) →
      ∀ (t0 : Reasons) (g0 : Registry) (t1 : Reasons) (g1 : Registry),
      SameReasons t t0 → TablesKept g g0 →
      discard_with cfg k e b pos rules (t0, g0) = some (t1, g1) →
      SameReasons t t1 ∧ TablesKept g g1
      ∧ ∀ n i, ((t1.move_reasons n).status.testBit i = true
          ↔ (t0.move_reasons n).status.testBit i = true
            ∨ ∃ rule, rule ∈ rules.takeWhile
                  (fun r => decide (r.reason_type.head? ≠ some (-1)))
                ∧ Fires cfg k e b t g pos rule n i) := by
  intro rules
  induction rules with
  | nil =>
    intro _ t0 g0 t1 g1 hs hk h
    simp only [discard_with, Option.some.injEq, Prod.mk.injEq] at h
    obtain ⟨rfl, rfl⟩ := h
    refine ⟨hs, hk, fun n i => ⟨Or.inl, ?_⟩⟩
    rintro (h | ⟨rule, h3, _⟩)
    · exact h
    · simp at h3
  | cons rule rest ih =>
    intro hfits t0 g0 t1 g1 hs hk h
    simp only [discard_with] at h
    by_cases hend : rule.reason_type.head? = some (-1)
    · rw [if_pos hend] at h
      simp only [Option.some.injEq, Prod.mk.injEq] at h
      obtain ⟨rfl, rfl⟩ := h
      refine ⟨hs, hk, fun n i => ⟨Or.inl, ?_⟩⟩
      rintro (h | ⟨r, h3, _⟩)
      · exact h
      · rw [List.takeWhile_cons_of_neg (by simpa using hend)] at h3
        simp at h3
    · rw [if_neg hend] at h
      rcases hkinds : discard_kinds cfg k e b rule pos rule.reason_type (t0, g0)
        with _ | ⟨t2, g2⟩
      · rw [hkinds] at h; exact absurd h (by simp)
      rw [hkinds] at h
      dsimp only at h
      obtain ⟨a0, a1, a2⟩ := discard_kinds_bits cfg k e b t g pos rule hwf
        (hfits rule (List.mem_cons_self _ _)) rule.reason_type (fun _ hx => hx)
        t0 g0 t2 g2 hs hk hkinds
      obtain ⟨c1, c2, c3⟩ := ih (fun x hx => hfits x (List.mem_cons_of_mem _ hx)) t2 g2 t1 g1
        a0 a1 h
      refine ⟨c1, c2, fun n i => ?_⟩
      rw [c3 n i, a2 n i, List.takeWhile_cons_of_pos (by simpa using hend)]
      constructor
      · rintro ((h1 | hf) | ⟨r, h2, h3⟩)
        · exact Or.inl h1
        · exact Or.inr ⟨rule, List.mem_cons_self _ _, hf⟩
        · exact Or.inr ⟨r, List.mem_cons_of_mem _ h2, h3⟩
      · rintro (h1 | ⟨r, h2, h3⟩)
        · exact Or.inl (Or.inl h1)
        · rcases List.mem_cons.1 h2 with h2 | h2
          · subst h2
            exact Or.inl (Or.inr h3)
          · exact Or.inr ⟨r, h2, h3⟩

theorem discard_rules_fit (k : Constants) : ∀ rule ∈ discard_rules k, RuleFits k rule := by
  intro rule hr
  simp only [discard_rules, List.mem_cons, List.mem_singleton, List.not_mem_nil,
    or_false] at hr
  rcases hr with rfl | rfl | rfl | rfl | rfl | rfl | rfl <;>
    simp [RuleFits, worm_kinds, dragon_kinds, worm_pair_kinds]

theorem takeWhile_append_stop {α : Type} (p : α → Bool) (y : α) (hy : p y = false) :
    ∀ l : List α, (∀ x ∈ l, p x = true) → (l ++ [y]).takeWhile p = l := by
  intro l
  induction l with
  | nil => intro _; simp [List.takeWhile, hy]
  | cons a rest ih =>
    intro h
    rw [List.cons_append, List.takeWhile_cons_of_pos (h a (List.mem_cons_self _ _)),
      ih (fun x hx => h x (List.mem_cons_of_mem _ hx))]

/-- The rules of the table before its closing entry are not themselves
closing entries when no kind of reason is the number -1, and the closing entry
is one. -/
theorem discard_rules_active (k : Constants) (hkinds : ∀ ty ∈ k.kinds, ty ≠ -1) :
    (∀ rule ∈ (discard_rules k).take 6,
      decide (rule.reason_type.head? ≠ some (-1)) = true)
    ∧ ∀ rule ∈ (discard_rules k).drop 6,
      decide (rule.reason_type.head? ≠ some (-1)) = false := by
  have h1 : k.ATTACK_MOVE ≠ -1 := hkinds _ (by simp [Constants.kinds])
  have h2 : k.SEMEAI_MOVE ≠ -1 := hkinds _ (by simp [Constants.kinds])
  have h3 : k.ATTACK_EITHER_MOVE ≠ -1 := hkinds _ (by simp [Constants.kinds])
  have h4 : k.OWL_ATTACK_MOVE ≠ -1 := hkinds _ (by simp [Constants.kinds])
  constructor
  · intro rule hr
    simp only [discard_rules, List.take, List.mem_cons, List.mem_singleton,
      List.not_mem_nil, or_false] at hr
    rcases hr with rfl | rfl | rfl | rfl | rfl | rfl <;> simp [h1, h2, h3, h4]
  · intro rule hr
    simp only [discard_rules, List.drop, List.mem_cons, List.mem_singleton,
      List.not_mem_nil, or_false] at hr
    subst hr
    simp

theorem holds_base (cfg : Config) (k : Constants) (e : Engine) (b : Board)
    (t t1 : Reasons) (g g1 : Registry) (pos what : Int) (cnd : Option Condition)
    (hs : SameReasons t t1) (hk : TablesKept g g1)
    (h : Holds cfg k e b t1 g1 pos cnd what) : Holds cfg k e b t g pos cnd what := by
  obtain ⟨ga, c, ga1, ka, ra, hc⟩ := h
  exact ⟨ga, c, ga1, TablesKept.trans _ _ _ hk ka,
    by rw [← run_condition_same cfg k e b t t1 hs]; exact ra, hc⟩

theorem fires_base (cfg : Config) (k : Constants) (e : Engine) (b : Board)
    (t t1 : Reasons) (g g1 : Registry) (pos : Int) (rule : discard_rule) (n i : Nat)
    (hs : SameReasons t t1) (hk : TablesKept g g1)
    (h : Fires cfg k e b t1 g1 pos rule n i) : Fires cfg k e b t g pos rule n i := by
  obtain ⟨l, h1, h2, h3, h4, h5⟩ := h
  rw [reason_count_same cfg t t1 hs] at h1
  rw [hs.1] at h2
  rw [(hs.2.2 n).1] at h3
  rw [(hs.2.2 n).2] at h4
  exact ⟨l, h1, h2, h3, holds_base cfg k e b t t1 g g1 pos _ _ hs hk h4, h5⟩

theorem handles_known_later (cfg : Config) (k : Constants) (t t1 : Reasons)
    (g g1 : Registry) (pos : Int) (hs : SameReasons t t1) (hk : TablesKept g g1)
    (hwf : HandlesKnown cfg k t g pos) : HandlesKnown cfg k t1 g1 pos := by
  intro l hl
  rw [reason_count_same cfg t t1 hs] at hl
  obtain ⟨w1, w2, w3⟩ := hwf l hl
  rw [hs.1, (hs.2.2 _).1, (hs.2.2 _).2]
  exact ⟨fun h => lt_of_lt_of_le (w1 h) hk.worms.1,
    fun h => lt_of_lt_of_le (w2 h) hk.dragons.1,
    fun h => lt_of_lt_of_le (w3 h) hk.worm_pairs.1⟩

/-- C21: take a returning call of `discard_redundant_move_reasons(pos)` for
a point whose reasons hold entries of the object tables, with no kind of
reason equal to the closing mark -1. The lists, kinds and objects of the
reasons are unchanged, and every status bit set before the call is set after
it. A returning run with the six rules of the table in another order, the
closing entry kept last, leaves the same status in every record, and so does
a second call after the first. -/
theorem discard_flags_spec (cfg : Config) (k : Constants) (e : Engine) (b : Board)
    (t : Reasons) (g : Registry) (pos : Int) (t1 : Reasons) (g1 : Registry)
    (hkinds : ∀ ty ∈ k.kinds, ty ≠ -1) (hwf : HandlesKnown cfg k t g pos)
    (h : discard_redundant_move_reasons cfg k e b t g pos = some (t1, g1)) :
    SameReasons t t1
    ∧ (∀ n i, (t.move_reasons n).status.testBit i = true →
        (t1.move_reasons n).status.testBit i = true)
    ∧ (∀ (rules : List discard_rule) (t2 : Reasons) (g2 : Registry),
        rules.Perm ((discard_rules k).take 6) →
        discard_with cfg k e b pos (rules ++ (discard_rules k).drop 6) (t, g) = some (t2, g2) →
        ∀ n, (t2.move_reasons n).status = (t1.move_reasons n).status)
    ∧ (∀ (t2 : Reasons) (g2 : Registry),
        discard_redundant_move_reasons cfg k e b t1 g1 pos = some (t2, g2) →
        ∀ n, (t2.move_reasons n).status = (t1.move_reasons n).status) := by
  obtain ⟨act, stop⟩ := discard_rules_active k hkinds
  have hstop : decide (({ reason_type := [-1], condition := none, flags := 0 } :
      discard_rule).reason_type.head? ≠ some (-1)) = false := by simp
  have tw : ∀ rules : List discard_rule, rules.Perm ((discard_rules k).take 6) →
      (rules ++ (discard_rules k).drop 6).takeWhile
        (fun r => decide (r.reason_type.head? ≠ some (-1))) = rules := by
    intro rules hp
    exact takeWhile_append_stop (fun r : discard_rule =>
        decide (r.reason_type.head? ≠ some (-1)))
      { reason_type := [-1], condition := none, flags := 0 } hstop rules
      (fun x hx => act x (hp.mem_iff.1 hx))
  have fits : ∀ rules : List discard_rule, rules.Perm ((discard_rules k).take 6) →
      ∀ rule ∈ rules ++ (discard_rules k).drop 6, RuleFits k rule := by
    intro rules hp rule hr
    rcases List.mem_append.1 hr with hr | hr
    · exact discard_rules_fit k rule (List.mem_of_mem_take (hp.mem_iff.1 hr))
    · exact discard_rules_fit k rule (List.mem_of_mem_drop hr)
  have table : discard_rules k = (discard_rules k).take 6 ++ (discard_rules k).drop 6 :=
    (List.take_append_drop 6 _).symm
  have h0 : discard_with cfg k e b pos
      ((discard_rules k).take 6 ++ (discard_rules k).drop 6) (t, g) = some (t1, g1) := by
    rw [← table]; exact h
  obtain ⟨s1, k1, b1⟩ := discard_with_bits cfg k e b t g pos hwf _
    (fits _ (List.Perm.refl _)) t g t1 g1 (same_reasons_refl t) (TablesKept.refl g) h0
  rw [tw _ (List.Perm.refl _)] at b1
  refine ⟨s1, fun n i hb => (b1 n i).2 (Or.inl hb), ?_, ?_⟩
  · intro rules t2 g2 hp h2 n
    obtain ⟨_, _, b2⟩ := discard_with_bits cfg k e b t g pos hwf _ (fits _ hp) t g t2 g2
      (same_reasons_refl t) (TablesKept.refl g) h2
    rw [tw _ hp] at b2
    apply int_eq_of_testBit
    intro i
    rw [Bool.eq_iff_iff, b2 n i, b1 n i]
    constructor
    · rintro (hb | ⟨r, hr, hf⟩)
      · exact Or.inl hb
      · exact Or.inr ⟨r, hp.mem_iff.1 hr, hf⟩
    · rintro (hb | ⟨r, hr, hf⟩)
      · exact Or.inl hb
      · exact Or.inr ⟨r, hp.mem_iff.2 hr, hf⟩
  · intro t2 g2 h2 n
    have h3 : discard_with cfg k e b pos
        ((discard_rules k).take 6 ++ (discard_rules k).drop 6) (t1, g1) = some (t2, g2) := by
      rw [← table]; exact h2
    obtain ⟨_, _, b2⟩ := discard_with_bits cfg k e b t1 g1 pos
      (handles_known_later cfg k t t1 g g1 pos s1 k1 hwf) _ (fits _ (List.Perm.refl _))
      t1 g1 t2 g2 (same_reasons_refl t1) (TablesKept.refl g1) h3
    rw [tw _ (List.Perm.refl _)] at b2
    apply int_eq_of_testBit
    intro i
    rw [Bool.eq_iff_iff, b2 n i]
    constructor
    · rintro (hb | ⟨r, hr, hf⟩)
      · exact hb
      · exact (b1 n i).2 (Or.inr ⟨r, hr, fires_base cfg k e b t t1 g g1 pos r n i s1 k1 hf⟩)
    · exact Or.inl

/-- In the sample position with inessential worms the point 7 has the single
reason `ATTACK_MOVE_GOOD_KO` on the worm number 1: the call returns, the
record number 0 gets the status `TERRITORY_REDUNDANT`, and the run with the
six rules in the opposite order returns with the same status. -/
theorem discard_flags_spec_witness :
    ∃ r r2, discard_redundant_move_reasons small sample_constants inessential_engine
        sample_board ko_attack_reasons two_worms 7 = some r
      ∧ discard_with small sample_constants inessential_engine sample_board 7
          (((discard_rules sample_constants).take 6).reverse
            ++ (discard_rules sample_constants).drop 6)
          (ko_attack_reasons, two_worms) = some r2
      ∧ SameReasons ko_attack_reasons r.1
      ∧ (r2.1.move_reasons 0).status = (r.1.move_reasons 0).status
      ∧ (r.1.move_reasons 0).status = sample_constants.TERRITORY_REDUNDANT := by
  obtain ⟨r, hr⟩ := Option.isSome_iff_exists.1
    (show (discard_redundant_move_reasons small sample_constants inessential_engine
        sample_board ko_attack_reasons two_worms 7).isSome = true by decide)
  obtain ⟨r2, hr2⟩ := Option.isSome_iff_exists.1
    (show (discard_with small sample_constants inessential_engine sample_board 7
        (((discard_rules sample_constants).take 6).reverse
          ++ (discard_rules sample_constants).drop 6)
        (ko_attack_reasons, two_worms)).isSome = true by decide)
  have h := discard_flags_spec small sample_constants inessential_engine sample_board
    ko_attack_reasons two_worms 7 r.1 r.2 (by decide) (by decide) hr
  have hst : (r.1.move_reasons 0).status = sample_constants.TERRITORY_REDUNDANT := by
    have : (discard_redundant_move_reasons small sample_constants inessential_engine
        sample_board ko_attack_reasons two_worms 7).map
        (fun s => (s.1.move_reasons 0).status)
        = some sample_constants.TERRITORY_REDUNDANT := by decide
    rw [hr] at this
    simpa using this
  exact ⟨r, r2, hr, hr2, h.1,
    h.2.2.1 _ r2.1 r2.2 (List.reverse_perm _) hr2 0, hst⟩

/-! ## value_move_reasons: the counting loop -/

/-- The counting loop of `value_move_reasons` on a row whose cells are not
negative as far as the rounds granted reach: it runs out of cells, that is, it
reads the cell after the last one granted. -/
theorem count_reasons_past_end (row : Nat → Int) :
    ∀ fuel n, (∀ j, n ≤ j → j < n + fuel → 0 ≤ row j) → count_reasons row fuel n = none := by
  intro fuel
  induction fuel with
  | zero => intro n _; rfl
  | succ f ih =>
    intro n h
    simp only [count_reasons]
    rw [if_pos (h n le_rfl (by omega))]
    exact ih (n + 1) (fun j h1 h2 => h j (by omega) (by omega))

/-- The counting loop of `value_move_reasons` on a row with a negative cell
within the rounds granted stops at the first such cell, which is the length
of the list. -/
theorem count_reasons_stops (row : Nat → Int) :
    ∀ fuel n, count_from row fuel n < n + fuel →
      count_reasons row fuel n = some (count_from row fuel n) := by
  intro fuel
  induction fuel with
  | zero => intro n h; simp only [count_from] at h; omega
  | succ f ih =>
    intro n h
    simp only [count_reasons, count_from] at h ⊢
    by_cases hneg : row n < 0
    · rw [if_pos hneg] at h ⊢
      rw [if_neg (not_le.2 hneg)]
    · rw [if_neg hneg] at h ⊢
      rw [if_pos (not_lt.1 hneg)]
      exact ih (n + 1) (by omega)

/-- C39 fails in the code: on the 2 by 2 board with `MAX_REASONS` = 2, the
reason lists after `add_move_reason(4, 1, 1)` and `add_move_reason(4, 1, 2)`
are reachable, the list of the point 4 holds `MAX_REASONS` handles and no
`-1`, and the loop `while (move[pos].reason[num_reasons] >= 0) num_reasons++`
finds both cells of the array not negative: it goes on to read
`reason[MAX_REASONS]`, which the model records as a fault, and the call of
`value_move_reasons` does not return. -/
theorem count_reasons_full_list :
    ReasonsReachable small two_reasons
    ∧ reason_count small two_reasons 4 = small.MAX_REASONS
    ∧ (two_reasons.reason 4 0, two_reasons.reason 4 1) = (0, 1)
    ∧ count_reasons (two_reasons.reason 4) small.MAX_REASONS 0 = none
    ∧ (value_move_reasons small sample_constants sample_engine ko_referee sample_board
        { reasons := two_reasons, registry := two_worms, moves := sample_fields,
          dragon_value := fun _ => 0 } 4 2 0 0).isNone = true := by
  refine ⟨two_reasons_reachable, by decide, by decide, by decide, by decide!⟩

/-! ## add_replacement_move: rules already in effect -/

/-- A point that is already sent to `dest` is left alone by
`add_replacement_move(frm, dest)`: the call returns with the map unchanged. -/
theorem add_replacement_move_same (cfg : Config) (m : Int → Int) (frm dest : Int)
    (hf : cfg.ON_BOARD1 frm = true) (hd : cfg.ON_BOARD1 dest = true)
    (hno : cfg.ON_BOARD1 cfg.NO_MOVE = false) (h : m frm = dest) :
    add_replacement_move cfg m frm dest = some m := by
  have hne : m frm ≠ cfg.NO_MOVE := by
    intro hh
    rw [h] at hh
    rw [hh, hno] at hd
    exact absurd hd (by decide)
  unfold add_replacement_move
  rw [if_neg (by rw [hf]; decide), if_neg (by rw [hd]; decide)]
  dsimp only
  rw [if_pos hne, if_pos (Or.inl h)]

/-- In a map where every redirection ends after one hop, a point `frm` that
is sent to the destination of `dest`, and not to `dest` itself, makes
`add_replacement_move(frm, dest)` stop at its assertion. -/
theorem add_replacement_move_final (cfg : Config) (m : Int → Int) (frm dest : Int)
    (hf : cfg.ON_BOARD1 frm = true) (hd : cfg.ON_BOARD1 dest = true)
    (hno : cfg.ON_BOARD1 cfg.NO_MOVE = false) (hop : one_hop cfg m)
    (hne : m frm ≠ cfg.NO_MOVE) (hdest : m frm ≠ dest) :
    add_replacement_move cfg m frm dest = none := by
  unfold add_replacement_move
  rw [if_neg (by rw [hf]; decide), if_neg (by rw [hd]; decide)]
  dsimp only
  rw [if_pos hne, if_neg]
  rintro (h | h)
  · exact hdest h
  · have := (hop frm hf hne).2
    rw [this] at h
    rw [h, hno] at hd
    exact absurd hd (by decide)

/-- C35 fails in the code: on the 2 by 2 board, after the calls
`add_replacement_move(4, 5)` and `add_replacement_move(5, 7)`, which both
return, the points 4 and 5 are sent to 7, so the point 4 is sent to the final
destination of 5 and the rule "4 to 5" is in effect; the call
`add_replacement_move(4, 5)`, which completed before, now stops at the
assertion `dd == to || to == replacement_map[dd]`. -/
theorem repeated_rule_faults :
    ReplacementReachable small sent_5_to_7
    ∧ add_replacement_move small small_fresh.replacement_map 4 5 = some sent_4_to_5
    ∧ add_replacement_move small sent_4_to_5 5 7 = some sent_5_to_7
    ∧ (sent_5_to_7 4, sent_5_to_7 5, sent_5_to_7 7) = (7, 7, small.NO_MOVE)
    ∧ add_replacement_move small sent_5_to_7 4 5 = none :=
  ⟨ReplacementReachable.step sent_4_to_5 sent_5_to_7 5 7
      (ReplacementReachable.step small_fresh.replacement_map sent_4_to_5 4 5
        (ReplacementReachable.clear zero_state) (by decide) rfl)
      (by decide) rfl,
    rfl, rfl, by decide, rfl⟩

/-! ## The margin of a connection -/

/-- Outside of scoring and of the early returns, `connection_value` with a
margin that is not negative takes the cautious coefficient above 20 and the
interpolated one up to 20. -/
theorem connection_value_margin (k : Constants) (e : Engine) (b : Board) (mv : Moves)
    (dragona dragonb tt : Int) (margin : ℚ) (hs : e.doing_scoring = 0) (hm : 0 ≤ margin)
    (hc : ¬ (upgraded_safety k e dragona dragonb tt = k.CRITICAL
      ∧ 2 * e.DRAGON2_genus dragonb + e.DRAGON2_heyes dragonb = 0
      ∧ e.DRAGON2_moyo dragonb = 0)) :
    connection_value k e b mv dragona dragonb tt margin
      = impact_result k e b dragona tt
          (if margin > 20 then
            impact_cell cautious_impact_values (e.DRAGON2_safety dragona)
              (upgraded_safety k e dragona dragonb tt)
          else
            0.05 * margin * impact_cell cautious_impact_values (e.DRAGON2_safety dragona)
                (upgraded_safety k e dragona dragonb tt)
              + (1 - 0.05 * margin) * impact_cell impact_values (e.DRAGON2_safety dragona)
                (upgraded_safety k e dragona dragonb tt)) := by
  have hneg : ¬ margin < 0 := not_lt.2 hm
  simp only [upgraded_safety] at hc
  simp only [connection_value, impact_result, upgraded_safety]
  rw [if_neg hc]
  simp only [hs, ne_eq, not_true_eq_false, false_and, false_or, if_false, hneg]

/-- What the caller of `connection_value` does with the lead: outside of
scoring, for a mover who is ahead by `m ≥ 0` points (`score = m` for white,
`score = -m` for black), the case `CUT_MOVE` of `estimate_strategical_value`,
which `CONNECT_MOVE` falls through to, hands `connection_value` the margin `m`
only when `m > 20`, and the margin 0 otherwise.  So the impact coefficient of
a connection that is valued (no early return) is
`cautious_impact_values[s1][s2]` for `m > 20` and `impact_values[s1][s2]` for
`0 ≤ m ≤ 20`; the interpolation `0.05 * margin * cautious + (1 - 0.05 *
margin) * impact` is what `connection_value` computes from a margin between
0 and 20 that it is handed, which this caller never does apart from 0. -/
theorem strategical_cut_margin (k : Constants) (e : Engine) (b : Board) (mv : Moves)
    (pos color : Int) (score m : ℚ) (acc : Strategy) (what : Int)
    (hs : e.doing_scoring = 0) (hm : 0 ≤ m)
    (hahead : (color = k.WHITE ∧ score = m) ∨ (color = k.BLACK ∧ score = -m)) :
    strategical_cut k e b mv pos color score acc what
        = some { acc with
            dragon_value :=
              raise_dragon_value
                (raise_dragon_value acc.dragon_value (acc.registry.conn_dragon1 what.toNat).toNat
                  (connection_value k e b mv
                    (acc.registry.dragons (acc.registry.conn_dragon1 what.toNat).toNat)
                    (acc.registry.dragons (acc.registry.conn_dragon2 what.toNat).toNat)
                    pos (if m > 20 then m else 0)))
                (acc.registry.conn_dragon2 what.toNat).toNat
                (connection_value k e b mv
                  (acc.registry.dragons (acc.registry.conn_dragon2 what.toNat).toNat)
                  (acc.registry.dragons (acc.registry.conn_dragon1 what.toNat).toNat)
                  pos (if m > 20 then m else 0)) }
      ∧ (∀ dragona dragonb : Int,
          ¬ (upgraded_safety k e dragona dragonb pos = k.CRITICAL
            ∧ 2 * e.DRAGON2_genus dragonb + e.DRAGON2_heyes dragonb = 0
            ∧ e.DRAGON2_moyo dragonb = 0) →
          connection_value k e b mv dragona dragonb pos (if m > 20 then m else 0)
            = impact_result k e b dragona pos
                (if m > 20 then
                  impact_cell cautious_impact_values (e.DRAGON2_safety dragona)
                    (upgraded_safety k e dragona dragonb pos)
                else
                  impact_cell impact_values (e.DRAGON2_safety dragona)
                    (upgraded_safety k e dragona dragonb pos)))
      ∧ (∀ (dragona dragonb : Int) (margin : ℚ), 0 ≤ margin → margin ≤ 20 →
          ¬ (upgraded_safety k e dragona dragonb pos = k.CRITICAL
            ∧ 2 * e.DRAGON2_genus dragonb + e.DRAGON2_heyes dragonb = 0
            ∧ e.DRAGON2_moyo dragonb = 0) →
          connection_value k e b mv dragona dragonb pos margin
            = impact_result k e b dragona pos
                (0.05 * margin * impact_cell cautious_impact_values (e.DRAGON2_safety dragona)
                    (upgraded_safety k e dragona dragonb pos)
                  + (1 - 0.05 * margin) * impact_cell impact_values (e.DRAGON2_safety dragona)
                    (upgraded_safety k e dragona dragonb pos))) := by
  have hmargin : (if (color = k.WHITE ∧ score > 20) ∨ (color = k.BLACK ∧ score < -20) then
      gg_abs score else 0) = if m > 20 then m else 0 := by
    by_cases h20 : m > 20
    · rw [if_pos h20, if_pos]
      · rcases hahead with ⟨_, h⟩ | ⟨_, h⟩
        · rw [h, gg_abs, abs_of_nonneg hm]
        · rw [h, gg_abs, abs_neg, abs_of_nonneg hm]
      · rcases hahead with ⟨hc, h⟩ | ⟨hc, h⟩
        · exact Or.inl ⟨hc, by rw [h]; exact h20⟩
        · exact Or.inr ⟨hc, by rw [h]; linarith⟩
    · rw [if_neg h20, if_neg]
      rintro (⟨_, h⟩ | ⟨_, h⟩)
      · rcases hahead with ⟨_, h1⟩ | ⟨_, h1⟩
        · rw [h1] at h; exact h20 h
        · rw [h1] at h; linarith
      · rcases hahead with ⟨_, h1⟩ | ⟨_, h1⟩
        · rw [h1] at h; linarith
        · rw [h1] at h; exact h20 (by linarith)
  refine ⟨?_, ?_, ?_⟩
  · simp only [strategical_cut, hs, ne_eq, not_true_eq_false, false_and, if_false]
    rw [hmargin]
  · intro dragona dragonb hc
    by_cases h20 : m > 20
    · rw [connection_value_margin k e b mv dragona dragonb pos _ hs
        (by rw [if_pos h20]; exact hm) hc]
      simp only [if_pos h20]
    · rw [connection_value_margin k e b mv dragona dragonb pos _ hs
        (by rw [if_neg h20]) hc]
      simp only [if_neg h20]
      have h0 : ¬ ((0 : ℚ) > 20) := by norm_num
      rw [if_neg h0]
      congr 1
      ring
  · intro dragona dragonb margin h0 h20 hc
    rw [connection_value_margin k e b mv dragona dragonb pos margin hs h0 hc,
      if_neg (not_lt.2 h20)]

/-- The lemma `strategical_cut_margin` at the connecting move 6 of the 3 by 3
position, with white ahead by 10: the margin handed over is 0. -/
theorem strategical_cut_margin_at_ten :
    strategical_cut sample_constants gap_engine gap_board sample_fields 6 1 10
        { tot_value := 0, dragon_value := fun _ => 0, registry := gap_registry } 0
      = some { tot_value := 0
               dragon_value :=
                raise_dragon_value
                  (raise_dragon_value (fun _ => 0) 0
                    (connection_value sample_constants gap_engine gap_board sample_fields 5 7 6
                      (if (10 : ℚ) > 20 then 10 else 0)))
                  1
                  (connection_value sample_constants gap_engine gap_board sample_fields 7 5 6
                    (if (10 : ℚ) > 20 then 10 else 0))
               registry := gap_registry } :=
  (strategical_cut_margin sample_constants gap_engine gap_board sample_fields 6 1 10 10
    { tot_value := 0, dragon_value := fun _ => 0, registry := gap_registry } 0 rfl
    (by norm_num) (Or.inl ⟨rfl, rfl⟩)).1

/-- C31 fails in the code: the comment of `connection_value` says that the
parameter `margin` is the margin by which we are ahead and that between 0 and
20 points the two tables are interpolated linearly, and `connection_value`
does so for the margin 10 (coefficient `0.05 * 10 * 0.2 + (1 - 0.05 * 10) *
0.08` = 0.14, hence 0.84 for the effective size 3).  But its only caller, the
case `CUT_MOVE` of `estimate_strategical_value`, hands over the lead only
when it exceeds 20 and 0 otherwise: at the connecting move 6 of the 3 by 3
position, with white to move and ahead by 10 points outside of scoring, the
two living dragons are valued with `impact_values[ALIVE][ALIVE]` (0.08, hence
0.48), as if white were not ahead at all. -/
theorem small_lead_not_interpolated :
    gap_engine.doing_scoring = 0
      ∧ connection_value sample_constants gap_engine gap_board sample_fields 5 7 6 10
        = (0.05 * 10 * impact_cell cautious_impact_values 1 1
            + (1 - 0.05 * 10) * impact_cell impact_values 1 1) * 2 * 3
      ∧ (strategical_cut sample_constants gap_engine gap_board sample_fields 6 1 10
            { tot_value := 0, dragon_value := fun _ => 0, registry := gap_registry } 0).map
          (fun s => (s.dragon_value 0, s.dragon_value 1))
        = some (impact_cell impact_values 1 1 * 2 * 3, impact_cell impact_values 1 1 * 2 * 3)
      ∧ (strategical_cut sample_constants gap_engine gap_board sample_fields 6 1 10
            { tot_value := 0, dragon_value := fun _ => 0, registry := gap_registry } 0).map
          (fun s => (s.dragon_value 0, s.dragon_value 1))
        = (strategical_cut sample_constants gap_engine gap_board sample_fields 6 1 0
            { tot_value := 0, dragon_value := fun _ => 0, registry := gap_registry } 0).map
          (fun s => (s.dragon_value 0, s.dragon_value 1))
      ∧ impact_cell impact_values 1 1 * 2 * 3
        ≠ (0.05 * 10 * impact_cell cautious_impact_values 1 1
            + (1 - 0.05 * 10) * impact_cell impact_values 1 1) * 2 * 3 := by
  refine ⟨by decide, by decide!, by decide!, by decide!, by decide!⟩


/-! ## The threats reported at a point -/

theorem write_list_spec : ∀ (l : List Int) (strings : Nat → Int) (n i : Nat),
    write_list strings n l i
      = if n ≤ i ∧ i < n + l.length then l.getD (i - n) 0 else strings i := by
  intro l
  induction l with
  | nil =>
    intro strings n i
    simp only [write_list, List.length_nil, add_zero]
    rw [if_neg (by omega)]
  | cons x xs ih =>
    intro strings n i
    simp only [write_list, List.length_cons]
    rw [ih]
    by_cases h1 : n + 1 ≤ i ∧ i < n + 1 + xs.length
    · rw [if_pos h1, if_pos (by omega)]
      have h2 : i - n = (i - (n + 1)) + 1 := by omega
      rw [h2, List.getD_cons_succ]
    · rw [if_neg h1]
      by_cases h3 : i = n
      · subst h3
        rw [if_pos (by omega), Function.update_same, Nat.sub_self, List.getD_cons_zero]
      · rw [if_neg (by omega), Function.update_noteq h3]

/-- The worms of the reasons of kind `type` among the cells that the loop
visits from the index `k` on. -/
theorem threats_range (t : Reasons) (g : Registry) (pos type : Int) :
    ∀ fuel k,
      (((List.range' k (count_from (t.reason pos) fuel k - k)).map (t.reason pos)).filter
          (fun r => decide ((t.move_reasons r.toNat).type = type))).map
          (fun r => g.worms (t.move_reasons r.toNat).what.toNat)
        = match fuel with
          | 0 => []
          | n + 1 =>
            if t.reason pos k < 0 then []
            else
              (if (t.move_reasons (t.reason pos k).toNat).type = type then
                [g.worms (t.move_reasons (t.reason pos k).toNat).what.toNat] else [])
              ++ (((List.range' (k + 1) (count_from (t.reason pos) n (k + 1) - (k + 1))).map
                    (t.reason pos)).filter
                  (fun r => decide ((t.move_reasons r.toNat).type = type))).map
                  (fun r => g.worms (t.move_reasons r.toNat).what.toNat) := by
  intro fuel k
  cases fuel with
  | zero => simp [count_from]
  | succ n =>
    simp only [count_from]
    by_cases h : t.reason pos k < 0
    · simp [h]
    · simp only [if_neg h]
      have hge := count_from_ge (t.reason pos) n (k + 1)
      have e : count_from (t.reason pos) n (k + 1) - k
          = (count_from (t.reason pos) n (k + 1) - (k + 1)) + 1 := by omega
      rw [e, List.range'_succ, List.map_cons, List.filter_cons]
      by_cases hty : (t.move_reasons (t.reason pos k).toNat).type = type
      · simp [hty]
      · simp [hty]

/-- The loop of the two functions, entered below the cap: it appends the
worms of the remaining threats up to the cap. -/
theorem threats_loop_spec (t : Reasons) (g : Registry) (pos type : Int) (m : Nat) :
    ∀ fuel k n strings, n < m →
      threats_loop t g pos type (m : Int) fuel k (n, strings)
        = (n + (List.take (m - n)
              ((((List.range' k (count_from (t.reason pos) fuel k - k)).map
                  (t.reason pos)).filter
                (fun r => decide ((t.move_reasons r.toNat).type = type))).map
                (fun r => g.worms (t.move_reasons r.toNat).what.toNat))).length,
            write_list strings n (List.take (m - n)
              ((((List.range' k (count_from (t.reason pos) fuel k - k)).map
                  (t.reason pos)).filter
                (fun r => decide ((t.move_reasons r.toNat).type = type))).map
                (fun r => g.worms (t.move_reasons r.toNat).what.toNat)))) := by
  intro fuel
  induction fuel with
  | zero =>
    intro k n strings _
    simp [threats_loop, count_from, write_list]
  | succ f ih =>
    intro k n strings hn
    rw [threats_range t g pos type (f + 1) k]
    simp only [threats_loop]
    by_cases h : t.reason pos k < 0
    · simp [h, write_list]
    · simp only [if_neg h]
      by_cases hty : (t.move_reasons (t.reason pos k).toNat).type = type
      · simp only [if_pos hty]
        by_cases hcap : ((n + 1 : Nat) : Int) = (m : Int)
        · rw [if_pos hcap]
          have hm : m - n = 1 := by
            have : n + 1 = m := by exact_mod_cast hcap
            omega
          rw [hm]
          simp [write_list]
        · rw [if_neg hcap]
          have hlt : n + 1 < m := by
            have : n + 1 ≠ m := fun h1 => hcap (by exact_mod_cast h1)
            omega
          rw [ih (k + 1) (n + 1) _ hlt]
          have hm : m - n = (m - (n + 1)) + 1 := by omega
          rw [hm, List.singleton_append, List.take_succ_cons, List.length_cons]
          simp only [write_list]
          congr 1
          omega
      · simp only [if_neg hty]
        have hcap : ¬ ((n : Nat) : Int) = (m : Int) := by
          intro h1
          have : n = m := by exact_mod_cast h1
          omega
        rw [if_neg hcap, ih (k + 1) n _ hn, List.nil_append]

/-- A cap of at least one string is kept by the two functions: the value
returned is the smaller of the cap and the number of threats of the kind in
the list, the cells of `strings` below it hold the worms of the first threats
in the order of the list, and every other cell of `strings` is as before. -/
theorem threats_capped (cfg : Config) (t : Reasons) (g : Registry) (pos type : Int)
    (m : Nat) (strings : Nat → Int) (hm : 1 ≤ m) :
    (threats_loop t g pos type (m : Int) cfg.MAX_REASONS 0 (0, strings)).1
        = min m (threat_worms cfg t g pos type).length
      ∧ (∀ i, i < min m (threat_worms cfg t g pos type).length →
          (threats_loop t g pos type (m : Int) cfg.MAX_REASONS 0 (0, strings)).2 i
            = (threat_worms cfg t g pos type).getD i 0)
      ∧ (∀ i, min m (threat_worms cfg t g pos type).length ≤ i →
          (threats_loop t g pos type (m : Int) cfg.MAX_REASONS 0 (0, strings)).2 i
            = strings i) := by
  have h := threats_loop_spec t g pos type m cfg.MAX_REASONS 0 0 strings (by omega)
  have e : (((List.range' 0 (count_from (t.reason pos) cfg.MAX_REASONS 0 - 0)).map
        (t.reason pos)).filter
      (fun r => decide ((t.move_reasons r.toNat).type = type))).map
      (fun r => g.worms (t.move_reasons r.toNat).what.toNat)
      = threat_worms cfg t g pos type := by
    simp only [threat_worms, reason_count, Nat.sub_zero, List.range_eq_range']
  rw [e] at h
  rw [h]
  simp only [Nat.sub_zero, zero_add, List.length_take]
  refine ⟨trivial, ?_, ?_⟩
  · intro i hi
    rw [write_list_spec, if_pos ⟨Nat.zero_le i, by simpa using hi⟩, Nat.sub_zero]
    simp only [List.getD_eq_getElem?_getD]
    rw [List.getElem?_take_of_lt (lt_of_lt_of_le hi (min_le_left _ _))]
  · intro i hi
    rw [write_list_spec, if_neg]
    rintro ⟨_, h2⟩
    simp only [List.length_take, zero_add] at h2
    omega


/-- With a cap of at least one string `get_attack_threats` returns the smaller
of the cap and the number of `ATTACK_THREAT_MOVE` reasons of the point, and
writes the worms of the first of them, in the order of the list, to the cells
of `strings` below the value returned and to no other cell. -/
theorem get_attack_threats_capped (cfg : Config) (k : Constants) (t : Reasons)
    (g : Registry) (pos : Int) (m : Nat) (strings : Nat → Int) (hm : 1 ≤ m) :
    (get_attack_threats cfg k t g pos (m : Int) strings).1
        = ((min m (threat_worms cfg t g pos k.ATTACK_THREAT_MOVE).length : Nat) : Int)
      ∧ (∀ i, i < min m (threat_worms cfg t g pos k.ATTACK_THREAT_MOVE).length →
          (get_attack_threats cfg k t g pos (m : Int) strings).2 i
            = (threat_worms cfg t g pos k.ATTACK_THREAT_MOVE).getD i 0)
      ∧ (∀ i, min m (threat_worms cfg t g pos k.ATTACK_THREAT_MOVE).length ≤ i →
          (get_attack_threats cfg k t g pos (m : Int) strings).2 i = strings i) := by
  have h := threats_capped cfg t g pos k.ATTACK_THREAT_MOVE m strings hm
  simp only [get_attack_threats]
  exact ⟨by rw [h.1], h.2.1, h.2.2⟩

/-- The same for `get_defense_threats` and the reasons `DEFEND_THREAT_MOVE`. -/
theorem get_defense_threats_capped (cfg : Config) (k : Constants) (t : Reasons)
    (g : Registry) (pos : Int) (m : Nat) (strings : Nat → Int) (hm : 1 ≤ m) :
    (get_defense_threats cfg k t g pos (m : Int) strings).1
        = ((min m (threat_worms cfg t g pos k.DEFEND_THREAT_MOVE).length : Nat) : Int)
      ∧ (∀ i, i < min m (threat_worms cfg t g pos k.DEFEND_THREAT_MOVE).length →
          (get_defense_threats cfg k t g pos (m : Int) strings).2 i
            = (threat_worms cfg t g pos k.DEFEND_THREAT_MOVE).getD i 0)
      ∧ (∀ i, min m (threat_worms cfg t g pos k.DEFEND_THREAT_MOVE).length ≤ i →
          (get_defense_threats cfg k t g pos (m : Int) strings).2 i = strings i) := by
  have h := threats_capped cfg t g pos k.DEFEND_THREAT_MOVE m strings hm
  simp only [get_defense_threats]
  exact ⟨by rw [h.1], h.2.1, h.2.2⟩

theorem threat_lists_reachable : ReasonsReachable small threat_lists :=
  ReasonsReachable.add empty_board _ threat_lists 8 8 1
    (ReasonsReachable.add empty_board _
      (new_entry small (new_entry small (new_entry small small_fresh.reasons 7 4 0 0) 7 4 1 1)
        8 8 0 0) 8 8 0
      (ReasonsReachable.add empty_board _
        (new_entry small (new_entry small small_fresh.reasons 7 4 0 0) 7 4 1 1) 7 4 1
        (ReasonsReachable.add empty_board small_fresh.reasons
          (new_entry small small_fresh.reasons 7 4 0 0) 7 4 0
          (ReasonsReachable.clear zero_state) rfl) rfl) rfl) rfl

/-- C37 fails in the code for `max_strings = 0`: on the 2 by 2 board, with
the reasons `ATTACK_THREAT_MOVE` on the worms at 4 and 5 in the list of the
point 7, `get_attack_threats(7, 0, strings)` returns 2 and writes the cells
`strings[0]` and `strings[1]`, where the smaller of 0 and the number of
threats is 0 and no cell may be written; `get_defense_threats(8, 0, strings)`
does the same with the reasons `DEFEND_THREAT_MOVE` of the point 8.  The test
`num_strings == max_strings` comes after the first string is stored and is
not met again once `num_strings` is 1. -/
theorem threats_beyond_zero_cap :
    ReasonsReachable small threat_lists
      ∧ threat_worms small threat_lists two_worms 7 sample_constants.ATTACK_THREAT_MOVE = [4, 5]
      ∧ (get_attack_threats small sample_constants threat_lists two_worms 7 0 (fun _ => -1)).1
          = 2
      ∧ ((get_attack_threats small sample_constants threat_lists two_worms 7 0
            (fun _ => -1)).2 0,
          (get_attack_threats small sample_constants threat_lists two_worms 7 0
            (fun _ => -1)).2 1) = (4, 5)
      ∧ threat_worms small threat_lists two_worms 8 sample_constants.DEFEND_THREAT_MOVE = [4, 5]
      ∧ (get_defense_threats small sample_constants threat_lists two_worms 8 0 (fun _ => -1)).1
          = 2
      ∧ ((get_defense_threats small sample_constants threat_lists two_worms 8 0
            (fun _ => -1)).2 0,
          (get_defense_threats small sample_constants threat_lists two_worms 8 0
            (fun _ => -1)).2 1) = (4, 5) :=
  ⟨threat_lists_reachable, by decide, by decide, by decide, by decide, by decide, by decide⟩


/-! ## The double attack -/

/-- A call of `add_attack_either_move` that returns for two strings of one
worm, or for a second string that is undefendable, leaves the reason lists as
they were. -/
theorem add_attack_either_move_skips (cfg : Config) (k : Constants) (e : Engine) (b : Board)
    (s s1 : State) (pos str1 str2 : Int)
    (h : add_attack_either_move cfg k e b s pos str1 str2 = some s1)
    (hskip : b.worm_origin str1 = b.worm_origin str2
      ∨ (e.worm_attack_code str2 ≠ 0 ∧ e.worm_defend_code str2 = 0)) :
    s1.reasons = s.reasons := by
  unfold add_attack_either_move at h
  rcases h1 : find_worm cfg s.registry (b.worm_origin str1) with _ | ⟨worm1, g1⟩
  · rw [h1] at h; exact absurd h (by simp)
  rw [h1] at h
  simp only at h
  rcases h2 : find_worm cfg g1 (b.worm_origin str2) with _ | ⟨worm2, g2⟩
  · rw [h2] at h; exact absurd h (by simp)
  rw [h2] at h
  simp only at h
  split_ifs at h with c1 c2 c3 c4 c5
  · cases h; rfl
  · cases h; rfl
  · cases h; rfl
  · exfalso
    rcases hskip with hsame | hund
    · apply c3
      obtain ⟨a1, a2, _, _, _, _⟩ := find_worm_some cfg s.registry g1 _ worm1 h1
      obtain ⟨_, a3, a4, a5⟩ := find_worm_first cfg s.registry g1 _ worm1 h1
      obtain ⟨b1, b2, b3, _⟩ := find_worm_first cfg g1 g2 _ worm2 h2
      rcases Nat.lt_trichotomy worm1 worm2 with hlt | heq | hgt
      · exact absurd (a2.trans hsame) (b3 worm1 hlt)
      · exact heq
      · exfalso
        have e1 : g2.worms worm2 = g1.worms worm2 := b2.worms.2 worm2 (by omega)
        have e2 : g1.worms worm2 = s.registry.worms worm2 := a3.worms.2 worm2 (by omega)
        exact a4 worm2 hgt (by rw [← e2, ← e1, b1, hsame])
    · exact c5 hund

/-- C34 fails in the code: the first test of `add_attack_either_move` reads
the defense code of `str2` where the attack code is that of `str1`.  On the 2
by 2 sample position the worm at 4 is undefendable (attack code 1, defense
code 0) and the worm at 5 has a defense: `add_attack_either_move(7, 4, 5)`
adds the reason `ATTACK_EITHER_MOVE` on the pair of the two worms to the point
7, while the same pair in the other order, `add_attack_either_move(7, 5, 4)`,
adds nothing.  With the codes of `calm_engine`, where the worm at 4 can be
defended and the worm at 5 cannot be attacked, so that neither is
undefendable, `add_attack_either_move(7, 4, 5)` adds nothing. -/
theorem attack_either_wrong_string :
    (sample_engine.worm_attack_code 4, sample_engine.worm_defend_code 4,
        sample_engine.worm_attack_code 5, sample_engine.worm_defend_code 5) = (1, 0, 1, 1)
      ∧ (add_attack_either_move small sample_constants sample_engine sample_board
            small_fresh 7 4 5).map
          (fun s => (s.reasons.reason 7 0, (s.reasons.move_reasons 0).type,
            (s.reasons.move_reasons 0).what, s.registry.worm_pair1 0, s.registry.worm_pair2 0,
            s.registry.worms 0, s.registry.worms 1))
        = some (0, sample_constants.ATTACK_EITHER_MOVE, 0, 0, 1, 4, 5)
      ∧ (add_attack_either_move small sample_constants sample_engine sample_board
            small_fresh 7 5 4).map
          (fun s => (s.reasons.reason 7 0, s.reasons.next_reason)) = some (-1, 0)
      ∧ (calm_engine.worm_attack_code 4, calm_engine.worm_defend_code 4,
          calm_engine.worm_attack_code 5, calm_engine.worm_defend_code 5) = (1, 1, 0, 0)
      ∧ (add_attack_either_move small sample_constants calm_engine sample_board
            small_fresh 7 4 5).map
          (fun s => (s.reasons.reason 7 0, s.reasons.next_reason)) = some (-1, 0) :=
  ⟨by decide, rfl, by decide, by decide, by decide⟩


/-! ## The sign of the followup values -/

theorem followups_grow_refl (mv : Moves) : FollowupsGrow mv mv :=
  fun _ => ⟨le_refl _, le_refl _⟩

theorem followups_grow_trans {mv mv1 mv2 : Moves} (h1 : FollowupsGrow mv mv1)
    (h2 : FollowupsGrow mv1 mv2) : FollowupsGrow mv mv2 :=
  fun q => ⟨le_trans (h1 q).1 (h2 q).1, le_trans (h1 q).2 (h2 q).2⟩

theorem add_followup_value_grows (cfg : Config) (mv mv1 : Moves) (pos : Int) (v : ℚ)
    (h : add_followup_value cfg mv pos v = some mv1) : FollowupsGrow mv mv1 := by
  unfold add_followup_value at h
  split at h
  · exact absurd h (by simp)
  · split at h
    · rename_i hv
      simp only [Option.some.injEq] at h
      subst h
      intro q
      refine ⟨?_, le_refl _⟩
      by_cases hq : q = pos
      · subst hq
        simp only [Function.update_same]
        exact le_of_lt hv
      · simp only [Function.update_noteq hq]
        exact le_refl _
    · simp only [Option.some.injEq] at h
      subst h
      exact followups_grow_refl _

theorem add_reverse_followup_value_grows (cfg : Config) (mv mv1 : Moves) (pos : Int) (v : ℚ)
    (h : add_reverse_followup_value cfg mv pos v = some mv1) : FollowupsGrow mv mv1 := by
  unfold add_reverse_followup_value at h
  split at h
  · exact absurd h (by simp)
  · split at h
    · rename_i hv
      simp only [Option.some.injEq] at h
      subst h
      intro q
      refine ⟨le_refl _, ?_⟩
      by_cases hq : q = pos
      · subst hq
        simp only [Function.update_same]
        exact le_of_lt hv
      · simp only [Function.update_noteq hq]
        exact le_refl _
    · simp only [Option.some.injEq] at h
      subst h
      exact followups_grow_refl _

theorem territorial_attack_grows (k : Constants) (e : Engine) (b : Board) (pos color : Int)
    (acc acc1 : Territory) (ty what : Int)
    (h : territorial_attack k e b pos color acc ty what = some acc1) :
    FollowupsGrow acc.moves acc1.moves := by
  unfold territorial_attack at h
  simp only at h
  split_ifs at h <;> simp only [Option.some.injEq] at h <;> subst h <;>
    exact followups_grow_refl _

theorem territorial_defend_grows (k : Constants) (e : Engine) (b : Board) (pos color : Int)
    (acc acc1 : Territory) (ty what : Int)
    (h : territorial_defend k e b pos color acc ty what = some acc1) :
    FollowupsGrow acc.moves acc1.moves := by
  unfold territorial_defend at h
  simp only at h
  split_ifs at h <;> simp only [Option.some.injEq] at h <;> subst h <;>
    exact followups_grow_refl _

theorem map_moves_grows (cfg : Config) (acc acc1 : Territory) (pos : Int) (v : ℚ)
    (h : ((add_followup_value cfg acc.moves pos v).map fun mv => { acc with moves := mv })
      = some acc1) :
    FollowupsGrow acc.moves acc1.moves := by
  simp only [Option.map_eq_some'] at h
  obtain ⟨mv, hm, rfl⟩ := h
  exact add_followup_value_grows cfg _ _ _ _ hm

theorem territorial_attack_threat_grows (cfg : Config) (k : Constants) (e : Engine)
    (b : Board) (pos color : Int) (acc acc1 : Territory) (what : Int)
    (h : territorial_attack_threat cfg k e b pos color acc what = some acc1) :
    FollowupsGrow acc.moves acc1.moves := by
  unfold territorial_attack_threat at h
  dsimp only at h
  split_ifs at h
  · simp only [Option.some.injEq] at h; subst h; exact followups_grow_refl _
  · simp only [Option.some.injEq] at h; subst h; exact followups_grow_refl _
  · split at h
    · simp only [Option.some.injEq] at h; subst h; exact followups_grow_refl _
    · split_ifs at h
      all_goals first
        | exact map_moves_grows cfg _ _ _ _ h
        | (simp only [Option.some.injEq] at h; subst h; exact followups_grow_refl _)

theorem territorial_defend_threat_grows (cfg : Config) (k : Constants) (e : Engine)
    (b : Board) (pos color : Int) (acc acc1 : Territory) (what : Int)
    (h : territorial_defend_threat cfg k e b pos color acc what = some acc1) :
    FollowupsGrow acc.moves acc1.moves := by
  unfold territorial_defend_threat at h
  simp only at h
  split at h
  · simp only [Option.some.injEq] at h; subst h; exact followups_grow_refl _
  · split at h
    · simp only [Option.some.injEq] at h; subst h; exact followups_grow_refl _
    · exact map_moves_grows cfg _ _ _ _ h

theorem territorial_owl_grows (k : Constants) (e : Engine) (b : Board)
    (acc acc1 : Territory) (ty what : Int)
    (h : territorial_owl k e b acc ty what = some acc1) :
    FollowupsGrow acc.moves acc1.moves := by
  unfold territorial_owl at h
  simp only at h
  split at h <;> simp only [Option.some.injEq] at h <;> subst h <;>
    exact followups_grow_refl _

theorem territorial_owl_attack_threat_grows (cfg : Config) (k : Constants) (e : Engine)
    (t : Reasons) (pos color : Int) (acc acc1 : Territory) (what : Int)
    (h : territorial_owl_attack_threat cfg k e t pos color acc what = some acc1) :
    FollowupsGrow acc.moves acc1.moves := by
  unfold territorial_owl_attack_threat at h
  simp only at h
  split at h
  · simp only [Option.some.injEq] at h; subst h; exact followups_grow_refl _
  · split at h
    · exact absurd h (by simp)
    · split at h
      · simp only [Option.map_eq_some'] at h
        obtain ⟨mv, hm, rfl⟩ := h
        exact add_followup_value_grows cfg _ _ _ _ hm
      · simp only [Option.some.injEq] at h; subst h; exact followups_grow_refl _

theorem territorial_owl_prevent_threat_grows (cfg : Config) (k : Constants) (e : Engine)
    (pos color : Int) (score : ℚ) (acc acc1 : Territory) (what : Int)
    (h : territorial_owl_prevent_threat cfg k e pos color score acc what = some acc1) :
    FollowupsGrow acc.moves acc1.moves := by
  unfold territorial_owl_prevent_threat at h
  simp only at h
  split at h
  · simp only [Option.some.injEq] at h; subst h; exact followups_grow_refl _
  · split at h
    · simp only [Option.some.injEq] at h; subst h; exact followups_grow_refl _
    · simp only [Option.map_eq_some'] at h
      obtain ⟨mv, hm, rfl⟩ := h
      exact add_reverse_followup_value_grows cfg _ _ _ _ hm

/-- A round of the loop of `estimate_territorial_value` lowers no followup
and no reverse followup value. -/
theorem territorial_case_grows (cfg : Config) (k : Constants) (e : Engine) (b : Board)
    (t : Reasons) (pos color : Int) (score : ℚ) (acc acc1 : Territory) (ty what : Int)
    (h : territorial_case cfg k e b t pos color score acc ty what = some acc1) :
    FollowupsGrow acc.moves acc1.moves := by
  unfold territorial_case at h
  by_cases c0 : ty = k.ATTACK_MOVE ∨ ty = k.ATTACK_MOVE_GOOD_KO ∨ ty = k.ATTACK_MOVE_BAD_KO
  · rw [if_pos c0] at h
    exact territorial_attack_grows k e b pos color _ _ _ _ h
  rw [if_neg c0] at h
  by_cases c1 : ty = k.DEFEND_MOVE ∨ ty = k.DEFEND_MOVE_GOOD_KO ∨ ty = k.DEFEND_MOVE_BAD_KO
  · rw [if_pos c1] at h
    exact territorial_defend_grows k e b pos color _ _ _ _ h
  rw [if_neg c1] at h
  by_cases c2 : ty = k.ATTACK_THREAT_MOVE
  · rw [if_pos c2] at h
    exact territorial_attack_threat_grows cfg k e b pos color _ _ _ h
  rw [if_neg c2] at h
  by_cases c3 : ty = k.DEFEND_THREAT_MOVE
  · rw [if_pos c3] at h
    exact territorial_defend_threat_grows cfg k e b pos color _ _ _ h
  rw [if_neg c3] at h
  by_cases c4 : ty = k.UNCERTAIN_OWL_DEFENSE
  · rw [if_pos c4] at h
    simp only [Option.some.injEq] at h; subst h; exact followups_grow_refl _
  rw [if_neg c4] at h
  by_cases c5 : ty = k.CONNECT_MOVE ∨ ty = k.CUT_MOVE ∨ ty = k.STRATEGIC_ATTACK_MOVE
      ∨ ty = k.STRATEGIC_DEFEND_MOVE ∨ ty = k.BLOCK_TERRITORY_MOVE
  · rw [if_pos c5] at h
    simp only [Option.some.injEq] at h; subst h; exact followups_grow_refl _
  rw [if_neg c5] at h
  by_cases c6 : ty = k.EXPAND_MOYO_MOVE ∨ ty = k.EXPAND_TERRITORY_MOVE
  · rw [if_pos c6] at h
    simp only [Option.some.injEq] at h; subst h; exact followups_grow_refl _
  rw [if_neg c6] at h
  by_cases c7 : ty = k.SEMEAI_MOVE
  · rw [if_pos c7] at h
    simp only [Option.some.injEq] at h; subst h; exact followups_grow_refl _
  rw [if_neg c7] at h
  by_cases c8 : ty = k.SEMEAI_THREAT
  · rw [if_pos c8] at h
    exact map_moves_grows cfg _ _ _ _ h
  rw [if_neg c8] at h
  by_cases c9 : ty = k.VITAL_EYE_MOVE
  · rw [if_pos c9] at h
    simp only [Option.some.injEq] at h; subst h; exact followups_grow_refl _
  rw [if_neg c9] at h
  by_cases c10 : ty = k.OWL_ATTACK_MOVE ∨ ty = k.OWL_ATTACK_MOVE_GOOD_KO
      ∨ ty = k.OWL_ATTACK_MOVE_BAD_KO ∨ ty = k.OWL_DEFEND_MOVE
      ∨ ty = k.OWL_DEFEND_MOVE_GOOD_KO ∨ ty = k.OWL_DEFEND_MOVE_BAD_KO
  · rw [if_pos c10] at h
    exact territorial_owl_grows k e b _ _ _ _ h
  rw [if_neg c10] at h
  by_cases c11 : ty = k.OWL_ATTACK_THREAT
  · rw [if_pos c11] at h
    exact territorial_owl_attack_threat_grows cfg k e t pos color _ _ _ h
  rw [if_neg c11] at h
  by_cases c12 : ty = k.OWL_DEFENSE_THREAT
  · rw [if_pos c12] at h
    exact map_moves_grows cfg _ _ _ _ h
  rw [if_neg c12] at h
  by_cases c13 : ty = k.OWL_PREVENT_THREAT
  · rw [if_pos c13] at h
    exact territorial_owl_prevent_threat_grows cfg k e pos color score _ _ _ h
  rw [if_neg c13] at h
  by_cases c14 : ty = k.MY_ATARI_ATARI_MOVE
  · rw [if_pos c14] at h
    simp only [Option.some.injEq] at h; subst h; exact followups_grow_refl _
  rw [if_neg c14] at h
  by_cases c15 : ty = k.YOUR_ATARI_ATARI_MOVE
  · rw [if_pos c15] at h
    simp only [Option.some.injEq] at h; subst h; exact followups_grow_refl _
  rw [if_neg c15] at h
  simp only [Option.some.injEq] at h; subst h; exact followups_grow_refl _

theorem territorial_loop_grows (cfg : Config) (k : Constants) (e : Engine) (b : Board)
    (t : Reasons) (pos color : Int) (score : ℚ) :
    ∀ fuel i (acc acc1 : Territory),
      territorial_loop cfg k e b t pos color score fuel i acc = some acc1 →
      FollowupsGrow acc.moves acc1.moves := by
  intro fuel
  induction fuel with
  | zero =>
    intro i acc acc1 h
    simp only [territorial_loop, Option.some.injEq] at h
    subst h; exact followups_grow_refl _
  | succ n ih =>
    intro i acc acc1 h
    simp only [territorial_loop] at h
    split at h
    · simp only [Option.some.injEq] at h
      subst h; exact followups_grow_refl _
    · split at h
      · exact ih _ _ _ h
      · split at h
        · exact absurd h (by simp)
        · rename_i acc2 h2
          exact followups_grow_trans (territorial_case_grows cfg k e b t pos color score _ _ _ _ h2)
            (ih _ _ _ h)

theorem estimate_values_grows (cfg : Config) (k : Constants) (e : Engine) (b : Board)
    (s s1 : Valuation) (pos color : Int) (score : ℚ)
    (h : estimate_values cfg k e b s pos color score = some s1) :
    FollowupsGrow s.moves s1.moves := by
  unfold estimate_values at h
  split at h
  · exact absurd h (by simp)
  · split at h
    · exact absurd h (by simp)
    · split at h
      · exact absurd h (by simp)
      · rename_i mv2 g2 ht
        split at h
        · exact absurd h (by simp)
        · rename_i mv3 g3 dv3 hs
          simp only [Option.some.injEq] at h
          subst h
          have h3 := (estimate_strategical_value_only cfg k e b _ _ _ _ _ _ _ _ hs).1
          unfold estimate_territorial_value at ht
          split at ht
          · exact absurd ht (by simp)
          · rename_i acc hacc
            simp only [Option.some.injEq, Prod.mk.injEq] at ht
            have hg := territorial_loop_grows cfg k e b _ pos color score _ _ _ _ hacc
            intro q
            have e1 : mv3.followup_value = acc.moves.followup_value :=
              (congrArg Moves.followup_value h3).trans
                (congrArg Moves.followup_value ht.1).symm
            have e2 : mv3.reverse_followup_value = acc.moves.reverse_followup_value :=
              (congrArg Moves.reverse_followup_value h3).trans
                (congrArg Moves.reverse_followup_value ht.1).symm
            show s.moves.followup_value q ≤ mv3.followup_value q
              ∧ s.moves.reverse_followup_value q ≤ mv3.reverse_followup_value q
            rw [e1, e2]
            exact hg q

theorem followup_adjustment_followups (cfg : Config) (e : Engine) (b : Board) (mv : Moves)
    (pos color : Int) (shape_factor tot : ℚ) :
    (followup_adjustment cfg e b mv pos color shape_factor tot).2.followup_value
        = mv.followup_value
    ∧ (followup_adjustment cfg e b mv pos color shape_factor tot).2.reverse_followup_value
        = mv.reverse_followup_value := by
  unfold followup_adjustment
  split <;> exact ⟨rfl, rfl⟩

/-- The additional ko value that `value_move_reasons` stores for the total
`tot`. -/
theorem followup_adjustment_ko (cfg : Config) (e : Engine) (b : Board) (mv : Moves)
    (pos color : Int) (shape_factor tot : ℚ) :
    (followup_adjustment cfg e b mv pos color shape_factor tot).2.additional_ko_value pos
      = if tot > 0 then
          if tot ≥ 0.5 ∨ mv.reverse_followup_value pos ≥ 1.0 then
            if mv.followup_value pos + mv.reverse_followup_value pos
                - (tot + contribution mv pos tot - tot) < 0 then 0.0
            else mv.followup_value pos + mv.reverse_followup_value pos
                - (tot + contribution mv pos tot - tot)
          else shape_factor * (mv.followup_value pos + mv.reverse_followup_value pos)
        else shape_factor * (mv.followup_value pos
          + gg_min (mv.followup_value pos) (mv.reverse_followup_value pos)) := by
  unfold followup_adjustment
  by_cases h : tot > 0
  · rw [if_pos h, if_pos h]
    simp only [Function.update_same]
    by_cases h1 : tot ≥ 0.5 ∨ mv.reverse_followup_value pos ≥ 1.0
    · rw [if_pos h1, if_pos h1]
      rfl
    · rw [if_neg h1, if_neg h1]
  · rw [if_neg h, if_neg h]
    simp only [Function.update_same]

/-- The last lines of `value_move_reasons` write to the fields
`additional_ko_value`, `min_value` and `max_value` only. -/
theorem tail_fields (cfg : Config) (e : Engine) (b : Board) (mv : Moves)
    (pos color : Int) (sf tot T : ℚ) :
    (bound_value (followup_adjustment cfg e b mv pos color sf tot).2 pos T).2.followup_value
        = mv.followup_value
    ∧ (bound_value (followup_adjustment cfg e b mv pos color sf tot).2 pos
        T).2.reverse_followup_value = mv.reverse_followup_value
    ∧ (bound_value (followup_adjustment cfg e b mv pos color sf tot).2 pos T).2.territorial_value
        = mv.territorial_value
    ∧ (bound_value (followup_adjustment cfg e b mv pos color sf tot).2 pos T).2.strategical_value
        = mv.strategical_value
    ∧ (bound_value (followup_adjustment cfg e b mv pos color sf tot).2 pos T).2.maxpos_shape
        = mv.maxpos_shape
    ∧ (bound_value (followup_adjustment cfg e b mv pos color sf tot).2 pos T).2.numpos_shape
        = mv.numpos_shape
    ∧ (bound_value (followup_adjustment cfg e b mv pos color sf tot).2 pos T).2.maxneg_shape
        = mv.maxneg_shape
    ∧ (bound_value (followup_adjustment cfg e b mv pos color sf tot).2 pos T).2.numneg_shape
        = mv.numneg_shape
    ∧ (bound_value (followup_adjustment cfg e b mv pos color sf tot).2 pos
        T).2.additional_ko_value
        = (followup_adjustment cfg e b mv pos color sf tot).2.additional_ko_value := by
  unfold bound_value followup_adjustment
  split <;> exact ⟨rfl, rfl, rfl, rfl, rfl, rfl, rfl, rfl, rfl⟩

theorem value_tail_run (cfg : Config) (e : Engine) (b : Board) (mv0 mv : Moves)
    (pos color : Int) (sf T : ℚ) (hg : FollowupsGrow mv0 mv)
    (hsf : compute_shape_factor cfg e mv pos = some sf) :
    FollowupsGrow mv0
        (bound_value (followup_adjustment cfg e b mv pos color sf
          (mv.territorial_value pos + mv.strategical_value pos)).2 pos T).2
    ∧ compute_shape_factor cfg e
        (bound_value (followup_adjustment cfg e b mv pos color sf
          (mv.territorial_value pos + mv.strategical_value pos)).2 pos T).2 pos = some sf
    ∧ (bound_value (followup_adjustment cfg e b mv pos color sf
          (mv.territorial_value pos + mv.strategical_value pos)).2 pos T).2.additional_ko_value pos
        = (followup_adjustment cfg e b
            (bound_value (followup_adjustment cfg e b mv pos color sf
              (mv.territorial_value pos + mv.strategical_value pos)).2 pos T).2 pos color sf
            ((bound_value (followup_adjustment cfg e b mv pos color sf
              (mv.territorial_value pos + mv.strategical_value pos)).2 pos T).2.territorial_value pos
              + (bound_value (followup_adjustment cfg e b mv pos color sf
                (mv.territorial_value pos + mv.strategical_value pos)).2 pos
                  T).2.strategical_value pos)).2.additional_ko_value pos := by
  obtain ⟨a1, a2, a3, a4, a5, a6, a7, a8, a9⟩ := tail_fields cfg e b mv pos color sf
    (mv.territorial_value pos + mv.strategical_value pos) T
  refine ⟨?_, ?_, ?_⟩
  · intro q
    rw [a1, a2]
    exact hg q
  · unfold compute_shape_factor at hsf ⊢
    rw [a5, a6, a7, a8]
    exact hsf
  · rw [a9, followup_adjustment_ko, followup_adjustment_ko]
    simp only [contribution]
    rw [a1, a2, a3, a4]

/-- What a returning call of `value_move_reasons` does to the followup fields
and, for a point without an antisuji reason, where the additional ko value
comes from. -/
theorem value_move_reasons_run (cfg : Config) (k : Constants) (e : Engine) (c : Referee)
    (b : Board) (s s1 : Valuation) (pos color : Int) (pure_threat_value score v : ℚ)
    (h : value_move_reasons cfg k e c b s pos color pure_threat_value score = some (s1, v)) :
    FollowupsGrow s.moves s1.moves
    ∧ (is_antisuji_move cfg k s.reasons pos = 0 →
        ∃ sf, compute_shape_factor cfg e s1.moves pos = some sf
          ∧ s1.moves.additional_ko_value pos
            = (followup_adjustment cfg e b s1.moves pos color sf
                (s1.moves.territorial_value pos + s1.moves.strategical_value pos)).2.additional_ko_value
                pos) := by
  unfold value_move_reasons at h
  split_ifs at h with h1 h2 h3
  · simp only [Option.some.injEq, Prod.mk.injEq] at h
    rw [← h.1]
    exact ⟨followups_grow_refl _, fun h0 => absurd h0 h2⟩
  · dsimp only at h
    split at h
    · exact absurd h (by simp)
    · rename_i s2 hs2
      split at h
      · exact absurd h (by simp)
      · rename_i sf hsf
        simp only [Option.some.injEq, Prod.mk.injEq] at h
        have hg := estimate_values_grows cfg k e b s s2 pos color score hs2
        obtain ⟨hs1, _⟩ := h
        subst hs1
        obtain ⟨b1, b2, b3⟩ := value_tail_run cfg e b s.moves s2.moves pos color sf
          (threat_adjusted cfg c b
            (followup_adjustment cfg e b s2.moves pos color sf
              (s2.moves.territorial_value pos + s2.moves.strategical_value pos)).2 pos color
            pure_threat_value
            (followup_adjustment cfg e b s2.moves pos color sf
              (s2.moves.territorial_value pos + s2.moves.strategical_value pos)).1) hg hsf
        exact ⟨b1, fun _ => ⟨sf, b2, b3⟩⟩
  · dsimp only at h
    split at h
    · exact absurd h (by simp)
    · rename_i sf hsf
      simp only [Option.some.injEq, Prod.mk.injEq] at h
      obtain ⟨hs1, _⟩ := h
      subst hs1
      obtain ⟨b1, b2, b3⟩ := value_tail_run cfg e b s.moves s.moves pos color sf
        (threat_adjusted cfg c b
          (followup_adjustment cfg e b s.moves pos color sf
            (s.moves.territorial_value pos + s.moves.strategical_value pos)).2 pos color
          pure_threat_value
          (followup_adjustment cfg e b s.moves pos color sf
            (s.moves.territorial_value pos + s.moves.strategical_value pos)).1)
        (followups_grow_refl _) hsf
      exact ⟨b1, fun _ => ⟨sf, b2, b3⟩⟩

theorem moves_reachable_nonneg (cfg : Config) (hc : cfg.Coherent) (mv : Moves)
    (h : MovesReachable cfg mv) :
    ∀ p, cfg.ON_BOARD1 p = true →
      0 ≤ mv.followup_value p ∧ 0 ≤ mv.reverse_followup_value p := by
  induction h with
  | clear H g mv =>
    intro p hp
    obtain ⟨a1, a2, _⟩ := clear_fold_at H g (board_points cfg) mv p (hc.on_board_pos p hp)
    unfold clear_moves
    rw [a1, a2]
    exact ⟨le_refl _, le_refl _⟩
  | followup mv mv1 pos v _ hcall ih =>
    intro p hp
    have hg := add_followup_value_grows cfg mv mv1 pos v hcall
    exact ⟨le_trans (ih p hp).1 (hg p).1, le_trans (ih p hp).2 (hg p).2⟩
  | reverse_followup mv mv1 pos v _ hcall ih =>
    intro p hp
    have hg := add_reverse_followup_value_grows cfg mv mv1 pos v hcall
    exact ⟨le_trans (ih p hp).1 (hg p).1, le_trans (ih p hp).2 (hg p).2⟩
  | value k e c b s s1 pos color pure_threat_value score v _ hcall ih =>
    intro p hp
    have hg := (value_move_reasons_run cfg k e c b s s1 pos color pure_threat_value score v
      hcall).1
    exact ⟨le_trans (ih p hp).1 (hg p).1, le_trans (ih p hp).2 (hg p).2⟩
  | other mv mv1 _ h1 h2 ih =>
    intro p hp
    rw [h1, h2]
    exact ih p hp

theorem followup_fields_reachable : MovesReachable small followup_fields :=
  MovesReachable.followup safe_cleared followup_fields 7 3
    (MovesReachable.other _ safe_cleared (MovesReachable.clear 1000 (fun _ => 0) zero_moves)
      rfl rfl)
    (add_followup_value_max small 7 (by decide) safe_cleared 3)

/-- C40: in an array `move[]` that arises from `clear_move_reasons` (on a
board whose points are those of the loops of that function), the followup
value and the reverse followup value of every point of the board are not
negative.  So in a call of `value_move_reasons` from such an array that gets
past the antisuji test with a total `tot > 0` of the territorial and the
strategical value, the quantity `followup_value + reverse_followup_value -
(tot_value - old_tot_value)` is not negative, the branch that resets a
negative additional ko value is not taken (what is stored in the branch
`tot >= 0.5 || reverse_followup_value >= 1.0` is that quantity), and the
additional ko value stored is not negative, in the other branch for a shape
factor `pow(1.05, x)` that is not negative. -/
theorem followups_never_negative (cfg : Config) (hc : cfg.Coherent) (mv : Moves)
    (h : MovesReachable cfg mv) :
    (∀ p, cfg.ON_BOARD1 p = true →
      0 ≤ mv.followup_value p ∧ 0 ≤ mv.reverse_followup_value p)
    ∧ (∀ (k : Constants) (e : Engine) (c : Referee) (b : Board) (s s1 : Valuation)
        (pos color : Int) (pure_threat_value score v : ℚ),
        s.moves = mv → ¬ has_antisuji cfg k s.reasons pos →
        value_move_reasons cfg k e c b s pos color pure_threat_value score = some (s1, v) →
        0 < s1.moves.territorial_value pos + s1.moves.strategical_value pos →
        (0 ≤ s1.moves.followup_value pos ∧ 0 ≤ s1.moves.reverse_followup_value pos)
        ∧ ¬ (s1.moves.followup_value pos + s1.moves.reverse_followup_value pos
              - (s1.moves.territorial_value pos + s1.moves.strategical_value pos
                  + contribution s1.moves pos
                      (s1.moves.territorial_value pos + s1.moves.strategical_value pos)
                  - (s1.moves.territorial_value pos + s1.moves.strategical_value pos)) < 0)
        ∧ ((s1.moves.territorial_value pos + s1.moves.strategical_value pos ≥ 0.5
              ∨ s1.moves.reverse_followup_value pos ≥ 1.0) →
            s1.moves.additional_ko_value pos
              = s1.moves.followup_value pos + s1.moves.reverse_followup_value pos
                - (s1.moves.territorial_value pos + s1.moves.strategical_value pos
                    + contribution s1.moves pos
                        (s1.moves.territorial_value pos + s1.moves.strategical_value pos)
                    - (s1.moves.territorial_value pos + s1.moves.strategical_value pos)))
        ∧ ((∀ x, 0 ≤ e.pow 1.05 x) → 0 ≤ s1.moves.additional_ko_value pos)) := by
  refine ⟨moves_reachable_nonneg cfg hc mv h, ?_⟩
  intro k e c b s s1 pos color pure_threat_value score v hs ha hcall htot
  have hreach : MovesReachable cfg s1.moves :=
    MovesReachable.value k e c b s s1 pos color pure_threat_value score v (by rw [hs]; exact h)
      hcall
  have h0 : is_antisuji_move cfg k s.reasons pos = 0 := by
    rcases is_antisuji_move_spec cfg k s.reasons pos with ⟨_, h2⟩ | ⟨h1, _⟩
    · exact absurd h2 ha
    · exact h1
  obtain ⟨sf, hsf, hko⟩ :=
    (value_move_reasons_run cfg k e c b s s1 pos color pure_threat_value score v hcall).2 h0
  have hpos : cfg.ON_BOARD1 pos = true := by
    by_contra hp
    unfold compute_shape_factor at hsf
    rw [if_pos (by simpa using hp)] at hsf
    exact absurd hsf (by simp)
  obtain ⟨hf, hr⟩ := moves_reachable_nonneg cfg hc s1.moves hreach pos hpos
  obtain ⟨c0, c1⟩ := contribution_bounds s1.moves pos _ htot hf hr
  have hq : ¬ (s1.moves.followup_value pos + s1.moves.reverse_followup_value pos
      - (s1.moves.territorial_value pos + s1.moves.strategical_value pos
          + contribution s1.moves pos
              (s1.moves.territorial_value pos + s1.moves.strategical_value pos)
          - (s1.moves.territorial_value pos + s1.moves.strategical_value pos)) < 0) := by
    intro hlt
    linarith
  rw [followup_adjustment_ko, if_pos htot] at hko
  refine ⟨⟨hf, hr⟩, hq, ?_, ?_⟩
  · intro hb
    rw [if_pos hb, if_neg hq] at hko
    exact hko
  · intro hpow
    by_cases hb : s1.moves.territorial_value pos + s1.moves.strategical_value pos ≥ 0.5
        ∨ s1.moves.reverse_followup_value pos ≥ 1.0
    · rw [if_pos hb, if_neg hq] at hko
      rw [hko]
      exact not_lt.1 hq
    · rw [if_neg hb] at hko
      rw [hko]
      have hs0 : 0 ≤ sf := by
        unfold compute_shape_factor at hsf
        rw [if_neg (by simp [hpos])] at hsf
        simp only [Option.some.injEq] at hsf
        rw [← hsf]
        exact hpow _
      exact mul_nonneg hs0 (by linarith)

/-- The theorem `followups_never_negative` at the point 7 of the 2 by 2 board,
which has the followup value 3 and an attack that gains two points: the call
of `value_move_reasons` returns and stores an additional ko value that is not
negative. -/
theorem followups_never_negative_witness :
    ∃ r, value_move_reasons small sample_constants gain_engine ko_referee sample_board
        followup_valuation 7 2 0 0 = some r
      ∧ 0 < r.1.moves.territorial_value 7 + r.1.moves.strategical_value 7
      ∧ 0 ≤ r.1.moves.additional_ko_value 7 := by
  have hsome : (value_move_reasons small sample_constants gain_engine ko_referee sample_board
      followup_valuation 7 2 0 0).isSome = true := by decide!
  obtain ⟨r, hr⟩ := Option.isSome_iff_exists.1 hsome
  have htot : 0 < r.1.moves.territorial_value 7 + r.1.moves.strategical_value 7 := by
    have h2 : (value_move_reasons small sample_constants gain_engine ko_referee sample_board
        followup_valuation 7 2 0 0).map
        (fun r => decide (0 < r.1.moves.territorial_value 7 + r.1.moves.strategical_value 7))
        = some true := by decide!
    rw [hr] at h2
    simpa using h2
  exact ⟨r, hr, htot,
    ((followups_never_negative small small_coherent followup_fields followup_fields_reachable).2
      sample_constants gain_engine ko_referee sample_board followup_valuation r.1 7 2 0 0 r.2
      rfl (by decide) hr htot).2.2.2 (fun _ => (zero_le_one : (0 : ℚ) ≤ 1))⟩


/-! ## The shape of the reason lists -/

/-- A cell of a list after "Add a new entry" is the new cell, which holds
`next_reason`, or a cell of the list before, which holds a smaller handle. -/
theorem new_entry_slot (cfg : Config) (t : Reasons) (hi : ReasonsInv cfg t)
    (pos type what : Int) (hp : cfg.ON_BOARD1 pos = true)
    (hc : reason_count cfg t pos < cfg.MAX_REASONS) (q : Int) (hq : cfg.ON_BOARD1 q = true)
    (j : Nat)
    (hj : j < reason_count cfg (new_entry cfg t pos type what (reason_count cfg t pos)) q) :
    (q = pos ∧ j = reason_count cfg t pos
        ∧ (new_entry cfg t pos type what (reason_count cfg t pos)).reason q j
          = (t.next_reason : Int))
    ∨ (j < reason_count cfg t q
        ∧ (new_entry cfg t pos type what (reason_count cfg t pos)).reason q j = t.reason q j
        ∧ t.reason q j ≠ (t.next_reason : Int)) := by
  have old : ∀ j, j < reason_count cfg t q →
      (new_entry cfg t pos type what (reason_count cfg t pos)).reason q j = t.reason q j
      ∧ t.reason q j ≠ (t.next_reason : Int) := by
    intro j hj
    refine ⟨(new_entry_record_old cfg t hi pos type what q hq j hj).1, ?_⟩
    have h1 := hi.handle_lt q hq j hj
    have h2 := count_from_nonneg (t.reason q) cfg.MAX_REASONS 0 j (Nat.zero_le j) hj
    intro h3
    rw [h3] at h1
    simp at h1
  by_cases hqp : q = pos
  · subst hqp
    rw [new_entry_count_self cfg t hi q type what hp hc] at hj
    by_cases hjc : j = reason_count cfg t q
    · left
      refine ⟨rfl, hjc, ?_⟩
      rw [new_entry_reason, if_pos ⟨rfl, hjc⟩]
    · right
      have hlt : j < reason_count cfg t q := by omega
      exact ⟨hlt, old j hlt⟩
  · rw [new_entry_count_other cfg t pos type what _ q hqp] at hj
    right
    exact ⟨hj, old j hj⟩

theorem new_entry_distinct (cfg : Config) (t : Reasons) (hi : ReasonsInv cfg t)
    (hd : HandlesDistinct cfg t) (pos type what : Int) (hp : cfg.ON_BOARD1 pos = true)
    (hc : reason_count cfg t pos < cfg.MAX_REASONS) :
    HandlesDistinct cfg (new_entry cfg t pos type what (reason_count cfg t pos)) := by
  intro p q hpb hqb i j hi1 hj1 he
  rcases new_entry_slot cfg t hi pos type what hp hc p hpb i hi1 with
    ⟨a1, a2, a3⟩ | ⟨a1, a2, a3⟩
  · rcases new_entry_slot cfg t hi pos type what hp hc q hqb j hj1 with
      ⟨b1, b2, b3⟩ | ⟨b1, b2, b3⟩
    · exact ⟨a1.trans b1.symm, a2.trans b2.symm⟩
    · exact absurd (b2.symm.trans (he.symm.trans a3)) b3
  · rcases new_entry_slot cfg t hi pos type what hp hc q hqb j hj1 with
      ⟨b1, b2, b3⟩ | ⟨b1, b2, b3⟩
    · exact absurd (a2.symm.trans (he.trans b3)) a3
    · exact hd p q hpb hqb i j a1 b1 (a2.symm.trans (he.trans b2))

theorem add_move_reason_distinct (cfg : Config) (b : Board) (t t1 : Reasons)
    (hi : ReasonsInv cfg t) (hd : HandlesDistinct cfg t) (pos type what : Int)
    (h : add_move_reason cfg b t pos type what = some t1) : HandlesDistinct cfg t1 := by
  obtain ⟨hp, he⟩ := add_move_reason_pre cfg b t t1 pos type what h
  rw [add_move_reason_eq cfg b t pos type what hp he] at h
  by_cases hl : listed cfg t pos type what
  · rw [if_pos hl] at h
    cases h; exact hd
  · rw [if_neg hl] at h
    by_cases hc : reason_count cfg t pos < cfg.MAX_REASONS
    · rw [if_pos hc] at h
      by_cases hn : t.next_reason < MAX_MOVE_REASONS
      · rw [if_pos hn] at h
        cases h
        exact new_entry_distinct cfg t hi hd pos type what hp hc
      · rw [if_neg hn] at h; exact absurd h (by simp)
    · rw [if_neg hc] at h; exact absurd h (by simp)

theorem move_last_distinct (cfg : Config) (t : Reasons) (hd : HandlesDistinct cfg t)
    (pos : Int) (n : Nat) (hn : n < reason_count cfg t pos) :
    HandlesDistinct cfg (move_last t pos n (reason_count cfg t pos - 1)) := by
  have hcount := move_last_count_self cfg t pos n hn
  have other : ∀ q, q ≠ pos → ∀ k,
      (move_last t pos n (reason_count cfg t pos - 1)).reason q k = t.reason q k :=
    fun q hq k => by rw [move_last_reason, if_neg hq]
  intro p q hpb hqb i j hi1 hj1 he
  by_cases hpp : p = pos
  · subst hpp
    rw [hcount] at hi1
    rw [move_last_cell cfg t p n i hi1] at he
    by_cases hqp : q = p
    · subst hqp
      rw [hcount] at hj1
      rw [move_last_cell cfg t q n j hj1] at he
      have := (hd q q hpb hpb _ _ (by split <;> omega) (by split <;> omega) he).2
      refine ⟨rfl, ?_⟩
      split at this <;> split at this <;> omega
    · rw [move_last_count_other cfg t p n _ q hqp] at hj1
      rw [other q hqp j] at he
      exact absurd (hd p q hpb hqb _ j (by split <;> omega) hj1 he).1.symm hqp
  · rw [move_last_count_other cfg t pos n _ p hpp] at hi1
    rw [other p hpp i] at he
    by_cases hqp : q = pos
    · subst hqp
      rw [hcount] at hj1
      rw [move_last_cell cfg t q n j hj1] at he
      exact absurd (hd p q hpb hqb i _ hi1 (by split <;> omega) he).1 hpp
    · rw [move_last_count_other cfg t pos n _ q hqp] at hj1
      rw [other q hqp j] at he
      exact hd p q hpb hqb i j hi1 hj1 he

theorem remove_move_reason_distinct (cfg : Config) (t t1 : Reasons)
    (hd : HandlesDistinct cfg t) (pos type what : Int)
    (h : remove_move_reason cfg t pos type what = some t1) : HandlesDistinct cfg t1 := by
  have hp : cfg.ON_BOARD1 pos = true := by
    by_contra hp
    unfold remove_move_reason at h
    rw [if_pos (by simpa using hp)] at h
    exact absurd h (by simp)
  rcases remove_move_reason_cases cfg t pos type what hp with ⟨_, h2⟩ | ⟨n, hn, _, _, h2⟩
  · rw [h2] at h; cases h; exact hd
  · rw [h2] at h; cases h
    exact move_last_distinct cfg t hd pos n hn

theorem rearrange_distinct (cfg : Config) (t : Reasons) (hd : HandlesDistinct cfg t)
    (pos : Int) (order : Nat → Nat)
    (h1 : ∀ k, k < reason_count cfg t pos → order k < reason_count cfg t pos)
    (h2 : ∀ i j, i < reason_count cfg t pos → j < reason_count cfg t pos →
      order i = order j → i = j) :
    HandlesDistinct cfg (rearrange cfg t pos order) := by
  intro p q hpb hqb i j hi1 hj1 he
  rw [rearrange_count cfg t pos order h1 p] at hi1
  rw [rearrange_count cfg t pos order h1 q] at hj1
  by_cases hpp : p = pos
  · subst hpp
    rw [rearrange_reason_self, if_pos hi1] at he
    by_cases hqp : q = p
    · subst hqp
      rw [rearrange_reason_self, if_pos hj1] at he
      exact ⟨rfl, h2 i j hi1 hj1 (hd q q hpb hpb _ _ (h1 i hi1) (h1 j hj1) he).2⟩
    · rw [rearrange_reason_other cfg t p order q hqp] at he
      exact absurd (hd p q hpb hqb _ j (h1 i hi1) hj1 he).1.symm hqp
  · rw [rearrange_reason_other cfg t pos order p hpp] at he
    by_cases hqp : q = pos
    · subst hqp
      rw [rearrange_reason_self, if_pos hj1] at he
      exact absurd (hd p q hpb hqb i _ hi1 (h1 j hj1) he).1 hpp
    · rw [rearrange_reason_other cfg t pos order q hqp] at he
      exact hd p q hpb hqb i j hi1 hj1 he

theorem reachable_distinct (cfg : Config) (hc : cfg.Coherent) (t : Reasons)
    (h : ReasonsReachable cfg t) : HandlesDistinct cfg t := by
  induction h with
  | clear s =>
    intro p q hpb _ i j hi1 _ _
    rw [clear_reason_count cfg hc s p hpb] at hi1
    omega
  | add b t t1 pos type what hr h ih =>
    exact add_move_reason_distinct cfg b t t1 (reachable_inv cfg hc t hr) ih pos type what h
  | remove t t1 pos type what _ h ih => exact remove_move_reason_distinct cfg t t1 ih pos type what h
  | status t status _ ih => exact ih
  | sort t pos order _ h1 h2 ih => exact rearrange_distinct cfg t ih pos order h1 h2

/-- C38: in every state reachable from `clear_move_reasons` by calls of
`add_move_reason` and `remove_move_reason` that return (and by the changes of
status flags and the sorting of a list, which the other functions of the
module make), the array `move[p].reason` of a point `p` of the board is a list
of at most `MAX_REASONS` handles `h` with `0 <= h < next_reason` followed by
cells `-1` only; no handle occurs in two cells, of this point or of this and
another point of the board; and no two handles of the point refer to records
with the same kind and object. -/
theorem reason_lists_wellformed (cfg : Config) (hc : cfg.Coherent) (t : Reasons)
    (h : ReasonsReachable cfg t) (p : Int) (hp : cfg.ON_BOARD1 p = true) :
    reason_count cfg t p ≤ cfg.MAX_REASONS
    ∧ (∀ k, k < reason_count cfg t p →
        0 ≤ t.reason p k ∧ t.reason p k < (t.next_reason : Int))
    ∧ (∀ k, reason_count cfg t p ≤ k → k < cfg.MAX_REASONS → t.reason p k = -1)
    ∧ (∀ q, cfg.ON_BOARD1 q = true → ∀ i j, i < reason_count cfg t p →
        j < reason_count cfg t q → t.reason p i = t.reason q j → p = q ∧ i = j)
    ∧ (∀ i j, i < reason_count cfg t p → j < reason_count cfg t p →
        (t.move_reasons (t.reason p i).toNat).type = (t.move_reasons (t.reason p j).toNat).type →
        (t.move_reasons (t.reason p i).toNat).what = (t.move_reasons (t.reason p j).toNat).what →
        i = j) := by
  have hi := reachable_inv cfg hc t h
  have hd := reachable_distinct cfg hc t h
  refine ⟨?_, ?_, hi.tail p hp, fun q hq => hd p q hp hq, hi.no_dup p hp⟩
  · have := count_from_le (t.reason p) cfg.MAX_REASONS 0
    unfold reason_count
    omega
  · intro k hk
    have h0 := count_from_nonneg (t.reason p) cfg.MAX_REASONS 0 k (Nat.zero_le k) hk
    have h1 := hi.handle_lt p hp k hk
    refine ⟨h0, ?_⟩
    omega

/-- The theorem `reason_lists_wellformed` at the point 4 of the 2 by 2 board
after `add_move_reason(4, 1, 1)` and `add_move_reason(4, 1, 2)`: the list is
the two handles 0 and 1, below `next_reason = 2`. -/
theorem reason_lists_wellformed_witness :
    reason_count small two_reasons 4 ≤ small.MAX_REASONS
      ∧ (0 ≤ two_reasons.reason 4 1 ∧ two_reasons.reason 4 1 < (two_reasons.next_reason : Int))
      ∧ (two_reasons.reason 4 0, two_reasons.reason 4 1, two_reasons.next_reason) = (0, 1, 2) :=
  ⟨(reason_lists_wellformed small small_coherent two_reasons two_reasons_reachable 4
      (by decide)).1,
    (reason_lists_wellformed small small_coherent two_reasons two_reasons_reachable 4
      (by decide)).2.1 1 (by decide),
    by decide⟩


/-! ## An antisuji point that receives the value of another point -/

/-- C36 fails in the code: on the 2 by 2 board the point 8 has an antisuji
reason, the point 7 has an attack worth 2 points, and
`add_replacement_move(7, 8)` has been called.  `value_moves` gives the point 8
the value 0, but `redistribute_points` then hands it the value 2 of the point
7, and `review_move_reasons` returns 1 with the antisuji point 8 as the move
and 2 as its value.  Without the rule, the same run returns the point 7. -/
theorem antisuji_point_chosen :
    has_antisuji small sample_constants antisuji_lists 8
      ∧ add_replacement_move small small_fresh.replacement_map 7 8 = some sent_7_to_8
      ∧ ∃ s r r0, value_moves small sample_constants gain_engine ko_referee sample_board
            antisuji_valuation 2 0 0 = some s
          ∧ has_antisuji small sample_constants s.reasons 8
          ∧ (s.moves.value 7, s.moves.value 8) = (2, 0)
          ∧ review_move_reasons small ko_referee sent_7_to_8 2 3 s.moves 0 0
              = Outcome.returned r
          ∧ (r.result, r.the_move, r.val) = (1, 8, 2)
          ∧ review_move_reasons small ko_referee small_fresh.replacement_map 2 3 s.moves 0 0
              = Outcome.returned r0
          ∧ (r0.result, r0.the_move, r0.val) = (1, 7, 2) := by
  refine ⟨by decide, rfl, ?_⟩
  obtain ⟨s, hs⟩ := Option.isSome_iff_exists.1
    (by decide! : (value_moves small sample_constants gain_engine ko_referee sample_board
      antisuji_valuation 2 0 0).isSome = true)
  have h1 : (value_moves small sample_constants gain_engine ko_referee sample_board
      antisuji_valuation 2 0 0).map
      (fun s => decide (has_antisuji small sample_constants s.reasons 8)) = some true := by
    decide!
  have h2 : (value_moves small sample_constants gain_engine ko_referee sample_board
      antisuji_valuation 2 0 0).map (fun s => (s.moves.value 7, s.moves.value 8))
      = some (2, 0) := by decide!
  have h3 : ((value_moves small sample_constants gain_engine ko_referee sample_board
      antisuji_valuation 2 0 0).bind fun s =>
        (review_move_reasons small ko_referee sent_7_to_8 2 3 s.moves 0 0).value).map
      (fun r => (r.result, r.the_move, r.val)) = some (1, 8, 2) := by decide!
  have h4 : ((value_moves small sample_constants gain_engine ko_referee sample_board
      antisuji_valuation 2 0 0).bind fun s =>
        (review_move_reasons small ko_referee small_fresh.replacement_map 2 3 s.moves 0 0).value).map
      (fun r => (r.result, r.the_move, r.val)) = some (1, 7, 2) := by decide!
  rw [hs] at h1 h2 h3 h4
  simp only [Option.map_some', Option.some.injEq, decide_eq_true_eq, Option.some_bind] at h1 h2 h3 h4
  obtain ⟨r, hr, hr2⟩ := Option.map_eq_some'.1 h3
  obtain ⟨r0, hr0, hr02⟩ := Option.map_eq_some'.1 h4
  refine ⟨s, r, r0, hs, h1, h2, ?_, hr2, ?_, hr02⟩
  · cases hv : review_move_reasons small ko_referee sent_7_to_8 2 3 s.moves 0 0 with
    | returned a =>
      rw [hv] at hr
      simp only [Outcome.value, Option.some.injEq] at hr
      rw [hr]
    | aborted => rw [hv] at hr; exact absurd hr (by simp [Outcome.value])
    | unfinished => rw [hv] at hr; exact absurd hr (by simp [Outcome.value])
  · cases hv : review_move_reasons small ko_referee small_fresh.replacement_map 2 3 s.moves 0 0 with
    | returned a =>
      rw [hv] at hr0
      simp only [Outcome.value, Option.some.injEq] at hr0
      rw [hr0]
    | aborted => rw [hv] at hr0; exact absurd hr0 (by simp [Outcome.value])
    | unfinished => rw [hv] at hr0; exact absurd hr0 (by simp [Outcome.value])


/-! ## The pairs of dragons that a tactical reason connects or cuts -/

/-- The first loop over the neighbours, entered with `dd = d` and
`biggest = m`: `biggest` does not decrease and ends at least as large as every
neighbour of another colour; either nothing has changed, or `dd` and `biggest`
are the origin and the size of a neighbour of another colour, larger than
`m`. -/
theorem biggest_fold_spec (own : Int) :
    ∀ (ns : List Neighbor) (d m : Int),
      m ≤ (ns.foldl (biggest_neighbor own) (d, m)).2
      ∧ (∀ n ∈ ns, n.color ≠ own → n.size ≤ (ns.foldl (biggest_neighbor own) (d, m)).2)
      ∧ (ns.foldl (biggest_neighbor own) (d, m) = (d, m)
          ∨ ∃ n ∈ ns, n.color ≠ own ∧ n.origin = (ns.foldl (biggest_neighbor own) (d, m)).1
              ∧ n.size = (ns.foldl (biggest_neighbor own) (d, m)).2
              ∧ m < (ns.foldl (biggest_neighbor own) (d, m)).2) := by
  intro ns
  induction ns with
  | nil =>
    intro d m
    exact ⟨le_refl m, fun n hn => absurd hn (List.not_mem_nil n), Or.inl rfl⟩
  | cons a rest ih =>
    intro d m
    simp only [List.foldl_cons]
    by_cases hc : a.color = own
    · have e1 : biggest_neighbor own (d, m) a = (d, m) := by
        simp only [biggest_neighbor, if_pos hc]
      rw [e1]
      obtain ⟨h1, h2, h3⟩ := ih d m
      refine ⟨h1, ?_, ?_⟩
      · intro n hn hne
        rcases List.mem_cons.1 hn with h | h
        · subst h; exact absurd hc hne
        · exact h2 n h hne
      · rcases h3 with h | ⟨n, hn, h⟩
        · exact Or.inl h
        · exact Or.inr ⟨n, List.mem_cons_of_mem a hn, h⟩
    · by_cases hs : a.size > m
      · have e1 : biggest_neighbor own (d, m) a = (a.origin, a.size) := by
          simp only [biggest_neighbor, if_neg hc, if_pos hs]
        rw [e1]
        obtain ⟨h1, h2, h3⟩ := ih a.origin a.size
        refine ⟨by omega, ?_, Or.inr ?_⟩
        · intro n hn hne
          rcases List.mem_cons.1 hn with h | h
          · subst h; exact h1
          · exact h2 n h hne
        · rcases h3 with h | ⟨n, hn, a1, a2, a3, a4⟩
          · rw [h]
            exact ⟨a, List.mem_cons_self a rest, hc, rfl, rfl, hs⟩
          · exact ⟨n, List.mem_cons_of_mem a hn, a1, a2, a3, by omega⟩
      · have e1 : biggest_neighbor own (d, m) a = (d, m) := by
          simp only [biggest_neighbor, if_neg hc, if_neg hs]
        rw [e1]
        obtain ⟨h1, h2, h3⟩ := ih d m
        refine ⟨h1, ?_, ?_⟩
        · intro n hn hne
          rcases List.mem_cons.1 hn with h | h
          · subst h; omega
          · exact h2 n h hne
        · rcases h3 with h | ⟨n, hn, h⟩
          · exact Or.inl h
          · exact Or.inr ⟨n, List.mem_cons_of_mem a hn, h⟩

/-- The second loop over the neighbours is the run of the block of
`induce_call` over the partners of `dd`. -/
theorem induce_pair_fold (cfg : Config) (k : Constants) (e : Engine) (b : Board)
    (pos type aa dd : Int) :
    ∀ (ns : List Neighbor) (st : Option State),
      ns.foldl (induce_pair cfg k e b pos type aa dd) st
        = (induced_partners (e.dragon_color aa) dd ns).foldl
            (fun st ee => st.bind fun s => induce_call cfg k e b pos type aa dd s ee) st := by
  intro ns
  induction ns with
  | nil => intro st; rfl
  | cons a rest ih =>
    intro st
    simp only [List.foldl_cons, induced_partners, List.filter_cons]
    by_cases hc : a.color = e.dragon_color aa
    · have e1 : induce_pair cfg k e b pos type aa dd st a = st := by
        cases st with
        | none => rfl
        | some s => simp only [induce_pair, if_pos hc]
      rw [e1, ih st]
      simp [induced_partners, hc]
    · by_cases hd : dd = a.origin
      · have e1 : induce_pair cfg k e b pos type aa dd st a = st := by
          cases st with
          | none => rfl
          | some s => simp only [induce_pair, if_neg hc, if_pos hd]
        rw [e1, ih st]
        simp [induced_partners, hd]
      · have e1 : induce_pair cfg k e b pos type aa dd st a
            = st.bind fun s => induce_call cfg k e b pos type aa dd s a.origin := by
          cases st with
          | none => rfl
          | some s => simp only [induce_pair, if_neg hc, if_neg hd, Option.some_bind]
        rw [e1, ih]
        simp [induced_partners, hc, hd]

/-- C33, as the code has it: for a reason `ATTACK_MOVE` or `DEFEND_MOVE` on a
worm `aa` that passes the tests of the loop (the worm has a defense, its
dragon is not inessential, a defense is strategically sound), let `dd` be the
origin of the first largest neighbour dragon of the other colour, of size
`biggest`.  When `biggest` is 0, no call is made.  Otherwise the block that
calls `add_connection_move(pos, dd, ee)` for an attack and
`add_cut_move(pos, dd, ee)` for a defense is run once for every neighbour of
the other colour whose origin `ee` is not `dd`, in the order of the
neighbours, however many they are: each pair has `dd` as one member, and
every other neighbour, also the third largest, as the other. -/
theorem induced_pairs_spec (cfg : Config) (k : Constants) (e : Engine) (w : Surround)
    (b : Board) (mv : Moves) (pos type what dd0 : Int) (s : State)
    (hdef : e.worm_defend_code (s.registry.worms what.toNat) ≠ 0)
    (hess : e.DRAGON2_safety (s.registry.worms what.toNat) ≠ k.INESSENTIAL)
    (hsound : ¬ (type = k.DEFEND_MOVE
      ∧ strategically_sound_defense mv (s.registry.worms what.toNat) pos = 0)) :
    induce_tactical cfg k e w b mv pos type what dd0 s
        = (if ((worm_neighbors e w b (s.registry.worms what.toNat)).foldl
              (biggest_neighbor (e.dragon_color (s.registry.worms what.toNat))) (dd0, 0)).2 = 0
           then
            some (s, ((worm_neighbors e w b (s.registry.worms what.toNat)).foldl
              (biggest_neighbor (e.dragon_color (s.registry.worms what.toNat))) (dd0, 0)).1)
           else
            ((induced_partners (e.dragon_color (s.registry.worms what.toNat))
                ((worm_neighbors e w b (s.registry.worms what.toNat)).foldl
                  (biggest_neighbor (e.dragon_color (s.registry.worms what.toNat))) (dd0, 0)).1
                (worm_neighbors e w b (s.registry.worms what.toNat))).foldl
              (fun st ee => st.bind fun s1 =>
                induce_call cfg k e b pos type (s.registry.worms what.toNat)
                  ((worm_neighbors e w b (s.registry.worms what.toNat)).foldl
                    (biggest_neighbor (e.dragon_color (s.registry.worms what.toNat))) (dd0, 0)).1
                  s1 ee)
              (some s)).map fun s1 =>
                (s1, ((worm_neighbors e w b (s.registry.worms what.toNat)).foldl
                  (biggest_neighbor (e.dragon_color (s.registry.worms what.toNat)))
                  (dd0, 0)).1))
    ∧ (∀ n ∈ worm_neighbors e w b (s.registry.worms what.toNat),
        n.color ≠ e.dragon_color (s.registry.worms what.toNat) →
        n.size ≤ ((worm_neighbors e w b (s.registry.worms what.toNat)).foldl
          (biggest_neighbor (e.dragon_color (s.registry.worms what.toNat))) (dd0, 0)).2)
    ∧ (((worm_neighbors e w b (s.registry.worms what.toNat)).foldl
          (biggest_neighbor (e.dragon_color (s.registry.worms what.toNat))) (dd0, 0)).2 ≠ 0 →
        ∃ n ∈ worm_neighbors e w b (s.registry.worms what.toNat),
          n.color ≠ e.dragon_color (s.registry.worms what.toNat)
          ∧ n.origin = ((worm_neighbors e w b (s.registry.worms what.toNat)).foldl
              (biggest_neighbor (e.dragon_color (s.registry.worms what.toNat))) (dd0, 0)).1
          ∧ n.size = ((worm_neighbors e w b (s.registry.worms what.toNat)).foldl
              (biggest_neighbor (e.dragon_color (s.registry.worms what.toNat))) (dd0, 0)).2)
    ∧ (∀ ee, ee ∈ induced_partners (e.dragon_color (s.registry.worms what.toNat))
          ((worm_neighbors e w b (s.registry.worms what.toNat)).foldl
            (biggest_neighbor (e.dragon_color (s.registry.worms what.toNat))) (dd0, 0)).1
          (worm_neighbors e w b (s.registry.worms what.toNat))
        ↔ ∃ n ∈ worm_neighbors e w b (s.registry.worms what.toNat),
            n.color ≠ e.dragon_color (s.registry.worms what.toNat) ∧ n.origin = ee
            ∧ ee ≠ ((worm_neighbors e w b (s.registry.worms what.toNat)).foldl
              (biggest_neighbor (e.dragon_color (s.registry.worms what.toNat))) (dd0, 0)).1) := by
  obtain ⟨_, h2, h3⟩ := biggest_fold_spec (e.dragon_color (s.registry.worms what.toNat))
    (worm_neighbors e w b (s.registry.worms what.toNat)) dd0 0
  refine ⟨?_, h2, ?_, ?_⟩
  · unfold induce_tactical
    simp only [if_neg hdef, if_neg hess, if_neg hsound]
    split
    · rfl
    · rw [induce_pair_fold]
  · intro hne
    rcases h3 with h | ⟨n, hn, a1, a2, a3, _⟩
    · rw [h] at hne
      exact absurd rfl hne
    · exact ⟨n, hn, a1, a2, a3⟩
  · intro ee
    simp only [induced_partners, List.mem_map, List.mem_filter, decide_eq_true_eq]
    constructor
    · rintro ⟨n, ⟨hn, hc, hd⟩, rfl⟩
      exact ⟨n, hn, hc, rfl, fun h => hd h.symm⟩
    · rintro ⟨n, hn, hc, rfl, hd⟩
      exact ⟨n, ⟨hn, hc, fun h => hd h.symm⟩, rfl⟩

/-- The theorem `induced_pairs_spec` at the defense 27 of the black stone in
the centre of the 5 by 5 board: the largest white neighbour is the dragon at
8, and its partners are the dragons at 22 and at 19. -/
theorem induced_pairs_spec_witness :
    ((worm_neighbors centre_engine centre_surround centre_board 21).map
        fun n => (n.origin, n.size)) = [(22, 1), (8, 3), (19, 2)]
      ∧ ((worm_neighbors centre_engine centre_surround centre_board 21).foldl
          (biggest_neighbor 2) (0, 0)) = (8, 3)
      ∧ induced_partners 2 8 (worm_neighbors centre_engine centre_surround centre_board 21)
          = [22, 19]
      ∧ ∀ n ∈ worm_neighbors centre_engine centre_surround centre_board
            (centre_state.registry.worms (0 : Int).toNat),
          n.color ≠ centre_engine.dragon_color (centre_state.registry.worms (0 : Int).toNat) →
          n.size ≤ ((worm_neighbors centre_engine centre_surround centre_board
              (centre_state.registry.worms (0 : Int).toNat)).foldl
            (biggest_neighbor
              (centre_engine.dragon_color (centre_state.registry.worms (0 : Int).toNat)))
            (0, 0)).2 :=
  ⟨by decide, by decide, by decide,
    (induced_pairs_spec five sample_constants centre_engine centre_surround centre_board
      sample_fields 27 5 0 0 centre_state (by decide) (by decide) (by decide)).2.1⟩

/-- C33 fails as stated: on the 5 by 5 board the black stone at 21 has three
white neighbour dragons, of the sizes 3 (origin 8), 2 (origin 19) and 1
(origin 22), and the point 27 has the reason `DEFEND_MOVE` on it.  After
`induce_secondary_move_reasons` the point 27 has two `CUT_MOVE` reasons: the
first for the connection between the dragons at 8 and at 22, the largest and
the third largest neighbour, the second for the connection between the
dragons at 8 and at 19. -/
theorem third_neighbor_counterexample :
    ((worm_neighbors centre_engine centre_surround centre_board 21).map
        fun n => (n.origin, n.size)) = [(22, 1), (8, 3), (19, 2)]
      ∧ (induce_secondary_move_reasons five sample_constants centre_engine centre_surround
          centre_board sample_fields 2 centre_state).map
          (fun s =>
            ((List.range 4).map (fun i => s.reasons.reason 27 i),
             (List.range 3).map
               (fun i => ((s.reasons.move_reasons i).type, (s.reasons.move_reasons i).what)),
             (List.range 3).map s.registry.dragons,
             (List.range 2).map (fun i => (s.registry.conn_dragon1 i, s.registry.conn_dragon2 i))))
        = some ([0, 1, 2, -1],
            [(sample_constants.DEFEND_MOVE, 0), (sample_constants.CUT_MOVE, 0),
              (sample_constants.CUT_MOVE, 1)],
            [8, 22, 19], [(0, 1), (0, 2)]) :=
  ⟨by decide, by decide⟩


/-! ## The depth of the stack of trial moves -/

/-- The second `if` of the loop over the unstable worms leaves the depth of
the stack as it found it: the inner `trymove` is undone before the block
goes on. -/
theorem extra_attack_depth (cfg : Config) (k : Constants) (KO_A KO_B : Int) (rd : Reader)
    (pr : Probe) (trial : Board) (ii other : Int) (s : State) (stackp : Int) (uw : Nat)
    (aa : Int) (r : State × Int)
    (h : extra_attack cfg k KO_A KO_B rd pr trial ii other s stackp uw aa = some r) :
    r.2 = stackp := by
  unfold extra_attack at h
  split_ifs at h with h1
  · split at h
    · exact absurd h (by simp)
    · split_ifs at h with h2
      · split at h
        · dsimp only at h
          split_ifs at h
          all_goals first
            | (simp only [Option.map_eq_some'] at h
               obtain ⟨s1, _, rfl⟩ := h
               show stackp + 1 - 1 = stackp
               omega)
            | (simp only [Option.some.injEq] at h
               subst h
               show stackp + 1 - 1 = stackp
               omega)
        · simp only [Option.map_eq_some'] at h
          obtain ⟨s1, _, rfl⟩ := h
          rfl
      · simp only [Option.some.injEq] at h
        subst h; rfl
  · simp only [Option.some.injEq] at h
    subst h; rfl

theorem try_worm_depth (cfg : Config) (k : Constants) (KO_A KO_B : Int) (rd : Reader)
    (b : Board) (pr : Probe) (ii color other : Int) (s : State) (stackp : Int) (uw : Nat)
    (r : State × Int)
    (h : try_worm cfg k KO_A KO_B rd b pr ii color other (some (s, stackp)) uw = some r) :
    r.2 = stackp := by
  simp only [try_worm] at h
  split at h
  · exact absurd h (by simp)
  · exact extra_attack_depth cfg k KO_A KO_B rd pr _ ii other _ stackp uw _ r h

theorem try_worm_none (cfg : Config) (k : Constants) (KO_A KO_B : Int) (rd : Reader)
    (b : Board) (pr : Probe) (ii color other : Int) :
    ∀ l : List Nat, l.foldl (try_worm cfg k KO_A KO_B rd b pr ii color other) none = none := by
  intro l
  induction l with
  | nil => rfl
  | cons a rest ih => simpa only [List.foldl_cons, try_worm] using ih

/-- The loop over the unstable worms leaves the depth of the stack as it found
it. -/
theorem try_worms_depth (cfg : Config) (k : Constants) (KO_A KO_B : Int) (rd : Reader)
    (b : Board) (pr : Probe) (ii color other : Int) :
    ∀ (l : List Nat) (s : State) (stackp : Int) (r : State × Int),
      l.foldl (try_worm cfg k KO_A KO_B rd b pr ii color other) (some (s, stackp)) = some r →
      r.2 = stackp := by
  intro l
  induction l with
  | nil =>
    intro s stackp r h
    simp only [List.foldl_nil, Option.some.injEq] at h
    subst h; rfl
  | cons a rest ih =>
    intro s stackp r h
    simp only [List.foldl_cons] at h
    cases h1 : try_worm cfg k KO_A KO_B rd b pr ii color other (some (s, stackp)) a with
    | none =>
      rw [h1, try_worm_none] at h
      exact absurd h (by simp)
    | some r1 =>
      rw [h1] at h
      have e1 := try_worm_depth cfg k KO_A KO_B rd b pr ii color other s stackp a r1 h1
      obtain ⟨s1, d1⟩ := r1
      simp only at e1
      subst e1
      exact ih s1 _ r h

/-- The body of the main loops leaves the depth of the stack as it found it:
the outer `trymove`, when it succeeds, is undone by the `popgo` after the
loop over the unstable worms. -/
theorem try_point_depth (cfg : Config) (k : Constants) (KO_A KO_B : Int) (rd : Reader)
    (b : Board) (color other : Int) (unstable_worms : List Nat) (s : State) (stackp : Int)
    (ii : Int) (r : State × Int)
    (h : try_point cfg k KO_A KO_B rd b color other unstable_worms (some (s, stackp)) ii
      = some r) :
    r.2 = stackp := by
  simp only [try_point] at h
  split_ifs at h with h1
  · split at h
    · rename_i pr hpr
      split at h
      · exact absurd h (by simp)
      · rename_i s1 inside hfold
        simp only [Option.some.injEq] at h
        subst h
        have := try_worms_depth cfg k KO_A KO_B rd b pr ii color other unstable_worms s
          (stackp + 1) (s1, inside) hfold
        simp only at this ⊢
        omega
    · simp only [Option.some.injEq] at h
      subst h; rfl
  · simp only [Option.some.injEq] at h
    subst h; rfl

theorem try_point_none (cfg : Config) (k : Constants) (KO_A KO_B : Int) (rd : Reader)
    (b : Board) (color other : Int) (unstable_worms : List Nat) :
    ∀ l : List Int,
      l.foldl (try_point cfg k KO_A KO_B rd b color other unstable_worms) none = none := by
  intro l
  induction l with
  | nil => rfl
  | cons a rest ih => simpa only [List.foldl_cons, try_point] using ih

theorem try_points_depth (cfg : Config) (k : Constants) (KO_A KO_B : Int) (rd : Reader)
    (b : Board) (color other : Int) (unstable_worms : List Nat) :
    ∀ (l : List Int) (s : State) (stackp : Int) (r : State × Int),
      l.foldl (try_point cfg k KO_A KO_B rd b color other unstable_worms) (some (s, stackp))
        = some r →
      r.2 = stackp := by
  intro l
  induction l with
  | nil =>
    intro s stackp r h
    simp only [List.foldl_nil, Option.some.injEq] at h
    subst h; rfl
  | cons a rest ih =>
    intro s stackp r h
    simp only [List.foldl_cons] at h
    cases h1 : try_point cfg k KO_A KO_B rd b color other unstable_worms (some (s, stackp)) a with
    | none =>
      rw [h1, try_point_none] at h
      exact absurd h (by simp)
    | some r1 =>
      rw [h1] at h
      have e1 := try_point_depth cfg k KO_A KO_B rd b color other unstable_worms s stackp a r1 h1
      obtain ⟨s1, d1⟩ := r1
      simp only at e1
      subst e1
      exact ih s1 _ r h

/-- The case `ATTACK_THREAT_MOVE` with the depth of the stack computes what
the case without it computes, and ends at the depth at which it began. -/
theorem attack_threat_stack_eq (cfg : Config) (k : Constants) (e : Engine) (b : Board)
    (pos color : Int) (acc : Territory) (stackp : Int) (what : Int) :
    attack_threat_stack cfg k e b pos color acc stackp what
      = (territorial_attack_threat cfg k e b pos color acc what).map fun a => (a, stackp) := by
  unfold attack_threat_stack territorial_attack_threat
  dsimp only
  split_ifs with h1 h2
  · rfl
  · rfl
  · cases e.trymove pos color with
    | none => rfl
    | some tr =>
      dsimp only
      have e1 : stackp + 1 - 1 = stackp := by omega
      rw [e1]
      split_ifs <;> first | rfl | (simp only [Option.map_map]; rfl)

theorem territorial_case_stack_eq (cfg : Config) (k : Constants) (e : Engine) (b : Board)
    (t : Reasons) (pos color : Int) (score : ℚ) (acc : Territory) (stackp : Int)
    (ty what : Int) :
    territorial_case_stack cfg k e b t pos color score acc stackp ty what
      = (territorial_case cfg k e b t pos color score acc ty what).map fun a => (a, stackp) := by
  unfold territorial_case_stack
  split_ifs with h1 h2 h3
  · rfl
  · rfl
  · rw [attack_threat_stack_eq]
    unfold territorial_case
    rw [if_neg h1, if_neg h2, if_pos h3]
  · rfl

theorem territorial_loop_stack_eq (cfg : Config) (k : Constants) (e : Engine) (b : Board)
    (t : Reasons) (pos color : Int) (score : ℚ) :
    ∀ (fuel i : Nat) (acc : Territory) (stackp : Int),
      territorial_loop_stack cfg k e b t pos color score fuel i (acc, stackp)
        = (territorial_loop cfg k e b t pos color score fuel i acc).map
            fun a => (a, stackp) := by
  intro fuel
  induction fuel with
  | zero => intro i acc stackp; rfl
  | succ n ih =>
    intro i acc stackp
    simp only [territorial_loop_stack, territorial_loop]
    split_ifs with h1 h2
    · rfl
    · exact ih (i + 1) acc stackp
    · rw [territorial_case_stack_eq]
      cases territorial_case cfg k e b t pos color score acc
          (t.move_reasons (t.reason pos i).toNat).type
          (t.move_reasons (t.reason pos i).toNat).what with
      | none => rfl
      | some acc1 => exact ih (i + 1) acc1 stackp

theorem estimate_territorial_value_stack_eq (cfg : Config) (k : Constants) (e : Engine)
    (b : Board) (t : Reasons) (g : Registry) (mv : Moves) (pos color : Int) (score : ℚ) :
    estimate_territorial_value_stack cfg k e b t g mv pos color score
      = (estimate_territorial_value cfg k e b t g mv pos color score).map
          fun r => (r, b.stackp) := by
  unfold estimate_territorial_value_stack estimate_territorial_value
  rw [territorial_loop_stack_eq]
  cases territorial_loop cfg k e b t pos color score cfg.MAX_REASONS 0
      { tot_value := 0, secondary_value := 0, does_block := 0, saved_stones := fun _ => 0,
        moves := mv, registry := g } with
  | none => rfl
  | some acc => rfl

/-- C32: with the depth `stackp` of the stack of trial moves as a counter
that a successful `trymove` raises by one and `popgo` lowers by one, a call of
`find_more_attack_and_defense_moves` that returns ends at the depth at which
it began; so does every round of its loop over the unstable worms, inside
which the inner `trymove` is undone before the outer one; and
`estimate_territorial_value`, followed with the counter, computes what it
computes without it and ends at the depth at which it began. -/
theorem trial_stack_balanced (cfg : Config) (k : Constants) (KO_A KO_B : Int) (e : Engine)
    (rd : Reader) (b : Board) (color : Int) (s : State) (r : State × Int)
    (h : find_more_attack_and_defense_moves cfg k KO_A KO_B e rd b color s = some r) :
    r.2 = b.stackp
    ∧ (∀ (pr : Probe) (ii other : Int) (s0 : State) (stackp : Int) (uw : Nat)
        (r0 : State × Int),
        try_worm cfg k KO_A KO_B rd b pr ii color other (some (s0, stackp)) uw = some r0 →
        r0.2 = stackp)
    ∧ (∀ (t : Reasons) (g : Registry) (mv : Moves) (pos : Int) (score : ℚ),
        estimate_territorial_value_stack cfg k e b t g mv pos color score
          = (estimate_territorial_value cfg k e b t g mv pos color score).map
              fun r => (r, b.stackp)) := by
  refine ⟨?_, ?_, ?_⟩
  · unfold find_more_attack_and_defense_moves at h
    split at h
    · exact absurd h (by simp)
    · rename_i unstable_worms g _
      exact try_points_depth cfg k KO_A KO_B rd b color (e.OTHER_COLOR color) unstable_worms
        (board_points cfg) _ b.stackp r h
  · intro pr ii other s0 stackp uw r0 h0
    exact try_worm_depth cfg k KO_A KO_B rd b pr ii color other s0 stackp uw r0 h0
  · intro t g mv pos score
    exact estimate_territorial_value_stack_eq cfg k e b t g mv pos color score

/-- The theorem `trial_stack_balanced` on the 3 by 3 board with the white
stones at 5 and 7 in atari after a black stone at 6: the outer and the inner
`trymove` succeed, the attack on the stone at 7 is recorded as a second
reason of the point 6, and the function returns at the depth 0 of its entry;
the estimate of the territorial value of the threat at 6, whose `trymove`
succeeds as well, returns at the depth 0. -/
theorem trial_stack_balanced_witness :
    ∃ r, find_more_attack_and_defense_moves three sample_constants 2 3 atari_engine
          atari_reader atari_board 2 atari_state = some r
      ∧ (r.1.reasons.reason 6 0, r.1.reasons.reason 6 1) = (0, 1)
      ∧ r.2 = 0
      ∧ (estimate_territorial_value_stack three sample_constants atari_engine atari_board
          atari_threat atari_state.registry sample_fields 6 2 0).map Prod.snd = some 0 := by
  obtain ⟨r, hr⟩ := Option.isSome_iff_exists.1
    (by decide : (find_more_attack_and_defense_moves three sample_constants 2 3 atari_engine
      atari_reader atari_board 2 atari_state).isSome = true)
  have h1 : (find_more_attack_and_defense_moves three sample_constants 2 3 atari_engine
      atari_reader atari_board 2 atari_state).map
      (fun r => (r.1.reasons.reason 6 0, r.1.reasons.reason 6 1)) = some (0, 1) := by decide
  have h := trial_stack_balanced three sample_constants 2 3 atari_engine atari_reader
    atari_board 2 atari_state r hr
  rw [hr] at h1
  simp only [Option.map_some', Option.some.injEq] at h1
  refine ⟨r, hr, h1, h.1, ?_⟩
  rw [h.2.2]
  have h2 : (estimate_territorial_value three sample_constants atari_engine atari_board
      atari_threat atari_state.registry sample_fields 6 2 0).isSome = true := by decide!
  obtain ⟨v, hv⟩ := Option.isSome_iff_exists.1 h2
  rw [hv]
  rfl


end MoveReasons
